import Mathlib

/-!
# LIEF ELF builder: layout of rebuilt dynamic-linking structures

A shallow embedding of the parts of `src/ELF/Builder.cpp`,
`src/ELF/ExeLayout.hpp` and `include/LIEF/iostream.hpp` that decide the order
of the dynamic symbols, the content and the bytes of the GNU hash table, the
sizes and blobs computed by the size pass (legacy hash table, notes, dynamic
string table) and the addresses given to relocated structures, followed by
theorems about them.

Conventions of the embedding:
* `std::vector<T>` is a `List`, a byte is a `Nat`, a `std::string` is the list
  of its bytes, a `std::unordered_map` is the list of its key-value pairs;
* `uint32_t` / `uint64_t` values are `Nat`, reduced with `u32` / `u64`
  wherever the source performs arithmetic or a narrowing conversion;
* a C++ exception is the `Except.error` case of the result;
* a pointer into a vector of the binary (`sections_`, `segments_`,
  `relocations_`, the notes) is the index of the element in the list;
* the data-handler bookkeeping done by the setters of `Segment` is left out:
  it does not touch any field read here.
-/

namespace LIEF.ELF

/-! ## Machine integers -/

/-- Reduction of a natural number to the range of `uint32_t`. -/
def u32 (n : Nat) : Nat := n % 2 ^ 32

/-- Reduction of a natural number to the range of `uint64_t`. -/
def u64 (n : Nat) : Nat := n % 2 ^ 64

/-- Conversion of a `uint32_t` value to `int` (two's complement, as compiled). -/
def toInt32 (n : Nat) : Int :=
  if u32 n < 2 ^ 31 then (u32 n : Int) else (u32 n : Int) - 2 ^ 32

/-! ## Errors -/

/-- The exceptions of `LIEF/exception.hpp` raised by the embedded code. -/
inductive Error where
  | corrupted
  | not_found
  | conversion_error
  deriving DecidableEq, Repr

/-! ## Enumerations (from `LIEF/ELF/enums.hpp`) -/

/-- Value of `SYMBOL_BINDINGS::STB_LOCAL`. -/
def STB_LOCAL : Nat := 0

/-- Value of `SYMBOL_BINDINGS::STB_GLOBAL`. -/
def STB_GLOBAL : Nat := 1

/-- Value of `SYMBOL_SECTION_INDEX::SHN_UNDEF`. -/
def SHN_UNDEF : Nat := 0

/-- The two word sizes (`ELF32` / `ELF64` template arguments, `Binary::type()`). -/
inductive ELF_CLASS where
  | ELFCLASS32
  | ELFCLASS64
  deriving DecidableEq, Repr

/-- File types of `E_TYPE`. -/
inductive E_TYPE where
  | ET_NONE
  | ET_REL
  | ET_EXEC
  | ET_DYN
  | ET_CORE
  | ET_OTHER (v : Nat)
  deriving DecidableEq, Repr

/-- Segment types of `SEGMENT_TYPES` named by the builder. -/
inductive SEGMENT_TYPES where
  | PT_NULL
  | PT_LOAD
  | PT_DYNAMIC
  | PT_INTERP
  | PT_NOTE
  | PT_GNU_PROPERTY
  | PT_OTHER (v : Nat)
  deriving DecidableEq, Repr

/-- Section types of `ELF_SECTION_TYPES` named by the builder. -/
inductive ELF_SECTION_TYPES where
  | SHT_NULL
  | SHT_PROGBITS
  | SHT_SYMTAB
  | SHT_STRTAB
  | SHT_DYNAMIC
  | SHT_NOTE
  | SHT_NOBITS
  | SHT_INIT_ARRAY
  | SHT_FINI_ARRAY
  | SHT_PREINIT_ARRAY
  | SHT_GNU_HASH
  | SHT_OTHER (v : Nat)
  deriving DecidableEq, Repr

/-- Dynamic tags of `DYNAMIC_TAGS` named by the builder. -/
inductive DYNAMIC_TAGS where
  | DT_NULL
  | DT_NEEDED
  | DT_PLTRELSZ
  | DT_HASH
  | DT_STRTAB
  | DT_SYMTAB
  | DT_RELA
  | DT_RELASZ
  | DT_STRSZ
  | DT_SONAME
  | DT_RPATH
  | DT_REL
  | DT_RELSZ
  | DT_PLTREL
  | DT_JMPREL
  | DT_INIT_ARRAY
  | DT_FINI_ARRAY
  | DT_INIT_ARRAYSZ
  | DT_FINI_ARRAYSZ
  | DT_RUNPATH
  | DT_PREINIT_ARRAY
  | DT_PREINIT_ARRAYSZ
  | DT_GNU_HASH
  | DT_VERSYM
  | DT_VERDEF
  | DT_VERNEED
  | DT_OTHER (v : Nat)
  deriving DecidableEq, Repr

/-- Byte orders of `ENDIANNESS` (`LIEF/Abstract/enums.hpp`). -/
inductive ENDIANNESS where
  | ENDIAN_NONE
  | ENDIAN_BIG
  | ENDIAN_LITTLE
  deriving DecidableEq, Repr

/-- Bit of `ELF_SEGMENT_FLAGS::PF_W`. -/
def PF_W : Nat := 2

/-- Bit of `ELF_SEGMENT_FLAGS::PF_R`. -/
def PF_R : Nat := 4

/-! ## Object model -/

/-- The fields of `LIEF::ELF::Symbol` read by the builder: the name as the
bytes of its string, the binding and the section index. -/
structure Symbol where
  name : List Nat
  binding : Nat
  shndx : Nat
  deriving DecidableEq, Repr

/-- The fields of `LIEF::ELF::Section` (Section.hpp and its abstract base). -/
structure Section where
  name : String := ""
  type : ELF_SECTION_TYPES := ELF_SECTION_TYPES.SHT_PROGBITS
  flags : Nat := 0
  virtual_address : Nat := 0
  size : Nat := 0
  offset : Nat := 0
  original_size : Nat := 0
  link : Nat := 0
  information : Nat := 0
  alignment : Nat := 0
  entry_size : Nat := 0
  deriving DecidableEq, Repr

/-- The fields of `LIEF::ELF::Segment` (Segment.cpp); `sections` holds the
indices of the sections attached to the segment, `size` is the physical size. -/
structure Segment where
  type : SEGMENT_TYPES := SEGMENT_TYPES.PT_NULL
  flags : Nat := 0
  file_offset : Nat := 0
  virtual_address : Nat := 0
  physical_address : Nat := 0
  size : Nat := 0
  virtual_size : Nat := 0
  alignment : Nat := 0
  sections : List Nat := []
  content_c : List Nat := []
  deriving DecidableEq, Repr

/-- A dynamic entry: its tag, its scalar value, for a `DynamicEntryArray` the
pointers of the array and, for a `DynamicEntryLibrary`, `DynamicSharedObject`,
`DynamicEntryRpath` or `DynamicEntryRunPath`, the bytes of its name. -/
structure DynamicEntry where
  tag : DYNAMIC_TAGS
  value : Nat := 0
  array : List Nat := []
  name : List Nat := []
  deriving DecidableEq, Repr

/-- The fields of `LIEF::ELF::Note` read by the size pass: the bytes of the
name, the numeric value of the `NOTE_TYPES` and the bytes of the description. -/
structure Note where
  name : List Nat := []
  type : Nat := 0
  description : List Nat := []
  deriving DecidableEq, Repr

/-- A `SymbolVersionDefinition`, as the names of its `symbols_aux()`. -/
structure SymbolVersionDefinition where
  symbols_aux : List (List Nat) := []
  deriving DecidableEq, Repr

/-- A `SymbolVersionRequirement` (SymbolVersionRequirement.hpp): its name and
the names of its `auxiliary_symbols()`. -/
structure SymbolVersionRequirement where
  name : List Nat := []
  auxiliary_symbols : List (List Nat) := []
  deriving DecidableEq, Repr

/-- The field of `LIEF::ELF::Relocation` touched by the layout. -/
structure Relocation where
  address : Nat
  deriving DecidableEq, Repr

/-- The part of `LIEF::ELF::Binary` the embedded code works on. -/
structure Binary where
  file_type : E_TYPE := E_TYPE.ET_DYN
  type : ELF_CLASS := ELF_CLASS.ELFCLASS64
  sections : List Section := []
  segments : List Segment := []
  dynamic_entries : List DynamicEntry := []
  dynamic_symbols : List Symbol := []
  relocations : List Relocation := []
  abstract_endianness : ENDIANNESS := ENDIANNESS.ENDIAN_LITTLE
  section_headers_offset : Nat := 0
  notes : List Note := []
  symbols_version_definition : List SymbolVersionDefinition := []
  symbols_version_requirement : List SymbolVersionRequirement := []
  deriving DecidableEq, Repr

/-- The fields of the existing `GnuHash` table read by the size pass. -/
structure GnuHash where
  nb_buckets : Nat
  maskwords : Nat
  shift2 : Nat
  deriving DecidableEq, Repr

/-- The fields of the existing `SysvHash` table read by the size pass. -/
structure SysvHash where
  nbucket : Nat
  nchain : Nat
  deriving DecidableEq, Repr

/-! ## Helpers on vectors -/

/-- Application of `f` to the element at index `i` (a write through a
reference or pointer to that element). -/
def modify_at {α : Type} (f : α → α) : Nat → List α → List α
  | _, [] => []
  | 0, x :: xs => f x :: xs
  | i + 1, x :: xs => x :: modify_at f i xs

/-- Index of the first element satisfying `p` (`std::find_if`). -/
def first_index {α : Type} (p : α → Bool) : List α → Option Nat
  | [] => none
  | x :: xs => if p x then some 0 else (first_index p xs).map (fun i => i + 1)

/-- Model of `std::stable_partition` over a whole range: the elements that
satisfy `p` come first, both groups keep their relative order; the second
component is the distance from the start to the partition point. -/
def stable_partition {α : Type} (p : α → Bool) (l : List α) : List α × Nat :=
  (l.filter p ++ l.filter (fun a => !p a), (l.filter p).length)

/-- Insertion of `x` in front of a sorted range, after the elements that
compare strictly less than `x`. -/
def insert_sorted {α : Type} (lt : α → α → Bool) (x : α) : List α → List α
  | [] => [x]
  | y :: ys => if lt y x then y :: insert_sorted lt x ys else x :: y :: ys

/-- Model of `std::stable_sort` with the strict comparison `lt`: elements
that are equivalent under `lt` keep their relative order. -/
def stable_sort {α : Type} (lt : α → α → Bool) : List α → List α
  | [] => []
  | x :: xs => insert_sorted lt x (stable_sort lt xs)

/-! ## `Builder::sort_dynamic_symbols` -/

/-- Predicate of the first partition of `Builder::sort_dynamic_symbols`. -/
def is_local (sym : Symbol) : Bool := sym.binding == STB_LOCAL

/-- Predicate of the second partition of `Builder::sort_dynamic_symbols`. -/
def is_undef (sym : Symbol) : Bool := sym.shndx == SHN_UNDEF

/-- Name looked up by `Builder::sort_dynamic_symbols`. -/
def dynsym_section_name : String := ".dynsym"

/-- The statement `section.information(v)` on the section returned by
`Binary::get_section(name)`, guarded by `Binary::has_section(name)`: the first
section of that name, if any, gets the value. -/
def set_information (name : String) (v : Nat) (sections : List Section) : List Section :=
  match first_index (fun s => s.name == name) sections with
  | some i => modify_at (fun s => { s with information := v }) i sections
  | none => sections

/-- `Builder::sort_dynamic_symbols` (Builder.cpp:137-173): the binary with the
reordered symbols and the returned index. -/
def sort_dynamic_symbols (b : Binary) : Binary × Nat :=
  -- first std::stable_partition: local symbols first
  let p1 := stable_partition is_local b.dynamic_symbols
  let first_non_local_symbol_index := u32 p1.2
  -- information field of .dynsym
  let sections := set_information dynsym_section_name first_non_local_symbol_index b.sections
  -- second std::stable_partition, over [it_first_non_local_symbol, it_end)
  let p2 := stable_partition is_undef (p1.1.drop p1.2)
  let first_exported_symbol_index := u32 (p1.2 + p2.2)
  ({ b with dynamic_symbols := p1.1.take p1.2 ++ p2.1, sections := sections },
   first_exported_symbol_index)

/-! ## `ExeLayout::symbol_gnu_hash_size`: the table -/

/-- Width in bits of `ELF_T::uint` (`C` in the source). -/
def ELF_CLASS.bits : ELF_CLASS → Nat
  | ELF_CLASS.ELFCLASS32 => 32
  | ELF_CLASS.ELFCLASS64 => 64

/-- The bytes seen through `name().c_str()`: the name up to its first NUL. -/
def c_str (name : List Nat) : List Nat := name.takeWhile (fun c => c != 0)

/-- The standard GNU symbol hash (`h = 5381; h = h * 33 + c` on 32 bits). The
embedding takes `dl_new_hash` as a parameter; this instance is used to run it
on concrete inputs. -/
def dl_new_hash_ref (name : List Nat) : Nat :=
  name.foldl (fun h c => u32 (h * 33 + c)) 5381

/-- The values `ExeLayout::symbol_gnu_hash_size` serializes, in order:
the four header words, the bloom words, the buckets and the hash values. -/
structure GnuHashTable where
  nb_buckets : Nat
  symndx : Nat
  maskwords : Nat
  shift2 : Nat
  bloom_filters : List Nat
  buckets : List Nat
  hash_values : List Nat
  deriving DecidableEq, Repr

/-- The `uint32_t hash` of a symbol, as both loops compute it. -/
def sym_hash (dl_new_hash : List Nat → Nat) (sym : Symbol) : Nat :=
  u32 (dl_new_hash (c_str sym.name))

/-- Word index `pos` of the bloom loop: `(hash / C) & (maskwords - 1)`, the
subtraction being done on `uint32_t`. -/
def bloom_pos (C maskwords hash : Nat) : Nat :=
  (hash / C) &&& u32 (maskwords + (2 ^ 32 - 1))

/-- Bits `V` of the bloom loop:
`(1 << (hash % C)) | (1 << ((hash >> shift2) % C))`. -/
def bloom_bits (C shift2 hash : Nat) : Nat :=
  (1 <<< (hash % C)) ||| (1 <<< ((hash >>> shift2) % C))

/-- Body of the bloom loop (ExeLayout.hpp:300-306). -/
def bloom_step (dl_new_hash : List Nat → Nat) (C maskwords shift2 : Nat)
    (bloom_filters : List Nat) (sym : Symbol) : List Nat :=
  let hash := sym_hash dl_new_hash sym
  let pos := bloom_pos C maskwords hash
  let V := bloom_bits C shift2 hash
  bloom_filters.set pos (bloom_filters.getD pos 0 ||| V)

/-- Variables of the bucket loop. -/
structure BucketState where
  previous_bucket : Int
  hash_value_idx : Nat
  buckets : List Nat
  hash_values : List Nat
  deriving DecidableEq, Repr

/-- Body of the bucket loop (ExeLayout.hpp:320-340) for the symbol at index `i`. -/
def bucket_step (dl_new_hash : List Nat → Nat) (nb_buckets : Nat) (i : Nat) (sym : Symbol)
    (st : BucketState) : Except Error BucketState :=
  let hash := sym_hash dl_new_hash sym
  let bucket : Int := toInt32 (hash % nb_buckets)
  if bucket < st.previous_bucket then
    Except.error Error.corrupted
  else
    let st1 : BucketState :=
      if bucket ≠ st.previous_bucket then
        { st with
          buckets := st.buckets.set bucket.toNat (u32 i)
          previous_bucket := bucket
          hash_values :=
            if st.hash_value_idx > 0 then
              st.hash_values.set (st.hash_value_idx - 1)
                (st.hash_values.getD (st.hash_value_idx - 1) 0 ||| 1)
            else st.hash_values }
      else st
    Except.ok
      { st1 with
        hash_values := st1.hash_values.set st1.hash_value_idx (hash &&& 0xFFFFFFFE)
        hash_value_idx := st1.hash_value_idx + 1 }

/-- The bucket loop over the symbols from index `i` on. -/
def bucket_loop (dl_new_hash : List Nat → Nat) (nb_buckets : Nat) :
    Nat → List Symbol → BucketState → Except Error BucketState
  | _, [], st => Except.ok st
  | i, sym :: rest, st =>
    match bucket_step dl_new_hash nb_buckets i sym st with
    | Except.error e => Except.error e
    | Except.ok st1 => bucket_loop dl_new_hash nb_buckets (i + 1) rest st1

/-- Comparison used by the `std::stable_sort` of the dynamic symbols. -/
def bucket_lt (dl_new_hash : List Nat → Nat) (nb_buckets : Nat) (lhs rhs : Symbol) : Bool :=
  decide (sym_hash dl_new_hash lhs % nb_buckets < sym_hash dl_new_hash rhs % nb_buckets)

/-- `ExeLayout::symbol_gnu_hash_size` (ExeLayout.hpp:242-344) on its first
call: the reordered dynamic symbols and the values of the table, or the
`corrupted` exception of the bucket loop. `new_symndx` is the member
`new_symndx_`; `nb_buckets`, `maskwords` and `shift2` are read as `uint32_t`. -/
def symbol_gnu_hash_build (dl_new_hash : List Nat → Nat) (cls : ELF_CLASS) (gnu_hash : GnuHash)
    (new_symndx : Int) (dynamic_symbols : List Symbol) :
    Except Error (List Symbol × GnuHashTable) :=
  let first_exported_symbol_index := if new_symndx ≥ 0 then u32 new_symndx.toNat else 0
  let nb_buckets := u32 gnu_hash.nb_buckets
  let symndx := first_exported_symbol_index
  let maskwords := u32 gnu_hash.maskwords
  let shift2 := u32 gnu_hash.shift2
  -- std::stable_sort of [begin + symndx, end)
  let sorted := dynamic_symbols.take symndx ++
    stable_sort (bucket_lt dl_new_hash nb_buckets) (dynamic_symbols.drop symndx)
  -- bloom filters
  let C := cls.bits
  let bloom_filters := (sorted.drop symndx).foldl
    (bloom_step dl_new_hash C maskwords shift2) (List.replicate maskwords 0)
  -- buckets and hash values
  let st0 : BucketState :=
    { previous_bucket := -1
      hash_value_idx := 0
      buckets := List.replicate nb_buckets 0
      hash_values := List.replicate (sorted.length - symndx) 0 }
  match bucket_loop dl_new_hash nb_buckets symndx (sorted.drop symndx) st0 with
  | Except.error e => Except.error e
  | Except.ok st =>
    let hash_values :=
      if st.hash_value_idx > 0 then
        st.hash_values.set (st.hash_value_idx - 1)
          (st.hash_values.getD (st.hash_value_idx - 1) 0 ||| 1)
      else st.hash_values
    Except.ok (sorted,
      { nb_buckets := nb_buckets
        symndx := symndx
        maskwords := maskwords
        shift2 := shift2
        bloom_filters := bloom_filters
        buckets := st.buckets
        hash_values := hash_values })

/-- Bitwise OR of a list of words. -/
def or_all (l : List Nat) : Nat := l.foldr (fun v acc => v ||| acc) 0

/-! ## `ExeLayout::relocate`: addresses of the relocated structures -/

/-- The private members of `ExeLayout` (ExeLayout.hpp:1058-1095); a `raw_*`
vector is the list of its bytes, a map is the list of its key-value pairs and
the key `&note` of `notes_off_map_` is the index of the note in
`binary_->notes()`. -/
structure ExeLayout where
  raw_notes : List Nat := []
  relocate_notes : Bool := false
  raw_dynstr : List Nat := []
  relocate_dynstr : Bool := false
  relocate_shstrtab : Bool := false
  relocate_strtab : Bool := false
  raw_gnu_hash : List Nat := []
  relocate_gnu_hash : Bool := false
  sysv_size : Nat := 0
  dynamic_size : Nat := 0
  dynsym_size : Nat := 0
  pltgot_reloc_size : Nat := 0
  dynamic_reloc_size : Nat := 0
  sver_size : Nat := 0
  sverd_size : Nat := 0
  sverr_size : Nat := 0
  preinit_size : Nat := 0
  init_size : Nat := 0
  fini_size : Nat := 0
  interp_size : Nat := 0
  nchain : Nat := 0
  symtab_size : Nat := 0
  offset_name_map : List (List Nat × Nat) := []
  notes_off_map : List (Nat × Nat) := []
  deriving DecidableEq, Repr

/-- Member functions of `LIEF::ELF::Binary` called by `ExeLayout::relocate`
whose code (Binary.cpp) is not part of the sources at hand; the embedding takes
them as parameters. `section_from_virtual_address` gives the index of the
section it returns. -/
structure BinaryOps where
  virtual_address_to_offset : List Segment → Nat → Except Error Nat
  section_from_virtual_address : List Section → Nat → Except Error Nat

/-- The structures `ExeLayout::relocate` gives an address to. -/
inductive Structure where
  | interp
  | notes
  | dynamic
  | dynsym
  | dynstr
  | versym
  | verdef
  | verneed
  | dynrel
  | pltrel
  | gnuhash
  | sysvhash
  | init_array
  | preinit_array
  | fini_array
  deriving DecidableEq, Repr

/-- The two regions created by `ExeLayout::relocate`. -/
inductive Region where
  | read_only
  | read_write
  deriving DecidableEq, Repr

/-- The cursor (`va_r_base` or `va_rw_base`) a structure is placed with. -/
def Structure.region : Structure → Region
  | Structure.dynamic => Region.read_write
  | Structure.init_array => Region.read_write
  | Structure.preinit_array => Region.read_write
  | Structure.fini_array => Region.read_write
  | _ => Region.read_only

/-- Record of one placement made by `ExeLayout::relocate`: the structure, the
value of the cursor it was given, its size, the index of the section that was
patched and the dynamic tags that were patched (pointer and size). -/
structure Placement where
  kind : Structure
  address : Nat
  size : Nat
  section_idx : Option Nat := none
  ptr_tag : Option DYNAMIC_TAGS := none
  size_tag : Option DYNAMIC_TAGS := none
  deriving DecidableEq, Repr

/-- The local variables of `ExeLayout::relocate` from line 613 on, together
with the binary and the record of the placements made so far. -/
structure RelocState where
  bin : Binary
  va_r_base : Nat
  va_rw_base : Nat
  placed : List Placement
  deriving DecidableEq, Repr

/-- `read_segment` (ExeLayout.hpp:535-551). -/
def read_segment (lay : ExeLayout) : Nat :=
  let s0 := u64 (lay.interp_size + lay.sysv_size + lay.dynsym_size + lay.sver_size +
    lay.sverd_size + lay.sverr_size + lay.dynamic_reloc_size + lay.pltgot_reloc_size)
  let s1 := if lay.relocate_notes then u64 (s0 + lay.raw_notes.length) else s0
  let s2 := if lay.relocate_dynstr then u64 (s1 + lay.raw_dynstr.length) else s1
  if lay.relocate_gnu_hash then u64 (s2 + lay.raw_gnu_hash.length) else s2

/-- `read_write_segment` (ExeLayout.hpp:576-577). -/
def read_write_segment (lay : ExeLayout) : Nat :=
  u64 (lay.init_size + lay.preinit_size + lay.fini_size + lay.dynamic_size)

/-- Modelled from the spec: `Binary::get(SEGMENT_TYPES)`, an accessor of the
object model; the first segment of the type, `not_found` when there is none. -/
def get_segment (b : Binary) (t : SEGMENT_TYPES) : Except Error Nat :=
  match first_index (fun g => g.type == t) b.segments with
  | some i => Except.ok i
  | none => Except.error Error.not_found

/-- Modelled from the spec: `Binary::get(ELF_SECTION_TYPES)` and
`Binary::dynamic_section()`, accessors of the object model; the first section
of the type, `not_found` when there is none. -/
def get_section (b : Binary) (t : ELF_SECTION_TYPES) : Except Error Nat :=
  match first_index (fun s => s.type == t) b.sections with
  | some i => Except.ok i
  | none => Except.error Error.not_found

/-- The first dynamic entry carrying `tag`. -/
def find_entry (tag : DYNAMIC_TAGS) (l : List DynamicEntry) : Option DynamicEntry :=
  l.find? (fun e => e.tag == tag)

/-- Modelled from the spec: `Binary::get(DYNAMIC_TAGS)`, an accessor of the
object model; the first entry with the tag, `not_found` when there is none. -/
def get_entry (b : Binary) (tag : DYNAMIC_TAGS) : Except Error DynamicEntry :=
  match find_entry tag b.dynamic_entries with
  | some e => Except.ok e
  | none => Except.error Error.not_found

/-- Modelled from the spec: `Binary::has(DYNAMIC_TAGS)`. -/
def has_entry (b : Binary) (tag : DYNAMIC_TAGS) : Bool :=
  (find_entry tag b.dynamic_entries).isSome

/-- The statement `entry.value(v)` on the entry returned by `Binary::get(tag)`. -/
def set_entry_value (tag : DYNAMIC_TAGS) (v : Nat) : List DynamicEntry → List DynamicEntry
  | [] => []
  | e :: es =>
    if e.tag = tag then { e with value := v } :: es else e :: set_entry_value tag v es

/-- `binary_->section_from_virtual_address(va)` as an index into `sections_`. -/
def section_from_virtual_address (ops : BinaryOps) (b : Binary) (va : Nat) : Except Error Nat :=
  match ops.section_from_virtual_address b.sections va with
  | Except.ok i => if i < b.sections.length then Except.ok i else Except.error Error.not_found
  | Except.error e => Except.error e

/-- A section after `virtual_address(va)`, `size(size)`, `offset(off)` and
`original_size_ = size`. -/
def Section.moved (va size off : Nat) (s : Section) : Section :=
  { s with virtual_address := va, size := size, offset := off, original_size := size }

/-- The four statements that move a section: `virtual_address(va)`,
`size(size)`, `offset(binary_->virtual_address_to_offset(va))` and
`original_size_ = size`. -/
def patch_section (ops : BinaryOps) (b : Binary) (idx va size : Nat) : Except Error Binary :=
  match ops.virtual_address_to_offset b.segments va with
  | Except.error e => Except.error e
  | Except.ok off =>
    Except.ok { b with sections := modify_at (Section.moved va size off) idx b.sections }

/-- The five statements that move a segment: `virtual_address(va)`,
`virtual_size(size)`, `physical_address(va)`,
`file_offset(binary_->virtual_address_to_offset(va))` and `physical_size(size)`. -/
def patch_segment (ops : BinaryOps) (b : Binary) (idx va size : Nat) : Except Error Binary :=
  let segments1 := modify_at
    (fun g => { g with virtual_address := va, virtual_size := size, physical_address := va })
    idx b.segments
  match ops.virtual_address_to_offset segments1 va with
  | Except.error e => Except.error e
  | Except.ok off =>
    let segments := modify_at (fun g => { g with file_offset := off, size := size }) idx segments1
    Except.ok { b with segments := segments }

/-- The PT_INTERP block (ExeLayout.hpp:616-636). -/
def relocate_interp (ops : BinaryOps) (lay : ExeLayout) (st : RelocState) :
    Except Error RelocState :=
  if lay.interp_size > 0 then
    match get_segment st.bin SEGMENT_TYPES.PT_INTERP with
    | Except.error e => Except.error e
    | Except.ok pt_interp =>
      let sec : Option Nat :=
        match st.bin.segments[pt_interp]? with
        | some g => g.sections.head?
        | none => none
      match patch_segment ops st.bin pt_interp st.va_r_base lay.interp_size with
      | Except.error e => Except.error e
      | Except.ok b1 =>
        let patched : Except Error Binary :=
          match sec with
          | some idx => patch_section ops b1 idx st.va_r_base lay.interp_size
          | none => Except.ok b1
        match patched with
        | Except.error e => Except.error e
        | Except.ok b2 =>
          Except.ok
            { bin := b2
              va_r_base := u64 (st.va_r_base + lay.interp_size)
              va_rw_base := st.va_rw_base
              placed := st.placed ++
                [{ kind := Structure.interp, address := st.va_r_base, size := lay.interp_size,
                   section_idx := sec }] }
  else Except.ok st

/-- The PT_NOTE block (ExeLayout.hpp:638-646). -/
def relocate_notes (ops : BinaryOps) (lay : ExeLayout) (st : RelocState) :
    Except Error RelocState :=
  if lay.relocate_notes then
    match get_segment st.bin SEGMENT_TYPES.PT_NOTE with
    | Except.error e => Except.error e
    | Except.ok note_segment =>
      match patch_segment ops st.bin note_segment st.va_r_base lay.raw_notes.length with
      | Except.error e => Except.error e
      | Except.ok b1 =>
        Except.ok
          { bin := b1
            va_r_base := u64 (st.va_r_base + lay.raw_notes.length)
            va_rw_base := st.va_rw_base
            placed := st.placed ++
              [{ kind := Structure.notes, address := st.va_r_base,
                 size := lay.raw_notes.length }] }
  else Except.ok st

/-- The .dynamic / PT_DYNAMIC block (ExeLayout.hpp:648-665). -/
def relocate_dynamic (ops : BinaryOps) (lay : ExeLayout) (st : RelocState) :
    Except Error RelocState :=
  if lay.dynamic_size > 0 then
    match get_segment st.bin SEGMENT_TYPES.PT_DYNAMIC with
    | Except.error e => Except.error e
    | Except.ok dynamic_segment =>
      match get_section st.bin ELF_SECTION_TYPES.SHT_DYNAMIC with
      | Except.error e => Except.error e
      | Except.ok dynamic_section =>
        match patch_segment ops st.bin dynamic_segment st.va_rw_base lay.dynamic_size with
        | Except.error e => Except.error e
        | Except.ok b1 =>
          match patch_section ops b1 dynamic_section st.va_rw_base lay.dynamic_size with
          | Except.error e => Except.error e
          | Except.ok b2 =>
            Except.ok
              { bin := b2
                va_r_base := st.va_r_base
                va_rw_base := u64 (st.va_rw_base + lay.dynamic_size)
                placed := st.placed ++
                  [{ kind := Structure.dynamic, address := st.va_rw_base,
                     size := lay.dynamic_size, section_idx := some dynamic_section }] }
  else Except.ok st

/-- The statements `dt.value(v)` for the pointer tag and, when the structure
has one, the size tag. -/
def set_tags (ptr_tag : DYNAMIC_TAGS) (size_tag : Option DYNAMIC_TAGS) (va size : Nat)
    (l : List DynamicEntry) : List DynamicEntry :=
  match size_tag with
  | some t => set_entry_value t size (set_entry_value ptr_tag va l)
  | none => set_entry_value ptr_tag va l

/-- The common shape of the blocks of ExeLayout.hpp:667-808 (dynsym, dynstr,
versym, verdef, verneed, dynamic relocations, PLT relocations, GNU hash, SysV
hash), guarded by `cond`: look up the pointer tag (and the size tag), find the
section at the old address, move it to `va_r_base`, patch the tags and
advance `va_r_base` by `size`. -/
def relocate_tagged (ops : BinaryOps) (cond : Bool) (kind : Structure) (ptr_tag : DYNAMIC_TAGS)
    (size_tag : Option DYNAMIC_TAGS) (size : Nat) (st : RelocState) : Except Error RelocState :=
  if cond then
    match get_entry st.bin ptr_tag with
    | Except.error e => Except.error e
    | Except.ok dt =>
      let size_entry : Except Error Unit :=
        match size_tag with
        | some t =>
          match get_entry st.bin t with
          | Except.error e => Except.error e
          | Except.ok _ => Except.ok ()
        | none => Except.ok ()
      match size_entry with
      | Except.error e => Except.error e
      | Except.ok _ =>
        match section_from_virtual_address ops st.bin dt.value with
        | Except.error e => Except.error e
        | Except.ok idx =>
          match patch_section ops st.bin idx st.va_r_base size with
          | Except.error e => Except.error e
          | Except.ok b1 =>
            let entries := set_tags ptr_tag size_tag st.va_r_base size b1.dynamic_entries
            Except.ok
              { bin := { b1 with dynamic_entries := entries }
                va_r_base := u64 (st.va_r_base + size)
                va_rw_base := st.va_rw_base
                placed := st.placed ++
                  [{ kind := kind, address := st.va_r_base, size := size,
                     section_idx := some idx, ptr_tag := some ptr_tag, size_tag := size_tag }] }
  else Except.ok st

/-- The dynamic relocation block (ExeLayout.hpp:738-760): DT_RELA / DT_RELASZ
when the binary has DT_RELA, DT_REL / DT_RELSZ otherwise. -/
def relocate_dyn_reloc (ops : BinaryOps) (lay : ExeLayout) (st : RelocState) :
    Except Error RelocState :=
  let is_rela := has_entry st.bin DYNAMIC_TAGS.DT_RELA
  relocate_tagged ops (decide (lay.dynamic_reloc_size > 0)) Structure.dynrel
    (if is_rela then DYNAMIC_TAGS.DT_RELA else DYNAMIC_TAGS.DT_REL)
    (some (if is_rela then DYNAMIC_TAGS.DT_RELASZ else DYNAMIC_TAGS.DT_RELSZ))
    lay.dynamic_reloc_size st

/-- The map `relocations_addresses_` after the loop of ExeLayout.hpp:609-611
over the relocations from index `i` on, starting from the map `m`: a later
relocation with the same address replaces an earlier one. -/
def relocations_addresses_from : Nat → List Relocation → (Nat → Option Nat) → Nat → Option Nat
  | _, [], m => m
  | i, r :: rest, m =>
    relocations_addresses_from (i + 1) rest (fun a => if a = r.address then some i else m a)

/-- The map `relocations_addresses_` built from `binary_->relocations_`: from
an address to the index of the relocation recorded for it. -/
def relocations_addresses (relocs : List Relocation) : Nat → Option Nat :=
  relocations_addresses_from 0 relocs (fun _ => none)

/-- `sizeof_p` of the array blocks. -/
def sizeof_p (b : Binary) : Nat :=
  if b.type = ELF_CLASS.ELFCLASS32 then 4 else 8

/-- Body of the loop that re-targets the relocations of a moved array, for
slot `i`. -/
def retarget_slot (map : Nat → Option Nat) (old_base new_base p : Nat)
    (relocs : List Relocation) (i : Nat) : List Relocation :=
  match map (u64 (old_base + u64 (i * p))) with
  | none => relocs
  | some k => modify_at (fun r => { r with address := u64 (new_base + u64 (i * p)) }) k relocs

/-- The loop `for (size_t i = 0; i < array.size(); ++i)` of an array block. -/
def retarget_array (map : Nat → Option Nat) (old_base new_base p n : Nat)
    (relocs : List Relocation) : List Relocation :=
  (List.range n).foldl (retarget_slot map old_base new_base p) relocs

/-- The common shape of the three array blocks (ExeLayout.hpp:813-916),
guarded by `cond`; `map` is `relocations_addresses_`. -/
def relocate_array (ops : BinaryOps) (map : Nat → Option Nat) (cond : Bool) (kind : Structure)
    (ptr_tag size_tag : DYNAMIC_TAGS) (stype : ELF_SECTION_TYPES) (size : Nat)
    (st : RelocState) : Except Error RelocState :=
  if cond then
    match get_entry st.bin ptr_tag with
    | Except.error e => Except.error e
    | Except.ok dt_array =>
      match get_entry st.bin size_tag with
      | Except.error e => Except.error e
      | Except.ok _ =>
        match get_section st.bin stype with
        | Except.error e => Except.error e
        | Except.ok idx =>
          let relocations :=
            if st.bin.file_type = E_TYPE.ET_DYN then
              retarget_array map dt_array.value st.va_rw_base (sizeof_p st.bin)
                dt_array.array.length st.bin.relocations
            else st.bin.relocations
          match patch_section ops { st.bin with relocations := relocations } idx
              st.va_rw_base size with
          | Except.error e => Except.error e
          | Except.ok b1 =>
            let entries :=
              set_tags ptr_tag (some size_tag) st.va_rw_base size b1.dynamic_entries
            Except.ok
              { bin := { b1 with dynamic_entries := entries }
                va_r_base := st.va_r_base
                va_rw_base := u64 (st.va_rw_base + size)
                placed := st.placed ++
                  [{ kind := kind, address := st.va_rw_base, size := size,
                     section_idx := some idx, ptr_tag := some ptr_tag,
                     size_tag := some size_tag }] }
  else Except.ok st

/-- Sequencing of two blocks of `ExeLayout::relocate`: an exception raised by
the first one ends the function. -/
def and_then (r : Except Error RelocState) (f : RelocState → Except Error RelocState) :
    Except Error RelocState :=
  match r with
  | Except.error e => Except.error e
  | Except.ok st => f st

/-- The cursors at ExeLayout.hpp:613-614: `new_rsegment` and `new_rwsegment`
are the segments returned by `binary_->add` for the two new regions (`none`
for a null pointer). No placement has been made yet. -/
def relocate_start (new_rsegment new_rwsegment : Option Segment) (b : Binary) : RelocState :=
  { bin := b
    va_r_base := match new_rsegment with
      | some g => g.virtual_address
      | none => 0
    va_rw_base := match new_rwsegment with
      | some g => g.virtual_address
      | none => 0
    placed := [] }

/-- `ExeLayout::relocate` from the construction of `relocations_addresses_` to
the end of the array blocks (ExeLayout.hpp:609-916), each block being run on
the state left by the previous one. -/
def relocate_patch (ops : BinaryOps) (lay : ExeLayout) (new_rsegment new_rwsegment : Option Segment)
    (b : Binary) : Except Error RelocState :=
  let map := relocations_addresses b.relocations
  and_then (and_then (and_then (and_then (and_then (and_then (and_then (and_then (and_then
  (and_then (and_then (and_then (and_then (and_then
    (relocate_interp ops lay (relocate_start new_rsegment new_rwsegment b))
    (relocate_notes ops lay))
    (relocate_dynamic ops lay))
    (relocate_tagged ops (decide (lay.dynsym_size > 0)) Structure.dynsym
      DYNAMIC_TAGS.DT_SYMTAB none lay.dynsym_size))
    (relocate_tagged ops lay.relocate_dynstr Structure.dynstr
      DYNAMIC_TAGS.DT_STRTAB (some DYNAMIC_TAGS.DT_STRSZ) lay.raw_dynstr.length))
    (relocate_tagged ops (decide (lay.sver_size > 0)) Structure.versym
      DYNAMIC_TAGS.DT_VERSYM none lay.sver_size))
    (relocate_tagged ops (decide (lay.sverd_size > 0)) Structure.verdef
      DYNAMIC_TAGS.DT_VERDEF none lay.sverd_size))
    (relocate_tagged ops (decide (lay.sverr_size > 0)) Structure.verneed
      DYNAMIC_TAGS.DT_VERNEED none lay.sverr_size))
    (relocate_dyn_reloc ops lay))
    (relocate_tagged ops (decide (lay.pltgot_reloc_size > 0)) Structure.pltrel
      DYNAMIC_TAGS.DT_JMPREL (some DYNAMIC_TAGS.DT_PLTRELSZ) lay.pltgot_reloc_size))
    (relocate_tagged ops lay.relocate_gnu_hash Structure.gnuhash
      DYNAMIC_TAGS.DT_GNU_HASH none lay.raw_gnu_hash.length))
    (relocate_tagged ops (decide (lay.sysv_size > 0)) Structure.sysvhash
      DYNAMIC_TAGS.DT_HASH none lay.sysv_size))
    (relocate_array ops map (decide (lay.init_size > 0)) Structure.init_array
      DYNAMIC_TAGS.DT_INIT_ARRAY DYNAMIC_TAGS.DT_INIT_ARRAYSZ
      ELF_SECTION_TYPES.SHT_INIT_ARRAY lay.init_size))
    (relocate_array ops map (decide (lay.preinit_size > 0)) Structure.preinit_array
      DYNAMIC_TAGS.DT_PREINIT_ARRAY DYNAMIC_TAGS.DT_PREINIT_ARRAYSZ
      ELF_SECTION_TYPES.SHT_PREINIT_ARRAY lay.preinit_size))
    (relocate_array ops map (decide (lay.fini_size > 0)) Structure.fini_array
      DYNAMIC_TAGS.DT_FINI_ARRAY DYNAMIC_TAGS.DT_FINI_ARRAYSZ
      ELF_SECTION_TYPES.SHT_FINI_ARRAY lay.fini_size)

/-! ## Description of the layout computed by `ExeLayout::relocate` -/

/-- Structure, address and size of a placement. -/
def Placement.triple (p : Placement) : Structure × Nat × Nat := (p.kind, p.address, p.size)

/-- The blocks of `ExeLayout::relocate` in the order of the source
(ExeLayout.hpp:616-916): the structure, the guard of the block and the size
the cursor advances by. -/
def plan (lay : ExeLayout) : List (Structure × Bool × Nat) :=
  [(Structure.interp, decide (lay.interp_size > 0), lay.interp_size),
   (Structure.notes, lay.relocate_notes, lay.raw_notes.length),
   (Structure.dynamic, decide (lay.dynamic_size > 0), lay.dynamic_size),
   (Structure.dynsym, decide (lay.dynsym_size > 0), lay.dynsym_size),
   (Structure.dynstr, lay.relocate_dynstr, lay.raw_dynstr.length),
   (Structure.versym, decide (lay.sver_size > 0), lay.sver_size),
   (Structure.verdef, decide (lay.sverd_size > 0), lay.sverd_size),
   (Structure.verneed, decide (lay.sverr_size > 0), lay.sverr_size),
   (Structure.dynrel, decide (lay.dynamic_reloc_size > 0), lay.dynamic_reloc_size),
   (Structure.pltrel, decide (lay.pltgot_reloc_size > 0), lay.pltgot_reloc_size),
   (Structure.gnuhash, lay.relocate_gnu_hash, lay.raw_gnu_hash.length),
   (Structure.sysvhash, decide (lay.sysv_size > 0), lay.sysv_size),
   (Structure.init_array, decide (lay.init_size > 0), lay.init_size),
   (Structure.preinit_array, decide (lay.preinit_size > 0), lay.preinit_size),
   (Structure.fini_array, decide (lay.fini_size > 0), lay.fini_size)]

/-- The blocks of `plan` that advance `va_r_base`, in the order of the source. -/
def ro_plan (lay : ExeLayout) : List (Structure × Bool × Nat) :=
  [(Structure.interp, decide (lay.interp_size > 0), lay.interp_size),
   (Structure.notes, lay.relocate_notes, lay.raw_notes.length),
   (Structure.dynsym, decide (lay.dynsym_size > 0), lay.dynsym_size),
   (Structure.dynstr, lay.relocate_dynstr, lay.raw_dynstr.length),
   (Structure.versym, decide (lay.sver_size > 0), lay.sver_size),
   (Structure.verdef, decide (lay.sverd_size > 0), lay.sverd_size),
   (Structure.verneed, decide (lay.sverr_size > 0), lay.sverr_size),
   (Structure.dynrel, decide (lay.dynamic_reloc_size > 0), lay.dynamic_reloc_size),
   (Structure.pltrel, decide (lay.pltgot_reloc_size > 0), lay.pltgot_reloc_size),
   (Structure.gnuhash, lay.relocate_gnu_hash, lay.raw_gnu_hash.length),
   (Structure.sysvhash, decide (lay.sysv_size > 0), lay.sysv_size)]

/-- The blocks of `plan` that advance `va_rw_base`, in the order of the source. -/
def rw_plan (lay : ExeLayout) : List (Structure × Bool × Nat) :=
  [(Structure.dynamic, decide (lay.dynamic_size > 0), lay.dynamic_size),
   (Structure.init_array, decide (lay.init_size > 0), lay.init_size),
   (Structure.preinit_array, decide (lay.preinit_size > 0), lay.preinit_size),
   (Structure.fini_array, decide (lay.fini_size > 0), lay.fini_size)]

/-- The placements made by a list of blocks run with the cursors `r`
(`va_r_base`) and `rw` (`va_rw_base`): a block whose guard holds places its
structure at the cursor of its region and advances that cursor (on 64 bits). -/
def pack (r rw : Nat) : List (Structure × Bool × Nat) → List (Structure × Nat × Nat)
  | [] => []
  | (k, c, s) :: rest =>
    if c then
      match k.region with
      | Region.read_only => (k, r, s) :: pack (u64 (r + s)) rw rest
      | Region.read_write => (k, rw, s) :: pack r (u64 (rw + s)) rest
    else pack r rw rest

/-- The placements made by a list of blocks that share one cursor. -/
def pack1 (c : Nat) : List (Structure × Bool × Nat) → List (Structure × Nat × Nat)
  | [] => []
  | (k, en, s) :: rest =>
    if en then (k, c, s) :: pack1 (u64 (c + s)) rest else pack1 c rest

/-- The size a block advances its cursor by: its size when its guard holds. -/
def eff_size (e : Structure × Bool × Nat) : Nat := if e.2.1 then e.2.2 else 0

/-- Sum of the sizes of the blocks of a list whose guard holds, without
reduction to 64 bits. -/
def total_size (l : List (Structure × Bool × Nat)) : Nat := (l.map eff_size).sum

/-- The address ranges `(address, size)` given to the structures of a region,
in the order they were placed. -/
def ranges (region : Region) (placed : List Placement) : List (Nat × Nat) :=
  (placed.filter (fun p => p.kind.region == region)).map (fun p => (p.address, p.size))

/-- The ranges of the list start at `lo`, each one starts where the previous
one ends, and the last one ends at `hi`. -/
def Tiles : Nat → Nat → List (Nat × Nat) → Prop
  | lo, hi, [] => lo = hi
  | lo, hi, (a, s) :: rest => a = lo ∧ Tiles (lo + s) hi rest

/-- Two address ranges `[a, a + s)` have no address in common. -/
def Disjoint_ranges (x y : Nat × Nat) : Prop := x.1 + x.2 ≤ y.1 ∨ y.1 + y.2 ≤ x.1

/-- The three array blocks of `ExeLayout::relocate`: the structure, its pointer
tag and the size that guards the block. -/
def array_blocks (lay : ExeLayout) : List (Structure × DYNAMIC_TAGS × Nat) :=
  [(Structure.init_array, DYNAMIC_TAGS.DT_INIT_ARRAY, lay.init_size),
   (Structure.preinit_array, DYNAMIC_TAGS.DT_PREINIT_ARRAY, lay.preinit_size),
   (Structure.fini_array, DYNAMIC_TAGS.DT_FINI_ARRAY, lay.fini_size)]

/-- The address of slot `i` of the array at `base`, as the array blocks compute
it: `base + i * sizeof_p` on 64 bits. -/
def slot_address (base p i : Nat) : Nat := u64 (base + u64 (i * p))

/-! ## The output sink (`LIEF/iostream.hpp`) -/

/-- What the size pass depends on in the machine the library is compiled for:
the byte order of its memory and `LIEF::Convert::swap_endian<T>`, which
Convert.hpp only declares (`swap_endian w v` is the value left in an object of
`w` bytes that held `v`). -/
structure Host where
  big_endian : Bool
  swap_endian : Nat → Nat → Nat

/-- The `w` low-order bytes of `v`, least significant first. -/
def le_bytes : Nat → Nat → List Nat
  | 0, _ => []
  | w + 1, v => v % 256 :: le_bytes w (v / 256)

/-- The number whose bytes, least significant first, are `bs`. -/
def le_value : List Nat → Nat
  | [] => 0
  | x :: xs => x + 256 * le_value xs

/-- The bytes, in memory order, of an integer object of `w` bytes holding `v`
(`reinterpret_cast<const uint8_t*>(&t)`). -/
def object_bytes (host : Host) (w v : Nat) : List Nat :=
  if host.big_endian then (le_bytes w v).reverse else le_bytes w v

/-- The value of the integer object whose bytes in memory are `bs`
(`desc_ptr[i]`, and `padded` after the `memcpy`). -/
def object_value (host : Host) (bs : List Nat) : Nat :=
  if host.big_endian then le_value bs.reverse else le_value bs

/-- The members of `vector_iostream` (iostream.hpp:95-98). -/
structure vector_iostream where
  current_pos_ : Nat := 0
  raw_ : List Nat := []
  endian_swap_ : Bool := false
  deriving DecidableEq, Repr

/-- Copy of `bytes` into `raw` from index `pos` on, `raw` being first resized
(with zeros) to `pos + bytes.length` when it is shorter: the resize and the
`std::copy` of `vector_iostream::write<Integer>` (iostream.hpp:56-63). -/
def copy_at (raw : List Nat) (pos : Nat) (bytes : List Nat) : List Nat :=
  let raw1 :=
    if raw.length < pos + bytes.length then
      raw ++ List.replicate (pos + bytes.length - raw.length) 0
    else raw
  raw1.take pos ++ bytes ++ raw1.drop (pos + bytes.length)

/-- Modelled from the spec: `vector_iostream::tellp`, whose body (iostream.cpp)
is not in the sources; the "seek/tell" of the output sink: the current position. -/
def vector_iostream.tellp (s : vector_iostream) : Nat := s.current_pos_

/-- The template `vector_iostream::write<Integer>` (iostream.hpp:54-67) for an
integer type of `w` bytes. -/
def vector_iostream.write_integer (host : Host) (w v : Nat) (s : vector_iostream) :
    vector_iostream :=
  { s with
    raw_ := copy_at s.raw_ s.tellp (object_bytes host w v)
    current_pos_ := s.current_pos_ + w }

/-- Modelled from the spec: `vector_iostream::write(const uint8_t*, std::streamsize)`,
whose body (iostream.cpp) is not in the sources; a "position-based overwrite"
of the output sink, done as the integer `write` of iostream.hpp does it. -/
def vector_iostream.write (bytes : List Nat) (s : vector_iostream) : vector_iostream :=
  { s with
    raw_ := copy_at s.raw_ s.tellp bytes
    current_pos_ := s.current_pos_ + bytes.length }

/-- Modelled from the spec: `vector_iostream::write(const std::string&)`, whose
body (iostream.cpp) is not in the sources; the characters of the string are
written followed by a NUL (a name of 200 characters takes "200 + NUL" bytes in
the dynamic string table, the length written in front of the name of a note
counts "its own NUL terminator"). -/
def vector_iostream.write_string (str : List Nat) (s : vector_iostream) : vector_iostream :=
  s.write (str ++ [0])

/-- Modelled from the spec: `vector_iostream::align`, whose body (iostream.cpp)
is not in the sources; the buffer is "padded to a 4-byte boundary" (to a
multiple of `size`) with `val`, and the position follows its end. -/
def vector_iostream.align (size val : Nat) (s : vector_iostream) : vector_iostream :=
  let raw := s.raw_ ++ List.replicate ((size - s.raw_.length % size) % size) val
  { s with raw_ := raw, current_pos_ := raw.length }

/-- Modelled from the spec: `vector_iostream::move`, whose body (iostream.cpp)
is not in the sources; the buffer of the sink is handed over to the vector
given as argument. -/
def vector_iostream.move (s : vector_iostream) : List Nat := s.raw_

/-- The template `vector_iostream::write_conv<T>` (iostream.hpp:102-114) for a
type of `w` bytes. -/
def vector_iostream.write_conv (host : Host) (w t : Nat) (s : vector_iostream) :
    vector_iostream :=
  let tmp := if s.endian_swap_ then host.swap_endian w t else t
  s.write (object_bytes host w tmp)

/-- The template `vector_iostream::write_conv_array<T>` (iostream.hpp:116-130). -/
def vector_iostream.write_conv_array (host : Host) (w : Nat) (v : List Nat)
    (s : vector_iostream) : vector_iostream :=
  v.foldl (fun s i => s.write_conv host w i) s

/-- `Builder::should_swap` (Builder.cpp:89-103): the case label in front of
`return true` is `ENDIAN_BIG` on a little-endian host and `ENDIAN_LITTLE` on
a big-endian one. -/
def should_swap (host : Host) (b : Binary) : Bool :=
  match b.abstract_endianness with
  | ENDIANNESS.ENDIAN_BIG => !host.big_endian
  | ENDIANNESS.ENDIAN_LITTLE => host.big_endian
  | ENDIANNESS.ENDIAN_NONE => false

/-! ## Maps of the layout -/

/-- Lookup in a map kept as the list of its pairs (`find`). -/
def map_find {κ : Type} [DecidableEq κ] (k : κ) : List (κ × Nat) → Option Nat
  | [] => none
  | (k1, v) :: m => if k1 = k then some v else map_find k m

/-- The assignment `map[k] = v`: the value of an existing key is replaced,
a new key is added. -/
def map_set {κ : Type} [DecidableEq κ] (k : κ) (v : Nat) : List (κ × Nat) → List (κ × Nat)
  | [] => [(k, v)]
  | (k1, v1) :: m => if k1 = k then (k1, v) :: m else (k1, v1) :: map_set k v m

/-- The call `map.emplace(k, v)`: nothing happens when the key exists. -/
def map_emplace {κ : Type} [DecidableEq κ] (k : κ) (v : Nat) (m : List (κ × Nat)) :
    List (κ × Nat) :=
  match map_find k m with
  | some _ => m
  | none => m ++ [(k, v)]

/-! ## `ExeLayout::symbol_gnu_hash_size`: the bytes -/

/-- Size in bytes of `ELF_T::uint`. -/
def ELF_CLASS.word_size (cls : ELF_CLASS) : Nat := cls.bits / 8

/-- `ExeLayout::symbol_gnu_hash_size` (ExeLayout.hpp:228-351): the returned
size, the binary with its reordered dynamic symbols and the layout with
`raw_gnu_hash_`. The stream `raw_gnuhash` is default-constructed. -/
def symbol_gnu_hash_size (dl_new_hash : List Nat → Nat) (host : Host) (cls : ELF_CLASS)
    (gnu_hash : GnuHash) (new_symndx : Int) (b : Binary) (lay : ExeLayout) :
    Except Error (Nat × Binary × ExeLayout) :=
  if lay.raw_gnu_hash.length > 0 then
    Except.ok (lay.raw_gnu_hash.length, b, lay)
  else
    match symbol_gnu_hash_build dl_new_hash cls gnu_hash new_symndx b.dynamic_symbols with
    | Except.error e => Except.error e
    | Except.ok (dynamic_symbols, t) =>
      let raw_gnuhash : vector_iostream := {}
      -- header
      let raw_gnuhash := raw_gnuhash.write_conv host 4 t.nb_buckets
      let raw_gnuhash := raw_gnuhash.write_conv host 4 t.symndx
      let raw_gnuhash := raw_gnuhash.write_conv host 4 t.maskwords
      let raw_gnuhash := raw_gnuhash.write_conv host 4 t.shift2
      -- bloom filters
      let raw_gnuhash := raw_gnuhash.write_conv_array host cls.word_size t.bloom_filters
      -- buckets and hash values
      let raw_gnuhash := raw_gnuhash.write_conv_array host 4 t.buckets
      let raw_gnuhash := raw_gnuhash.write_conv_array host 4 t.hash_values
      let lay1 := { lay with raw_gnu_hash := raw_gnuhash.move }
      Except.ok (lay1.raw_gnu_hash.length, { b with dynamic_symbols := dynamic_symbols }, lay1)

/-! ## `ExeLayout::symbol_sysv_hash_size` -/

/-- `ExeLayout::symbol_sysv_hash_size` (ExeLayout.hpp:210-220): the returned
size and the layout with `nchain_`. `nchain_` and `nbucket()` are `uint32_t`,
the sum with the header is computed on `unsigned int` and the product with
`sizeof(uint32_t)` on `size_t` (64 bits). -/
def symbol_sysv_hash_size (sysv_hash : SysvHash) (b : Binary) (lay : ExeLayout) :
    Nat × ExeLayout :=
  let nchain := u32 sysv_hash.nchain
  let nchain :=
    if nchain < b.dynamic_symbols.length then u32 b.dynamic_symbols.length else nchain
  (u64 (u32 (u32 (u32 sysv_hash.nbucket + nchain) + 2) * 4), { lay with nchain := nchain })

/-! ## `ExeLayout::note_size` -/

/-- The description loop of `ExeLayout::note_size` (ExeLayout.hpp:192-203): the
full 4-byte chunks `desc_ptr[i]`, then the remaining bytes copied into a zeroed
`padded`. -/
def write_description (host : Host) (description : List Nat) (s : vector_iostream) :
    vector_iostream :=
  let s1 := (List.range (description.length / 4)).foldl
    (fun s i => s.write_conv host 4 (object_value host ((description.drop (4 * i)).take 4))) s
  if description.length % 4 ≠ 0 then
    let rest := description.drop (4 * (description.length / 4))
    let padded := object_value host (rest ++ List.replicate (4 - rest.length) 0)
    s1.write_conv host 4 padded
  else s1

/-- Body of the loop over the notes of `ExeLayout::note_size`
(ExeLayout.hpp:170-205) for the note of index `kn.1`. -/
def note_size_step (host : Host) (acc : vector_iostream × List (Nat × Nat))
    (kn : Nat × Note) : vector_iostream × List (Nat × Nat) :=
  let raw_notes := acc.1
  let pos := raw_notes.tellp
  let namesz := u32 (kn.2.name.length + 1)
  let raw_notes := raw_notes.write_conv host 4 namesz
  let descsz := u32 kn.2.description.length
  let raw_notes := raw_notes.write_conv host 4 descsz
  let raw_notes := raw_notes.write_conv host 4 (u32 kn.2.type)
  let raw_notes := raw_notes.write_string kn.2.name
  let raw_notes := raw_notes.align 4 0
  let raw_notes := write_description host kn.2.description raw_notes
  (raw_notes, map_emplace kn.1 pos acc.2)

/-- `ExeLayout::note_size` (ExeLayout.hpp:163-208): the returned size and the
layout with `raw_notes_` and `notes_off_map_`. The stream `raw_notes` is
default-constructed (the argument `should_swap()` is commented out). -/
def note_size (host : Host) (b : Binary) (lay : ExeLayout) : Nat × ExeLayout :=
  if lay.raw_notes.length > 0 then
    (lay.raw_notes.length, lay)
  else
    let r := b.notes.enum.foldl (note_size_step host) (({} : vector_iostream), lay.notes_off_map)
    let lay1 := { lay with raw_notes := r.1.move, notes_off_map := r.2 }
    (lay1.raw_notes.length, lay1)

/-! ## `ExeLayout::dynstr_size` -/

/-- Variables of the string table optimizer: the strings it emitted with
their offsets, the offset counter and the offset map. -/
structure OptimizeState where
  emitted : List (List Nat × Nat) := []
  offset_counter : Nat := 0
  of_map : List (List Nat × Nat) := []
  deriving DecidableEq, Repr

/-- Modelled from the spec: one string of `Builder::optimize`. A string
"already present (by exact textual match)" in the offset map is left out; one
that "is a trailing suffix of one already emitted" "is assigned an offset
inside the already-written bytes" of the first such string; any other string
is emitted at the offset counter, which advances by its length and its NUL. -/
def optimize_step (st : OptimizeState) (name : List Nat) : OptimizeState :=
  match map_find name st.of_map with
  | some _ => st
  | none =>
    match st.emitted.find? (fun e => name.isSuffixOf e.1) with
    | some e =>
      { st with of_map := map_set name (e.2 + (e.1.length - name.length)) st.of_map }
    | none =>
      { emitted := st.emitted ++ [(name, st.offset_counter)]
        offset_counter := st.offset_counter + (name.length + 1)
        of_map := map_set name st.offset_counter st.of_map }

/-- Modelled from the spec: `Builder::optimize` (declared in Builder.hpp:162-166,
its body, in Builder.tcc, is not in the sources), the string table optimizer:
"strings are considered in the caller-supplied order" and the emitted strings
are returned, with the advanced offset counter and the offset map. -/
def optimize (names : List (List Nat)) (offset_counter : Nat)
    (of_map : List (List Nat × Nat)) : List (List Nat) × Nat × List (List Nat × Nat) :=
  let st := names.foldl optimize_step
    { emitted := [], offset_counter := offset_counter, of_map := of_map }
  (st.emitted.map Prod.fst, st.offset_counter, st.of_map)

/-- The two statements `offset_name_map_[name] = raw_dynstr.tellp();
raw_dynstr.write(name);` of `ExeLayout::dynstr_size`. -/
def add_name (acc : vector_iostream × List (List Nat × Nat)) (name : List Nat) :
    vector_iostream × List (List Nat × Nat) :=
  (acc.1.write_string name, map_set name acc.1.tellp acc.2)

/-- The same statements behind the test that `offset_name_map_.find(name)`
finds nothing. -/
def add_new_name (acc : vector_iostream × List (List Nat × Nat)) (name : List Nat) :
    vector_iostream × List (List Nat × Nat) :=
  match map_find name acc.2 with
  | some _ => acc
  | none => add_name acc name

/-- Whether the first loop of `ExeLayout::dynstr_size` writes the name of an
entry with this tag. -/
def is_name_tag (tag : DYNAMIC_TAGS) : Bool :=
  tag == DYNAMIC_TAGS.DT_NEEDED || tag == DYNAMIC_TAGS.DT_SONAME ||
  tag == DYNAMIC_TAGS.DT_RPATH || tag == DYNAMIC_TAGS.DT_RUNPATH

/-- `ExeLayout::dynstr_size` (ExeLayout.hpp:30-140): the returned size and the
layout with `raw_dynstr_` and `offset_name_map_`. -/
def dynstr_size (host : Host) (b : Binary) (lay : ExeLayout) : Nat × ExeLayout :=
  if lay.raw_dynstr.length ≠ 0 then
    (lay.raw_dynstr.length, lay)
  else
    let raw_dynstr : vector_iostream := {}
    let raw_dynstr := raw_dynstr.write_integer host 1 0
    -- dynamic entries: NEEDED / SONAME / RPATH / RUNPATH
    let acc := b.dynamic_entries.foldl
      (fun acc entry => if is_name_tag entry.tag then add_name acc entry.name else acc)
      (raw_dynstr, lay.offset_name_map)
    -- dynamic symbols names
    let offset_counter := acc.1.tellp
    let opt := optimize (b.dynamic_symbols.map (fun sym => sym.name)) offset_counter acc.2
    let raw_dynstr := opt.1.foldl (fun s name => s.write_string name) acc.1
    let acc := (raw_dynstr, opt.2.2)
    -- symbol definition
    let acc := b.symbols_version_definition.foldl
      (fun acc svd => svd.symbols_aux.foldl add_new_name acc) acc
    -- symbol version requirement
    let acc := b.symbols_version_requirement.foldl
      (fun acc svr => svr.auxiliary_symbols.foldl add_new_name (add_new_name acc svr.name)) acc
    -- symbol version definition
    let acc := b.symbols_version_definition.foldl
      (fun acc svd => svd.symbols_aux.foldl add_new_name acc) acc
    let lay1 := { lay with raw_dynstr := acc.1.move, offset_name_map := acc.2 }
    (lay1.raw_dynstr.length, lay1)

/-! ## The encodings, as the specification words them -/

/-- Round-up of `n` to a multiple of 4. -/
def pad4 (n : Nat) : Nat := (n + 3) / 4 * 4

/-- The record of a note in the words of the specification: the three 32-bit
values name length with its NUL, description length and type, the name with
its NUL padded with zeros to a 4-byte boundary, the description padded with
zeros to a 4-byte boundary. -/
def note_record (host : Host) (note : Note) : List Nat :=
  object_bytes host 4 (u32 (note.name.length + 1)) ++
  object_bytes host 4 (u32 note.description.length) ++
  object_bytes host 4 (u32 note.type) ++
  (note.name ++ [0] ++ List.replicate (pad4 (note.name.length + 1) - (note.name.length + 1)) 0) ++
  (note.description ++
    List.replicate (pad4 note.description.length - note.description.length) 0)

/-- The size of the record of a note in the words of the specification. -/
def note_record_size (note : Note) : Nat :=
  12 + pad4 (note.name.length + 1) + pad4 note.description.length

/-- The bytes at offset `o` of the blob spell `s` followed by a NUL. -/
def spells (blob : List Nat) (o : Nat) (s : List Nat) : Prop :=
  (blob.drop o).take (s.length + 1) = s ++ [0]

/-! ## `ObjectFileLayout` (ObjectFileLayout.hpp) -/

/-- The members used by `ObjectFileLayout::relocate`: `sec_reloc_info_`, whose
key `&section` is the index of the section in `binary_->sections_`, and, from
the base class `Layout` (Layout.hpp is not in the sources), `strtab_section_`
(`none` for a null pointer) and the results of `is_strtab_shared_shstrtab()`
and `raw_strtab()`. -/
structure ObjectFileLayout where
  sec_reloc_info : List (Nat × Nat) := []
  strtab_section : Option Nat := none
  is_strtab_shared_shstrtab : Bool := false
  raw_strtab : List Nat := []
  deriving DecidableEq, Repr

/-- `ObjectFileLayout::should_relocate` (ObjectFileLayout.hpp:29-35). -/
def ObjectFileLayout.should_relocate (lay : ObjectFileLayout) (sec : Nat) : Bool :=
  match map_find sec lay.sec_reloc_info with
  | none => false
  | some size => decide (size > 0)

/-- `ObjectFileLayout::relocate_section` (ObjectFileLayout.hpp:37-40); `size`
is a `size_t`. -/
def ObjectFileLayout.relocate_section (lay : ObjectFileLayout) (sec size : Nat) :
    ObjectFileLayout :=
  { lay with sec_reloc_info := map_set sec (u64 size) lay.sec_reloc_info }

/-- The value `sec_reloc_info_[&sec]` read in `ObjectFileLayout::relocate`. -/
def ObjectFileLayout.needed_size (lay : ObjectFileLayout) (sec : Nat) : Nat :=
  match map_find sec lay.sec_reloc_info with
  | none => 0
  | some size => size

/-- The first loop of `ObjectFileLayout::relocate` (ObjectFileLayout.hpp:44-52):
the value of `last_offset_sections` after it. -/
def last_offset_sections (sections : List Section) : Nat :=
  sections.foldl
    (fun last sec =>
      if sec.type = ELF_SECTION_TYPES.SHT_NOBITS then last
      else max (u64 (sec.offset + sec.size)) last)
    0

/-- The second loop of `ObjectFileLayout::relocate` (ObjectFileLayout.hpp:57-75)
from the section of index `i` on: the sections, `last_offset_sections` and the
section-header-table offset of the header after it. The notifications to the
data handler (`add`, `make_hole`) are left out. -/
def relocate_sections (lay : ObjectFileLayout) :
    Nat → List Section → Nat → Nat → List Section × Nat × Nat
  | _, [], last_offset_sections, section_headers_offset =>
    ([], last_offset_sections, section_headers_offset)
  | i, sec :: rest, last_offset_sections, section_headers_offset =>
    if lay.should_relocate i then
      let needed_size := lay.needed_size i
      let sec1 := { sec with offset := last_offset_sections, size := needed_size }
      let r := relocate_sections lay (i + 1) rest (u64 (last_offset_sections + needed_size))
        (u64 (section_headers_offset + needed_size))
      (sec1 :: r.1, r.2)
    else
      let r := relocate_sections lay (i + 1) rest last_offset_sections section_headers_offset
      (sec :: r.1, r.2)

/-- `ObjectFileLayout::relocate` (ObjectFileLayout.hpp:42-80). `content` is
`Section::content(const std::vector<uint8_t>&)`, whose code (Section.cpp) is
not in the sources: the embedding takes it as a parameter. -/
def ObjectFileLayout.relocate (content : List Nat → Section → Section)
    (lay : ObjectFileLayout) (b : Binary) : Binary :=
  let r := relocate_sections lay 0 b.sections (last_offset_sections b.sections)
    b.section_headers_offset
  let sections :=
    match lay.strtab_section with
    | some strtab_section =>
      if !lay.is_strtab_shared_shstrtab then
        modify_at (content lay.raw_strtab) strtab_section r.1
      else r.1
    | none => r.1
  { b with sections := sections, section_headers_offset := r.2.2 }

/-- The indices from `i0` to `i0 + n - 1` of the sections that are relocated. -/
def relocated_indices (lay : ObjectFileLayout) (i0 n : Nat) : List Nat :=
  (List.range' i0 n).filter lay.should_relocate

/-- The sum of the needed sizes of the relocated sections among those of index
`i0` to `i0 + n - 1`. -/
def needed_total (lay : ObjectFileLayout) (i0 n : Nat) : Nat :=
  ((relocated_indices lay i0 n).map lay.needed_size).sum

/-! ## `Builder` (Builder.cpp) -/

/-- The class of the object `layout_` points to. -/
inductive LayoutClass where
  | exe_layout
  | object_file_layout
  deriving DecidableEq, Repr

/-- The members of `Builder` (Builder.hpp:195-200): `config_`, `ios_`,
`binary_` and the class of `layout_`. -/
structure Builder where
  force_relocations : Bool := false
  ios_ : vector_iostream := {}
  binary_ : Binary
  layout_ : LayoutClass
  deriving DecidableEq, Repr

/-- `Builder::Builder(Binary&)` (Builder.cpp:58-86); `none` stands for the
`std::abort()` of the default case. `reserve` does not change what the stream
holds, `set_endian_swap` sets `endian_swap_`. -/
def Builder.new (host : Host) (binary : Binary) : Option Builder :=
  let layout : Option LayoutClass :=
    match binary.file_type with
    | E_TYPE.ET_CORE => some LayoutClass.exe_layout
    | E_TYPE.ET_DYN => some LayoutClass.exe_layout
    | E_TYPE.ET_EXEC => some LayoutClass.exe_layout
    | E_TYPE.ET_REL => some LayoutClass.object_file_layout
    | _ => none
  match layout with
  | none => none
  | some layout =>
    some { binary_ := binary
           layout_ := layout
           ios_ := { endian_swap_ := should_swap host binary } }

/-- `Builder::get_build` (Builder.cpp:114-116): the bytes held by `ios_`. -/
def Builder.get_build (bld : Builder) : List Nat := bld.ios_.raw_

/-- `Builder::write` (Builder.cpp:125-134): the builder after the call and the
bytes written to the file, `none` when nothing is written. `open_ok` says
whether the `std::ofstream` could be opened; `after_move` is the state
`vector_iostream::move` leaves the stream in (iostream.cpp is not in the
sources). -/
def Builder.write (open_ok : Bool) (after_move : vector_iostream → vector_iostream)
    (bld : Builder) : Builder × Option (List Nat) :=
  if !open_ok then
    (bld, none)
  else
    let content := bld.ios_.move
    ({ bld with ios_ := after_move bld.ios_ }, some content)

/-- `Builder::build_empty_symbol_gnuhash` (Builder.cpp:176-213). `content` is
`Section::content(const std::vector<uint8_t>&)`, whose code (Section.cpp) is
not in the sources: the embedding takes it as a parameter. -/
def Builder.build_empty_symbol_gnuhash (content : List Nat → Section → Section) (host : Host)
    (bld : Builder) : Except Error Builder :=
  match first_index (fun s => s.type == ELF_SECTION_TYPES.SHT_GNU_HASH) bld.binary_.sections with
  | none => Except.error Error.corrupted
  | some it_gnuhash =>
    let size := match bld.binary_.sections[it_gnuhash]? with
      | some gnu_hash_section => gnu_hash_section.size
      | none => 0
    let c : vector_iostream := { endian_swap_ := should_swap host bld.binary_ }
    let nb_buckets := 1
    let shift2 := 0
    let maskwords := 1
    let symndx := 1
    let c := c.write_conv host 4 nb_buckets
    let c := c.write_conv host 4 symndx
    let c := c.write_conv host 4 maskwords
    let c := c.write_conv host 4 shift2
    -- fill with 0
    let c := c.align size 0
    Except.ok
      { bld with binary_ :=
          { bld.binary_ with
            sections := modify_at (content c.raw_) it_gnuhash bld.binary_.sections } }

/-! ## The name of the section of a note -/

/-- The range `note_to_section_map.equal_range(type)` of the multimap
`note_to_section_map`, which is not in the sources and is a parameter of the
embedding, given as the list of its pairs. -/
def equal_range (note_to_section_map : List (Nat × String)) (type : Nat) :
    List (Nat × String) :=
  note_to_section_map.filter (fun p => p.1 == type)

/-- Modelled from the spec: `Binary::has_section(name)`, an accessor of the
object model; whether a section of the binary has this name. -/
def has_section (b : Binary) (name : String) : Bool :=
  b.sections.any (fun s => s.name == name)

/-- The text `fmt::format("{:x}", n)` gives: `n` in hexadecimal with lowercase
digits, without prefix. -/
def hex_lower (n : Nat) : String := String.mk (Nat.toDigits 16 n)

/-- The variable `section_name` of `Builder::build(const Note&, std::set<Section*>*)`
(Builder.cpp:227-246). -/
def Builder.note_section_name (note_to_section_map : List (Nat × String)) (b : Binary)
    (note : Note) : String :=
  let range_secname := equal_range note_to_section_map note.type
  let known_section := !range_secname.isEmpty
  let it_section_name := range_secname.find? (fun p => has_section b p.2)
  let has_section := it_section_name.isSome
  if has_section then
    match it_section_name with
    | some p => p.2
    | none => ""
  else if known_section then
    match range_secname.head? with
    | some p => p.2
    | none => ""
  else ".note." ++ hex_lower (u32 note.type)

/-- The variable `section_name` of the note pass of `ExeLayout::relocate`
(ExeLayout.hpp:986-1008). -/
def ExeLayout.note_section_name (note_to_section_map : List (Nat × String)) (b : Binary)
    (note : Note) : String :=
  let range_secname := equal_range note_to_section_map note.type
  let known_section := !range_secname.isEmpty
  let type := note.type
  let it_section_name := range_secname.find? (fun p => has_section b p.2)
  let has_section := it_section_name.isSome
  if has_section then
    match it_section_name with
    | some p => p.2
    | none => ""
  else if known_section then
    match range_secname.head? with
    | some p => p.2
    | none => ""
  else ".note." ++ hex_lower (u32 type)

/-! ## `ExeLayout::relocate`: the new segments -/

/-- Value of `ELF_SEGMENT_FLAGS::PF_NONE`. -/
def PF_NONE : Nat := 0

/-- `Segment::add(ELF_SEGMENT_FLAGS)` (Segment.cpp:297-299). -/
def Segment.add (flag : Nat) (g : Segment) : Segment :=
  { g with flags := g.flags ||| flag }

/-- `Segment::content(std::vector<uint8_t>&&)` for a segment without data
handler (Segment.cpp:393-401): `content_c_` takes the vector over, then
`physical_size(content.size())` reads the vector that was moved from, which the
standard libraries leave empty. -/
def Segment.content_rvalue (content : List Nat) (g : Segment) : Segment :=
  let content_c := content
  let content : List Nat := []
  { g with content_c := content_c, size := content.length }

/-- Modelled from the spec: `Binary::has(SEGMENT_TYPES)`, an accessor of the
object model; whether a segment of the binary has this type. -/
def has_segment (b : Binary) (t : SEGMENT_TYPES) : Bool :=
  b.segments.any (fun g => g.type == t)

/-- The variables of `ExeLayout::relocate` after the allocation of the new
segments: the binary, the three pointers (`none` for a null pointer) and the
record of the segments handed to `binary_->add`, in the order of the calls. -/
structure RegionState where
  bin : Binary
  interp : Option Segment := none
  new_rsegment : Option Segment := none
  new_rwsegment : Option Segment := none
  added : List Segment := []
  deriving DecidableEq, Repr

/-- `ExeLayout::relocate`, the allocation of the new segments
(ExeLayout.hpp:505-589). `add` is `Binary::add(const Segment&)`, whose code
(Binary.cpp) is not in the sources: it gives the binary after the insertion and
the segment it returns a reference to. -/
def relocate_regions (add : Segment → Binary → Binary × Segment) (lay : ExeLayout)
    (b : Binary) : RegionState :=
  let st : RegionState := { bin := b }
  -- PT_INTERP segment (optional)
  let st :=
    if lay.interp_size > 0 ∧ has_segment st.bin SEGMENT_TYPES.PT_INTERP = false then
      let interp_segment : Segment := {}
      let interp_segment := { interp_segment with alignment := 0x8 }
      let interp_segment := { interp_segment with type := SEGMENT_TYPES.PT_INTERP }
      let interp_segment := interp_segment.add PF_R
      let interp_segment := interp_segment.content_rvalue (List.replicate lay.interp_size 0)
      let r := add interp_segment st.bin
      { st with bin := r.1, interp := some r.2, added := st.added ++ [interp_segment] }
    else st
  -- Segment 1, read only
  let st :=
    if read_segment lay > 0 then
      let rsegment : Segment := {}
      let rsegment := { rsegment with alignment := 0x1000 }
      let rsegment := { rsegment with type := SEGMENT_TYPES.PT_LOAD }
      let rsegment := rsegment.add PF_R
      let rsegment := rsegment.content_rvalue (List.replicate (read_segment lay) 0)
      let r := add rsegment st.bin
      { st with bin := r.1, new_rsegment := some r.2, added := st.added ++ [rsegment] }
    else st
  -- Segment 2, read and write
  if read_write_segment lay > 0 then
    let rwsegment : Segment := {}
    let rwsegment := { rwsegment with alignment := 0x1000 }
    let rwsegment := { rwsegment with type := SEGMENT_TYPES.PT_LOAD }
    let rwsegment := rwsegment.add PF_R
    let rwsegment := rwsegment.add PF_W
    let rwsegment := rwsegment.content_rvalue (List.replicate (read_write_segment lay) 0)
    let r := add rwsegment st.bin
    { st with bin := r.1, new_rwsegment := some r.2, added := st.added ++ [rwsegment] }
  else st

/-! ## `ExeLayout::symbol_gnu_hash_size`: divisions and accesses -/

/-- An operation of the source without defined behaviour: an access `v[i]` (or
an iterator `begin + i`) beyond the end of `v`, a division or remainder by
zero. -/
inductive Fault where
  | out_of_range
  | division_by_zero
  deriving DecidableEq, Repr

/-- The quotient `a / b` of two unsigned values. -/
def checked_div (a b : Nat) : Except Fault Nat :=
  if b = 0 then Except.error Fault.division_by_zero else Except.ok (a / b)

/-- The remainder `a % b` of two unsigned values. -/
def checked_mod (a b : Nat) : Except Fault Nat :=
  if b = 0 then Except.error Fault.division_by_zero else Except.ok (a % b)

/-- The read `v[i]` of a `std::vector`. -/
def checked_get (v : List Nat) (i : Nat) : Except Fault Nat :=
  if i < v.length then Except.ok (v.getD i 0) else Except.error Fault.out_of_range

/-- The write `v[i] = x` of a `std::vector`. -/
def checked_set (v : List Nat) (i x : Nat) : Except Fault (List Nat) :=
  if i < v.length then Except.ok (v.set i x) else Except.error Fault.out_of_range

/-- The `size_t` an `int` converts to when it is used as an index. -/
def index_of_int (i : Int) : Nat := (i % 2 ^ 64).toNat

/-- Body of the bloom loop (ExeLayout.hpp:300-306), each division and each
access to `bloom_filters` being checked. -/
def bloom_step_checked (dl_new_hash : List Nat → Nat) (C maskwords shift2 : Nat)
    (bloom_filters : List Nat) (sym : Symbol) : Except Fault (List Nat) := do
  let hash := sym_hash dl_new_hash sym
  let q ← checked_div hash C
  let pos := q &&& u32 (maskwords + (2 ^ 32 - 1))
  let r1 ← checked_mod hash C
  let r2 ← checked_mod (hash >>> shift2) C
  let V := (1 <<< r1) ||| (1 <<< r2)
  -- bloom_filters[pos] |= V
  let w ← checked_get bloom_filters pos
  checked_set bloom_filters pos (w ||| V)

/-- The bloom loop over the symbols of `[symndx, n)`, checked. -/
def bloom_loop_checked (dl_new_hash : List Nat → Nat) (C maskwords shift2 : Nat) :
    List Symbol → List Nat → Except Fault (List Nat)
  | [], bloom_filters => Except.ok bloom_filters
  | sym :: rest, bloom_filters => do
    let bloom_filters ← bloom_step_checked dl_new_hash C maskwords shift2 bloom_filters sym
    bloom_loop_checked dl_new_hash C maskwords shift2 rest bloom_filters

/-- Body of the bucket loop (ExeLayout.hpp:320-340) for the symbol at index
`i`, the remainder and each access to `buckets` and `hash_values` being
checked; the inner result is the one of `bucket_step`. -/
def bucket_step_checked (dl_new_hash : List Nat → Nat) (nb_buckets : Nat) (i : Nat)
    (sym : Symbol) (st : BucketState) : Except Fault (Except Error BucketState) := do
  let hash := sym_hash dl_new_hash sym
  let r ← checked_mod hash nb_buckets
  let bucket : Int := toInt32 r
  if bucket < st.previous_bucket then
    pure (Except.error Error.corrupted)
  else
    let st1 : BucketState ←
      if bucket ≠ st.previous_bucket then do
        -- buckets[bucket] = i
        let buckets ← checked_set st.buckets (index_of_int bucket) (u32 i)
        let hash_values ←
          if st.hash_value_idx > 0 then do
            -- hash_values[hash_value_idx - 1] |= 1
            let w ← checked_get st.hash_values (st.hash_value_idx - 1)
            checked_set st.hash_values (st.hash_value_idx - 1) (w ||| 1)
          else pure st.hash_values
        pure { st with buckets := buckets, previous_bucket := bucket, hash_values := hash_values }
      else pure st
    -- hash_values[hash_value_idx] = hash & ~1
    let hash_values ← checked_set st1.hash_values st1.hash_value_idx (hash &&& 0xFFFFFFFE)
    pure (Except.ok { st1 with hash_values := hash_values,
                               hash_value_idx := st1.hash_value_idx + 1 })

/-- The bucket loop over the symbols from index `i` on, checked. -/
def bucket_loop_checked (dl_new_hash : List Nat → Nat) (nb_buckets : Nat) :
    Nat → List Symbol → BucketState → Except Fault (Except Error BucketState)
  | _, [], st => Except.ok (Except.ok st)
  | i, sym :: rest, st => do
    match ← bucket_step_checked dl_new_hash nb_buckets i sym st with
    | Except.error e => pure (Except.error e)
    | Except.ok st1 => bucket_loop_checked dl_new_hash nb_buckets (i + 1) rest st1

/-- `ExeLayout::symbol_gnu_hash_size` (ExeLayout.hpp:242-344) on its first
call, as `symbol_gnu_hash_build`, with each division, remainder and vector
access checked: the outer result tells whether all of them were defined, the
inner one is the result of the function. The comparison of the
`std::stable_sort` takes a remainder by `nb_buckets` as soon as the range has
two elements. -/
def symbol_gnu_hash_build_checked (dl_new_hash : List Nat → Nat) (cls : ELF_CLASS)
    (gnu_hash : GnuHash) (new_symndx : Int) (dynamic_symbols : List Symbol) :
    Except Fault (Except Error (List Symbol × GnuHashTable)) := do
  let first_exported_symbol_index := if new_symndx ≥ 0 then u32 new_symndx.toNat else 0
  let nb_buckets := u32 gnu_hash.nb_buckets
  let symndx := first_exported_symbol_index
  let maskwords := u32 gnu_hash.maskwords
  let shift2 := u32 gnu_hash.shift2
  -- std::begin(dynamic_symbols_) + symndx
  if symndx > dynamic_symbols.length then
    Except.error Fault.out_of_range
  else if nb_buckets = 0 ∧ 2 ≤ (dynamic_symbols.drop symndx).length then
    Except.error Fault.division_by_zero
  else
    let sorted := dynamic_symbols.take symndx ++
      stable_sort (bucket_lt dl_new_hash nb_buckets) (dynamic_symbols.drop symndx)
    -- bloom filters
    let C := cls.bits
    let bloom_filters ← bloom_loop_checked dl_new_hash C maskwords shift2 (sorted.drop symndx)
      (List.replicate maskwords 0)
    -- buckets and hash values
    let st0 : BucketState :=
      { previous_bucket := -1
        hash_value_idx := 0
        buckets := List.replicate nb_buckets 0
        hash_values := List.replicate (sorted.length - symndx) 0 }
    match ← bucket_loop_checked dl_new_hash nb_buckets symndx (sorted.drop symndx) st0 with
    | Except.error e => pure (Except.error e)
    | Except.ok st =>
      let hash_values ←
        if st.hash_value_idx > 0 then do
          let w ← checked_get st.hash_values (st.hash_value_idx - 1)
          checked_set st.hash_values (st.hash_value_idx - 1) (w ||| 1)
        else pure st.hash_values
      pure (Except.ok (sorted,
        { nb_buckets := nb_buckets
          symndx := symndx
          maskwords := maskwords
          shift2 := shift2
          bloom_filters := bloom_filters
          buckets := st.buckets
          hash_values := hash_values }))

/-! ## `Builder::array_section` -/

/-- The set `ARRAY_TYPES` of `Builder::array_section`. -/
def ARRAY_TYPES : List ELF_SECTION_TYPES :=
  [ELF_SECTION_TYPES.SHT_INIT_ARRAY, ELF_SECTION_TYPES.SHT_FINI_ARRAY,
   ELF_SECTION_TYPES.SHT_PREINIT_ARRAY]

/-- `Builder::array_section` (Builder.cpp:284-299): the index of the section
the loop returns, `not_found` when it runs to the end. The sum of the address
and the size is a `uint64_t`. -/
def Builder.array_section (bin : Binary) (addr : Nat) : Except Error Nat :=
  match first_index
      (fun sec => decide (sec.virtual_address ≥ addr) &&
        decide (addr < u64 (sec.virtual_address + sec.size)) &&
        decide (ARRAY_TYPES.count sec.type > 0)) bin.sections with
  | some i => Except.ok i
  | none => Except.error Error.not_found

/-! ## The content of a segment -/

/-- The fields `offset_` and `size_` of `DataHandler::Node` (Node.hpp). -/
structure Node where
  offset : Nat
  size : Nat
  deriving DecidableEq, Repr

/-- The data handler a segment is bound to (`datahandler_`): the bytes of the
binary and the lookup `get(offset, size, Node::SEGMENT)`, whose code
(DataHandler/Handler.cpp) is not in the sources and is a field of this
structure. -/
structure Handler where
  content : List Nat
  get : Nat → Nat → Except Error Node

/-- `Segment::physical_size()` (Segment.cpp:160-162). -/
def Segment.physical_size (g : Segment) : Nat := g.size

/-- `Segment::content()` (Segment.cpp:174-194); `datahandler_` is the member of
the segment, `none` for the null pointer. The sum of the offset and the size of
the node is a `uint64_t`. -/
def Segment.content (datahandler_ : Option Handler) (g : Segment) : Except Error (List Nat) :=
  match datahandler_ with
  | none => Except.ok g.content_c
  | some datahandler =>
    match datahandler.get g.file_offset g.physical_size with
    | Except.error e => Except.error e
    | Except.ok node =>
      let binary_content := datahandler.content
      let size := binary_content.length
      if node.offset ≥ size ∨ u64 (node.offset + node.size) ≥ size then
        Except.ok []
      else
        Except.ok ((binary_content.drop node.offset).take node.size)

/-- `Segment::content(const std::vector<uint8_t>&)` for a segment without data
handler (Segment.cpp:358-366). -/
def Segment.content_const_ref (content : List Nat) (g : Segment) : Segment :=
  { g with content_c := content, size := u64 content.length }

/-! ## `Builder::build(const Note&, std::set<Section*>*)` -/

/-- Value of `NOTE_TYPES::NT_GNU_PROPERTY_TYPE_0`. -/
def NT_GNU_PROPERTY_TYPE_0 : Nat := 5

/-- Modelled from the spec: `Binary::has(NOTE_TYPES)`, an accessor of the
object model; whether a note of the binary has this type. -/
def has_note (b : Binary) (type : Nat) : Bool :=
  b.notes.any (fun n => n.type == type)

/-- Modelled from the spec: `Binary::get_section(name)`, an accessor of the
object model; the first section of that name, `not_found` when there is none. -/
def get_section_by_name (b : Binary) (name : String) : Except Error Nat :=
  match first_index (fun s => s.name == name) b.sections with
  | some i => Except.ok i
  | none => Except.error Error.not_found

/-- `Builder::build(const Note&, std::set<Section*>*)` (Builder.cpp:217-281).
`k` is the address `&note`, the key of `notes_off_map_` (the index of the note
in `binary_->notes()`); `sections` is the set behind the pointer, `none` for a
null pointer, with the sections as their indices; `size` is `Note::size()`,
whose code (Note.cpp) is not in the sources. The result is the binary and the
set after the call. -/
def Builder.build_note (note_to_section_map : List (Nat × String)) (size : Note → Nat)
    (lay : ExeLayout) (b : Binary) (k : Nat) (note : Note) (sections : Option (List Nat)) :
    Except Error (Binary × Option (List Nat)) :=
  match sections with
  | none => Except.ok (b, none)
  | some set =>
    match get_segment b SEGMENT_TYPES.PT_NOTE with
    | Except.error e => Except.error e
    | Except.ok note_idx =>
      match b.segments[note_idx]? with
      | none => Except.error Error.not_found
      | some segment_note =>
        let range_secname := equal_range note_to_section_map note.type
        let it_section_name := range_secname.find? (fun p => has_section b p.2)
        let has_section := it_section_name.isSome
        let section_name := Builder.note_section_name note_to_section_map b note
        let it_offset := map_find k lay.notes_off_map
        -- Link section and notes
        if has_note b note.type && has_section then
          match it_offset with
          | none => Except.ok (b, some set)
          | some note_offset =>
            match get_section_by_name b section_name with
            | Except.error e => Except.error e
            | Except.ok sec =>
              if ¬ sec ∈ set then
                let set := set ++ [sec]
                let link : Section → Section := fun s =>
                  { s with
                    offset := u64 (segment_note.file_offset + note_offset)
                    size := u64 (size note)
                    virtual_address := u64 (segment_note.virtual_address + note_offset) }
                let b1 : Binary := { b with sections := modify_at link sec b.sections }
                if note.type == NT_GNU_PROPERTY_TYPE_0 &&
                    has_segment b1 SEGMENT_TYPES.PT_GNU_PROPERTY then
                  match get_segment b1 SEGMENT_TYPES.PT_GNU_PROPERTY, b1.sections[sec]? with
                  | Except.ok gi, some s =>
                    let update : Segment → Segment := fun seg =>
                      { seg with
                        file_offset := s.offset
                        size := s.size
                        virtual_address := s.virtual_address
                        physical_address := s.virtual_address
                        virtual_size := s.size }
                    Except.ok ({ b1 with segments := modify_at update gi b1.segments }, some set)
                  | _, _ => Except.error Error.not_found
                else Except.ok (b1, some set)
              else
                -- We already handled this kind of note
                let extend : Section → Section := fun s =>
                  { s with virtual_address := 0, size := u64 (s.size + size note) }
                Except.ok ({ b with sections := modify_at extend sec b.sections }, some set)
        else Except.ok (b, some set)

/-! ## `ExeLayout::relocate`: the debug string table and the static symbol table -/

/-- The members of the base class `Layout` (Layout.hpp is not in the sources)
used by the string-table pass of `ExeLayout::relocate`: `strtab_section_`
(`none` for a null pointer, else the index of the section in
`binary_->sections_`), the result of `is_strtab_shared_shstrtab()` and
`raw_strtab_`. -/
structure Layout where
  strtab_section : Option Nat := none
  is_strtab_shared_shstrtab : Bool := false
  raw_strtab : List Nat := []
  deriving DecidableEq, Repr

/-- Modelled from the spec: `Binary::remove(const Section&, bool clear)`, whose
code (Binary.cpp) is not in the sources: "deleting the section from the section
list". -/
def Binary.remove (i : Nat) (b : Binary) : Binary :=
  { b with sections := b.sections.eraseIdx i }

/-- Modelled from the spec: `Binary::add(const Section&, /* loaded */ false)`,
whose code (Binary.cpp) is not in the sources: "appending it at the end". The
second component is the index of the section stored in the binary, the one the
returned reference points to. -/
def Binary.add_section (sec : Section) (b : Binary) : Binary × Nat :=
  ({ b with sections := b.sections ++ [sec] }, b.sections.length)

/-- Modelled from the spec: `Binary::has(ELF_SECTION_TYPES)`, an accessor of the
object model; whether a section of the binary has this type. -/
def has_section_type (b : Binary) (t : ELF_SECTION_TYPES) : Bool :=
  b.sections.any (fun s => s.type == t)

/-- Size of `Elf32_Sym` and of `Elf64_Sym`. -/
def sizeof_sym (cls : ELF_CLASS) : Nat :=
  match cls with
  | ELF_CLASS.ELFCLASS32 => 16
  | ELF_CLASS.ELFCLASS64 => 24

/-- The string-table and symbol-table pass of `ExeLayout::relocate`
(ExeLayout.hpp:916-978): the binary, the base members and `strtab_idx` after
it, `none` when the pass ends in `std::abort()`. `content` is
`Section::content(const std::vector<uint8_t>&)`, whose code (Section.cpp) is
not in the sources. -/
def relocate_debug_tables (content : List Nat → Section → Section) (base : Layout)
    (lay : ExeLayout) (b : Binary) : Option (Binary × Layout × Nat) :=
  let strtab_idx := 0
  -- if (relocate_strtab_)
  let r : Option (Binary × Layout × Nat) :=
    if lay.relocate_strtab then
      if base.is_strtab_shared_shstrtab then
        none
      else
        let (b, strtab_idx) :=
          match base.strtab_section with
          | some old =>
            let b := b.remove old
            (b, u64 (b.sections.length + (2 ^ 64 - 1)))
          | none => (b, b.sections.length)
        let strtab : Section := { name := ".strtab", type := ELF_SECTION_TYPES.SHT_STRTAB }
        let strtab := content base.raw_strtab strtab
        let strtab := { strtab with alignment := 1 }
        let (b, new_strtab) := b.add_section strtab
        let b :=
          if has_section_type b ELF_SECTION_TYPES.SHT_SYMTAB then
            match get_section b ELF_SECTION_TYPES.SHT_SYMTAB with
            | Except.ok sec =>
              let relink : Section → Section := fun s => { s with link := u32 strtab_idx }
              { b with sections := modify_at relink sec b.sections }
            | Except.error _ => b
          else b
        some (b, { base with strtab_section := some new_strtab }, strtab_idx)
    else some (b, base, strtab_idx)
  match r with
  | none => none
  | some (b, base, strtab_idx) =>
    -- if (strtab_section_ != nullptr)
    let b :=
      match base.strtab_section with
      | some i => { b with sections := modify_at (content base.raw_strtab) i b.sections }
      | none => b
    -- if (symtab_size_ > 0)
    if lay.symtab_size > 0 then
      let (b, strtab_idx) :=
        if has_section_type b ELF_SECTION_TYPES.SHT_SYMTAB then
          match get_section b ELF_SECTION_TYPES.SHT_SYMTAB with
          | Except.ok sec =>
            let strtab_idx :=
              if strtab_idx = 0 then
                match b.sections[sec]? with
                | some s => s.link
                | none => strtab_idx
              else strtab_idx
            (b.remove sec, strtab_idx)
          | Except.error _ => (b, strtab_idx)
        else (b, strtab_idx)
      let symtab : Section := { name := ".symtab", type := ELF_SECTION_TYPES.SHT_SYMTAB }
      let symtab := content (List.replicate lay.symtab_size 0) symtab
      let symtab := { symtab with entry_size := sizeof_sym b.type }
      let symtab := { symtab with alignment := 8 }
      let symtab := { symtab with link := u32 strtab_idx }
      let (b, _) := b.add_section symtab
      some (b, base, strtab_idx)
    else some (b, base, strtab_idx)

/-! ## `ExeLayout::relocate`: the sections of the notes -/

/-- Value of `ELF_SECTION_FLAGS::SHF_ALLOC`. -/
def SHF_ALLOC : Nat := 2

/-- Modelled from the spec: `Binary::remove_section(name, clear)`, whose code
(Binary.cpp) is not in the sources: the first section of that name is deleted
from the section list, `not_found` when there is none. -/
def Binary.remove_section (name : String) (b : Binary) : Except Error Binary :=
  match first_index (fun s => s.name == name) b.sections with
  | some i => Except.ok (b.remove i)
  | none => Except.error Error.not_found

/-- Modelled from the spec: `Binary::get(NOTE_TYPES)`, an accessor of the
object model; the first note of the type, `not_found` when there is none. -/
def get_note (b : Binary) (type : Nat) : Except Error Note :=
  match b.notes.find? (fun n => n.type == type) with
  | some n => Except.ok n
  | none => Except.error Error.not_found

/-- The loop over the notes of `ExeLayout::relocate` (ExeLayout.hpp:985-1037)
from the note `(k, note)` on, `k` being the address `&note` as the key of
`notes_off_map_`; an exception of an accessor ends it, and so does the `return`
of the missing offset. `size` is `Note::size()`, whose code (Note.cpp) is not
in the sources. -/
def note_sections_loop (note_to_section_map : List (Nat × String)) (size : Note → Nat)
    (lay : ExeLayout) (segment_note : Segment) : List (Nat × Note) → Binary → Except Error Binary
  | [], b => Except.ok b
  | (k, note) :: rest, b =>
    let range_secname := equal_range note_to_section_map note.type
    let type := note.type
    let it_section_name := range_secname.find? (fun p => has_section b p.2)
    let has_section := it_section_name.isSome
    let it_offset := map_find k lay.notes_off_map
    let section_name := ExeLayout.note_section_name note_to_section_map b note
    -- the binary does not have the note type but still has the section
    let removed : Except Error Binary :=
      if !has_note b note.type && has_section then b.remove_section section_name
      else Except.ok b
    match removed with
    | Except.error e => Except.error e
    | Except.ok b =>
      -- the binary has the note type but does not have the section
      if has_note b type && !has_section then
        match it_offset with
        | none => Except.ok b
        | some note_offset =>
          match get_note b type with
          | Except.error e => Except.error e
          | Except.ok note =>
            let sec : Section := { name := section_name, type := ELF_SECTION_TYPES.SHT_NOTE }
            let sec := { sec with flags := sec.flags ||| SHF_ALLOC }
            let (b, section_added) := b.add_section sec
            let set_offset : Section → Section := fun s =>
              { s with offset := u64 (segment_note.file_offset + note_offset) }
            let b := { b with sections := modify_at set_offset section_added b.sections }
            let set_size : Section → Section := fun s => { s with size := u64 (size note) }
            let b := { b with sections := modify_at set_size section_added b.sections }
            -- section.virtual_address(...): on the local object `section`
            let _sec := { sec with
              virtual_address := u64 (segment_note.virtual_address + note_offset) }
            let set_alignment : Section → Section := fun s => { s with alignment := 4 }
            let b := { b with sections := modify_at set_alignment section_added b.sections }
            note_sections_loop note_to_section_map size lay segment_note rest b
      else note_sections_loop note_to_section_map size lay segment_note rest b

/-- The note pass of `ExeLayout::relocate` (ExeLayout.hpp:980-1038). -/
def relocate_note_sections (note_to_section_map : List (Nat × String)) (size : Note → Nat)
    (lay : ExeLayout) (b : Binary) : Except Error Binary :=
  if has_segment b SEGMENT_TYPES.PT_NOTE then
    match get_segment b SEGMENT_TYPES.PT_NOTE with
    | Except.error e => Except.error e
    | Except.ok i =>
      match b.segments[i]? with
      | none => Except.error Error.not_found
      | some segment_note =>
        note_sections_loop note_to_section_map size lay segment_note b.notes.enum b
  else Except.ok b

/-! ## Invariants used in the proofs -/

/-- Invariant of the bucket loop once the symbols `pre` have been processed. -/
structure BucketInv (H : List Nat → Nat) (symndx nb m : Nat) (pre : List Symbol)
    (st : BucketState) : Prop where
  idx : st.hash_value_idx = pre.length
  blen : st.buckets.length = nb
  hlen : st.hash_values.length = m
  prev_nil : pre = [] → st.previous_bucket = -1
  prev_last : ∀ s, pre[pre.length - 1]? = some s →
    st.previous_bucket = ((sym_hash H s % nb : Nat) : Int)
  mono : ∀ (p : Nat) (s : Symbol), pre[p]? = some s → ((sym_hash H s % nb : Nat) : Int) ≤ st.previous_bucket
  hv_div : ∀ (p : Nat) (s : Symbol), pre[p]? = some s → st.hash_values.getD p 0 / 2 = sym_hash H s / 2
  hv_low : ∀ (p : Nat) (s s' : Symbol), pre[p]? = some s → pre[p + 1]? = some s' →
    sym_hash H s % nb = sym_hash H s' % nb → st.hash_values.getD p 0 % 2 = 0
  hv_last : 0 < pre.length → st.hash_values.getD (pre.length - 1) 0 % 2 = 0
  bucket : ∀ (p : Nat) (s : Symbol), pre[p]? = some s →
    ∃ p0, p0 ≤ p ∧ st.buckets.getD (sym_hash H s % nb) 0 = u32 (symndx + p0) ∧
      ∀ (q : Nat) (sq : Symbol), p0 ≤ q → q ≤ p → pre[q]? = some sq → sym_hash H sq % nb = sym_hash H s % nb

/-- Further invariant of the bucket loop once the symbols `pre` have been
processed: a bucket that no processed symbol falls in is still 0, and a hash
value followed by a symbol of another bucket has its low bit set. -/
structure BucketInv2 (H : List Nat → Nat) (nb : Nat) (pre : List Symbol)
    (st : BucketState) : Prop where
  empty : ∀ b : Nat, (∀ (p : Nat) (s : Symbol), pre[p]? = some s → sym_hash H s % nb ≠ b) →
    st.buckets.getD b 0 = 0
  hv_high : ∀ (p : Nat) (s s' : Symbol), pre[p]? = some s → pre[p + 1]? = some s' →
    sym_hash H s % nb ≠ sym_hash H s' % nb → st.hash_values.getD p 0 % 2 = 1

/-- The number of the block of `ExeLayout::relocate` (in the order of `plan`,
from 1) that writes the dynamic entry with this tag; 0 for a tag that no block
writes. -/
def tag_rank : DYNAMIC_TAGS → Nat
  | DYNAMIC_TAGS.DT_SYMTAB => 4
  | DYNAMIC_TAGS.DT_STRTAB => 5
  | DYNAMIC_TAGS.DT_STRSZ => 5
  | DYNAMIC_TAGS.DT_VERSYM => 6
  | DYNAMIC_TAGS.DT_VERDEF => 7
  | DYNAMIC_TAGS.DT_VERNEED => 8
  | DYNAMIC_TAGS.DT_RELA => 9
  | DYNAMIC_TAGS.DT_RELASZ => 9
  | DYNAMIC_TAGS.DT_REL => 9
  | DYNAMIC_TAGS.DT_RELSZ => 9
  | DYNAMIC_TAGS.DT_JMPREL => 10
  | DYNAMIC_TAGS.DT_PLTRELSZ => 10
  | DYNAMIC_TAGS.DT_GNU_HASH => 11
  | DYNAMIC_TAGS.DT_HASH => 12
  | DYNAMIC_TAGS.DT_INIT_ARRAY => 13
  | DYNAMIC_TAGS.DT_INIT_ARRAYSZ => 13
  | DYNAMIC_TAGS.DT_PREINIT_ARRAY => 14
  | DYNAMIC_TAGS.DT_PREINIT_ARRAYSZ => 14
  | DYNAMIC_TAGS.DT_FINI_ARRAY => 15
  | DYNAMIC_TAGS.DT_FINI_ARRAYSZ => 15
  | _ => 0

/-- The dynamic tags `ExeLayout::relocate` patches for a structure of the
binary `b`: the pointer tag and the size tag. -/
def expected_tags (b : Binary) : Structure → Option DYNAMIC_TAGS × Option DYNAMIC_TAGS
  | Structure.interp => (none, none)
  | Structure.notes => (none, none)
  | Structure.dynamic => (none, none)
  | Structure.dynsym => (some DYNAMIC_TAGS.DT_SYMTAB, none)
  | Structure.dynstr => (some DYNAMIC_TAGS.DT_STRTAB, some DYNAMIC_TAGS.DT_STRSZ)
  | Structure.versym => (some DYNAMIC_TAGS.DT_VERSYM, none)
  | Structure.verdef => (some DYNAMIC_TAGS.DT_VERDEF, none)
  | Structure.verneed => (some DYNAMIC_TAGS.DT_VERNEED, none)
  | Structure.dynrel =>
    if has_entry b DYNAMIC_TAGS.DT_RELA then
      (some DYNAMIC_TAGS.DT_RELA, some DYNAMIC_TAGS.DT_RELASZ)
    else (some DYNAMIC_TAGS.DT_REL, some DYNAMIC_TAGS.DT_RELSZ)
  | Structure.pltrel => (some DYNAMIC_TAGS.DT_JMPREL, some DYNAMIC_TAGS.DT_PLTRELSZ)
  | Structure.gnuhash => (some DYNAMIC_TAGS.DT_GNU_HASH, none)
  | Structure.sysvhash => (some DYNAMIC_TAGS.DT_HASH, none)
  | Structure.init_array =>
    (some DYNAMIC_TAGS.DT_INIT_ARRAY, some DYNAMIC_TAGS.DT_INIT_ARRAYSZ)
  | Structure.preinit_array =>
    (some DYNAMIC_TAGS.DT_PREINIT_ARRAY, some DYNAMIC_TAGS.DT_PREINIT_ARRAYSZ)
  | Structure.fini_array =>
    (some DYNAMIC_TAGS.DT_FINI_ARRAY, some DYNAMIC_TAGS.DT_FINI_ARRAYSZ)

/-- The dynamic entries of `bin` agree with the placement `p`: the pointer tag
holds the address given by the cursor and the size tag, when there is one,
holds the size. -/
def TagsConsistent (bin : Binary) (p : Placement) : Prop :=
  (∀ t, p.ptr_tag = some t →
    ∃ e, find_entry t bin.dynamic_entries = some e ∧ e.value = p.address) ∧
  (∀ t, p.size_tag = some t →
    ∃ e, find_entry t bin.dynamic_entries = some e ∧ e.value = p.size)

/-- The section patched for the placement `p` agrees with it: its virtual
address is the address given by the cursor, its file offset is
`virtual_address_to_offset` of that address and its size is the new size. -/
def SectionConsistent (ops : BinaryOps) (bin : Binary) (p : Placement) : Prop :=
  ∀ i, p.section_idx = some i →
    ∃ s, bin.sections[i]? = some s ∧ s.virtual_address = p.address ∧ s.size = p.size ∧
      s.original_size = p.size ∧
      ops.virtual_address_to_offset bin.segments p.address = Except.ok s.offset

/-- The sections patched for the structures that have a pointer tag, in the
order of the placements. -/
def tagged_sections (placed : List Placement) : List Nat :=
  (placed.filter (fun p => p.ptr_tag.isSome)).filterMap (fun p => p.section_idx)

/-- Invariant of `relocate_patch` after block number `k` on the binary `b`. -/
structure PatchInv (ops : BinaryOps) (b : Binary) (k : Nat) (st : RelocState) : Prop where
  ranks : ∀ p ∈ st.placed, ∀ t, (p.ptr_tag = some t ∨ p.size_tag = some t) →
    4 ≤ tag_rank t ∧ tag_rank t ≤ k
  frame : ∀ t, k < tag_rank t →
    find_entry t st.bin.dynamic_entries = find_entry t b.dynamic_entries
  exp_tags : ∀ p ∈ st.placed, expected_tags b p.kind = (p.ptr_tag, p.size_tag)
  tags_ok : ∀ p ∈ st.placed, TagsConsistent st.bin p
  sections_ok : (tagged_sections st.placed).Nodup →
    ∀ p ∈ st.placed, p.ptr_tag ≠ none → SectionConsistent ops st.bin p
  has_section : ∀ p ∈ st.placed, p.ptr_tag ≠ none → p.section_idx ≠ none
  relocations : k ≤ 12 → st.bin.relocations = b.relocations
  file_type : st.bin.file_type = b.file_type
  type : st.bin.type = b.type

/-- What a block that is not taken, or is taken, leaves behind. -/
structure TaggedRun (ops : BinaryOps) (kind : Structure) (ptr_tag : DYNAMIC_TAGS)
    (size_tag : Option DYNAMIC_TAGS) (size : Nat) (st st' : RelocState) : Prop where
  entry : ∃ dt idx off, find_entry ptr_tag st.bin.dynamic_entries = some dt ∧
    ops.section_from_virtual_address st.bin.sections dt.value = Except.ok idx ∧
    idx < st.bin.sections.length ∧
    ops.virtual_address_to_offset st.bin.segments st.va_r_base = Except.ok off ∧
    st'.bin.sections = modify_at (Section.moved st.va_r_base size off) idx st.bin.sections ∧
    st'.placed = st.placed ++
      [{ kind := kind, address := st.va_r_base, size := size,
         section_idx := some idx, ptr_tag := some ptr_tag, size_tag := size_tag }]
  size_entry : ∀ t, size_tag = some t → (find_entry t st.bin.dynamic_entries).isSome = true
  entries : st'.bin.dynamic_entries =
    set_tags ptr_tag size_tag st.va_r_base size st.bin.dynamic_entries
  segments : st'.bin.segments = st.bin.segments
  relocations : st'.bin.relocations = st.bin.relocations
  file_type : st'.bin.file_type = st.bin.file_type
  type : st'.bin.type = st.bin.type
  va_r : st'.va_r_base = u64 (st.va_r_base + size)
  va_rw : st'.va_rw_base = st.va_rw_base

/-- What an array block that is taken leaves behind. -/
structure ArrayRun (ops : BinaryOps) (map : Nat → Option Nat) (kind : Structure)
    (ptr_tag size_tag : DYNAMIC_TAGS) (size : Nat) (st st' : RelocState) : Prop where
  entry : ∃ dt idx off, find_entry ptr_tag st.bin.dynamic_entries = some dt ∧
    idx < st.bin.sections.length ∧
    ops.virtual_address_to_offset st.bin.segments st.va_rw_base = Except.ok off ∧
    st'.bin.sections = modify_at (Section.moved st.va_rw_base size off) idx st.bin.sections ∧
    st'.placed = st.placed ++
      [{ kind := kind, address := st.va_rw_base, size := size,
         section_idx := some idx, ptr_tag := some ptr_tag, size_tag := some size_tag }] ∧
    st'.bin.relocations =
      (if st.bin.file_type = E_TYPE.ET_DYN then
        retarget_array map dt.value st.va_rw_base (sizeof_p st.bin) dt.array.length
          st.bin.relocations
      else st.bin.relocations)
  size_entry : (find_entry size_tag st.bin.dynamic_entries).isSome = true
  entries : st'.bin.dynamic_entries =
    set_tags ptr_tag (some size_tag) st.va_rw_base size st.bin.dynamic_entries
  segments : st'.bin.segments = st.bin.segments
  file_type : st'.bin.file_type = st.bin.file_type
  type : st'.bin.type = st.bin.type
  va_r : st'.va_r_base = st.va_r_base
  va_rw : st'.va_rw_base = u64 (st.va_rw_base + size)

/-- What one of the three segment blocks (interpreter, notes, dynamic table)
leaves behind when it is taken. -/
structure PlainRun (kind : Structure) (va size : Nat) (st st' : RelocState) : Prop where
  placed : ∃ sec, st'.placed = st.placed ++
    [{ kind := kind, address := va, size := size, section_idx := sec }]
  entries : st'.bin.dynamic_entries = st.bin.dynamic_entries
  relocations : st'.bin.relocations = st.bin.relocations
  file_type : st'.bin.file_type = st.bin.file_type
  type : st'.bin.type = st.bin.type

/-- A block places its structure with the cursor of its region. -/
def Absorbs (e : Structure × Bool × Nat) (st st' : RelocState) : Prop :=
  ∀ rest, st.placed.map Placement.triple ++ pack st.va_r_base st.va_rw_base (e :: rest) =
    st'.placed.map Placement.triple ++ pack st'.va_r_base st'.va_rw_base rest

/-- Invariant of the stream and the offset map of `ExeLayout::dynstr_size`,
`m0` being the map at the start of the call: the stream is at its end and a
recorded name is spelled at its offset, or was recorded with it in `m0`. -/
structure StringTableInv (m0 : List (List Nat × Nat))
    (acc : vector_iostream × List (List Nat × Nat)) : Prop where
  at_end : acc.1.current_pos_ = acc.1.raw_.length
  sound : ∀ (s : List Nat) (o : Nat), map_find s acc.2 = some o →
    spells acc.1.raw_ o s ∨ map_find s m0 = some o

/-- The bytes the strings emitted by the optimizer take once written after `base`. -/
def emitted_blob (base : List Nat) (emitted : List (List Nat × Nat)) : List Nat :=
  base ++ (emitted.map (fun e => e.1 ++ [0])).flatten

/-- Invariant of the string table optimizer started at the end of `base`: the
offset counter is the length of the bytes to come, the emitted names are
spelled at their offsets in them, and so are the recorded names that were not
recorded in `m0`. -/
structure OptimizeInv (m0 : List (List Nat × Nat)) (base : List Nat)
    (st : OptimizeState) : Prop where
  counter : st.offset_counter = (emitted_blob base st.emitted).length
  emitted_ok : ∀ e ∈ st.emitted, spells (emitted_blob base st.emitted) e.2 e.1
  sound : ∀ (s : List Nat) (o : Nat), map_find s st.of_map = some o →
    spells (emitted_blob base st.emitted) o s ∨ map_find s m0 = some o

/-! ## Concrete inputs used to run the definitions -/

/-- A local symbol. -/
def ex_local : Symbol := { name := [108], binding := STB_LOCAL, shndx := 0 }

/-- A global symbol defined in section 5. -/
def ex_defined : Symbol := { name := [100], binding := STB_GLOBAL, shndx := 5 }

/-- A global undefined symbol. -/
def ex_undef : Symbol := { name := [117], binding := STB_GLOBAL, shndx := SHN_UNDEF }

/-- A binary whose dynamic symbols are one local, one defined global and one
undefined symbol, in this order. -/
def ex_sym_binary : Binary :=
  { dynamic_symbols := [ex_local, ex_defined, ex_undef]
    sections := [{ name := ".dynsym", type := ELF_SECTION_TYPES.SHT_OTHER 11 }] }

/-- Six dynamic symbols: the null symbol and the names a, b, c, d, ab. -/
def ex_gnu_symbols : List Symbol :=
  [{ name := [], binding := STB_LOCAL, shndx := 0 },
   { name := [97], binding := STB_GLOBAL, shndx := 1 },
   { name := [98], binding := STB_GLOBAL, shndx := 1 },
   { name := [99], binding := STB_GLOBAL, shndx := 1 },
   { name := [100], binding := STB_GLOBAL, shndx := 1 },
   { name := [97, 98], binding := STB_GLOBAL, shndx := 1 }]

/-- The symbols of `ex_gnu_symbols` as reordered for three buckets. -/
def ex_gnu_sorted : List Symbol :=
  [{ name := [], binding := STB_LOCAL, shndx := 0 },
   { name := [99], binding := STB_GLOBAL, shndx := 1 },
   { name := [97], binding := STB_GLOBAL, shndx := 1 },
   { name := [100], binding := STB_GLOBAL, shndx := 1 },
   { name := [98], binding := STB_GLOBAL, shndx := 1 },
   { name := [97, 98], binding := STB_GLOBAL, shndx := 1 }]

/-- The table built from `ex_gnu_symbols` with 3 buckets, 2 bloom words and shift 6. -/
def ex_gnu_table : GnuHashTable :=
  { nb_buckets := 3, symndx := 1, maskwords := 2, shift2 := 6,
    bloom_filters := [1099796841408, 0],
    buckets := [1, 2, 4],
    hash_values := [177673, 177670, 177673, 177670, 5863209] }

/-- An instance of `BinaryOps` used to run the embedding on concrete inputs:
the offset of a virtual address is taken from the first PT_LOAD segment that
contains it, the section of a virtual address is the first one whose range
contains it. -/
def ex_ops : BinaryOps where
  virtual_address_to_offset := fun segments va =>
    match segments.find? (fun g => g.type == SEGMENT_TYPES.PT_LOAD &&
        decide (g.virtual_address ≤ va) && decide (va < g.virtual_address + g.virtual_size)) with
    | some g => Except.ok (va - g.virtual_address + g.file_offset)
    | none => Except.error Error.conversion_error
  section_from_virtual_address := fun sections va =>
    match first_index (fun s => decide (s.virtual_address ≤ va) &&
        decide (va < s.virtual_address + s.size)) sections with
    | some i => Except.ok i
    | none => Except.error Error.not_found

/-- The new read-only segment of the example. -/
def ex_rsegment : Segment :=
  { type := SEGMENT_TYPES.PT_LOAD, flags := PF_R, file_offset := 0x1000,
    virtual_address := 0x2000, virtual_size := 0x6d, size := 0x6d, alignment := 0x1000 }

/-- The new read-write segment of the example. -/
def ex_rwsegment : Segment :=
  { type := SEGMENT_TYPES.PT_LOAD, flags := PF_R + PF_W, file_offset := 0x2000,
    virtual_address := 0x3000, virtual_size := 0x80, size := 0x80, alignment := 0x1000 }

/-- The DT_INIT_ARRAY entry of the example: an array of four pointers at 0x900. -/
def ex_init_entry : DynamicEntry :=
  { tag := DYNAMIC_TAGS.DT_INIT_ARRAY, value := 0x900, array := [0x400, 0x410, 0x420, 0x430] }

/-- A shared object with a dynamic table, a dynamic symbol table, a dynamic
string table, a SysV hash table and an init array of four pointers whose slot 2
carries a relocation. -/
def ex_binary : Binary :=
  { file_type := E_TYPE.ET_DYN
    type := ELF_CLASS.ELFCLASS64
    segments :=
      [{ type := SEGMENT_TYPES.PT_LOAD, flags := PF_R + PF_W, virtual_address := 0,
         virtual_size := 0x1000, size := 0x1000 },
       { type := SEGMENT_TYPES.PT_DYNAMIC, flags := PF_R + PF_W, file_offset := 0x800,
         virtual_address := 0x800, virtual_size := 0x60, size := 0x60, sections := [3] },
       ex_rsegment, ex_rwsegment]
    sections :=
      [{ name := ".hash", virtual_address := 0x100, size := 0x18, offset := 0x100 },
       { name := ".dynsym", virtual_address := 0x200, size := 0x30, offset := 0x200 },
       { name := ".dynstr", type := ELF_SECTION_TYPES.SHT_STRTAB, virtual_address := 0x230,
         size := 0x10, offset := 0x230 },
       { name := ".dynamic", type := ELF_SECTION_TYPES.SHT_DYNAMIC, virtual_address := 0x800,
         size := 0x60, offset := 0x800 },
       { name := ".init_array", type := ELF_SECTION_TYPES.SHT_INIT_ARRAY,
         virtual_address := 0x900, size := 0x20, offset := 0x900 }]
    dynamic_entries :=
      [{ tag := DYNAMIC_TAGS.DT_HASH, value := 0x100 },
       { tag := DYNAMIC_TAGS.DT_SYMTAB, value := 0x200 },
       { tag := DYNAMIC_TAGS.DT_STRTAB, value := 0x230 },
       { tag := DYNAMIC_TAGS.DT_STRSZ, value := 0x10 },
       ex_init_entry,
       { tag := DYNAMIC_TAGS.DT_INIT_ARRAYSZ, value := 0x20 }]
    relocations := [{ address := 0x700 }, { address := 0x910 }] }

/-- The sizes recorded by the size pass for `ex_binary`. -/
def ex_layout : ExeLayout :=
  { raw_dynstr := [0, 97, 0, 98, 0]
    relocate_dynstr := true
    sysv_size := 0x20
    dynamic_size := 0x60
    dynsym_size := 0x48
    init_size := 0x20 }

/-- A binary whose DT_VERSYM entry points into the range `[0x2000, 0x2048)`
that the dynamic symbol table is moved to. -/
def ex_alias_binary : Binary :=
  { file_type := E_TYPE.ET_DYN
    type := ELF_CLASS.ELFCLASS64
    segments :=
      [{ type := SEGMENT_TYPES.PT_LOAD, flags := PF_R, virtual_address := 0,
         virtual_size := 0x1000, size := 0x1000 },
       ex_rsegment]
    sections :=
      [{ name := ".dynsym", virtual_address := 0x200, size := 0x30, offset := 0x200 }]
    dynamic_entries :=
      [{ tag := DYNAMIC_TAGS.DT_SYMTAB, value := 0x200 },
       { tag := DYNAMIC_TAGS.DT_VERSYM, value := 0x2010 }] }

/-- The sizes recorded by the size pass for `ex_alias_binary`. -/
def ex_alias_layout : ExeLayout :=
  { dynsym_size := 0x48
    sver_size := 6 }

/-- The binary `ex_binary` as an executable (file type ET_EXEC). -/
def ex_exec_binary : Binary := { ex_binary with file_type := E_TYPE.ET_EXEC }

/-- The binary `ex_binary` with two relocations on slot 2 of the init array. -/
def ex_dup_binary : Binary :=
  { ex_binary with relocations := [{ address := 0x910 }, { address := 0x910 }] }

/-- A little-endian host, `swap_endian` reversing the bytes of the object. -/
def ex_host : Host :=
  { big_endian := false, swap_endian := fun w v => le_value (le_bytes w v).reverse }

/-- A binary with two notes: name "GNU", type 3 and a description of five
bytes; name "a", type 1 and no description. -/
def ex_note_binary : Binary :=
  { notes := [{ name := [71, 78, 85], type := 3, description := [1, 2, 3, 4, 5] },
              { name := [97], type := 1, description := [] }] }

/-- A big-endian binary with the notes of `ex_note_binary` and the dynamic
symbols of `ex_gnu_symbols`. -/
def ex_big_endian_binary : Binary :=
  { ex_note_binary with
    abstract_endianness := ENDIANNESS.ENDIAN_BIG
    dynamic_symbols := ex_gnu_symbols }

/-- A binary with a needed library "lib", the dynamic symbols "", "ab", "b"
and "ib", and a version requirement on "lib" with the auxiliary name "V1". -/
def ex_str_binary : Binary :=
  { dynamic_entries := [{ tag := DYNAMIC_TAGS.DT_NEEDED, name := [108, 105, 98] }]
    dynamic_symbols :=
      [{ name := [], binding := STB_LOCAL, shndx := 0 },
       { name := [97, 98], binding := STB_GLOBAL, shndx := 1 },
       { name := [98], binding := STB_GLOBAL, shndx := 1 },
       { name := [105, 98], binding := STB_GLOBAL, shndx := 1 }]
    symbols_version_requirement :=
      [{ name := [108, 105, 98], auxiliary_symbols := [[86, 49]] }] }

/-- An object file with a section of 0x100 bytes at offset 0x40, a NOBITS
section beyond it and a last section of 0x20 bytes at offset 0x140; the section
header table is at offset 0x1000. -/
def ex_obj_binary : Binary :=
  { file_type := E_TYPE.ET_REL
    section_headers_offset := 0x1000
    sections :=
      [{ name := ".text", offset := 0x40, size := 0x100 },
       { name := ".bss", type := ELF_SECTION_TYPES.SHT_NOBITS, offset := 0x5000, size := 0x800 },
       { name := ".symtab", type := ELF_SECTION_TYPES.SHT_SYMTAB, offset := 0x140, size := 0x20 }] }

/-- The layout that relocates the first section, with 0x80 bytes needed. -/
def ex_obj_layout : ObjectFileLayout :=
  ({} : ObjectFileLayout).relocate_section 0 0x80

/-- The layout that relocates the first and the last section, with 0x180 and
0x30 bytes needed. -/
def ex_obj_layout2 : ObjectFileLayout :=
  (({} : ObjectFileLayout).relocate_section 0 0x180).relocate_section 2 0x30

/-- A stand-in for `Section::content` used to run the embedding on concrete
inputs: the section is left as it is. -/
def ex_content : List Nat → Section → Section := fun _ s => s

/-- A stand-in for `Binary::add(const Segment&)` used to run the embedding on
concrete inputs: the segment is appended to the segments of the binary. -/
def ex_add : Segment → Binary → Binary × Segment :=
  fun g b => ({ b with segments := b.segments ++ [g] }, g)

/-- A table from note types to section names with two names for type 1 and
one for type 3. -/
def ex_note_map : List (Nat × String) :=
  [(1, ".note.ABI-tag"), (1, ".note.android.ident"), (3, ".note.gnu.build-id")]

/-- A binary with the section `.note.android.ident` only. -/
def ex_note_sections : Binary :=
  { sections := [{ name := ".note.android.ident", type := ELF_SECTION_TYPES.SHT_NOTE }] }

/-- A builder for the object file of `ex_obj_binary` with three built bytes. -/
def ex_builder : Builder :=
  { binary_ := ex_obj_binary
    layout_ := LayoutClass.object_file_layout
    ios_ := { current_pos_ := 3, raw_ := [127, 69, 76] } }

/-- A builder for a big-endian binary with a `.gnu.hash` section of 32 bytes
after another section. -/
def ex_hash_builder : Builder :=
  { binary_ :=
      { abstract_endianness := ENDIANNESS.ENDIAN_BIG
        sections :=
          [{ name := ".text" },
           { name := ".gnu.hash", type := ELF_SECTION_TYPES.SHT_GNU_HASH, size := 32 }] }
    layout_ := LayoutClass.exe_layout }

/-- A binary whose only section is an `.init_array` of 16 bytes at 0x1000. -/
def ex_array_binary : Binary :=
  { sections := [{ name := ".init_array", type := ELF_SECTION_TYPES.SHT_INIT_ARRAY,
                   virtual_address := 0x1000, size := 0x10 }] }

/-- A data handler over `content` with the single node `[offset, offset + size)`
of the segment that asks for it. -/
def ex_handler (content : List Nat) : Handler :=
  { content := content, get := fun offset size => Except.ok { offset := offset, size := size } }

/-- A binary with a PT_NOTE segment at file offset 0x200 and address 0x400200,
the section `.note.gnu.build-id` and two notes of type 3. -/
def ex_two_notes_binary : Binary :=
  { segments := [{ type := SEGMENT_TYPES.PT_NOTE, file_offset := 0x200,
                   virtual_address := 0x400200 }]
    sections := [{ name := ".note.gnu.build-id", type := ELF_SECTION_TYPES.SHT_NOTE }]
    notes := [{ name := [71, 78, 85], type := 3, description := [1, 2, 3, 4, 5] },
              { name := [97], type := 3, description := [] }] }

/-- A layout that records the offsets 0x10 and 0x28 for the notes 0 and 1. -/
def ex_two_notes_layout : ExeLayout :=
  { notes_off_map := [(0, 0x10), (1, 0x28)] }

/-- A binary with the sections "", `.symtab` (linked to the section 2),
`.strtab` and `.shstrtab`. -/
def ex_debug_binary : Binary :=
  { sections := [{ name := "", type := ELF_SECTION_TYPES.SHT_NULL },
                 { name := ".symtab", type := ELF_SECTION_TYPES.SHT_SYMTAB, link := 2 },
                 { name := ".strtab", type := ELF_SECTION_TYPES.SHT_STRTAB },
                 { name := ".shstrtab", type := ELF_SECTION_TYPES.SHT_STRTAB }] }

/-- The base members for `ex_debug_binary`: `strtab_section_` points to the
section 2 and the new string table has three bytes. -/
def ex_debug_base : Layout :=
  { strtab_section := some 2, raw_strtab := [0, 97, 0] }

/-- The names and the links of the sections of the binary a pass returns. -/
def names_and_links (r : Option (Binary × Layout × Nat)) : List (String × Nat) :=
  match r with
  | some (b, _, _) => b.sections.map (fun s => (s.name, s.link))
  | none => []

/-- A binary with a PT_NOTE segment at file offset 0x200 and address 0x400200,
a note of type 3 and of size 24, and no section for it. -/
def ex_new_note_binary : Binary :=
  { segments := [{ type := SEGMENT_TYPES.PT_NOTE, file_offset := 0x200,
                   virtual_address := 0x400200 }]
    sections := [{ name := "", type := ELF_SECTION_TYPES.SHT_NULL }]
    notes := [{ name := [71, 78, 85], type := 3, description := [1, 2, 3, 4, 5] }] }

/-! # Theorems -/

/-! ## The symbol partitioner -/

theorem sort_dynamic_symbols_eq (b : Binary) :
    (sort_dynamic_symbols b).1.dynamic_symbols =
      b.dynamic_symbols.filter is_local ++
        ((b.dynamic_symbols.filter (fun s => !is_local s)).filter is_undef ++
         (b.dynamic_symbols.filter (fun s => !is_local s)).filter (fun s => !is_undef s)) := by
  simp [sort_dynamic_symbols, stable_partition]

theorem sort_dynamic_symbols_perm (b : Binary) :
    List.Perm (sort_dynamic_symbols b).1.dynamic_symbols b.dynamic_symbols := by
  rw [sort_dynamic_symbols_eq]
  refine List.Perm.trans ?_ (List.filter_append_perm is_local b.dynamic_symbols)
  exact List.Perm.append_left _ (List.filter_append_perm is_undef _)

theorem getElem?_append_sep {α : Type} (p : α → Prop) (A B : List α)
    (hA : ∀ a ∈ A, p a) (hB : ∀ a ∈ B, ¬ p a) (i j : Nat) (x y : α)
    (hi : (A ++ B)[i]? = some x) (hj : (A ++ B)[j]? = some y)
    (hx : p x) (hy : ¬ p y) : i < j := by
  by_contra hij
  push_neg at hij
  by_cases hiA : i < A.length
  · have hjA : j < A.length := lt_of_le_of_lt hij hiA
    rw [List.getElem?_append_left hjA] at hj
    exact hy (hA y (List.getElem?_mem hj))
  · push_neg at hiA
    rw [List.getElem?_append_right hiA] at hi
    exact hB x (List.getElem?_mem hi) hx

/-- C2. After `Builder::sort_dynamic_symbols`, every symbol with local binding
is at a lower index than every symbol with non-local binding. -/
theorem sort_dynamic_symbols_local_before_non_local (b : Binary) (i j : Nat) (si sj : Symbol)
    (hi : (sort_dynamic_symbols b).1.dynamic_symbols[i]? = some si)
    (hj : (sort_dynamic_symbols b).1.dynamic_symbols[j]? = some sj)
    (hl : si.binding = STB_LOCAL) (hn : sj.binding ≠ STB_LOCAL) : i < j := by
  rw [sort_dynamic_symbols_eq] at hi hj
  refine getElem?_append_sep (fun s => is_local s = true) _ _ ?_ ?_ i j si sj hi hj ?_ ?_
  · intro a ha
    exact (List.mem_filter.mp ha).2
  · intro a ha
    rcases List.mem_append.mp ha with h | h
    · have := (List.mem_filter.mp (List.mem_filter.mp h).1).2
      simpa using this
    · have := (List.mem_filter.mp (List.mem_filter.mp h).1).2
      simpa using this
  · simp [is_local, hl]
  · simp [is_local, hn]

theorem sort_dynamic_symbols_local_before_non_local_witness :
    (sort_dynamic_symbols ex_sym_binary).1.dynamic_symbols[0]? = some ex_local ∧
    (sort_dynamic_symbols ex_sym_binary).1.dynamic_symbols[2]? = some ex_defined ∧
    ex_local.binding = STB_LOCAL ∧ ex_defined.binding ≠ STB_LOCAL ∧ 0 < 2 :=
  ⟨by decide, by decide, by decide, by decide,
    sort_dynamic_symbols_local_before_non_local ex_sym_binary 0 2 ex_local ex_defined
      (by decide) (by decide) (by decide) (by decide)⟩

/-- C3, counterexample. On the list [local, defined global, undefined] the
reordered list is [local, undefined, defined global]: the defined global
symbol (index 2) does not come before the undefined one (index 1). -/
theorem sort_dynamic_symbols_defined_first_counterexample :
    (sort_dynamic_symbols ex_sym_binary).1.dynamic_symbols ≠ [ex_local, ex_defined, ex_undef] ∧
    ¬ (∀ (i j : Nat) (si sj : Symbol),
        (sort_dynamic_symbols ex_sym_binary).1.dynamic_symbols[i]? = some si →
        (sort_dynamic_symbols ex_sym_binary).1.dynamic_symbols[j]? = some sj →
        si.binding ≠ STB_LOCAL → si.shndx ≠ SHN_UNDEF →
        sj.binding ≠ STB_LOCAL → sj.shndx = SHN_UNDEF → i < j) := by
  refine ⟨by decide, fun h => ?_⟩
  have := h 2 1 ex_defined ex_undef (by decide) (by decide) (by decide) (by decide)
    (by decide) (by decide)
  omega

/-- C3, amended. After `Builder::sort_dynamic_symbols` every non-local
undefined symbol (shndx = SHN_UNDEF) is at a lower index than every non-local
symbol defined in some section; a list [local, defined global, undefined]
ends up in the order [local, undefined, defined global]. -/
theorem sort_dynamic_symbols_undefined_before_defined :
    (∀ (b : Binary) (i j : Nat) (si sj : Symbol),
        (sort_dynamic_symbols b).1.dynamic_symbols[i]? = some si →
        (sort_dynamic_symbols b).1.dynamic_symbols[j]? = some sj →
        si.binding ≠ STB_LOCAL → si.shndx ≠ SHN_UNDEF →
        sj.binding ≠ STB_LOCAL → sj.shndx = SHN_UNDEF → j < i) ∧
    (∀ (b : Binary) (l d u : Symbol), b.dynamic_symbols = [l, d, u] →
        l.binding = STB_LOCAL →
        d.binding ≠ STB_LOCAL → d.shndx ≠ SHN_UNDEF →
        u.binding ≠ STB_LOCAL → u.shndx = SHN_UNDEF →
        (sort_dynamic_symbols b).1.dynamic_symbols = [l, u, d]) := by
  constructor
  · intro b i j si sj hi hj hil hid hjl hju
    rw [sort_dynamic_symbols_eq, ← List.append_assoc] at hi hj
    refine getElem?_append_sep (fun s => is_local s = true ∨ is_undef s = true) _ _ ?_ ?_
      j i sj si hj hi ?_ ?_
    · intro a ha
      rcases List.mem_append.mp ha with h | h
      · exact Or.inl (List.mem_filter.mp h).2
      · exact Or.inr (List.mem_filter.mp h).2
    · intro a ha
      have h1 := (List.mem_filter.mp (List.mem_filter.mp ha).1).2
      have h2 := (List.mem_filter.mp ha).2
      simp at h1 h2
      simp [h1, h2]
    · exact Or.inr (by simp [is_undef, hju])
    · simp [is_local, is_undef, hil, hid]
  · intro b l d u hb hl hd hdd hu huu
    rw [sort_dynamic_symbols_eq, hb]
    simp [List.filter_cons, is_local, is_undef, hl, hd, hdd, hu, huu]

theorem sort_dynamic_symbols_undefined_before_defined_witness :
    (sort_dynamic_symbols ex_sym_binary).1.dynamic_symbols[2]? = some ex_defined ∧
    (sort_dynamic_symbols ex_sym_binary).1.dynamic_symbols[1]? = some ex_undef ∧
    1 < 2 ∧
    (sort_dynamic_symbols ex_sym_binary).1.dynamic_symbols = [ex_local, ex_undef, ex_defined] :=
  ⟨by decide, by decide,
    sort_dynamic_symbols_undefined_before_defined.1 ex_sym_binary 2 1 ex_defined ex_undef
      (by decide) (by decide) (by decide) (by decide) (by decide) (by decide),
    sort_dynamic_symbols_undefined_before_defined.2 ex_sym_binary ex_local ex_defined ex_undef
      rfl (by decide) (by decide) (by decide) (by decide) (by decide)⟩

/-- C4. `Builder::sort_dynamic_symbols` is a stable partition: the result is a
permutation of the input, and the local symbols, the non-local defined
symbols and the non-local undefined symbols each appear in the same relative
order as in the input. -/
theorem sort_dynamic_symbols_stable (b : Binary) :
    List.Perm (sort_dynamic_symbols b).1.dynamic_symbols b.dynamic_symbols ∧
    (sort_dynamic_symbols b).1.dynamic_symbols.filter is_local =
      b.dynamic_symbols.filter is_local ∧
    (sort_dynamic_symbols b).1.dynamic_symbols.filter (fun s => !is_local s && !is_undef s) =
      b.dynamic_symbols.filter (fun s => !is_local s && !is_undef s) ∧
    (sort_dynamic_symbols b).1.dynamic_symbols.filter (fun s => !is_local s && is_undef s) =
      b.dynamic_symbols.filter (fun s => !is_local s && is_undef s) := by
  refine ⟨sort_dynamic_symbols_perm b, ?_, ?_, ?_⟩
  · rw [sort_dynamic_symbols_eq]
    simp only [List.filter_append, List.filter_filter]
    have h1 : ∀ (l : List Symbol),
        l.filter (fun a => is_local a && (is_undef a && !is_local a)) = [] := by
      intro l
      rw [List.filter_eq_nil_iff]
      intro a _
      cases is_local a <;> simp
    have h2 : ∀ (l : List Symbol),
        l.filter (fun a => is_local a && (!is_undef a && !is_local a)) = [] := by
      intro l
      rw [List.filter_eq_nil_iff]
      intro a _
      cases is_local a <;> simp
    simp [h1, h2]
  · rw [sort_dynamic_symbols_eq]
    simp only [List.filter_append, List.filter_filter]
    have h1 : ∀ (l : List Symbol),
        l.filter (fun a => (!is_local a && !is_undef a) && is_local a) = [] := by
      intro l
      rw [List.filter_eq_nil_iff]
      intro a _
      cases is_local a <;> simp
    have h2 : ∀ (l : List Symbol),
        l.filter (fun a => (!is_local a && !is_undef a) && (is_undef a && !is_local a)) = [] := by
      intro l
      rw [List.filter_eq_nil_iff]
      intro a _
      cases is_local a <;> cases is_undef a <;> simp
    rw [h1, h2]
    simp only [List.nil_append]
    congr 1
    funext a
    cases is_local a <;> cases is_undef a <;> rfl
  · rw [sort_dynamic_symbols_eq]
    simp only [List.filter_append, List.filter_filter]
    have h1 : ∀ (l : List Symbol),
        l.filter (fun a => (!is_local a && is_undef a) && is_local a) = [] := by
      intro l
      rw [List.filter_eq_nil_iff]
      intro a _
      cases is_local a <;> simp
    have h2 : ∀ (l : List Symbol),
        l.filter (fun a => (!is_local a && is_undef a) && (!is_undef a && !is_local a)) = [] := by
      intro l
      rw [List.filter_eq_nil_iff]
      intro a _
      cases is_local a <;> cases is_undef a <;> simp
    rw [h1, h2]
    simp only [List.nil_append, List.append_nil]
    congr 1
    funext a
    cases is_local a <;> cases is_undef a <;> rfl

/-! ## The GNU hash table -/

/-! ## Bit-level facts -/

theorem u32_lt (n : Nat) : u32 n < 2 ^ 32 := Nat.mod_lt _ (by decide)

theorem u32_of_lt {n : Nat} (h : n < 2 ^ 32) : u32 n = n := Nat.mod_eq_of_lt h

theorem or_one_div_two (x : Nat) : (x ||| 1) / 2 = x / 2 := by
  apply Nat.eq_of_testBit_eq
  intro i
  rw [← Nat.testBit_succ, ← Nat.testBit_succ, Nat.testBit_or]
  simp [Nat.testBit_succ]

theorem or_one_mod_two (x : Nat) : (x ||| 1) % 2 = 1 := by
  have h := Nat.testBit_or x 1 0
  rw [Nat.testBit_zero, Nat.testBit_zero, Nat.testBit_zero] at h
  have h1 : decide ((1:Nat) % 2 = 1) = true := by decide
  rw [h1, Bool.or_true] at h
  exact of_decide_eq_true h

theorem and_mask_div_two (h : Nat) (hh : h < 2 ^ 32) : (h &&& 0xFFFFFFFE) / 2 = h / 2 := by
  apply Nat.eq_of_testBit_eq
  intro i
  rw [← Nat.testBit_succ, ← Nat.testBit_succ, Nat.testBit_and]
  by_cases hi : i < 31
  · have : (0xFFFFFFFE : Nat).testBit (i + 1) = true := by
      rw [Nat.testBit_succ]
      show (2 ^ 31 - 1 : Nat).testBit i = true
      rw [Nat.testBit_two_pow_sub_one]
      simpa using hi
    simp [this]
  · have : h.testBit (i + 1) = false := by
      apply Nat.testBit_lt_two_pow
      calc h < 2 ^ 32 := hh
        _ ≤ 2 ^ (i + 1) := Nat.pow_le_pow_right (by decide) (by omega)
    simp [this]

theorem and_mask_mod_two (h : Nat) : (h &&& 0xFFFFFFFE) % 2 = 0 := by
  have h0 := Nat.testBit_and h 0xFFFFFFFE 0
  rw [Nat.testBit_zero, Nat.testBit_zero, Nat.testBit_zero] at h0
  have h1 : decide ((0xFFFFFFFE:Nat) % 2 = 1) = false := by decide
  rw [h1, Bool.and_false] at h0
  have := of_decide_eq_false h0
  omega

theorem getD_set_eq {l : List Nat} {i : Nat} (v : Nat) (h : i < l.length) :
    (l.set i v).getD i 0 = v := by
  simp [List.getD_eq_getElem?_getD, List.getElem?_set, h]

theorem getD_set_ne {l : List Nat} {i j : Nat} (v : Nat) (h : i ≠ j) :
    (l.set i v).getD j 0 = l.getD j 0 := by
  simp [List.getD_eq_getElem?_getD, List.getElem?_set, h]

/-! ## The bloom loop -/

theorem bloom_step_length (H : List Nat → Nat) (C mw s2 : Nat) (bl : List Nat) (s : Symbol) :
    (bloom_step H C mw s2 bl s).length = bl.length := by
  simp [bloom_step]

theorem bloom_fold_getD (H : List Nat → Nat) (C mw s2 : Nat) (l : List Symbol) :
    ∀ (bl : List Nat) (i : Nat), i < bl.length →
      (l.foldl (bloom_step H C mw s2) bl).getD i 0 =
        bl.getD i 0 ||| or_all
          ((l.filter (fun s => bloom_pos C mw (sym_hash H s) == i)).map
            (fun s => bloom_bits C s2 (sym_hash H s))) := by
  induction l with
  | nil => intro bl i _; simp [or_all]
  | cons s rest ih =>
    intro bl i hi
    rw [List.foldl_cons, ih _ i (by rw [bloom_step_length]; exact hi)]
    by_cases hp : bloom_pos C mw (sym_hash H s) = i
    · have hf : (bloom_pos C mw (sym_hash H s) == i) = true := by simp [hp]
      simp only [List.filter_cons, hf, if_true, List.map_cons, or_all, List.foldr_cons]
      have : (bloom_step H C mw s2 bl s).getD i 0 =
          bl.getD i 0 ||| bloom_bits C s2 (sym_hash H s) := by
        simp only [bloom_step, hp]
        exact getD_set_eq _ hi
      rw [this, Nat.lor_assoc]
    · have hf : (bloom_pos C mw (sym_hash H s) == i) = false := by simp [hp]
      simp only [List.filter_cons, hf, Bool.false_eq_true, if_false]
      have : (bloom_step H C mw s2 bl s).getD i 0 = bl.getD i 0 := by
        simp only [bloom_step]
        exact getD_set_ne _ hp
      rw [this]

theorem getElem?_snoc_cases {α : Type} (pre : List α) (s t : α) (p : Nat)
    (h : (pre ++ [s])[p]? = some t) :
    (p < pre.length ∧ pre[p]? = some t) ∨ (p = pre.length ∧ t = s) := by
  by_cases hp : p < pre.length
  · rw [List.getElem?_append_left hp] at h
    exact Or.inl ⟨hp, h⟩
  · push_neg at hp
    rw [List.getElem?_append_right hp] at h
    right
    by_cases h0 : p - pre.length = 0
    · rw [h0] at h
      simp at h
      exact ⟨by omega, h.symm⟩
    · obtain ⟨k, hk⟩ := Nat.exists_eq_succ_of_ne_zero h0
      rw [hk] at h
      simp at h

theorem sym_hash_lt (H : List Nat → Nat) (s : Symbol) : sym_hash H s < 2 ^ 32 := u32_lt _

theorem toInt32_of_lt {x : Nat} (h : x < 2 ^ 31) : toInt32 x = (x : Int) := by
  have h1 : u32 x = x := u32_of_lt (by omega)
  simp only [toInt32, h1, if_pos h]

theorem toInt32_of_ge {x : Nat} (h : 2 ^ 31 ≤ x) (h2 : x < 2 ^ 32 - 1) : toInt32 x < -1 := by
  have h1 : u32 x = x := u32_of_lt (by omega)
  have h3 : ¬ x < 2 ^ 31 := by omega
  simp only [toInt32, h1, h3, if_false]
  omega

theorem bucket_inv_init (H : List Nat → Nat) (symndx nb m : Nat) :
    BucketInv H symndx nb m []
      { previous_bucket := -1, hash_value_idx := 0, buckets := List.replicate nb 0,
        hash_values := List.replicate m 0 } where
  idx := rfl
  blen := by simp
  hlen := by simp
  prev_nil := fun _ => rfl
  prev_last := by intro s h; simp at h
  mono := by intro p s h; simp at h
  hv_div := by intro p s h; simp at h
  hv_low := by intro p s s' h; simp at h
  hv_last := by intro h; simp at h
  bucket := by intro p s h; simp at h

theorem getElem?_snoc_old {α : Type} (pre : List α) (s : α) (p : Nat) (hp : p < pre.length) :
    (pre ++ [s])[p]? = pre[p]? := List.getElem?_append_left hp

theorem bucket_step_inv (H : List Nat → Nat) (symndx nb m : Nat) (hnb1 : 1 ≤ nb)
    (hnb : nb < 2 ^ 32) (pre : List Symbol) (s : Symbol) (st st' : BucketState)
    (hinv : BucketInv H symndx nb m pre st) (hm : pre.length < m)
    (hstep : bucket_step H nb (symndx + pre.length) s st = Except.ok st') :
    BucketInv H symndx nb m (pre ++ [s]) st' := by
  have hx : sym_hash H s % nb < nb := Nat.mod_lt _ (by omega)
  have hlast : 0 < pre.length → ∃ s0, pre[pre.length - 1]? = some s0 := by
    intro h
    exact ⟨pre[pre.length - 1], List.getElem?_eq_getElem (by omega)⟩
  have hprev : (-1 : Int) ≤ st.previous_bucket := by
    by_cases h0 : pre.length = 0
    · rw [hinv.prev_nil (List.length_eq_zero.mp h0)]
    · obtain ⟨s0, hs0⟩ := hlast (by omega)
      rw [hinv.prev_last s0 hs0]
      omega
  have hidx := hinv.idx
  have hhl := hinv.hlen
  simp only [bucket_step, hidx] at hstep
  by_cases hlt : toInt32 (sym_hash H s % nb) < st.previous_bucket
  · rw [if_pos hlt] at hstep
    cases hstep
  rw [if_neg hlt] at hstep
  have hx31 : sym_hash H s % nb < 2 ^ 31 := by
    by_contra hc
    have := toInt32_of_ge (le_of_not_lt hc) (by omega)
    omega
  have hti := toInt32_of_lt hx31
  rw [hti] at hstep hlt
  have hst' := Except.ok.inj hstep
  by_cases hne : ((sym_hash H s % nb : Nat) : Int) ≠ st.previous_bucket
  · -- a new bucket starts
    rw [if_pos hne] at hst'
    simp only [Int.toNat_ofNat] at hst'
    have hgt : st.previous_bucket < ((sym_hash H s % nb : Nat) : Int) := by omega
    have hold : ∀ (p : Nat) (sp : Symbol), pre[p]? = some sp →
        sym_hash H sp % nb ≠ sym_hash H s % nb := by
      intro p sp hp heq
      have := hinv.mono p sp hp
      rw [heq] at this
      omega
    -- the hash values after the optional terminator mark
    have hv1len : (if pre.length > 0 then
          st.hash_values.set (pre.length - 1)
            (st.hash_values.getD (pre.length - 1) 0 ||| 1)
        else st.hash_values).length = m := by
      split <;> simp [hhl]
    have hv1div : ∀ p, (if pre.length > 0 then
          st.hash_values.set (pre.length - 1)
            (st.hash_values.getD (pre.length - 1) 0 ||| 1)
        else st.hash_values).getD p 0 / 2 = st.hash_values.getD p 0 / 2 := by
      intro p
      split
      · by_cases hp : pre.length - 1 = p
        · subst hp
          by_cases hin : pre.length - 1 < st.hash_values.length
          · rw [getD_set_eq _ hin, or_one_div_two]
          · have hn : st.hash_values[pre.length - 1]? = none := List.getElem?_eq_none (by omega)
            simp [List.getD_eq_getElem?_getD, List.getElem?_set, hin, hn]
        · rw [getD_set_ne _ hp]
      · rfl
    have hv1low : ∀ p, p + 1 < pre.length → (if pre.length > 0 then
          st.hash_values.set (pre.length - 1)
            (st.hash_values.getD (pre.length - 1) 0 ||| 1)
        else st.hash_values).getD p 0 = st.hash_values.getD p 0 := by
      intro p hp
      split
      · rw [getD_set_ne _ (by omega)]
      · rfl
    subst hst'
    refine ⟨?_, ?_, ?_, ?_, ?_, ?_, ?_, ?_, ?_, ?_⟩
    · simp
    · simp [hinv.blen]
    · simp only [List.length_set]; exact hv1len
    · intro h; simp at h
    · intro s0 h0
      simp at h0
      rw [← h0]
    · intro p sp hp
      rcases getElem?_snoc_cases pre s sp p hp with ⟨_, h⟩ | ⟨_, h⟩
      · have := hinv.mono p sp h
        show ((sym_hash H sp % nb : Nat) : Int) ≤ ((sym_hash H s % nb : Nat) : Int)
        omega
      · subst h
        exact le_refl _
    · intro p sp hp
      show (List.set _ pre.length _).getD p 0 / 2 = _
      rcases getElem?_snoc_cases pre s sp p hp with ⟨hlt', h⟩ | ⟨hp', h⟩
      · rw [getD_set_ne _ (by omega), hv1div]
        exact hinv.hv_div p sp h
      · subst h
        rw [hp', getD_set_eq _ (by rw [hv1len]; exact hm)]
        exact and_mask_div_two _ (sym_hash_lt H sp)
    · intro p sp sp' hp hp' hkey
      show (List.set _ pre.length _).getD p 0 % 2 = 0
      rcases getElem?_snoc_cases pre s sp' (p + 1) hp' with ⟨hlt', h'⟩ | ⟨hpn, h'⟩
      · rw [getElem?_snoc_old pre s p (by omega)] at hp
        rw [getD_set_ne _ (by omega), hv1low p hlt']
        exact hinv.hv_low p sp sp' hp h' hkey
      · subst h'
        rw [getElem?_snoc_old pre sp' p (by omega)] at hp
        exact absurd hkey (hold p sp hp)
    · intro _
      show (List.set _ pre.length _).getD ((pre ++ [s]).length - 1) 0 % 2 = 0
      have : (pre ++ [s]).length - 1 = pre.length := by simp
      rw [this, getD_set_eq _ (by rw [hv1len]; exact hm)]
      exact and_mask_mod_two _
    · intro p sp hp
      show ∃ p0, p0 ≤ p ∧ (List.set st.buckets _ _).getD _ 0 = _ ∧ _
      rcases getElem?_snoc_cases pre s sp p hp with ⟨hlt', h⟩ | ⟨hp', h⟩
      · obtain ⟨p0, hp0, hb, hbetween⟩ := hinv.bucket p sp h
        refine ⟨p0, hp0, ?_, ?_⟩
        · rw [getD_set_ne _ (Ne.symm (hold p sp h))]
          exact hb
        · intro q sq hq1 hq2 hq
          rw [getElem?_snoc_old pre s q (by omega)] at hq
          exact hbetween q sq hq1 hq2 hq
      · subst h
        refine ⟨p, le_refl _, ?_, ?_⟩
        · rw [getD_set_eq _ (by rw [hinv.blen]; exact hx), hp']
        · intro q sq hq1 hq2 hq
          have hqp : q = p := by omega
          rw [hqp, hp] at hq
          rw [← Option.some.inj hq]
  · -- same bucket as the previous symbol
    rw [if_neg hne] at hst'
    simp only [hidx] at hst'
    have heq : ((sym_hash H s % nb : Nat) : Int) = st.previous_bucket := by
      by_contra h; exact hne h
    have hpos : 0 < pre.length := by
      by_contra h0
      have := hinv.prev_nil (List.length_eq_zero.mp (by omega))
      omega
    obtain ⟨s0, hs0⟩ := hlast hpos
    have hkey0 : sym_hash H s0 % nb = sym_hash H s % nb := by
      have := hinv.prev_last s0 hs0
      omega
    subst hst'
    refine ⟨?_, ?_, ?_, ?_, ?_, ?_, ?_, ?_, ?_, ?_⟩
    · simp
    · exact hinv.blen
    · simp only [List.length_set]; exact hhl
    · intro h; simp at h
    · intro s1 h1
      simp at h1
      rw [← h1]
      exact heq.symm
    · intro p sp hp
      rcases getElem?_snoc_cases pre s sp p hp with ⟨_, h⟩ | ⟨_, h⟩
      · exact hinv.mono p sp h
      · subst h
        exact le_of_eq heq
    · intro p sp hp
      show (List.set _ pre.length _).getD p 0 / 2 = _
      rcases getElem?_snoc_cases pre s sp p hp with ⟨hlt', h⟩ | ⟨hp', h⟩
      · rw [getD_set_ne _ (by omega)]
        exact hinv.hv_div p sp h
      · subst h
        rw [hp', getD_set_eq _ (by rw [hhl]; exact hm)]
        exact and_mask_div_two _ (sym_hash_lt H sp)
    · intro p sp sp' hp hp' hkey
      show (List.set _ pre.length _).getD p 0 % 2 = 0
      rw [getD_set_ne _ (by
        have := (List.getElem?_eq_some_iff.mp hp').1
        simp at this
        omega)]
      rcases getElem?_snoc_cases pre s sp' (p + 1) hp' with ⟨hlt', h'⟩ | ⟨hpn, h'⟩
      · rw [getElem?_snoc_old pre s p (by omega)] at hp
        exact hinv.hv_low p sp sp' hp h' hkey
      · have : p = pre.length - 1 := by omega
        rw [this]
        exact hinv.hv_last hpos
    · intro _
      show (List.set _ pre.length _).getD ((pre ++ [s]).length - 1) 0 % 2 = 0
      have : (pre ++ [s]).length - 1 = pre.length := by simp
      rw [this, getD_set_eq _ (by rw [hhl]; exact hm)]
      exact and_mask_mod_two _
    · intro p sp hp
      rcases getElem?_snoc_cases pre s sp p hp with ⟨hlt', h⟩ | ⟨hp', h⟩
      · obtain ⟨p0, hp0, hb, hbetween⟩ := hinv.bucket p sp h
        refine ⟨p0, hp0, hb, ?_⟩
        intro q sq hq1 hq2 hq
        rw [getElem?_snoc_old pre s q (by omega)] at hq
        exact hbetween q sq hq1 hq2 hq
      · subst h
        obtain ⟨p0, hp0, hb, hbetween⟩ := hinv.bucket (pre.length - 1) s0 hs0
        refine ⟨p0, by omega, ?_, ?_⟩
        · rw [← hkey0]
          exact hb
        · intro q sq hq1 hq2 hq
          rcases getElem?_snoc_cases pre sp sq q hq with ⟨hq', h⟩ | ⟨_, h⟩
          · rw [← hkey0]
            exact hbetween q sq hq1 (by omega) h
          · rw [h]

theorem bucket_loop_inv (H : List Nat → Nat) (symndx nb m : Nat) (hnb1 : 1 ≤ nb)
    (hnb : nb < 2 ^ 32) (suf : List Symbol) :
    ∀ (pre : List Symbol) (st st' : BucketState),
      BucketInv H symndx nb m pre st → pre.length + suf.length ≤ m →
      bucket_loop H nb (symndx + pre.length) suf st = Except.ok st' →
      BucketInv H symndx nb m (pre ++ suf) st' := by
  induction suf with
  | nil =>
    intro pre st st' hinv _ h
    simp only [bucket_loop] at h
    rw [List.append_nil, ← Except.ok.inj h]
    exact hinv
  | cons s rest ih =>
    intro pre st st' hinv hm h
    simp only [bucket_loop] at h
    rw [List.length_cons] at hm
    cases hstep : bucket_step H nb (symndx + pre.length) s st with
    | error e => rw [hstep] at h; cases h
    | ok st1 =>
      rw [hstep] at h
      have h1 := bucket_step_inv H symndx nb m hnb1 hnb pre s st st1 hinv (by omega) hstep
      have := ih (pre ++ [s]) st1 st' h1 (by simp; omega)
        (by rw [List.length_append, List.length_singleton, ← Nat.add_assoc]; exact h)
      rw [List.append_assoc] at this
      exact this

theorem insert_sorted_perm {α : Type} (lt : α → α → Bool) (x : α) (l : List α) :
    List.Perm (insert_sorted lt x l) (x :: l) := by
  induction l with
  | nil => exact List.Perm.refl _
  | cons y ys ih =>
    simp only [insert_sorted]
    split
    · exact (List.Perm.cons y ih).trans (List.Perm.swap x y ys)
    · exact List.Perm.refl _

theorem stable_sort_perm {α : Type} (lt : α → α → Bool) (l : List α) :
    List.Perm (stable_sort lt l) l := by
  induction l with
  | nil => exact List.Perm.refl _
  | cons x xs ih =>
    simp only [stable_sort]
    exact (insert_sorted_perm lt x _).trans (List.Perm.cons x ih)

theorem stable_sort_length {α : Type} (lt : α → α → Bool) (l : List α) :
    (stable_sort lt l).length = l.length := (stable_sort_perm lt l).length_eq

/-- The value of `symndx` used by `symbol_gnu_hash_build`. -/
theorem symbol_gnu_hash_build_ok (dl_new_hash : List Nat → Nat) (cls : ELF_CLASS)
    (gnu_hash : GnuHash) (new_symndx : Int) (dynamic_symbols syms' : List Symbol)
    (t : GnuHashTable)
    (h : symbol_gnu_hash_build dl_new_hash cls gnu_hash new_symndx dynamic_symbols =
      Except.ok (syms', t)) :
    t.nb_buckets = u32 gnu_hash.nb_buckets ∧
    t.maskwords = u32 gnu_hash.maskwords ∧
    t.shift2 = u32 gnu_hash.shift2 ∧
    t.symndx = (if new_symndx ≥ 0 then u32 new_symndx.toNat else 0) ∧
    syms' = dynamic_symbols.take t.symndx ++
      stable_sort (bucket_lt dl_new_hash t.nb_buckets) (dynamic_symbols.drop t.symndx) ∧
    t.bloom_filters = (syms'.drop t.symndx).foldl
      (bloom_step dl_new_hash cls.bits t.maskwords t.shift2) (List.replicate t.maskwords 0) ∧
    ∃ st, bucket_loop dl_new_hash t.nb_buckets t.symndx (syms'.drop t.symndx)
        { previous_bucket := -1, hash_value_idx := 0,
          buckets := List.replicate t.nb_buckets 0,
          hash_values := List.replicate (syms'.length - t.symndx) 0 } = Except.ok st ∧
      t.buckets = st.buckets ∧
      t.hash_values = (if st.hash_value_idx > 0 then
        st.hash_values.set (st.hash_value_idx - 1)
          (st.hash_values.getD (st.hash_value_idx - 1) 0 ||| 1)
        else st.hash_values) := by
  simp only [symbol_gnu_hash_build] at h
  split at h
  · cases h
  · rename_i st hst
    have h' := Except.ok.inj h
    have h1 := congrArg Prod.fst h'
    have h2 := congrArg Prod.snd h'
    simp only at h1 h2
    subst h2
    subst h1
    exact ⟨rfl, rfl, rfl, rfl, rfl, rfl, st, hst, rfl, rfl⟩

/-- C1. In the table built by `ExeLayout::symbol_gnu_hash_size` (at least one
bucket, `symndx` not beyond the `n < 2^32` dynamic symbols), for the symbol `s`
at an index `i >= symndx` with hash `h`, the walk from `buckets[h mod nb_buckets]`
reaches `i` without meeting a hash value with its low bit set before `i`, and
`hash_values[i - symndx]` agrees with `h` on every bit but the lowest. -/
theorem gnu_hash_chain_reaches_symbol (dl_new_hash : List Nat → Nat) (cls : ELF_CLASS)
    (gnu_hash : GnuHash) (new_symndx : Int) (dynamic_symbols syms' : List Symbol)
    (t : GnuHashTable)
    (hbuild : symbol_gnu_hash_build dl_new_hash cls gnu_hash new_symndx dynamic_symbols =
      Except.ok (syms', t))
    (hnb : 1 ≤ t.nb_buckets) (hsym : t.symndx ≤ dynamic_symbols.length)
    (hn : dynamic_symbols.length < 2 ^ 32)
    (i : Nat) (s : Symbol) (hlo : t.symndx ≤ i) (hs : syms'[i]? = some s) :
    t.buckets.getD (sym_hash dl_new_hash s % t.nb_buckets) 0 ≤ i ∧
    (∀ m, t.buckets.getD (sym_hash dl_new_hash s % t.nb_buckets) 0 ≤ m → m < i →
      t.hash_values.getD (m - t.symndx) 0 % 2 = 0) ∧
    t.hash_values.getD (i - t.symndx) 0 / 2 = sym_hash dl_new_hash s / 2 := by
  obtain ⟨hnbeq, _, _, _, hsyms, _, st, hloop, hbk, hhv⟩ :=
    symbol_gnu_hash_build_ok dl_new_hash cls gnu_hash new_symndx dynamic_symbols syms' t hbuild
  have hnb32 : t.nb_buckets < 2 ^ 32 := by rw [hnbeq]; exact u32_lt _
  have htake : (dynamic_symbols.take t.symndx).length = t.symndx := by
    rw [List.length_take]; omega
  generalize hR : stable_sort (bucket_lt dl_new_hash t.nb_buckets)
    (dynamic_symbols.drop t.symndx) = R at hsyms
  have hRlen : R.length = dynamic_symbols.length - t.symndx := by
    rw [← hR, stable_sort_length, List.length_drop]
  have hdrop : syms'.drop t.symndx = R := by
    rw [hsyms, List.drop_append_of_le_length (by omega), List.drop_of_length_le (by omega),
      List.nil_append]
  have hlen : syms'.length - t.symndx = R.length := by
    rw [hsyms, List.length_append, htake]; omega
  rw [hdrop, hlen] at hloop
  have hinv := bucket_loop_inv dl_new_hash t.symndx t.nb_buckets R.length hnb hnb32 R []
    _ st (bucket_inv_init dl_new_hash t.symndx t.nb_buckets R.length) (by simp)
    (by simpa using hloop)
  rw [List.nil_append] at hinv
  have hsR : R[i - t.symndx]? = some s := by
    rw [hsyms, List.getElem?_append_right (by omega), htake] at hs
    exact hs
  have hpR : i - t.symndx < R.length := (List.getElem?_eq_some_iff.mp hsR).1
  obtain ⟨p0, hp0, hb, hbetween⟩ := hinv.bucket (i - t.symndx) s hsR
  have hbv : t.buckets.getD (sym_hash dl_new_hash s % t.nb_buckets) 0 = t.symndx + p0 := by
    rw [hbk, hb, u32_of_lt (by omega)]
  have hidx := hinv.idx
  have hhl := hinv.hlen
  rw [hbv]
  refine ⟨by omega, ?_, ?_⟩
  · intro m hm1 hm2
    have hq : m - t.symndx + 1 < R.length := by omega
    have h1 : R[m - t.symndx]? = some R[m - t.symndx] := List.getElem?_eq_getElem (by omega)
    have h2 : R[m - t.symndx + 1]? = some R[m - t.symndx + 1] := List.getElem?_eq_getElem hq
    have hk1 := hbetween (m - t.symndx) _ (by omega) (by omega) h1
    have hk2 := hbetween (m - t.symndx + 1) _ (by omega) (by omega) h2
    have := hinv.hv_low (m - t.symndx) _ _ h1 h2 (by rw [hk1, hk2])
    rw [hhv]
    split
    · rw [getD_set_ne _ (by omega)]
      exact this
    · exact this
  · rw [hhv]
    have := hinv.hv_div (i - t.symndx) s hsR
    split
    · by_cases hp : st.hash_value_idx - 1 = i - t.symndx
      · rw [← hp, getD_set_eq _ (by omega), or_one_div_two, hp]
        exact this
      · rw [getD_set_ne _ hp]
        exact this
    · exact this

theorem replicate_getD_zero (n i : Nat) : (List.replicate n 0).getD i 0 = 0 := by
  by_cases h : i < n
  · simp [List.getD_eq_getElem?_getD, List.getElem?_replicate, h]
  · simp [List.getD_eq_getElem?_getD, List.getElem?_replicate, h]

/-- C10, amended. For every word index `i < maskwords`, `bloom[i]` is the
bitwise OR, over the symbols in `[symndx, n)` whose hash `h` satisfies
`(h / C) & (maskwords - 1) = i`, of `(1 << (h mod C)) | (1 << ((h >> shift2) mod C))`
(0 when there is none); the selecting index is `(h / C) mod maskwords` when
`maskwords` is a power of two. -/
theorem gnu_hash_bloom_filter_words (dl_new_hash : List Nat → Nat) (cls : ELF_CLASS)
    (gnu_hash : GnuHash) (new_symndx : Int) (dynamic_symbols syms' : List Symbol)
    (t : GnuHashTable)
    (hbuild : symbol_gnu_hash_build dl_new_hash cls gnu_hash new_symndx dynamic_symbols =
      Except.ok (syms', t))
    (i : Nat) (hi : i < t.maskwords) :
    t.bloom_filters.getD i 0 = or_all
      (((syms'.drop t.symndx).filter
          (fun s => (sym_hash dl_new_hash s / cls.bits) &&& (t.maskwords - 1) == i)).map
        (fun s => (1 <<< (sym_hash dl_new_hash s % cls.bits)) |||
          (1 <<< ((sym_hash dl_new_hash s >>> t.shift2) % cls.bits)))) ∧
    (∀ k, t.maskwords = 2 ^ k →
      t.bloom_filters.getD i 0 = or_all
        (((syms'.drop t.symndx).filter
            (fun s => (sym_hash dl_new_hash s / cls.bits) % t.maskwords == i)).map
          (fun s => (1 <<< (sym_hash dl_new_hash s % cls.bits)) |||
            (1 <<< ((sym_hash dl_new_hash s >>> t.shift2) % cls.bits))))) := by
  obtain ⟨_, hmw, _, _, _, hbloom, _⟩ :=
    symbol_gnu_hash_build_ok dl_new_hash cls gnu_hash new_symndx dynamic_symbols syms' t hbuild
  have hmw32 : t.maskwords < 2 ^ 32 := by rw [hmw]; exact u32_lt _
  have hmask : u32 (t.maskwords + (2 ^ 32 - 1)) = t.maskwords - 1 := by
    unfold u32
    omega
  have hmain : t.bloom_filters.getD i 0 = or_all
      (((syms'.drop t.symndx).filter
          (fun s => (sym_hash dl_new_hash s / cls.bits) &&& (t.maskwords - 1) == i)).map
        (fun s => (1 <<< (sym_hash dl_new_hash s % cls.bits)) |||
          (1 <<< ((sym_hash dl_new_hash s >>> t.shift2) % cls.bits)))) := by
    rw [hbloom, bloom_fold_getD dl_new_hash cls.bits t.maskwords t.shift2 _ _ i (by simpa using hi),
      replicate_getD_zero, Nat.zero_or]
    simp only [bloom_pos, bloom_bits, hmask]
  refine ⟨hmain, ?_⟩
  intro k hk
  rw [hmain]
  have : ∀ x : Nat, x &&& (t.maskwords - 1) = x % t.maskwords := by
    intro x
    rw [hk]
    exact Nat.and_pow_two_sub_one_eq_mod x k
  simp only [this]

theorem gnu_hash_chain_reaches_symbol_witness :
    ex_gnu_table.buckets.getD
        (sym_hash dl_new_hash_ref { name := [100], binding := STB_GLOBAL, shndx := 1 } %
          ex_gnu_table.nb_buckets) 0 ≤ 3 ∧
    (∀ m, ex_gnu_table.buckets.getD
        (sym_hash dl_new_hash_ref { name := [100], binding := STB_GLOBAL, shndx := 1 } %
          ex_gnu_table.nb_buckets) 0 ≤ m → m < 3 →
      ex_gnu_table.hash_values.getD (m - ex_gnu_table.symndx) 0 % 2 = 0) ∧
    ex_gnu_table.hash_values.getD (3 - ex_gnu_table.symndx) 0 / 2 =
      sym_hash dl_new_hash_ref { name := [100], binding := STB_GLOBAL, shndx := 1 } / 2 :=
  gnu_hash_chain_reaches_symbol dl_new_hash_ref ELF_CLASS.ELFCLASS64
    { nb_buckets := 3, maskwords := 2, shift2 := 6 } 1 ex_gnu_symbols ex_gnu_sorted ex_gnu_table
    rfl (by decide) (by decide) (by decide) 3
    { name := [100], binding := STB_GLOBAL, shndx := 1 } (by decide) (by decide)

/-- C10, counterexample. With `maskwords = 3` and the single symbol "a"
(hash 177670, `(h / 64) mod 3 = 1` but `(h / 64) & 2 = 0`) the bits of the
symbol are stored in `bloom[0]` and `bloom[1]` is 0, not the OR over the
symbols with `(h / C) mod maskwords = 1`. -/
theorem gnu_hash_bloom_mod_index_counterexample :
    ∃ syms' t,
      symbol_gnu_hash_build dl_new_hash_ref ELF_CLASS.ELFCLASS64
        { nb_buckets := 1, maskwords := 3, shift2 := 6 } 0
        [{ name := [97], binding := STB_GLOBAL, shndx := 1 }] = Except.ok (syms', t) ∧
      1 < t.maskwords ∧
      t.bloom_filters.getD 1 0 = 0 ∧
      t.bloom_filters.getD 1 0 ≠ or_all (((syms'.drop t.symndx).filter
          (fun s => (sym_hash dl_new_hash_ref s / ELF_CLASS.ELFCLASS64.bits) % t.maskwords == 1)).map
        (fun s => (1 <<< (sym_hash dl_new_hash_ref s % ELF_CLASS.ELFCLASS64.bits)) |||
          (1 <<< ((sym_hash dl_new_hash_ref s >>> t.shift2) % ELF_CLASS.ELFCLASS64.bits))))
 :=
  ⟨_, _, rfl, by decide, by decide, by decide⟩

theorem gnu_hash_bloom_filter_words_witness :
    0 < ex_gnu_table.maskwords ∧
    ex_gnu_table.bloom_filters.getD 0 0 = or_all
      (((ex_gnu_sorted.drop ex_gnu_table.symndx).filter
          (fun s => (sym_hash dl_new_hash_ref s / ELF_CLASS.ELFCLASS64.bits) &&&
            (ex_gnu_table.maskwords - 1) == 0)).map
        (fun s => (1 <<< (sym_hash dl_new_hash_ref s % ELF_CLASS.ELFCLASS64.bits)) |||
          (1 <<< ((sym_hash dl_new_hash_ref s >>> ex_gnu_table.shift2) %
            ELF_CLASS.ELFCLASS64.bits)))) :=
  ⟨by decide,
    (gnu_hash_bloom_filter_words dl_new_hash_ref ELF_CLASS.ELFCLASS64
      { nb_buckets := 3, maskwords := 2, shift2 := 6 } 1 ex_gnu_symbols ex_gnu_sorted
      ex_gnu_table rfl 0 (by decide)).1⟩

/-! ## `ExeLayout::relocate`: what each block does -/

theorem and_then_ok {r : Except Error RelocState} {f : RelocState → Except Error RelocState}
    {st' : RelocState} (h : and_then r f = Except.ok st') :
    ∃ s, r = Except.ok s ∧ f s = Except.ok st' := by
  cases r with
  | error e => simp [and_then] at h
  | ok s => exact ⟨s, rfl, h⟩

theorem patch_section_ok {ops : BinaryOps} {b b' : Binary} {idx va size : Nat}
    (h : patch_section ops b idx va size = Except.ok b') :
    ∃ off, ops.virtual_address_to_offset b.segments va = Except.ok off ∧
      b'.sections = modify_at (Section.moved va size off) idx b.sections ∧
      b'.segments = b.segments ∧ b'.dynamic_entries = b.dynamic_entries ∧
      b'.relocations = b.relocations ∧ b'.file_type = b.file_type ∧ b'.type = b.type ∧
      b'.dynamic_symbols = b.dynamic_symbols := by
  unfold patch_section at h
  split at h
  · cases h
  · rename_i off hoff
    have := Except.ok.inj h
    subst this
    exact ⟨off, hoff, rfl, rfl, rfl, rfl, rfl, rfl, rfl⟩

theorem patch_segment_ok {ops : BinaryOps} {b b' : Binary} {idx va size : Nat}
    (h : patch_segment ops b idx va size = Except.ok b') :
    b'.sections = b.sections ∧ b'.dynamic_entries = b.dynamic_entries ∧
      b'.relocations = b.relocations ∧ b'.file_type = b.file_type ∧ b'.type = b.type ∧
      b'.dynamic_symbols = b.dynamic_symbols := by
  unfold patch_segment at h
  simp only at h
  split at h
  · cases h
  · have := Except.ok.inj h
    subst this
    exact ⟨rfl, rfl, rfl, rfl, rfl, rfl⟩

theorem relocate_tagged_ok {ops : BinaryOps} {cond : Bool} {kind : Structure}
    {ptr_tag : DYNAMIC_TAGS} {size_tag : Option DYNAMIC_TAGS} {size : Nat}
    {st st' : RelocState}
    (h : relocate_tagged ops cond kind ptr_tag size_tag size st = Except.ok st') :
    (cond = false ∧ st' = st) ∨
    (cond = true ∧ TaggedRun ops kind ptr_tag size_tag size st st') := by
  unfold relocate_tagged at h
  cases cond with
  | false =>
    left
    simp at h
    exact ⟨rfl, h.symm⟩
  | true =>
    right
    refine ⟨rfl, ?_⟩
    simp only [if_true] at h
    unfold get_entry at h
    cases hdt : find_entry ptr_tag st.bin.dynamic_entries with
    | none => rw [hdt] at h; cases h
    | some dt =>
      rw [hdt] at h
      simp only at h
      have hsz : ∀ t, size_tag = some t → (find_entry t st.bin.dynamic_entries).isSome = true := by
        intro t ht
        subst ht
        cases hft : find_entry t st.bin.dynamic_entries with
        | none => simp only [hft] at h; cases h
        | some e => rfl
      have h2 : (match section_from_virtual_address ops st.bin dt.value with
          | Except.error e => Except.error e
          | Except.ok idx =>
            match patch_section ops st.bin idx st.va_r_base size with
            | Except.error e => Except.error e
            | Except.ok b1 =>
              Except.ok
                { bin := { b1 with
                           dynamic_entries :=
                             set_tags ptr_tag size_tag st.va_r_base size b1.dynamic_entries }
                  va_r_base := u64 (st.va_r_base + size)
                  va_rw_base := st.va_rw_base
                  placed := st.placed ++
                    [{ kind := kind, address := st.va_r_base, size := size,
                       section_idx := some idx, ptr_tag := some ptr_tag,
                       size_tag := size_tag }] }) = Except.ok st' := by
        cases size_tag with
        | none => exact h
        | some t =>
          have := hsz t rfl
          cases hft : find_entry t st.bin.dynamic_entries with
          | none => rw [hft] at this; cases this
          | some e => simp only [hft] at h; exact h
      clear h
      cases hsec : section_from_virtual_address ops st.bin dt.value with
      | error e => rw [hsec] at h2; cases h2
      | ok idx =>
        rw [hsec] at h2
        simp only at h2
        cases hps : patch_section ops st.bin idx st.va_r_base size with
        | error e => rw [hps] at h2; cases h2
        | ok b1 =>
          rw [hps] at h2
          simp only at h2
          have hst := Except.ok.inj h2
          obtain ⟨off, hoff, hs, hg, hd, hr, hft, hty, _⟩ := patch_section_ok hps
          have hidx : ops.section_from_virtual_address st.bin.sections dt.value = Except.ok idx ∧
              idx < st.bin.sections.length := by
            unfold section_from_virtual_address at hsec
            split at hsec
            · rename_i i hi
              split at hsec
              · rename_i hlt
                have := Except.ok.inj hsec
                subst this
                exact ⟨hi, hlt⟩
              · cases hsec
            · cases hsec
          subst hst
          exact
            { entry := ⟨dt, idx, off, hdt, hidx.1, hidx.2, hoff, hs, rfl⟩
              size_entry := hsz
              entries := by simp only [hd]
              segments := hg
              relocations := hr
              file_type := hft
              type := hty
              va_r := rfl
              va_rw := rfl }

theorem first_index_lt {α : Type} (p : α → Bool) (l : List α) (i : Nat)
    (h : first_index p l = some i) : i < l.length := by
  induction l generalizing i with
  | nil => simp [first_index] at h
  | cons x xs ih =>
    simp only [first_index] at h
    split at h
    · have := Option.some.inj h
      subst this
      simp
    · cases hf : first_index p xs with
      | none => rw [hf] at h; simp at h
      | some j =>
        rw [hf] at h
        simp at h
        subst h
        have := ih j hf
        simp
        omega

theorem relocate_array_ok {ops : BinaryOps} {map : Nat → Option Nat} {cond : Bool}
    {kind : Structure} {ptr_tag size_tag : DYNAMIC_TAGS} {stype : ELF_SECTION_TYPES}
    {size : Nat} {st st' : RelocState}
    (h : relocate_array ops map cond kind ptr_tag size_tag stype size st = Except.ok st') :
    (cond = false ∧ st' = st) ∨
    (cond = true ∧ ArrayRun ops map kind ptr_tag size_tag size st st') := by
  unfold relocate_array at h
  cases cond with
  | false =>
    left
    simp at h
    exact ⟨rfl, h.symm⟩
  | true =>
    right
    refine ⟨rfl, ?_⟩
    simp only [if_true] at h
    unfold get_entry at h
    cases hdt : find_entry ptr_tag st.bin.dynamic_entries with
    | none => rw [hdt] at h; cases h
    | some dt =>
      rw [hdt] at h
      simp only at h
      cases hsz : find_entry size_tag st.bin.dynamic_entries with
      | none => rw [hsz] at h; cases h
      | some esz =>
        rw [hsz] at h
        simp only at h
        cases hsec : get_section st.bin stype with
        | error e => rw [hsec] at h; cases h
        | ok idx =>
          rw [hsec] at h
          simp only at h
          split at h
          · cases h
          · rename_i b1 hps
            have hst := Except.ok.inj h
            obtain ⟨off, hoff, hs, hg, hd, hr, hft, hty, _⟩ := patch_section_ok hps
            have hidx : idx < st.bin.sections.length := by
              unfold get_section at hsec
              split at hsec
              · rename_i i hi
                have := Except.ok.inj hsec
                subst this
                exact first_index_lt _ _ _ hi
              · cases hsec
            subst hst
            exact
              { entry := ⟨dt, idx, off, hdt, hidx, hoff, hs, rfl, hr⟩
                size_entry := by rw [hsz]; rfl
                entries := by simp only [hd]
                segments := hg
                file_type := hft
                type := hty
                va_r := rfl
                va_rw := rfl }

theorem relocate_interp_ok {ops : BinaryOps} {lay : ExeLayout} {st st' : RelocState}
    (h : relocate_interp ops lay st = Except.ok st') :
    (¬ lay.interp_size > 0 ∧ st' = st) ∨
    (lay.interp_size > 0 ∧ PlainRun Structure.interp st.va_r_base lay.interp_size st st' ∧
      st'.va_r_base = u64 (st.va_r_base + lay.interp_size) ∧ st'.va_rw_base = st.va_rw_base) := by
  unfold relocate_interp at h
  by_cases hc : lay.interp_size > 0
  · right
    refine ⟨hc, ?_⟩
    rw [if_pos hc] at h
    split at h
    · cases h
    · rename_i pt hpt
      simp only at h
      split at h
      · cases h
      · rename_i b1 hb1
        obtain ⟨h1s, h1d, h1r, h1f, h1t, _⟩ := patch_segment_ok hb1
        split at h
        · cases h
        · rename_i b2 hb2
          have hst := Except.ok.inj h
          have hb : b2.dynamic_entries = st.bin.dynamic_entries ∧
              b2.relocations = st.bin.relocations ∧ b2.file_type = st.bin.file_type ∧
              b2.type = st.bin.type := by
            split at hb2
            · obtain ⟨off, _, _, _, hd, hr, hf, ht, _⟩ := patch_section_ok hb2
              exact ⟨hd.trans h1d, hr.trans h1r, hf.trans h1f, ht.trans h1t⟩
            · have := Except.ok.inj hb2
              subst this
              exact ⟨h1d, h1r, h1f, h1t⟩
          subst hst
          exact ⟨⟨⟨_, rfl⟩, hb.1, hb.2.1, hb.2.2.1, hb.2.2.2⟩, rfl, rfl⟩
  · left
    rw [if_neg hc] at h
    exact ⟨hc, (Except.ok.inj h).symm⟩

theorem relocate_notes_ok {ops : BinaryOps} {lay : ExeLayout} {st st' : RelocState}
    (h : relocate_notes ops lay st = Except.ok st') :
    (lay.relocate_notes = false ∧ st' = st) ∨
    (lay.relocate_notes = true ∧
      PlainRun Structure.notes st.va_r_base lay.raw_notes.length st st' ∧
      st'.va_r_base = u64 (st.va_r_base + lay.raw_notes.length) ∧
      st'.va_rw_base = st.va_rw_base) := by
  unfold relocate_notes at h
  cases hc : lay.relocate_notes with
  | false =>
    left
    rw [hc] at h
    simp at h
    exact ⟨rfl, h.symm⟩
  | true =>
    right
    refine ⟨rfl, ?_⟩
    rw [hc] at h
    simp only [if_true] at h
    split at h
    · cases h
    · split at h
      · cases h
      · rename_i b1 hb1
        obtain ⟨_, h1d, h1r, h1f, h1t, _⟩ := patch_segment_ok hb1
        have hst := Except.ok.inj h
        subst hst
        exact ⟨⟨⟨_, rfl⟩, h1d, h1r, h1f, h1t⟩, rfl, rfl⟩

theorem relocate_dynamic_ok {ops : BinaryOps} {lay : ExeLayout} {st st' : RelocState}
    (h : relocate_dynamic ops lay st = Except.ok st') :
    (¬ lay.dynamic_size > 0 ∧ st' = st) ∨
    (lay.dynamic_size > 0 ∧ PlainRun Structure.dynamic st.va_rw_base lay.dynamic_size st st' ∧
      st'.va_r_base = st.va_r_base ∧ st'.va_rw_base = u64 (st.va_rw_base + lay.dynamic_size)) := by
  unfold relocate_dynamic at h
  by_cases hc : lay.dynamic_size > 0
  · right
    refine ⟨hc, ?_⟩
    rw [if_pos hc] at h
    split at h
    · cases h
    · split at h
      · cases h
      · split at h
        · cases h
        · rename_i b1 hb1
          obtain ⟨_, h1d, h1r, h1f, h1t, _⟩ := patch_segment_ok hb1
          split at h
          · cases h
          · rename_i b2 hb2
            obtain ⟨off, _, _, _, hd, hr, hf, ht, _⟩ := patch_section_ok hb2
            have hst := Except.ok.inj h
            subst hst
            exact ⟨⟨⟨_, rfl⟩, hd.trans h1d, hr.trans h1r, hf.trans h1f, ht.trans h1t⟩, rfl, rfl⟩
  · left
    rw [if_neg hc] at h
    exact ⟨hc, (Except.ok.inj h).symm⟩

/-! ## `ExeLayout::relocate`: the run of the blocks -/

theorem relocate_patch_chain {ops : BinaryOps} {lay : ExeLayout}
    {nr nrw : Option Segment} {b : Binary} {st' : RelocState}
    (h : relocate_patch ops lay nr nrw b = Except.ok st') :
    ∃ s1 s2 s3 s4 s5 s6 s7 s8 s9 s10 s11 s12 s13 s14,
      relocate_interp ops lay (relocate_start nr nrw b) = Except.ok s1 ∧
      relocate_notes ops lay s1 = Except.ok s2 ∧
      relocate_dynamic ops lay s2 = Except.ok s3 ∧
      relocate_tagged ops (decide (lay.dynsym_size > 0)) Structure.dynsym
        DYNAMIC_TAGS.DT_SYMTAB none lay.dynsym_size s3 = Except.ok s4 ∧
      relocate_tagged ops lay.relocate_dynstr Structure.dynstr
        DYNAMIC_TAGS.DT_STRTAB (some DYNAMIC_TAGS.DT_STRSZ) lay.raw_dynstr.length s4 =
        Except.ok s5 ∧
      relocate_tagged ops (decide (lay.sver_size > 0)) Structure.versym
        DYNAMIC_TAGS.DT_VERSYM none lay.sver_size s5 = Except.ok s6 ∧
      relocate_tagged ops (decide (lay.sverd_size > 0)) Structure.verdef
        DYNAMIC_TAGS.DT_VERDEF none lay.sverd_size s6 = Except.ok s7 ∧
      relocate_tagged ops (decide (lay.sverr_size > 0)) Structure.verneed
        DYNAMIC_TAGS.DT_VERNEED none lay.sverr_size s7 = Except.ok s8 ∧
      relocate_dyn_reloc ops lay s8 = Except.ok s9 ∧
      relocate_tagged ops (decide (lay.pltgot_reloc_size > 0)) Structure.pltrel
        DYNAMIC_TAGS.DT_JMPREL (some DYNAMIC_TAGS.DT_PLTRELSZ) lay.pltgot_reloc_size s9 =
        Except.ok s10 ∧
      relocate_tagged ops lay.relocate_gnu_hash Structure.gnuhash
        DYNAMIC_TAGS.DT_GNU_HASH none lay.raw_gnu_hash.length s10 = Except.ok s11 ∧
      relocate_tagged ops (decide (lay.sysv_size > 0)) Structure.sysvhash
        DYNAMIC_TAGS.DT_HASH none lay.sysv_size s11 = Except.ok s12 ∧
      relocate_array ops (relocations_addresses b.relocations) (decide (lay.init_size > 0))
        Structure.init_array DYNAMIC_TAGS.DT_INIT_ARRAY DYNAMIC_TAGS.DT_INIT_ARRAYSZ
        ELF_SECTION_TYPES.SHT_INIT_ARRAY lay.init_size s12 = Except.ok s13 ∧
      relocate_array ops (relocations_addresses b.relocations) (decide (lay.preinit_size > 0))
        Structure.preinit_array DYNAMIC_TAGS.DT_PREINIT_ARRAY DYNAMIC_TAGS.DT_PREINIT_ARRAYSZ
        ELF_SECTION_TYPES.SHT_PREINIT_ARRAY lay.preinit_size s13 = Except.ok s14 ∧
      relocate_array ops (relocations_addresses b.relocations) (decide (lay.fini_size > 0))
        Structure.fini_array DYNAMIC_TAGS.DT_FINI_ARRAY DYNAMIC_TAGS.DT_FINI_ARRAYSZ
        ELF_SECTION_TYPES.SHT_FINI_ARRAY lay.fini_size s14 = Except.ok st' := by
  unfold relocate_patch at h
  simp only at h
  obtain ⟨s14, h, h15⟩ := and_then_ok h
  obtain ⟨s13, h, h14⟩ := and_then_ok h
  obtain ⟨s12, h, h13⟩ := and_then_ok h
  obtain ⟨s11, h, h12⟩ := and_then_ok h
  obtain ⟨s10, h, h11⟩ := and_then_ok h
  obtain ⟨s9, h, h10⟩ := and_then_ok h
  obtain ⟨s8, h, h9⟩ := and_then_ok h
  obtain ⟨s7, h, h8⟩ := and_then_ok h
  obtain ⟨s6, h, h7⟩ := and_then_ok h
  obtain ⟨s5, h, h6⟩ := and_then_ok h
  obtain ⟨s4, h, h5⟩ := and_then_ok h
  obtain ⟨s3, h, h4⟩ := and_then_ok h
  obtain ⟨s2, h, h3⟩ := and_then_ok h
  obtain ⟨s1, h, h2⟩ := and_then_ok h
  exact ⟨s1, s2, s3, s4, s5, s6, s7, s8, s9, s10, s11, s12, s13, s14,
    h, h2, h3, h4, h5, h6, h7, h8, h9, h10, h11, h12, h13, h14, h15⟩

theorem absorbs_skip (k : Structure) (s : Nat) (st : RelocState) :
    Absorbs (k, false, s) st st := by
  intro rest
  simp [pack]

theorem absorbs_ro (k : Structure) (s : Nat) (st st' : RelocState) (p : Placement)
    (hk : k.region = Region.read_only)
    (hp : st'.placed = st.placed ++ [p]) (hpt : p.triple = (k, st.va_r_base, s))
    (hr : st'.va_r_base = u64 (st.va_r_base + s)) (hrw : st'.va_rw_base = st.va_rw_base) :
    Absorbs (k, true, s) st st' := by
  intro rest
  simp [pack, hk, hp, hpt, hr, hrw]

theorem absorbs_rw (k : Structure) (s : Nat) (st st' : RelocState) (p : Placement)
    (hk : k.region = Region.read_write)
    (hp : st'.placed = st.placed ++ [p]) (hpt : p.triple = (k, st.va_rw_base, s))
    (hr : st'.va_r_base = st.va_r_base) (hrw : st'.va_rw_base = u64 (st.va_rw_base + s)) :
    Absorbs (k, true, s) st st' := by
  intro rest
  simp [pack, hk, hp, hpt, hr, hrw]

theorem absorbs_tagged {ops : BinaryOps} {cond : Bool} {kind : Structure}
    {ptr_tag : DYNAMIC_TAGS} {size_tag : Option DYNAMIC_TAGS} {size : Nat}
    {st st' : RelocState}
    (h : relocate_tagged ops cond kind ptr_tag size_tag size st = Except.ok st')
    (hk : kind.region = Region.read_only) :
    Absorbs (kind, cond, size) st st' := by
  rcases relocate_tagged_ok h with ⟨hc, hst⟩ | ⟨hc, run⟩
  · subst hc; subst hst
    exact absorbs_skip _ _ _
  · subst hc
    obtain ⟨dt, idx, off, _, _, _, _, _, hp⟩ := run.entry
    exact absorbs_ro kind size st st' _ hk hp rfl run.va_r run.va_rw

theorem absorbs_array {ops : BinaryOps} {map : Nat → Option Nat} {cond : Bool}
    {kind : Structure} {ptr_tag size_tag : DYNAMIC_TAGS} {stype : ELF_SECTION_TYPES}
    {size : Nat} {st st' : RelocState}
    (h : relocate_array ops map cond kind ptr_tag size_tag stype size st = Except.ok st')
    (hk : kind.region = Region.read_write) :
    Absorbs (kind, cond, size) st st' := by
  rcases relocate_array_ok h with ⟨hc, hst⟩ | ⟨hc, run⟩
  · subst hc; subst hst
    exact absorbs_skip _ _ _
  · subst hc
    obtain ⟨dt, idx, off, _, _, _, _, hp, _⟩ := run.entry
    exact absorbs_rw kind size st st' _ hk hp rfl run.va_r run.va_rw

theorem absorbs_interp {ops : BinaryOps} {lay : ExeLayout} {st st' : RelocState}
    (h : relocate_interp ops lay st = Except.ok st') :
    Absorbs (Structure.interp, decide (lay.interp_size > 0), lay.interp_size) st st' := by
  rcases relocate_interp_ok h with ⟨hc, hst⟩ | ⟨hc, run, hr, hrw⟩
  · subst hst
    rw [decide_eq_false hc]
    exact absorbs_skip _ _ _
  · rw [decide_eq_true hc]
    obtain ⟨sec, hp⟩ := run.placed
    exact absorbs_ro _ _ st st' _ rfl hp rfl hr hrw

theorem absorbs_notes {ops : BinaryOps} {lay : ExeLayout} {st st' : RelocState}
    (h : relocate_notes ops lay st = Except.ok st') :
    Absorbs (Structure.notes, lay.relocate_notes, lay.raw_notes.length) st st' := by
  rcases relocate_notes_ok h with ⟨hc, hst⟩ | ⟨hc, run, hr, hrw⟩
  · subst hst
    rw [hc]
    exact absorbs_skip _ _ _
  · rw [hc]
    obtain ⟨sec, hp⟩ := run.placed
    exact absorbs_ro _ _ st st' _ rfl hp rfl hr hrw

theorem absorbs_dynamic {ops : BinaryOps} {lay : ExeLayout} {st st' : RelocState}
    (h : relocate_dynamic ops lay st = Except.ok st') :
    Absorbs (Structure.dynamic, decide (lay.dynamic_size > 0), lay.dynamic_size) st st' := by
  rcases relocate_dynamic_ok h with ⟨hc, hst⟩ | ⟨hc, run, hr, hrw⟩
  · subst hst
    rw [decide_eq_false hc]
    exact absorbs_skip _ _ _
  · rw [decide_eq_true hc]
    obtain ⟨sec, hp⟩ := run.placed
    exact absorbs_rw _ _ st st' _ rfl hp rfl hr hrw

theorem absorbs_dyn_reloc {ops : BinaryOps} {lay : ExeLayout} {st st' : RelocState}
    (h : relocate_dyn_reloc ops lay st = Except.ok st') :
    Absorbs (Structure.dynrel, decide (lay.dynamic_reloc_size > 0), lay.dynamic_reloc_size)
      st st' := by
  unfold relocate_dyn_reloc at h
  exact absorbs_tagged h rfl

/-- The placements recorded by `relocate_patch` are those of `plan`, made with
the two cursors starting at the bases of the new regions. -/
theorem relocate_patch_placed {ops : BinaryOps} {lay : ExeLayout}
    {nr nrw : Option Segment} {b : Binary} {st' : RelocState}
    (h : relocate_patch ops lay nr nrw b = Except.ok st') :
    st'.placed.map Placement.triple =
      pack (relocate_start nr nrw b).va_r_base (relocate_start nr nrw b).va_rw_base
        (plan lay) := by
  obtain ⟨s1, s2, s3, s4, s5, s6, s7, s8, s9, s10, s11, s12, s13, s14,
    h1, h2, h3, h4, h5, h6, h7, h8, h9, h10, h11, h12, h13, h14, h15⟩ :=
    relocate_patch_chain h
  have e0 : pack (relocate_start nr nrw b).va_r_base (relocate_start nr nrw b).va_rw_base
      (plan lay) = (relocate_start nr nrw b).placed.map Placement.triple ++
      pack (relocate_start nr nrw b).va_r_base (relocate_start nr nrw b).va_rw_base
        (plan lay) := rfl
  rw [e0]
  unfold plan
  rw [absorbs_interp h1, absorbs_notes h2, absorbs_dynamic h3, absorbs_tagged h4 rfl,
    absorbs_tagged h5 rfl, absorbs_tagged h6 rfl, absorbs_tagged h7 rfl, absorbs_tagged h8 rfl,
    absorbs_dyn_reloc h9, absorbs_tagged h10 rfl, absorbs_tagged h11 rfl,
    absorbs_tagged h12 rfl, absorbs_array h13 rfl, absorbs_array h14 rfl,
    absorbs_array h15 rfl]
  simp [pack]

/-! ## `ExeLayout::relocate`: the two regions -/

theorem u64_of_lt {n : Nat} (h : n < 2 ^ 64) : u64 n = n := Nat.mod_eq_of_lt h

theorem ite_self_zero (n : Nat) : (if n > 0 then n else 0) = n := by
  split <;> omega

theorem filter_pack_ro (l : List (Structure × Bool × Nat)) :
    ∀ r rw, (pack r rw l).filter (fun t => t.1.region == Region.read_only) =
      pack1 r (l.filter (fun e => e.1.region == Region.read_only)) := by
  induction l with
  | nil => intro r rw; rfl
  | cons e rest ih =>
    intro r rw
    obtain ⟨k, c, s⟩ := e
    cases c <;> cases hk : k.region <;> simp [pack, pack1, hk, ih, List.filter_cons]

theorem filter_pack_rw (l : List (Structure × Bool × Nat)) :
    ∀ r rw, (pack r rw l).filter (fun t => t.1.region == Region.read_write) =
      pack1 rw (l.filter (fun e => e.1.region == Region.read_write)) := by
  induction l with
  | nil => intro r rw; rfl
  | cons e rest ih =>
    intro r rw
    obtain ⟨k, c, s⟩ := e
    cases c <;> cases hk : k.region <;> simp [pack, pack1, hk, ih, List.filter_cons]

theorem plan_filter_ro (lay : ExeLayout) :
    (plan lay).filter (fun e => e.1.region == Region.read_only) = ro_plan lay := by
  simp [plan, ro_plan, List.filter_cons, Structure.region]

theorem plan_filter_rw (lay : ExeLayout) :
    (plan lay).filter (fun e => e.1.region == Region.read_write) = rw_plan lay := by
  simp [plan, rw_plan, List.filter_cons, Structure.region]

theorem filter_map_triple (region : Region) (placed : List Placement) :
    (placed.map Placement.triple).filter (fun t => t.1.region == region) =
      (placed.filter (fun p => p.kind.region == region)).map Placement.triple := by
  induction placed with
  | nil => rfl
  | cons p ps ih =>
    simp only [List.map_cons, List.filter_cons, Placement.triple]
    split
    · simp only [List.map_cons, Placement.triple]
      rw [← ih]
    · exact ih

/-- The placements of the read-only region are those of `ro_plan`, made with
one cursor starting at the base of the region. -/
theorem relocate_patch_placed_ro {ops : BinaryOps} {lay : ExeLayout}
    {nr nrw : Option Segment} {b : Binary} {st' : RelocState}
    (h : relocate_patch ops lay nr nrw b = Except.ok st') :
    (st'.placed.filter (fun p => p.kind.region == Region.read_only)).map Placement.triple =
      pack1 (relocate_start nr nrw b).va_r_base (ro_plan lay) := by
  rw [← filter_map_triple, relocate_patch_placed h, filter_pack_ro, plan_filter_ro]

/-- The placements of the read-write region are those of `rw_plan`, made with
one cursor starting at the base of the region. -/
theorem relocate_patch_placed_rw {ops : BinaryOps} {lay : ExeLayout}
    {nr nrw : Option Segment} {b : Binary} {st' : RelocState}
    (h : relocate_patch ops lay nr nrw b = Except.ok st') :
    (st'.placed.filter (fun p => p.kind.region == Region.read_write)).map Placement.triple =
      pack1 (relocate_start nr nrw b).va_rw_base (rw_plan lay) := by
  rw [← filter_map_triple, relocate_patch_placed h, filter_pack_rw, plan_filter_rw]

theorem ranges_eq (region : Region) (placed : List Placement) :
    ranges region placed =
      ((placed.filter (fun p => p.kind.region == region)).map Placement.triple).map
        (fun t => (t.2.1, t.2.2)) := by
  simp [ranges, Placement.triple, List.map_map, Function.comp_def]

theorem total_size_cons (e : Structure × Bool × Nat) (l : List (Structure × Bool × Nat)) :
    total_size (e :: l) = eff_size e + total_size l := by
  simp [total_size]

theorem pack1_tiles (l : List (Structure × Bool × Nat)) :
    ∀ c, c + total_size l < 2 ^ 64 →
      Tiles c (c + total_size l) ((pack1 c l).map (fun t => (t.2.1, t.2.2))) := by
  induction l with
  | nil => intro c _; simp [pack1, total_size, Tiles]
  | cons e rest ih =>
    intro c hc
    obtain ⟨k, en, s⟩ := e
    rw [total_size_cons] at hc ⊢
    cases en with
    | false =>
      simp only [eff_size] at hc ⊢
      simp only [pack1, Bool.false_eq_true, if_false, Nat.zero_add] at hc ⊢
      exact ih c hc
    | true =>
      simp only [eff_size, if_true] at hc ⊢
      simp only [pack1, if_true, List.map_cons, Tiles]
      rw [u64_of_lt (by omega), ← Nat.add_assoc]
      exact ⟨trivial, ih (c + s) (by omega)⟩

theorem tiles_lower (l : List (Nat × Nat)) :
    ∀ lo hi, Tiles lo hi l → ∀ y ∈ l, lo ≤ y.1 := by
  induction l with
  | nil => intro lo hi _ y hy; simp at hy
  | cons x rest ih =>
    intro lo hi ht y hy
    obtain ⟨a, s⟩ := x
    simp only [Tiles] at ht
    rcases List.mem_cons.mp hy with h | h
    · subst h; exact le_of_eq ht.1.symm
    · have := ih (lo + s) hi ht.2 y h
      omega

theorem tiles_pairwise (l : List (Nat × Nat)) :
    ∀ lo hi, Tiles lo hi l → List.Pairwise Disjoint_ranges l := by
  induction l with
  | nil => intro _ _ _; exact List.Pairwise.nil
  | cons x rest ih =>
    intro lo hi ht
    obtain ⟨a, s⟩ := x
    simp only [Tiles] at ht
    refine List.Pairwise.cons ?_ (ih (lo + s) hi ht.2)
    intro y hy
    left
    have := tiles_lower rest (lo + s) hi ht.2 y hy
    show a + s ≤ y.1
    omega

theorem read_segment_eq (lay : ExeLayout) (h : total_size (ro_plan lay) < 2 ^ 64) :
    read_segment lay = total_size (ro_plan lay) := by
  simp only [total_size, ro_plan, eff_size, List.map_cons, List.map_nil, List.sum_cons,
    List.sum_nil, decide_eq_true_eq, ite_self_zero] at h ⊢
  unfold read_segment
  simp only
  cases h1 : lay.relocate_notes <;> cases h2 : lay.relocate_dynstr <;>
    cases h3 : lay.relocate_gnu_hash <;>
    simp only [h1, h2, h3, if_true, if_false, Bool.false_eq_true] at h ⊢
  all_goals simp (disch := omega) only [u64_of_lt]
  all_goals omega

theorem read_write_segment_eq (lay : ExeLayout) (h : total_size (rw_plan lay) < 2 ^ 64) :
    read_write_segment lay = total_size (rw_plan lay) := by
  simp only [total_size, rw_plan, eff_size, List.map_cons, List.map_nil, List.sum_cons,
    List.sum_nil, decide_eq_true_eq, ite_self_zero] at h ⊢
  unfold read_write_segment
  rw [u64_of_lt (by omega)]
  omega

/-- C5. In `ExeLayout::relocate`, when each new region lies inside the 64-bit
address space, the address ranges given to the structures of the read-only
region start at the region base, each starts where the previous one ends, the
last ends at base + `read_segment`, and they are pairwise disjoint; the same
holds for the read-write region with `read_write_segment`. -/
theorem relocate_regions_gap_free (ops : BinaryOps) (lay : ExeLayout)
    (nr nrw : Option Segment) (b : Binary) (st' : RelocState)
    (h : relocate_patch ops lay nr nrw b = Except.ok st')
    (hro : (relocate_start nr nrw b).va_r_base + total_size (ro_plan lay) < 2 ^ 64)
    (hrw : (relocate_start nr nrw b).va_rw_base + total_size (rw_plan lay) < 2 ^ 64) :
    Tiles (relocate_start nr nrw b).va_r_base
      ((relocate_start nr nrw b).va_r_base + read_segment lay)
      (ranges Region.read_only st'.placed) ∧
    List.Pairwise Disjoint_ranges (ranges Region.read_only st'.placed) ∧
    Tiles (relocate_start nr nrw b).va_rw_base
      ((relocate_start nr nrw b).va_rw_base + read_write_segment lay)
      (ranges Region.read_write st'.placed) ∧
    List.Pairwise Disjoint_ranges (ranges Region.read_write st'.placed) := by
  have t1 : Tiles (relocate_start nr nrw b).va_r_base
      ((relocate_start nr nrw b).va_r_base + read_segment lay)
      (ranges Region.read_only st'.placed) := by
    rw [ranges_eq, relocate_patch_placed_ro h, read_segment_eq lay (by omega)]
    exact pack1_tiles _ _ hro
  have t2 : Tiles (relocate_start nr nrw b).va_rw_base
      ((relocate_start nr nrw b).va_rw_base + read_write_segment lay)
      (ranges Region.read_write st'.placed) := by
    rw [ranges_eq, relocate_patch_placed_rw h, read_write_segment_eq lay (by omega)]
    exact pack1_tiles _ _ hrw
  exact ⟨t1, tiles_pairwise _ _ _ t1, t2, tiles_pairwise _ _ _ t2⟩

theorem pack1_kinds (l : List (Structure × Bool × Nat)) :
    ∀ c, (pack1 c l).map (fun t => t.1) = (l.filter (fun e => e.2.1)).map (fun e => e.1) := by
  induction l with
  | nil => intro c; rfl
  | cons e rest ih =>
    intro c
    obtain ⟨k, en, s⟩ := e
    cases en <;> simp [pack1, List.filter_cons, ih]

theorem total_size_append (l1 l2 : List (Structure × Bool × Nat)) :
    total_size (l1 ++ l2) = total_size l1 + total_size l2 := by
  simp [total_size]

theorem pack1_mem (l1 : List (Structure × Bool × Nat)) :
    ∀ (c : Nat) (e : Structure × Bool × Nat) (l2 : List (Structure × Bool × Nat)),
      e.2.1 = true → c + total_size (l1 ++ e :: l2) < 2 ^ 64 →
      (e.1, c + total_size l1, e.2.2) ∈ pack1 c (l1 ++ e :: l2) := by
  induction l1 with
  | nil =>
    intro c e l2 he _
    obtain ⟨k, en, s⟩ := e
    simp only at he
    subst he
    simp [pack1, total_size]
  | cons x rest ih =>
    intro c e l2 he hc
    obtain ⟨k, en, s⟩ := x
    rw [List.cons_append, total_size_cons] at hc
    rw [total_size_cons]
    cases en with
    | false =>
      simp only [eff_size, Bool.false_eq_true, if_false, Nat.zero_add] at hc ⊢
      simp only [List.cons_append, pack1, Bool.false_eq_true, if_false]
      exact ih c e l2 he hc
    | true =>
      simp only [eff_size, if_true] at hc ⊢
      simp only [List.cons_append, pack1, if_true]
      refine List.mem_cons_of_mem _ ?_
      rw [u64_of_lt (by omega), ← Nat.add_assoc]
      exact ih (c + s) e l2 he (by omega)

theorem mem_of_triple_mem (region : Region) (placed : List Placement)
    (t : Structure × Nat × Nat)
    (h : t ∈ (placed.filter (fun p => p.kind.region == region)).map Placement.triple) :
    ∃ p ∈ placed, p.kind = t.1 ∧ p.size = t.2.2 ∧ p.address = t.2.1 := by
  obtain ⟨p, hp, hpt⟩ := List.mem_map.mp h
  refine ⟨p, (List.mem_filter.mp hp).1, ?_⟩
  subst hpt
  exact ⟨rfl, rfl, rfl⟩

theorem map_kind_eq (l : List Placement) :
    l.map Placement.kind = (l.map Placement.triple).map (fun t => t.1) := by
  simp [Placement.triple, List.map_map, Function.comp_def]

/-- C6, amended. In `ExeLayout::relocate` the structures of the read-only
region are placed in the order of `ro_plan`: interpreter, notes, dynamic
symbol table, dynamic string table, versym, verdef, verneed, dynamic
relocations, PLT relocations, GNU hash table, SysV hash table; when the region
lies inside the 64-bit address space, each relocated structure is given the
region base plus the sum of the sizes of the relocated structures that precede
it in this order. -/
theorem relocate_read_only_order (ops : BinaryOps) (lay : ExeLayout)
    (nr nrw : Option Segment) (b : Binary) (st' : RelocState)
    (h : relocate_patch ops lay nr nrw b = Except.ok st')
    (hro : (relocate_start nr nrw b).va_r_base + total_size (ro_plan lay) < 2 ^ 64) :
    (st'.placed.filter (fun p => p.kind.region == Region.read_only)).map Placement.kind =
      ((ro_plan lay).filter (fun e => e.2.1)).map (fun e => e.1) ∧
    ∀ l1 e l2, ro_plan lay = l1 ++ e :: l2 → e.2.1 = true →
      ∃ p ∈ st'.placed, p.kind = e.1 ∧ p.size = e.2.2 ∧
        p.address = (relocate_start nr nrw b).va_r_base + total_size l1 := by
  constructor
  · rw [map_kind_eq, relocate_patch_placed_ro h, pack1_kinds]
  · intro l1 e l2 hl he
    rw [hl] at hro
    have hm := pack1_mem l1 _ e l2 he hro
    rw [← hl, ← relocate_patch_placed_ro h] at hm
    exact mem_of_triple_mem _ _ _ hm

/-- C7, amended. In `ExeLayout::relocate` the structures of the read-write
region are placed in the order of `rw_plan`: dynamic table, init array,
preinit array, fini array; when the region lies inside the 64-bit address
space, each relocated structure is given the region base plus the sum of the
sizes of the relocated structures that precede it in this order. -/
theorem relocate_read_write_order (ops : BinaryOps) (lay : ExeLayout)
    (nr nrw : Option Segment) (b : Binary) (st' : RelocState)
    (h : relocate_patch ops lay nr nrw b = Except.ok st')
    (hrw : (relocate_start nr nrw b).va_rw_base + total_size (rw_plan lay) < 2 ^ 64) :
    (st'.placed.filter (fun p => p.kind.region == Region.read_write)).map Placement.kind =
      ((rw_plan lay).filter (fun e => e.2.1)).map (fun e => e.1) ∧
    ∀ l1 e l2, rw_plan lay = l1 ++ e :: l2 → e.2.1 = true →
      ∃ p ∈ st'.placed, p.kind = e.1 ∧ p.size = e.2.2 ∧
        p.address = (relocate_start nr nrw b).va_rw_base + total_size l1 := by
  constructor
  · rw [map_kind_eq, relocate_patch_placed_rw h, pack1_kinds]
  · intro l1 e l2 hl he
    rw [hl] at hrw
    have hm := pack1_mem l1 _ e l2 he hrw
    rw [← hl, ← relocate_patch_placed_rw h] at hm
    exact mem_of_triple_mem _ _ _ hm

theorem relocate_regions_gap_free_witness :
    ∃ st', relocate_patch ex_ops ex_layout (some ex_rsegment) (some ex_rwsegment) ex_binary =
        Except.ok st' ∧
      0x2000 + total_size (ro_plan ex_layout) < 2 ^ 64 ∧
      0x3000 + total_size (rw_plan ex_layout) < 2 ^ 64 ∧
      Tiles 0x2000 (0x2000 + read_segment ex_layout) (ranges Region.read_only st'.placed) ∧
      List.Pairwise Disjoint_ranges (ranges Region.read_only st'.placed) ∧
      Tiles 0x3000 (0x3000 + read_write_segment ex_layout)
        (ranges Region.read_write st'.placed) ∧
      List.Pairwise Disjoint_ranges (ranges Region.read_write st'.placed) :=
  ⟨_, rfl, by decide, by decide,
    relocate_regions_gap_free ex_ops ex_layout (some ex_rsegment) (some ex_rwsegment)
      ex_binary _ rfl (by decide) (by decide)⟩

/-- C6, counterexample. With a dynamic symbol table of 0x48 bytes, a dynamic
string table of 5 bytes and a SysV hash table of 0x20 bytes to relocate (no
interpreter, no notes), the SysV hash table is placed at base + 0x48 + 5, after
the symbol and string tables, not at base + interpreter size + notes size, and
the dynamic symbol table is placed at the base, not after the SysV hash table. -/
theorem relocate_read_only_order_counterexample :
    ∃ st', relocate_patch ex_ops ex_layout (some ex_rsegment) (some ex_rwsegment) ex_binary =
        Except.ok st' ∧
      (∃ p ∈ st'.placed, p.kind = Structure.sysvhash ∧
        p.address = ex_rsegment.virtual_address + 0x48 + 5 ∧
        p.address ≠ ex_rsegment.virtual_address + ex_layout.interp_size +
          (if ex_layout.relocate_notes then ex_layout.raw_notes.length else 0)) ∧
      (∃ p ∈ st'.placed, p.kind = Structure.dynsym ∧
        p.address = ex_rsegment.virtual_address ∧
        p.address ≠ ex_rsegment.virtual_address + ex_layout.interp_size +
          (if ex_layout.relocate_notes then ex_layout.raw_notes.length else 0) +
          ex_layout.sysv_size) :=
  ⟨_, rfl, by decide, by decide⟩

theorem relocate_read_only_order_witness :
    ∃ st', relocate_patch ex_ops ex_layout (some ex_rsegment) (some ex_rwsegment) ex_binary =
        Except.ok st' ∧
      0x2000 + total_size (ro_plan ex_layout) < 2 ^ 64 ∧
      ∃ p ∈ st'.placed, p.kind = Structure.sysvhash ∧ p.size = ex_layout.sysv_size ∧
        p.address = 0x2000 + total_size ((ro_plan ex_layout).take 10) :=
  ⟨_, rfl, by decide,
    (relocate_read_only_order ex_ops ex_layout (some ex_rsegment) (some ex_rwsegment)
      ex_binary _ rfl (by decide)).2 ((ro_plan ex_layout).take 10)
      (Structure.sysvhash, decide (ex_layout.sysv_size > 0), ex_layout.sysv_size) [] rfl rfl⟩

/-- C7, counterexample. With a dynamic table of 0x60 bytes and an init array of
0x20 bytes to relocate, the dynamic table is placed at the base of the
read-write region and the init array at base + 0x60, not the init array at the
base and the dynamic table after the arrays. -/
theorem relocate_read_write_order_counterexample :
    ∃ st', relocate_patch ex_ops ex_layout (some ex_rsegment) (some ex_rwsegment) ex_binary =
        Except.ok st' ∧
      (∃ p ∈ st'.placed, p.kind = Structure.init_array ∧
        p.address = ex_rwsegment.virtual_address + 0x60 ∧
        p.address ≠ ex_rwsegment.virtual_address) ∧
      (∃ p ∈ st'.placed, p.kind = Structure.dynamic ∧
        p.address = ex_rwsegment.virtual_address ∧
        p.address ≠ ex_rwsegment.virtual_address + ex_layout.init_size +
          ex_layout.preinit_size + ex_layout.fini_size) :=
  ⟨_, rfl, by decide, by decide⟩

theorem relocate_read_write_order_witness :
    ∃ st', relocate_patch ex_ops ex_layout (some ex_rsegment) (some ex_rwsegment) ex_binary =
        Except.ok st' ∧
      0x3000 + total_size (rw_plan ex_layout) < 2 ^ 64 ∧
      ∃ p ∈ st'.placed, p.kind = Structure.init_array ∧ p.size = ex_layout.init_size ∧
        p.address = 0x3000 + total_size ((rw_plan ex_layout).take 1) :=
  ⟨_, rfl, by decide,
    (relocate_read_write_order ex_ops ex_layout (some ex_rsegment) (some ex_rwsegment)
      ex_binary _ rfl (by decide)).2 ((rw_plan ex_layout).take 1)
      (Structure.init_array, decide (ex_layout.init_size > 0), ex_layout.init_size)
      ((rw_plan ex_layout).drop 2) rfl rfl⟩

/-! ## `ExeLayout::relocate`: the patched tags and sections -/

theorem find_entry_set_ne (t t' : DYNAMIC_TAGS) (v : Nat) (l : List DynamicEntry)
    (h : t' ≠ t) : find_entry t' (set_entry_value t v l) = find_entry t' l := by
  induction l with
  | nil => rfl
  | cons e es ih =>
    simp only [set_entry_value]
    split
    · rename_i he
      have h1 : (e.tag == t') = false := by
        rw [he]; simp [Ne.symm h]
      simp [find_entry, List.find?_cons, h1]
    · by_cases h2 : e.tag = t'
      · simp [find_entry, List.find?_cons, h2]
      · have h1 : (e.tag == t') = false := by simp [h2]
        simp only [find_entry, List.find?_cons, h1]
        exact ih

theorem find_entry_set_eq (t : DYNAMIC_TAGS) (v : Nat) (l : List DynamicEntry)
    (e : DynamicEntry) (h : find_entry t l = some e) :
    ∃ e', find_entry t (set_entry_value t v l) = some e' ∧ e'.value = v ∧
      e'.array = e.array := by
  induction l with
  | nil => simp [find_entry] at h
  | cons x xs ih =>
    simp only [set_entry_value]
    by_cases hx : x.tag = t
    · rw [if_pos hx]
      have hxe : x = e := by
        simp [find_entry, List.find?_cons, hx] at h
        exact h
      refine ⟨{ x with value := v }, ?_, rfl, by rw [hxe]⟩
      simp [find_entry, List.find?_cons, hx]
    · rw [if_neg hx]
      have h1 : (x.tag == t) = false := by simp [hx]
      simp only [find_entry, List.find?_cons, h1] at h ⊢
      exact ih h

theorem set_entry_value_tags (t : DYNAMIC_TAGS) (v : Nat) (l : List DynamicEntry) :
    (set_entry_value t v l).map (fun e => e.tag) = l.map (fun e => e.tag) := by
  induction l with
  | nil => rfl
  | cons x xs ih =>
    simp only [set_entry_value]
    split
    · simp
    · simp [ih]

theorem find_entry_set_tags_ne (pt : DYNAMIC_TAGS) (stg : Option DYNAMIC_TAGS) (va size : Nat)
    (l : List DynamicEntry) (t : DYNAMIC_TAGS) (h1 : t ≠ pt) (h2 : ∀ ts, stg = some ts → t ≠ ts) :
    find_entry t (set_tags pt stg va size l) = find_entry t l := by
  cases stg with
  | none => exact find_entry_set_ne pt t va l h1
  | some ts =>
    simp only [set_tags]
    rw [find_entry_set_ne ts t size _ (h2 ts rfl), find_entry_set_ne pt t va l h1]

theorem find_entry_set_tags_ptr (pt : DYNAMIC_TAGS) (stg : Option DYNAMIC_TAGS) (va size : Nat)
    (l : List DynamicEntry) (e : DynamicEntry) (h : find_entry pt l = some e)
    (h2 : ∀ ts, stg = some ts → pt ≠ ts) :
    ∃ e', find_entry pt (set_tags pt stg va size l) = some e' ∧ e'.value = va := by
  obtain ⟨e', he', hv, _⟩ := find_entry_set_eq pt va l e h
  cases stg with
  | none => exact ⟨e', he', hv⟩
  | some ts =>
    simp only [set_tags]
    rw [find_entry_set_ne ts pt size _ (h2 ts rfl)]
    exact ⟨e', he', hv⟩

theorem find_entry_set_tags_size (pt ts : DYNAMIC_TAGS) (va size : Nat)
    (l : List DynamicEntry) (h : (find_entry ts l).isSome = true) (h2 : pt ≠ ts) :
    ∃ e', find_entry ts (set_tags pt (some ts) va size l) = some e' ∧ e'.value = size := by
  simp only [set_tags]
  obtain ⟨e, he⟩ := Option.isSome_iff_exists.mp h
  rw [← find_entry_set_ne pt ts va l (Ne.symm h2)] at he
  obtain ⟨e', he', hv, _⟩ := find_entry_set_eq ts size _ e he
  exact ⟨e', he', hv⟩

theorem modify_at_length {α : Type} (f : α → α) (l : List α) :
    ∀ i, (modify_at f i l).length = l.length := by
  induction l with
  | nil => intro i; cases i <;> rfl
  | cons x xs ih =>
    intro i
    cases i with
    | zero => rfl
    | succ j => simp [modify_at, ih]

theorem modify_at_getElem?_ne {α : Type} (f : α → α) (l : List α) :
    ∀ i j, i ≠ j → (modify_at f i l)[j]? = l[j]? := by
  induction l with
  | nil => intro i j _; cases i <;> rfl
  | cons x xs ih =>
    intro i j hij
    cases i with
    | zero =>
      cases j with
      | zero => exact absurd rfl hij
      | succ j => rfl
    | succ i =>
      cases j with
      | zero => simp [modify_at]
      | succ j =>
        simp only [modify_at, List.getElem?_cons_succ]
        exact ih i j (by omega)

theorem modify_at_getElem?_eq {α : Type} (f : α → α) (l : List α) :
    ∀ i, (modify_at f i l)[i]? = l[i]?.map f := by
  induction l with
  | nil => intro i; cases i <;> rfl
  | cons x xs ih =>
    intro i
    cases i with
    | zero => simp [modify_at]
    | succ i =>
      simp only [modify_at, List.getElem?_cons_succ]
      exact ih i

theorem patch_inv_mono {ops : BinaryOps} {b : Binary} {k0 k : Nat} {st : RelocState}
    (hinv : PatchInv ops b k0 st) (hk : k0 ≤ k) : PatchInv ops b k st where
  ranks := fun p hp t ht => ⟨(hinv.ranks p hp t ht).1, le_trans (hinv.ranks p hp t ht).2 hk⟩
  frame := fun t ht => hinv.frame t (by omega)
  exp_tags := hinv.exp_tags
  tags_ok := hinv.tags_ok
  sections_ok := hinv.sections_ok
  has_section := hinv.has_section
  relocations := fun h => hinv.relocations (by omega)
  file_type := hinv.file_type
  type := hinv.type

theorem patch_inv_start (ops : BinaryOps) (nr nrw : Option Segment) (b : Binary) :
    PatchInv ops b 0 (relocate_start nr nrw b) where
  ranks := by intro p hp; simp [relocate_start] at hp
  frame := fun _ _ => rfl
  exp_tags := by intro p hp; simp [relocate_start] at hp
  tags_ok := by intro p hp; simp [relocate_start] at hp
  sections_ok := by intro _ p hp; simp [relocate_start] at hp
  has_section := by intro p hp; simp [relocate_start] at hp
  relocations := fun _ => rfl
  file_type := rfl
  type := rfl

theorem patch_inv_plain {ops : BinaryOps} {b : Binary} {k0 k : Nat} {st st' : RelocState}
    {kind : Structure} {va size : Nat}
    (hinv : PatchInv ops b k0 st) (hk0 : k0 ≤ k) (hk : k ≤ 3)
    (run : PlainRun kind va size st st')
    (hexp : expected_tags b kind = (none, none)) : PatchInv ops b k st' := by
  obtain ⟨sec, hp⟩ := run.placed
  have hnotag : ∀ p ∈ st'.placed, p.ptr_tag = none ∧ p.size_tag = none := by
    intro p hpm
    rw [hp] at hpm
    rcases List.mem_append.mp hpm with h | h
    · constructor
      · cases hpt : p.ptr_tag with
        | none => rfl
        | some t => have := hinv.ranks p h t (Or.inl hpt); omega
      · cases hpt : p.size_tag with
        | none => rfl
        | some t => have := hinv.ranks p h t (Or.inr hpt); omega
    · simp at h
      subst h
      exact ⟨rfl, rfl⟩
  exact
    { ranks := by
        intro p hpm t ht
        have := hnotag p hpm
        rcases ht with h | h
        · rw [this.1] at h; cases h
        · rw [this.2] at h; cases h
      frame := by
        intro t ht
        rw [run.entries]
        exact hinv.frame t (by omega)
      exp_tags := by
        intro p hpm
        rw [hp] at hpm
        rcases List.mem_append.mp hpm with h | h
        · exact hinv.exp_tags p h
        · simp at h
          subst h
          exact hexp
      tags_ok := by
        intro p hpm
        have := hnotag p hpm
        constructor
        · intro t ht; rw [this.1] at ht; cases ht
        · intro t ht; rw [this.2] at ht; cases ht
      sections_ok := by
        intro _ p hpm hne
        exact absurd (hnotag p hpm).1 hne
      has_section := by
        intro p hpm hne
        exact absurd (hnotag p hpm).1 hne
      relocations := by
        intro h
        rw [run.relocations]
        exact hinv.relocations (by omega)
      file_type := run.file_type.trans hinv.file_type
      type := run.type.trans hinv.type }

theorem tagged_sections_append (l : List Placement) (p : Placement) (t : DYNAMIC_TAGS)
    (idx : Nat) (hp : p.ptr_tag = some t) (hs : p.section_idx = some idx) :
    tagged_sections (l ++ [p]) = tagged_sections l ++ [idx] := by
  simp [tagged_sections, List.filter_append, List.filterMap_append, List.filter_cons, hp, hs]

theorem mem_tagged_sections (l : List Placement) (p : Placement) (i : Nat)
    (hp : p ∈ l) (ht : p.ptr_tag ≠ none) (hs : p.section_idx = some i) :
    i ∈ tagged_sections l := by
  simp only [tagged_sections, List.mem_filterMap, List.mem_filter]
  refine ⟨p, ⟨hp, ?_⟩, hs⟩
  cases h : p.ptr_tag with
  | none => exact absurd h ht
  | some t => rfl

theorem patch_inv_step {ops : BinaryOps} {b : Binary} {k0 k : Nat} {st st' : RelocState}
    {kind : Structure} {pt : DYNAMIC_TAGS} {stg : Option DYNAMIC_TAGS} {va size : Nat}
    (hinv : PatchInv ops b k0 st) (hk0 : k0 < k) (hk4 : 4 ≤ k)
    (hrankp : tag_rank pt = k) (hranks : ∀ ts, stg = some ts → tag_rank ts = k)
    (hne : ∀ ts, stg = some ts → pt ≠ ts)
    (hexp : expected_tags b kind = (some pt, stg))
    (dt : DynamicEntry) (idx off : Nat)
    (hdt : find_entry pt st.bin.dynamic_entries = some dt)
    (hidx : idx < st.bin.sections.length)
    (hoff : ops.virtual_address_to_offset st.bin.segments va = Except.ok off)
    (hsec : st'.bin.sections = modify_at (Section.moved va size off) idx st.bin.sections)
    (hplaced : st'.placed = st.placed ++
      [{ kind := kind, address := va, size := size,
         section_idx := some idx, ptr_tag := some pt, size_tag := stg }])
    (hsz : ∀ t, stg = some t → (find_entry t st.bin.dynamic_entries).isSome = true)
    (hentries : st'.bin.dynamic_entries = set_tags pt stg va size st.bin.dynamic_entries)
    (hseg : st'.bin.segments = st.bin.segments)
    (hreloc : k ≤ 12 → st'.bin.relocations = st.bin.relocations)
    (hft : st'.bin.file_type = st.bin.file_type) (hty : st'.bin.type = st.bin.type) :
    PatchInv ops b k st' := by
  have hfresh : ∀ p ∈ st.placed, ∀ t, (p.ptr_tag = some t ∨ p.size_tag = some t) →
      t ≠ pt ∧ ∀ ts, stg = some ts → t ≠ ts := by
    intro p hp t ht
    have hr := hinv.ranks p hp t ht
    constructor
    · intro h; rw [h, hrankp] at hr; omega
    · intro ts hts h; rw [h, hranks ts hts] at hr; omega
  have hkeep : ∀ p ∈ st.placed, ∀ t, (p.ptr_tag = some t ∨ p.size_tag = some t) →
      find_entry t st'.bin.dynamic_entries = find_entry t st.bin.dynamic_entries := by
    intro p hp t ht
    rw [hentries]
    exact find_entry_set_tags_ne pt stg va size _ t (hfresh p hp t ht).1 (hfresh p hp t ht).2
  exact
    { ranks := by
        intro p hpm t ht
        rw [hplaced] at hpm
        rcases List.mem_append.mp hpm with h | h
        · have := hinv.ranks p h t ht
          omega
        · simp at h
          subst h
          simp only at ht
          rcases ht with h1 | h1
          · have := Option.some.inj h1
            rw [← this, hrankp]
            omega
          · rw [hranks t h1]
            omega
      frame := by
        intro t ht
        rw [hentries, find_entry_set_tags_ne pt stg va size _ t
          (by intro h; rw [h, hrankp] at ht; omega)
          (by intro ts hts h; rw [h, hranks ts hts] at ht; omega)]
        exact hinv.frame t (by omega)
      exp_tags := by
        intro p hpm
        rw [hplaced] at hpm
        rcases List.mem_append.mp hpm with h | h
        · exact hinv.exp_tags p h
        · simp at h
          subst h
          exact hexp
      tags_ok := by
        intro p hpm
        rw [hplaced] at hpm
        rcases List.mem_append.mp hpm with h | h
        · have := hinv.tags_ok p h
          constructor
          · intro t ht
            rw [hkeep p h t (Or.inl ht)]
            exact this.1 t ht
          · intro t ht
            rw [hkeep p h t (Or.inr ht)]
            exact this.2 t ht
        · simp at h
          subst h
          constructor
          · intro t ht
            simp only at ht
            have := Option.some.inj ht
            subst this
            rw [hentries]
            exact find_entry_set_tags_ptr pt stg va size _ dt hdt hne
          · intro t ht
            simp only at ht
            subst ht
            rw [hentries]
            exact find_entry_set_tags_size pt t va size _ (hsz t rfl) (hne t rfl)
      sections_ok := by
        intro hnd p hpm hpne
        rw [hplaced, tagged_sections_append _ _ pt idx rfl rfl] at hnd
        have hnd' := List.nodup_append.mp hnd
        rw [hplaced] at hpm
        rcases List.mem_append.mp hpm with h | h
        · intro i hi
          obtain ⟨s, hs, h1, h2, h3, h4⟩ := hinv.sections_ok hnd'.1 p h hpne i hi
          have hmem := mem_tagged_sections _ p i h hpne hi
          have hii : idx ≠ i := by
            intro heq
            exact hnd'.2.2 (by rw [← heq] at hmem; exact hmem) (List.mem_singleton.mpr rfl)
          refine ⟨s, ?_, h1, h2, h3, ?_⟩
          · rw [hsec, modify_at_getElem?_ne _ _ _ _ hii]
            exact hs
          · rw [hseg]
            exact h4
        · simp at h
          subst h
          intro i hi
          simp only at hi
          have := Option.some.inj hi
          subst this
          refine ⟨Section.moved va size off (st.bin.sections[idx]), ?_, rfl, rfl, rfl, ?_⟩
          · rw [hsec, modify_at_getElem?_eq, List.getElem?_eq_getElem hidx]
            rfl
          · rw [hseg]
            exact hoff
      has_section := by
        intro p hpm hpne
        rw [hplaced] at hpm
        rcases List.mem_append.mp hpm with h | h
        · exact hinv.has_section p h hpne
        · simp at h
          subst h
          simp
      relocations := by
        intro h
        rw [hreloc h]
        exact hinv.relocations (by omega)
      file_type := hft.trans hinv.file_type
      type := hty.trans hinv.type }

theorem patch_inv_tagged {ops : BinaryOps} {b : Binary} {k0 k : Nat} {st st' : RelocState}
    {cond : Bool} {kind : Structure} {pt : DYNAMIC_TAGS} {stg : Option DYNAMIC_TAGS}
    {size : Nat}
    (hinv : PatchInv ops b k0 st)
    (h : relocate_tagged ops cond kind pt stg size st = Except.ok st')
    (hk0 : k0 < k) (hk4 : 4 ≤ k)
    (hrankp : tag_rank pt = k) (hranks : ∀ ts, stg = some ts → tag_rank ts = k)
    (hne : ∀ ts, stg = some ts → pt ≠ ts)
    (hexp : expected_tags b kind = (some pt, stg)) : PatchInv ops b k st' := by
  rcases relocate_tagged_ok h with ⟨_, hst⟩ | ⟨_, run⟩
  · subst hst
    exact patch_inv_mono hinv (by omega)
  · obtain ⟨dt, idx, off, hdt, _, hidx, hoff, hsec, hplaced⟩ := run.entry
    exact patch_inv_step hinv hk0 hk4 hrankp hranks hne hexp dt idx off hdt hidx hoff hsec
      hplaced run.size_entry run.entries run.segments (fun _ => run.relocations)
      run.file_type run.type

theorem patch_inv_array {ops : BinaryOps} {b : Binary} {k0 k : Nat} {st st' : RelocState}
    {map : Nat → Option Nat} {cond : Bool} {kind : Structure} {pt ts : DYNAMIC_TAGS}
    {stype : ELF_SECTION_TYPES} {size : Nat}
    (hinv : PatchInv ops b k0 st)
    (h : relocate_array ops map cond kind pt ts stype size st = Except.ok st')
    (hk0 : k0 < k) (hk13 : 13 ≤ k)
    (hrankp : tag_rank pt = k) (hranks : tag_rank ts = k) (hne : pt ≠ ts)
    (hexp : expected_tags b kind = (some pt, some ts)) : PatchInv ops b k st' := by
  rcases relocate_array_ok h with ⟨_, hst⟩ | ⟨_, run⟩
  · subst hst
    exact patch_inv_mono hinv (by omega)
  · obtain ⟨dt, idx, off, hdt, hidx, hoff, hsec, hplaced, _⟩ := run.entry
    refine patch_inv_step hinv hk0 (by omega) hrankp ?_ ?_ hexp dt idx off hdt hidx hoff hsec
      hplaced ?_ run.entries run.segments (fun hk => by omega) run.file_type run.type
    · intro t ht
      rw [← Option.some.inj ht]
      exact hranks
    · intro t ht
      rw [← Option.some.inj ht]
      exact hne
    · intro t ht
      rw [← Option.some.inj ht]
      exact run.size_entry

theorem patch_inv_interp {ops : BinaryOps} {b : Binary} {lay : ExeLayout} {st st' : RelocState}
    (hinv : PatchInv ops b 0 st) (h : relocate_interp ops lay st = Except.ok st') :
    PatchInv ops b 1 st' := by
  rcases relocate_interp_ok h with ⟨_, hst⟩ | ⟨_, run, _, _⟩
  · subst hst
    exact patch_inv_mono hinv (by omega)
  · exact patch_inv_plain hinv (by omega) (by omega) run rfl

theorem patch_inv_notes {ops : BinaryOps} {b : Binary} {lay : ExeLayout} {st st' : RelocState}
    (hinv : PatchInv ops b 1 st) (h : relocate_notes ops lay st = Except.ok st') :
    PatchInv ops b 2 st' := by
  rcases relocate_notes_ok h with ⟨_, hst⟩ | ⟨_, run, _, _⟩
  · subst hst
    exact patch_inv_mono hinv (by omega)
  · exact patch_inv_plain hinv (by omega) (by omega) run rfl

theorem patch_inv_dynamic {ops : BinaryOps} {b : Binary} {lay : ExeLayout}
    {st st' : RelocState}
    (hinv : PatchInv ops b 2 st) (h : relocate_dynamic ops lay st = Except.ok st') :
    PatchInv ops b 3 st' := by
  rcases relocate_dynamic_ok h with ⟨_, hst⟩ | ⟨_, run, _, _⟩
  · subst hst
    exact patch_inv_mono hinv (by omega)
  · exact patch_inv_plain hinv (by omega) (by omega) run rfl

theorem patch_inv_dyn_reloc {ops : BinaryOps} {b : Binary} {lay : ExeLayout}
    {st st' : RelocState}
    (hinv : PatchInv ops b 8 st) (h : relocate_dyn_reloc ops lay st = Except.ok st') :
    PatchInv ops b 9 st' := by
  unfold relocate_dyn_reloc at h
  have hrela : has_entry st.bin DYNAMIC_TAGS.DT_RELA = has_entry b DYNAMIC_TAGS.DT_RELA := by
    unfold has_entry
    rw [hinv.frame DYNAMIC_TAGS.DT_RELA (by decide)]
  simp only [hrela] at h
  cases hc : has_entry b DYNAMIC_TAGS.DT_RELA with
  | true =>
    simp only [hc, if_true] at h
    refine patch_inv_tagged hinv h (by omega) (by omega) rfl ?_ ?_ ?_
    · intro ts hts; rw [← Option.some.inj hts]; rfl
    · intro ts hts; rw [← Option.some.inj hts]; decide
    · simp [expected_tags, hc]
  | false =>
    simp only [hc, Bool.false_eq_true, if_false] at h
    refine patch_inv_tagged hinv h (by omega) (by omega) rfl ?_ ?_ ?_
    · intro ts hts; rw [← Option.some.inj hts]; rfl
    · intro ts hts; rw [← Option.some.inj hts]; decide
    · simp [expected_tags, hc]

/-- The invariant holds at the end of `relocate_patch` and around each of the
three array blocks. -/
theorem relocate_patch_inv {ops : BinaryOps} {lay : ExeLayout}
    {nr nrw : Option Segment} {b : Binary} {st' : RelocState}
    (h : relocate_patch ops lay nr nrw b = Except.ok st') :
    ∃ s12 s13 s14,
      PatchInv ops b 12 s12 ∧ PatchInv ops b 13 s13 ∧ PatchInv ops b 14 s14 ∧
      PatchInv ops b 15 st' ∧
      relocate_array ops (relocations_addresses b.relocations) (decide (lay.init_size > 0))
        Structure.init_array DYNAMIC_TAGS.DT_INIT_ARRAY DYNAMIC_TAGS.DT_INIT_ARRAYSZ
        ELF_SECTION_TYPES.SHT_INIT_ARRAY lay.init_size s12 = Except.ok s13 ∧
      relocate_array ops (relocations_addresses b.relocations) (decide (lay.preinit_size > 0))
        Structure.preinit_array DYNAMIC_TAGS.DT_PREINIT_ARRAY DYNAMIC_TAGS.DT_PREINIT_ARRAYSZ
        ELF_SECTION_TYPES.SHT_PREINIT_ARRAY lay.preinit_size s13 = Except.ok s14 ∧
      relocate_array ops (relocations_addresses b.relocations) (decide (lay.fini_size > 0))
        Structure.fini_array DYNAMIC_TAGS.DT_FINI_ARRAY DYNAMIC_TAGS.DT_FINI_ARRAYSZ
        ELF_SECTION_TYPES.SHT_FINI_ARRAY lay.fini_size s14 = Except.ok st' := by
  obtain ⟨s1, s2, s3, s4, s5, s6, s7, s8, s9, s10, s11, s12, s13, s14,
    h1, h2, h3, h4, h5, h6, h7, h8, h9, h10, h11, h12, h13, h14, h15⟩ :=
    relocate_patch_chain h
  have none_rank : ∀ (k : Nat) (ts : DYNAMIC_TAGS),
      (none : Option DYNAMIC_TAGS) = some ts → tag_rank ts = k := by
    intro k ts hts; cases hts
  have none_ne : ∀ (pt ts : DYNAMIC_TAGS),
      (none : Option DYNAMIC_TAGS) = some ts → pt ≠ ts := by
    intro pt ts hts; cases hts
  have i1 := patch_inv_interp (patch_inv_start ops nr nrw b) h1
  have i2 := patch_inv_notes i1 h2
  have i3 := patch_inv_dynamic i2 h3
  have i4 : PatchInv ops b 4 s4 :=
    patch_inv_tagged i3 h4 (by omega) (by omega) rfl (none_rank _) (none_ne _) rfl
  have i5 : PatchInv ops b 5 s5 :=
    patch_inv_tagged i4 h5 (by omega) (by omega) rfl
      (by intro ts hts; rw [← Option.some.inj hts]; rfl)
      (by intro ts hts; rw [← Option.some.inj hts]; decide) rfl
  have i6 : PatchInv ops b 6 s6 :=
    patch_inv_tagged i5 h6 (by omega) (by omega) rfl (none_rank _) (none_ne _) rfl
  have i7 : PatchInv ops b 7 s7 :=
    patch_inv_tagged i6 h7 (by omega) (by omega) rfl (none_rank _) (none_ne _) rfl
  have i8 : PatchInv ops b 8 s8 :=
    patch_inv_tagged i7 h8 (by omega) (by omega) rfl (none_rank _) (none_ne _) rfl
  have i9 := patch_inv_dyn_reloc i8 h9
  have i10 : PatchInv ops b 10 s10 :=
    patch_inv_tagged i9 h10 (by omega) (by omega) rfl
      (by intro ts hts; rw [← Option.some.inj hts]; rfl)
      (by intro ts hts; rw [← Option.some.inj hts]; decide) rfl
  have i11 : PatchInv ops b 11 s11 :=
    patch_inv_tagged i10 h11 (by omega) (by omega) rfl (none_rank _) (none_ne _) rfl
  have i12 : PatchInv ops b 12 s12 :=
    patch_inv_tagged i11 h12 (by omega) (by omega) rfl (none_rank _) (none_ne _) rfl
  have i13 : PatchInv ops b 13 s13 :=
    patch_inv_array i12 h13 (by omega) (by omega) rfl rfl (by decide) rfl
  have i14 : PatchInv ops b 14 s14 :=
    patch_inv_array i13 h14 (by omega) (by omega) rfl rfl (by decide) rfl
  have i15 : PatchInv ops b 15 st' :=
    patch_inv_array i14 h15 (by omega) (by omega) rfl rfl (by decide) rfl
  exact ⟨s12, s13, s14, i12, i13, i14, i15, h13, h14, h15⟩

theorem pack_mem_kind_size (l : List (Structure × Bool × Nat)) :
    ∀ (r rw : Nat) (e : Structure × Bool × Nat), e ∈ l → e.2.1 = true →
      ∃ a, (e.1, a, e.2.2) ∈ pack r rw l := by
  induction l with
  | nil => intro r rw e he; simp at he
  | cons x rest ih =>
    intro r rw e he hen
    obtain ⟨k, c, s⟩ := x
    rcases List.mem_cons.mp he with h | h
    · subst h
      simp only at hen
      subst hen
      cases hk : k.region <;> simp [pack, hk]
    · cases c with
      | false =>
        simp only [pack, Bool.false_eq_true, if_false]
        exact ih r rw e h hen
      | true =>
        cases hk : k.region with
        | read_only =>
          obtain ⟨a, ha⟩ := ih (u64 (r + s)) rw e h hen
          exact ⟨a, by simp [pack, hk, ha]⟩
        | read_write =>
          obtain ⟨a, ha⟩ := ih r (u64 (rw + s)) e h hen
          exact ⟨a, by simp [pack, hk, ha]⟩

/-- C8, amended. After `ExeLayout::relocate`, for every relocated structure
with a pointer tag (the tags of `expected_tags`, the structures and sizes of
`plan`): the pointer tag's value is the address given by the cursor and the
size tag, where there is one, is the new size, so that DT_STRSZ is the byte
length of `raw_dynstr_`; and, when these structures were found in pairwise
distinct sections, the virtual address of the structure's section is that
address, its file offset is `virtual_address_to_offset` of it, and its size
and `original_size_` are the new size. -/
theorem relocate_patches_consistently (ops : BinaryOps) (lay : ExeLayout)
    (nr nrw : Option Segment) (b : Binary) (st' : RelocState)
    (h : relocate_patch ops lay nr nrw b = Except.ok st') :
    (∀ p ∈ st'.placed, TagsConsistent st'.bin p) ∧
    ((tagged_sections st'.placed).Nodup →
      ∀ p ∈ st'.placed, p.ptr_tag ≠ none → SectionConsistent ops st'.bin p) ∧
    (∀ p ∈ st'.placed, p.ptr_tag ≠ none → p.section_idx ≠ none) ∧
    (∀ p ∈ st'.placed, expected_tags b p.kind = (p.ptr_tag, p.size_tag)) ∧
    st'.placed.map Placement.triple =
      pack (relocate_start nr nrw b).va_r_base (relocate_start nr nrw b).va_rw_base
        (plan lay) ∧
    (lay.relocate_dynstr = true →
      ∃ e, find_entry DYNAMIC_TAGS.DT_STRSZ st'.bin.dynamic_entries = some e ∧
        e.value = lay.raw_dynstr.length) := by
  obtain ⟨s12, s13, s14, _, _, _, inv, _, _, _⟩ := relocate_patch_inv h
  have hshape := relocate_patch_placed h
  refine ⟨inv.tags_ok, inv.sections_ok, inv.has_section, inv.exp_tags, hshape, ?_⟩
  intro hds
  obtain ⟨a, ha⟩ := pack_mem_kind_size (plan lay) (relocate_start nr nrw b).va_r_base
    (relocate_start nr nrw b).va_rw_base
    (Structure.dynstr, lay.relocate_dynstr, lay.raw_dynstr.length)
    (by simp [plan]) hds
  rw [← hshape] at ha
  obtain ⟨p, hp, hpt⟩ := List.mem_map.mp ha
  have hk : p.kind = Structure.dynstr := congrArg (fun t => t.1) hpt
  have hs : p.size = lay.raw_dynstr.length := congrArg (fun t => t.2.2) hpt
  have hexp := inv.exp_tags p hp
  rw [hk] at hexp
  have hst : p.size_tag = some DYNAMIC_TAGS.DT_STRSZ := (congrArg Prod.snd hexp).symm
  obtain ⟨e, he, hv⟩ := (inv.tags_ok p hp).2 _ hst
  exact ⟨e, he, hv.trans hs⟩

/-- C8, counterexample. A binary whose DT_VERSYM value lies in the range the
relocated dynamic symbol table is moved to: the section found for the symbol
table is found again for the version table and moved a second time, so that
after `relocate_patch` DT_SYMTAB holds the address given to the symbol table
(0x2000) while the section recorded for it has the address (0x2048) and the
size (6) of the version table. -/
theorem relocate_patches_consistently_counterexample :
    ∃ st', relocate_patch ex_ops ex_alias_layout (some ex_rsegment) none ex_alias_binary =
        Except.ok st' ∧
      ∃ p ∈ st'.placed, p.kind = Structure.dynsym ∧
        p.ptr_tag = some DYNAMIC_TAGS.DT_SYMTAB ∧ p.address = 0x2000 ∧ p.size = 0x48 ∧
        p.section_idx = some 0 ∧
        (find_entry DYNAMIC_TAGS.DT_SYMTAB st'.bin.dynamic_entries).map (fun e => e.value) =
          some 0x2000 ∧
        (st'.bin.sections[0]?).map (fun s => s.virtual_address) = some 0x2048 ∧
        (st'.bin.sections[0]?).map (fun s => s.size) = some 6 :=
  ⟨_, rfl, by decide⟩

theorem relocate_patches_consistently_witness :
    ∃ st', relocate_patch ex_ops ex_layout (some ex_rsegment) (some ex_rwsegment) ex_binary =
        Except.ok st' ∧
      (tagged_sections st'.placed).Nodup ∧
      (∀ p ∈ st'.placed, TagsConsistent st'.bin p) ∧
      (∀ p ∈ st'.placed, p.ptr_tag ≠ none → SectionConsistent ex_ops st'.bin p) ∧
      ∃ e, find_entry DYNAMIC_TAGS.DT_STRSZ st'.bin.dynamic_entries = some e ∧
        e.value = ex_layout.raw_dynstr.length :=
  ⟨_, rfl, by decide,
    (relocate_patches_consistently ex_ops ex_layout (some ex_rsegment) (some ex_rwsegment)
      ex_binary _ rfl).1,
    (relocate_patches_consistently ex_ops ex_layout (some ex_rsegment) (some ex_rwsegment)
      ex_binary _ rfl).2.1 (by decide),
    (relocate_patches_consistently ex_ops ex_layout (some ex_rsegment) (some ex_rwsegment)
      ex_binary _ rfl).2.2.2.2.2 rfl⟩

/-! ## `ExeLayout::relocate`: the relocations of a moved array -/

theorem relocations_addresses_from_sound (l : List Relocation) :
    ∀ (i : Nat) (m : Nat → Option Nat) (a k : Nat),
      relocations_addresses_from i l m a = some k →
      (∃ r, l[k - i]? = some r ∧ i ≤ k ∧ r.address = a) ∨ m a = some k := by
  induction l with
  | nil => intro i m a k h; exact Or.inr h
  | cons r rest ih =>
    intro i m a k h
    simp only [relocations_addresses_from] at h
    rcases ih (i + 1) _ a k h with ⟨r', hr', hik, ha⟩ | hm
    · left
      refine ⟨r', ?_, by omega, ha⟩
      have : k - i = (k - (i + 1)) + 1 := by omega
      rw [this, List.getElem?_cons_succ]
      exact hr'
    · have hm' : (if a = r.address then some i else m a) = some k := hm
      by_cases hα : a = r.address
      · rw [if_pos hα] at hm'
        left
        have := Option.some.inj hm'
        subst this
        exact ⟨r, by simp, le_refl _, hα.symm⟩
      · rw [if_neg hα] at hm'
        exact Or.inr hm'

theorem relocations_addresses_sound (relocs : List Relocation) (a k : Nat)
    (h : relocations_addresses relocs a = some k) :
    ∃ r, relocs[k]? = some r ∧ r.address = a := by
  rcases relocations_addresses_from_sound relocs 0 _ a k h with ⟨r, hr, _, ha⟩ | hm
  · exact ⟨r, by simpa using hr, ha⟩
  · cases hm

theorem retarget_slot_length (map : Nat → Option Nat) (old new p : Nat)
    (relocs : List Relocation) (i : Nat) :
    (retarget_slot map old new p relocs i).length = relocs.length := by
  unfold retarget_slot
  split
  · rfl
  · exact modify_at_length _ _ _

theorem retarget_array_succ (map : Nat → Option Nat) (old new p n : Nat)
    (relocs : List Relocation) :
    retarget_array map old new p (n + 1) relocs =
      retarget_slot map old new p (retarget_array map old new p n relocs) n := by
  simp [retarget_array, List.range_succ, List.foldl_append]

theorem retarget_array_length (map : Nat → Option Nat) (old new p n : Nat)
    (relocs : List Relocation) :
    (retarget_array map old new p n relocs).length = relocs.length := by
  induction n with
  | zero => rfl
  | succ n ih => rw [retarget_array_succ, retarget_slot_length, ih]

theorem retarget_keep (map : Nat → Option Nat) (old new p : Nat) (relocs : List Relocation)
    (k : Nat) :
    ∀ n, (∀ j, j < n → map (slot_address old p j) ≠ some k) →
      (retarget_array map old new p n relocs)[k]? = relocs[k]? := by
  intro n
  induction n with
  | zero => intro _; rfl
  | succ n ih =>
    intro h
    rw [retarget_array_succ]
    have hn := h n (by omega)
    unfold retarget_slot
    unfold slot_address at hn
    split
    · exact ih (fun j hj => h j (by omega))
    · rename_i k' hk'
      have : k' ≠ k := by
        intro heq
        rw [heq] at hk'
        exact hn hk'
      rw [modify_at_getElem?_ne _ _ _ _ this]
      exact ih (fun j hj => h j (by omega))

theorem slot_offset_eq (old p i j : Nat) (h : slot_address old p i = slot_address old p j) :
    u64 (i * p) = u64 (j * p) := by
  unfold slot_address u64 at h
  unfold u64
  simp only [Nat.reducePow] at h ⊢
  omega

theorem retarget_hit (map : Nat → Option Nat) (old new p : Nat) (relocs0 relocs : List Relocation)
    (hsound : ∀ a k', map a = some k' → ∃ r, relocs0[k']? = some r ∧ r.address = a)
    (hlen : relocs.length = relocs0.length) (i k : Nat)
    (hk : map (slot_address old p i) = some k) :
    ∀ n, i < n →
      (retarget_array map old new p n relocs)[k]? =
        some { address := slot_address new p i } := by
  have hklt : k < relocs.length := by
    obtain ⟨r, hr, _⟩ := hsound _ _ hk
    rw [hlen]
    exact (List.getElem?_eq_some_iff.mp hr).1
  intro n
  induction n with
  | zero => intro h; omega
  | succ n ih =>
    intro hin
    rw [retarget_array_succ]
    unfold retarget_slot
    split
    · rename_i hnone
      have : i ≠ n := by
        intro heq
        rw [heq] at hk
        unfold slot_address at hk
        rw [hnone] at hk
        cases hk
      exact ih (by omega)
    · rename_i k' hk'
      by_cases hkk : k' = k
      · subst hkk
        rw [modify_at_getElem?_eq]
        have hl : k' < (retarget_array map old new p n relocs).length := by
          rw [retarget_array_length]; exact hklt
        rw [List.getElem?_eq_getElem hl]
        simp only [Option.map_some']
        obtain ⟨r1, hr1, ha1⟩ := hsound _ _ hk
        obtain ⟨r2, hr2, ha2⟩ := hsound _ _ hk'
        rw [hr1] at hr2
        have hr := Option.some.inj hr2
        have hkey : slot_address old p i = slot_address old p n := by
          rw [← ha1, hr, ha2]
          rfl
        have := slot_offset_eq old p i n hkey
        unfold slot_address
        rw [this]
      · rw [modify_at_getElem?_ne _ _ _ _ hkk]
        have : i ≠ n := by
          intro heq
          rw [heq] at hk
          unfold slot_address at hk
          rw [hk'] at hk
          exact hkk (Option.some.inj hk)
        exact ih (by omega)

theorem array_block_length {ops : BinaryOps} {map : Nat → Option Nat} {cond : Bool}
    {kind : Structure} {pt ts : DYNAMIC_TAGS} {stype : ELF_SECTION_TYPES} {size : Nat}
    {st st' : RelocState}
    (h : relocate_array ops map cond kind pt ts stype size st = Except.ok st') :
    st'.bin.relocations.length = st.bin.relocations.length ∧
    ∀ p ∈ st.placed, p ∈ st'.placed := by
  rcases relocate_array_ok h with ⟨_, hst⟩ | ⟨_, run⟩
  · subst hst
    exact ⟨rfl, fun _ hp => hp⟩
  · obtain ⟨dt, idx, off, _, _, _, _, hp, hr⟩ := run.entry
    constructor
    · rw [hr]
      split
      · exact retarget_array_length _ _ _ _ _ _
      · rfl
    · intro p hpm
      rw [hp]
      exact List.mem_append_left _ hpm

theorem array_block_keep {ops : BinaryOps} {map : Nat → Option Nat} {cond : Bool}
    {kind : Structure} {pt ts : DYNAMIC_TAGS} {stype : ELF_SECTION_TYPES} {size : Nat}
    {st st' : RelocState}
    (h : relocate_array ops map cond kind pt ts stype size st = Except.ok st') (k : Nat)
    (hno : cond = true → ∀ e, find_entry pt st.bin.dynamic_entries = some e →
      ∀ j, j < e.array.length → map (slot_address e.value (sizeof_p st.bin) j) ≠ some k) :
    st'.bin.relocations[k]? = st.bin.relocations[k]? := by
  rcases relocate_array_ok h with ⟨_, hst⟩ | ⟨hc, run⟩
  · subst hst
    rfl
  · obtain ⟨dt, idx, off, hdt, _, _, _, _, hr⟩ := run.entry
    rw [hr]
    split
    · exact retarget_keep _ _ _ _ _ _ _ (hno hc dt hdt)
    · rfl

theorem array_block_hit {ops : BinaryOps} {map : Nat → Option Nat} {cond : Bool}
    {kind : Structure} {pt ts : DYNAMIC_TAGS} {stype : ELF_SECTION_TYPES} {size : Nat}
    {st st' : RelocState}
    (h : relocate_array ops map cond kind pt ts stype size st = Except.ok st')
    (hc : cond = true) (hdyn : st.bin.file_type = E_TYPE.ET_DYN)
    (e : DynamicEntry) (he : find_entry pt st.bin.dynamic_entries = some e)
    (i k : Nat) (hi : i < e.array.length)
    (hk : map (slot_address e.value (sizeof_p st.bin) i) = some k)
    (relocs0 : List Relocation)
    (hsound : ∀ a k', map a = some k' → ∃ r, relocs0[k']? = some r ∧ r.address = a)
    (hlen : st.bin.relocations.length = relocs0.length) :
    ∃ p ∈ st'.placed, p.kind = kind ∧ p.ptr_tag = some pt ∧
      st'.bin.relocations[k]? =
        some { address := slot_address p.address (sizeof_p st.bin) i } := by
  rcases relocate_array_ok h with ⟨hc', _⟩ | ⟨_, run⟩
  · rw [hc] at hc'
    cases hc'
  · obtain ⟨dt, idx, off, hdt, _, _, _, hp, hr⟩ := run.entry
    rw [he] at hdt
    have hde := Option.some.inj hdt
    subst hde
    refine ⟨_, by rw [hp]; exact List.mem_append_right _ (List.mem_singleton.mpr rfl),
      rfl, rfl, ?_⟩
    rw [hr, if_pos hdyn]
    exact retarget_hit _ _ _ _ relocs0 _ hsound hlen i k hk _ hi

/-- A relocation that `relocations_addresses_` records for no slot of a
relocated array is left unchanged by `relocate_patch`. -/
theorem relocate_patch_keeps_relocation {ops : BinaryOps} {lay : ExeLayout}
    {nr nrw : Option Segment} {b : Binary} {st' : RelocState}
    (h : relocate_patch ops lay nr nrw b = Except.ok st') (k : Nat)
    (hno : ∀ Y ∈ array_blocks lay, Y.2.2 > 0 →
      ∀ e', find_entry Y.2.1 b.dynamic_entries = some e' → ∀ j, j < e'.array.length →
        relocations_addresses b.relocations (slot_address e'.value (sizeof_p b) j) ≠ some k) :
    st'.bin.relocations[k]? = b.relocations[k]? := by
  obtain ⟨s12, s13, s14, i12, i13, i14, i15, h13, h14, h15⟩ := relocate_patch_inv h
  have hsz12 : sizeof_p s12.bin = sizeof_p b := by unfold sizeof_p; rw [i12.type]
  have hsz13 : sizeof_p s13.bin = sizeof_p b := by unfold sizeof_p; rw [i13.type]
  have hsz14 : sizeof_p s14.bin = sizeof_p b := by unfold sizeof_p; rw [i14.type]
  have k13 := array_block_keep h13 k (by
    intro hc e' he' j hj
    rw [i12.frame DYNAMIC_TAGS.DT_INIT_ARRAY (by decide)] at he'
    rw [hsz12]
    exact hno (Structure.init_array, DYNAMIC_TAGS.DT_INIT_ARRAY, lay.init_size)
      (by simp [array_blocks]) (of_decide_eq_true hc) e' he' j hj)
  have k14 := array_block_keep h14 k (by
    intro hc e' he' j hj
    rw [i13.frame DYNAMIC_TAGS.DT_PREINIT_ARRAY (by decide)] at he'
    rw [hsz13]
    exact hno (Structure.preinit_array, DYNAMIC_TAGS.DT_PREINIT_ARRAY, lay.preinit_size)
      (by simp [array_blocks]) (of_decide_eq_true hc) e' he' j hj)
  have k15 := array_block_keep h15 k (by
    intro hc e' he' j hj
    rw [i14.frame DYNAMIC_TAGS.DT_FINI_ARRAY (by decide)] at he'
    rw [hsz14]
    exact hno (Structure.fini_array, DYNAMIC_TAGS.DT_FINI_ARRAY, lay.fini_size)
      (by simp [array_blocks]) (of_decide_eq_true hc) e' he' j hj)
  rw [k15, k14, k13, i12.relocations (le_refl _)]

/-- Outside a shared object an array block leaves the relocations as they are. -/
theorem array_block_not_dyn {ops : BinaryOps} {map : Nat → Option Nat} {cond : Bool}
    {kind : Structure} {pt ts : DYNAMIC_TAGS} {stype : ELF_SECTION_TYPES} {size : Nat}
    {st st' : RelocState}
    (h : relocate_array ops map cond kind pt ts stype size st = Except.ok st')
    (hnd : st.bin.file_type ≠ E_TYPE.ET_DYN) :
    st'.bin.relocations = st.bin.relocations := by
  rcases relocate_array_ok h with ⟨_, hst⟩ | ⟨_, run⟩
  · subst hst
    rfl
  · obtain ⟨dt, idx, off, _, _, _, _, _, hr⟩ := run.entry
    rw [hr, if_neg hnd]

/-- For a file type other than ET_DYN, `relocate_patch` leaves every
relocation entry unchanged. -/
theorem relocate_patch_relocations_not_dyn {ops : BinaryOps} {lay : ExeLayout}
    {nr nrw : Option Segment} {b : Binary} {st' : RelocState}
    (h : relocate_patch ops lay nr nrw b = Except.ok st')
    (hnd : b.file_type ≠ E_TYPE.ET_DYN) :
    st'.bin.relocations = b.relocations := by
  obtain ⟨s12, s13, s14, i12, i13, i14, i15, h13, h14, h15⟩ := relocate_patch_inv h
  rw [array_block_not_dyn h15 (by rw [i14.file_type]; exact hnd),
    array_block_not_dyn h14 (by rw [i13.file_type]; exact hnd),
    array_block_not_dyn h13 (by rw [i12.file_type]; exact hnd),
    i12.relocations (le_refl _)]

/-- C9, amended. When `ExeLayout::relocate` returns: for a shared object (file
type ET_DYN) in which the init, preinit or fini array is relocated, the
relocation recorded in `relocations_addresses_` for the address
`old_array_base + i * pointer_size` of a slot `i` of the array (the last
relocation with that address) has, after the call, the address
`new_array_base + i * pointer_size` (on 64 bits), where `new_array_base` is the
address given by the cursor and the new value of the array's pointer tag,
provided no slot of another relocated array is recorded with the same
relocation; for every other file type the relocation entries are left
unchanged. -/
theorem relocate_array_relocations (ops : BinaryOps) (lay : ExeLayout)
    (nr nrw : Option Segment) (b : Binary) (st' : RelocState)
    (h : relocate_patch ops lay nr nrw b = Except.ok st') :
    (b.file_type = E_TYPE.ET_DYN →
      ∀ X ∈ array_blocks lay, X.2.2 > 0 →
      ∀ e, find_entry X.2.1 b.dynamic_entries = some e →
      ∀ i k, i < e.array.length →
        relocations_addresses b.relocations (slot_address e.value (sizeof_p b) i) = some k →
        (∀ Y ∈ array_blocks lay, Y ≠ X → Y.2.2 > 0 →
          ∀ e', find_entry Y.2.1 b.dynamic_entries = some e' → ∀ j, j < e'.array.length →
            relocations_addresses b.relocations (slot_address e'.value (sizeof_p b) j) ≠
              some k) →
        ∃ p ∈ st'.placed, p.kind = X.1 ∧
          (∃ e', find_entry X.2.1 st'.bin.dynamic_entries = some e' ∧ e'.value = p.address) ∧
          st'.bin.relocations[k]? =
            some { address := slot_address p.address (sizeof_p b) i }) ∧
    (b.file_type ≠ E_TYPE.ET_DYN → st'.bin.relocations = b.relocations) := by
  refine ⟨?_, fun hnd => relocate_patch_relocations_not_dyn h hnd⟩
  intro hdyn X hX hsize e he i k hi hk hother
  obtain ⟨s12, s13, s14, i12, i13, i14, i15, h13, h14, h15⟩ := relocate_patch_inv h
  have hsound := relocations_addresses_sound b.relocations
  have hsz12 : sizeof_p s12.bin = sizeof_p b := by unfold sizeof_p; rw [i12.type]
  have hsz13 : sizeof_p s13.bin = sizeof_p b := by unfold sizeof_p; rw [i13.type]
  have hsz14 : sizeof_p s14.bin = sizeof_p b := by unfold sizeof_p; rw [i14.type]
  have hl12 : s12.bin.relocations.length = b.relocations.length := by
    rw [i12.relocations (le_refl _)]
  have hl13 : s13.bin.relocations.length = b.relocations.length :=
    (array_block_length h13).1.trans hl12
  have hl14 : s14.bin.relocations.length = b.relocations.length :=
    (array_block_length h14).1.trans hl13
  have hfin : ∀ p ∈ st'.placed, p.ptr_tag = some X.2.1 →
      ∃ e', find_entry X.2.1 st'.bin.dynamic_entries = some e' ∧ e'.value = p.address :=
    fun p hp hpt => (i15.tags_ok p hp).1 _ hpt
  have hinit : (Structure.init_array, DYNAMIC_TAGS.DT_INIT_ARRAY, lay.init_size) ∈
      array_blocks lay := by simp [array_blocks]
  have hpre : (Structure.preinit_array, DYNAMIC_TAGS.DT_PREINIT_ARRAY, lay.preinit_size) ∈
      array_blocks lay := by simp [array_blocks]
  have hfini : (Structure.fini_array, DYNAMIC_TAGS.DT_FINI_ARRAY, lay.fini_size) ∈
      array_blocks lay := by simp [array_blocks]
  simp only [array_blocks, List.mem_cons, List.mem_singleton, List.not_mem_nil, or_false] at hX
  rcases hX with hX | hX | hX
  · -- the init array
    subst hX
    simp only at he hk hsize hfin ⊢
    rw [← i12.frame DYNAMIC_TAGS.DT_INIT_ARRAY (by decide)] at he
    rw [← hsz12] at hk
    obtain ⟨p, hp, hpk, hpt, hr⟩ := array_block_hit h13 (decide_eq_true hsize)
      (i12.file_type.trans hdyn) e he i k hi hk b.relocations hsound hl12
    have k14 := array_block_keep h14 k (by
      intro hc e' he' j hj
      rw [i13.frame DYNAMIC_TAGS.DT_PREINIT_ARRAY (by decide)] at he'
      rw [hsz13]
      exact hother _ hpre (by simp) (of_decide_eq_true hc) e' he' j hj)
    have k15 := array_block_keep h15 k (by
      intro hc e' he' j hj
      rw [i14.frame DYNAMIC_TAGS.DT_FINI_ARRAY (by decide)] at he'
      rw [hsz14]
      exact hother _ hfini (by simp) (of_decide_eq_true hc) e' he' j hj)
    have hp' := (array_block_length h15).2 p ((array_block_length h14).2 p hp)
    refine ⟨p, hp', hpk, hfin p hp' hpt, ?_⟩
    rw [k15, k14, hr, hsz12]
  · -- the preinit array
    subst hX
    simp only at he hk hsize hfin ⊢
    have k13 := array_block_keep h13 k (by
      intro hc e' he' j hj
      rw [i12.frame DYNAMIC_TAGS.DT_INIT_ARRAY (by decide)] at he'
      rw [hsz12]
      exact hother _ hinit (by simp) (of_decide_eq_true hc) e' he' j hj)
    rw [← i13.frame DYNAMIC_TAGS.DT_PREINIT_ARRAY (by decide)] at he
    rw [← hsz13] at hk
    obtain ⟨p, hp, hpk, hpt, hr⟩ := array_block_hit h14 (decide_eq_true hsize)
      (i13.file_type.trans hdyn) e he i k hi hk b.relocations hsound hl13
    have k15 := array_block_keep h15 k (by
      intro hc e' he' j hj
      rw [i14.frame DYNAMIC_TAGS.DT_FINI_ARRAY (by decide)] at he'
      rw [hsz14]
      exact hother _ hfini (by simp) (of_decide_eq_true hc) e' he' j hj)
    have hp' := (array_block_length h15).2 p hp
    refine ⟨p, hp', hpk, hfin p hp' hpt, ?_⟩
    rw [k15, hr, hsz13]
  · -- the fini array
    subst hX
    simp only at he hk hsize hfin ⊢
    rw [← i14.frame DYNAMIC_TAGS.DT_FINI_ARRAY (by decide)] at he
    rw [← hsz14] at hk
    obtain ⟨p, hp, hpk, hpt, hr⟩ := array_block_hit h15 (decide_eq_true hsize)
      (i14.file_type.trans hdyn) e he i k hi hk b.relocations hsound hl14
    refine ⟨p, hp, hpk, hfin p hp hpt, ?_⟩
    rw [hr, hsz14]

/-- C9, counterexample. In an executable (file type ET_EXEC) whose init array
of four pointers is moved from 0x900 to 0x3060, the relocation on slot 2 keeps
the address 0x910 instead of 0x3060 + 2 * 8; and in a shared object with two
relocations on that slot, the first one, which is not the one recorded in
`relocations_addresses_`, keeps its address as well. -/
theorem relocate_array_relocations_counterexample :
    (∃ st', relocate_patch ex_ops ex_layout (some ex_rsegment) (some ex_rwsegment)
        ex_exec_binary = Except.ok st' ∧
      (∃ p ∈ st'.placed, p.kind = Structure.init_array ∧ p.address = 0x3060) ∧
      (find_entry DYNAMIC_TAGS.DT_INIT_ARRAY ex_exec_binary.dynamic_entries).map
        (fun e => (e.value, e.array.length)) = some (0x900, 4) ∧
      ex_exec_binary.relocations[1]? = some { address := 0x900 + 2 * 8 } ∧
      st'.bin.relocations[1]? = some { address := 0x910 } ∧
      st'.bin.relocations[1]? ≠ some { address := 0x3060 + 2 * 8 }) ∧
    (∃ st', relocate_patch ex_ops ex_layout (some ex_rsegment) (some ex_rwsegment)
        ex_dup_binary = Except.ok st' ∧
      ex_dup_binary.file_type = E_TYPE.ET_DYN ∧
      (∃ p ∈ st'.placed, p.kind = Structure.init_array ∧ p.address = 0x3060) ∧
      ex_dup_binary.relocations[0]? = some { address := 0x900 + 2 * 8 } ∧
      st'.bin.relocations[0]? = some { address := 0x910 }) :=
  ⟨⟨_, rfl, by decide, by decide, by decide, by decide, by decide⟩,
   ⟨_, rfl, by decide, by decide, by decide,
    (relocate_patch_keeps_relocation
      (rfl : relocate_patch ex_ops ex_layout (some ex_rsegment) (some ex_rwsegment)
        ex_dup_binary = Except.ok _) 0
      (by
        intro Y hY hs e' he' j hj
        simp only [array_blocks, List.mem_cons, List.mem_singleton, List.not_mem_nil,
          or_false] at hY
        rcases hY with hY | hY | hY
        · subst hY
          have he : e' = ex_init_entry := by
            have h0 : find_entry DYNAMIC_TAGS.DT_INIT_ARRAY ex_dup_binary.dynamic_entries =
                some ex_init_entry := by decide
            rw [h0] at he'
            exact (Option.some.inj he').symm
          subst he
          have hj4 : j < 4 := hj
          interval_cases j <;> decide
        · subst hY; exact absurd hs (by decide)
        · subst hY; exact absurd hs (by decide))).trans (by decide)⟩⟩

theorem relocate_array_relocations_witness :
    (∃ st', relocate_patch ex_ops ex_layout (some ex_rsegment) (some ex_rwsegment) ex_binary =
        Except.ok st' ∧
      ex_binary.file_type = E_TYPE.ET_DYN ∧
      relocations_addresses ex_binary.relocations
        (slot_address 0x900 (sizeof_p ex_binary) 2) = some 1 ∧
      ∃ p ∈ st'.placed, p.kind = Structure.init_array ∧
        (∃ e', find_entry DYNAMIC_TAGS.DT_INIT_ARRAY st'.bin.dynamic_entries = some e' ∧
          e'.value = p.address) ∧
        st'.bin.relocations[1]? =
          some { address := slot_address p.address (sizeof_p ex_binary) 2 }) ∧
    (∃ st', relocate_patch ex_ops ex_layout (some ex_rsegment) (some ex_rwsegment)
        ex_exec_binary = Except.ok st' ∧
      ex_exec_binary.file_type ≠ E_TYPE.ET_DYN ∧
      st'.bin.relocations = ex_exec_binary.relocations) :=
  ⟨⟨_, rfl, by decide, by decide,
    (relocate_array_relocations ex_ops ex_layout (some ex_rsegment) (some ex_rwsegment)
      ex_binary _ rfl).1 (by decide)
      (Structure.init_array, DYNAMIC_TAGS.DT_INIT_ARRAY, ex_layout.init_size)
      (by simp [array_blocks]) (by decide)
      ex_init_entry (by decide) 2 1 (by decide) (by decide)
      (by
        intro Y hY hne hs
        simp only [array_blocks, List.mem_cons, List.mem_singleton, List.not_mem_nil,
          or_false] at hY
        rcases hY with hY | hY | hY
        · exact absurd hY hne
        · subst hY; exact absurd hs (by decide)
        · subst hY; exact absurd hs (by decide))⟩,
   ⟨_, rfl, by decide,
    (relocate_array_relocations ex_ops ex_layout (some ex_rsegment) (some ex_rwsegment)
      ex_exec_binary _ rfl).2 (by decide)⟩⟩

/-! ## Buckets and chain terminators -/

theorem bucket_inv2_init (H : List Nat → Nat) (nb m : Nat) :
    BucketInv2 H nb []
      { previous_bucket := -1, hash_value_idx := 0, buckets := List.replicate nb 0,
        hash_values := List.replicate m 0 } where
  empty := by intro b _; exact replicate_getD_zero nb b
  hv_high := by intro p s s' h; simp at h

theorem bucket_step_inv2 (H : List Nat → Nat) (symndx nb m : Nat) (hnb1 : 1 ≤ nb)
    (hnb : nb < 2 ^ 32) (pre : List Symbol) (s : Symbol) (st st' : BucketState)
    (hinv : BucketInv H symndx nb m pre st) (hinv2 : BucketInv2 H nb pre st)
    (hm : pre.length < m)
    (hstep : bucket_step H nb (symndx + pre.length) s st = Except.ok st') :
    BucketInv2 H nb (pre ++ [s]) st' := by
  have hx : sym_hash H s % nb < nb := Nat.mod_lt _ (by omega)
  have hlast : 0 < pre.length → ∃ s0, pre[pre.length - 1]? = some s0 := by
    intro h
    exact ⟨pre[pre.length - 1], List.getElem?_eq_getElem (by omega)⟩
  have hprev : (-1 : Int) ≤ st.previous_bucket := by
    by_cases h0 : pre.length = 0
    · rw [hinv.prev_nil (List.length_eq_zero.mp h0)]
    · obtain ⟨s0, hs0⟩ := hlast (by omega)
      rw [hinv.prev_last s0 hs0]
      omega
  have hidx := hinv.idx
  have hhl := hinv.hlen
  simp only [bucket_step, hidx] at hstep
  by_cases hlt : toInt32 (sym_hash H s % nb) < st.previous_bucket
  · rw [if_pos hlt] at hstep
    cases hstep
  rw [if_neg hlt] at hstep
  have hx31 : sym_hash H s % nb < 2 ^ 31 := by
    by_contra hc
    have := toInt32_of_ge (le_of_not_lt hc) (by omega)
    omega
  have hti := toInt32_of_lt hx31
  rw [hti] at hstep hlt
  have hst' := Except.ok.inj hstep
  by_cases hne : ((sym_hash H s % nb : Nat) : Int) ≠ st.previous_bucket
  · rw [if_pos hne] at hst'
    simp only [Int.toNat_ofNat] at hst'
    have hold : ∀ (p : Nat) (sp : Symbol), pre[p]? = some sp →
        sym_hash H sp % nb ≠ sym_hash H s % nb := by
      intro p sp hp heq
      have := hinv.mono p sp hp
      rw [heq] at this
      omega
    subst hst'
    refine ⟨?_, ?_⟩
    · intro b hb
      show (List.set st.buckets _ _).getD b 0 = 0
      have hsb : sym_hash H s % nb ≠ b := hb pre.length s (by simp)
      rw [getD_set_ne _ hsb]
      apply hinv2.empty b
      intro p sp hp
      exact hb p sp (by
        rw [getElem?_snoc_old pre s p (List.getElem?_eq_some_iff.mp hp).1]; exact hp)
    · intro p s1 s2 h1 h2 hk
      show (List.set _ pre.length _).getD p 0 % 2 = 1
      have hp2 : p + 1 < (pre ++ [s]).length := (List.getElem?_eq_some_iff.mp h2).1
      simp only [List.length_append, List.length_singleton] at hp2
      rw [getD_set_ne _ (by omega)]
      rw [getElem?_snoc_old pre s p (by omega)] at h1
      by_cases hpl : p + 1 < pre.length
      · rw [getElem?_snoc_old pre s (p + 1) hpl] at h2
        rw [if_pos (by omega), getD_set_ne _ (by omega)]
        exact hinv2.hv_high p s1 s2 h1 h2 hk
      · have hpe : pre.length - 1 = p := by omega
        rw [if_pos (by omega), hpe, getD_set_eq _ (by omega)]
        exact or_one_mod_two _
  · rw [if_neg hne] at hst'
    simp only [hidx] at hst'
    have heq : ((sym_hash H s % nb : Nat) : Int) = st.previous_bucket := by
      by_contra h; exact hne h
    have hpos : 0 < pre.length := by
      by_contra h0
      have := hinv.prev_nil (List.length_eq_zero.mp (by omega))
      omega
    obtain ⟨s0, hs0⟩ := hlast hpos
    have hkey0 : sym_hash H s0 % nb = sym_hash H s % nb := by
      have := hinv.prev_last s0 hs0
      omega
    subst hst'
    refine ⟨?_, ?_⟩
    · intro b hb
      apply hinv2.empty b
      intro p sp hp
      exact hb p sp (by
        rw [getElem?_snoc_old pre s p (List.getElem?_eq_some_iff.mp hp).1]; exact hp)
    · intro p s1 s2 h1 h2 hk
      show (List.set _ pre.length _).getD p 0 % 2 = 1
      have hp2 : p + 1 < (pre ++ [s]).length := (List.getElem?_eq_some_iff.mp h2).1
      simp only [List.length_append, List.length_singleton] at hp2
      rw [getD_set_ne _ (by omega)]
      rw [getElem?_snoc_old pre s p (by omega)] at h1
      by_cases hpl : p + 1 < pre.length
      · rw [getElem?_snoc_old pre s (p + 1) hpl] at h2
        exact hinv2.hv_high p s1 s2 h1 h2 hk
      · exfalso
        have hpe : p = pre.length - 1 := by omega
        have hpe2 : p + 1 = pre.length := by omega
        rw [hpe] at h1
        rw [hpe2, List.getElem?_append_right (le_refl _)] at h2
        simp at h2
        rw [hs0] at h1
        rw [← Option.some.inj h1, ← h2] at hk
        exact hk hkey0

theorem bucket_loop_inv2 (H : List Nat → Nat) (symndx nb m : Nat) (hnb1 : 1 ≤ nb)
    (hnb : nb < 2 ^ 32) (suf : List Symbol) :
    ∀ (pre : List Symbol) (st st' : BucketState),
      BucketInv H symndx nb m pre st → BucketInv2 H nb pre st →
      pre.length + suf.length ≤ m →
      bucket_loop H nb (symndx + pre.length) suf st = Except.ok st' →
      BucketInv2 H nb (pre ++ suf) st' := by
  induction suf with
  | nil =>
    intro pre st st' _ hinv2 _ h
    simp only [bucket_loop] at h
    rw [List.append_nil, ← Except.ok.inj h]
    exact hinv2
  | cons s rest ih =>
    intro pre st st' hinv hinv2 hm h
    simp only [bucket_loop] at h
    rw [List.length_cons] at hm
    cases hstep : bucket_step H nb (symndx + pre.length) s st with
    | error e => rw [hstep] at h; cases h
    | ok st1 =>
      rw [hstep] at h
      have h1 := bucket_step_inv H symndx nb m hnb1 hnb pre s st st1 hinv (by omega) hstep
      have h2 := bucket_step_inv2 H symndx nb m hnb1 hnb pre s st st1 hinv hinv2 (by omega) hstep
      have := ih (pre ++ [s]) st1 st' h1 h2 (by simp; omega)
        (by rw [List.length_append, List.length_singleton, ← Nat.add_assoc]; exact h)
      rw [List.append_assoc] at this
      exact this

/-- C11. In the table built by `ExeLayout::symbol_gnu_hash_size` (at least one
bucket, `symndx` not beyond the `n < 2^32` dynamic symbols) there are
`nb_buckets` buckets and `n - symndx` hash values; a bucket `b` that no symbol
of `[symndx, n)` falls in holds 0; a bucket `b` that some symbol falls in holds
the smallest index of `[symndx, n)` whose symbol has
`hash(name) mod nb_buckets = b`; and `hash_values[k]` agrees with the hash of
the symbol at `symndx + k` on every bit but the lowest, its lowest bit being set
exactly when `k` is the last entry or the next symbol is in another bucket. -/
theorem gnu_hash_buckets_and_terminators (dl_new_hash : List Nat → Nat) (cls : ELF_CLASS)
    (gnu_hash : GnuHash) (new_symndx : Int) (dynamic_symbols syms' : List Symbol)
    (t : GnuHashTable)
    (hbuild : symbol_gnu_hash_build dl_new_hash cls gnu_hash new_symndx dynamic_symbols =
      Except.ok (syms', t))
    (hnb : 1 ≤ t.nb_buckets) (hsym : t.symndx ≤ dynamic_symbols.length)
    (hn : dynamic_symbols.length < 2 ^ 32) :
    t.buckets.length = t.nb_buckets ∧
    t.hash_values.length = dynamic_symbols.length - t.symndx ∧
    (∀ b : Nat, (∀ (i : Nat) (s : Symbol), t.symndx ≤ i → syms'[i]? = some s →
        sym_hash dl_new_hash s % t.nb_buckets ≠ b) → t.buckets.getD b 0 = 0) ∧
    (∀ (b i : Nat) (s : Symbol), t.symndx ≤ i → syms'[i]? = some s →
        sym_hash dl_new_hash s % t.nb_buckets = b →
        t.symndx ≤ t.buckets.getD b 0 ∧ t.buckets.getD b 0 ≤ i ∧
        ∃ s0, syms'[t.buckets.getD b 0]? = some s0 ∧
          sym_hash dl_new_hash s0 % t.nb_buckets = b) ∧
    (∀ (k : Nat) (s : Symbol), syms'[t.symndx + k]? = some s →
        t.hash_values.getD k 0 / 2 = sym_hash dl_new_hash s / 2 ∧
        (t.hash_values.getD k 0 % 2 = 1 ↔
          (t.symndx + k + 1 = syms'.length ∨
            ∃ s', syms'[t.symndx + k + 1]? = some s' ∧
              sym_hash dl_new_hash s' % t.nb_buckets ≠
                sym_hash dl_new_hash s % t.nb_buckets))) := by
  obtain ⟨hnbeq, _, _, _, hsyms, _, st, hloop, hbk, hhv⟩ :=
    symbol_gnu_hash_build_ok dl_new_hash cls gnu_hash new_symndx dynamic_symbols syms' t hbuild
  have hnb32 : t.nb_buckets < 2 ^ 32 := by rw [hnbeq]; exact u32_lt _
  have htake : (dynamic_symbols.take t.symndx).length = t.symndx := by
    rw [List.length_take]; omega
  generalize hR : stable_sort (bucket_lt dl_new_hash t.nb_buckets)
    (dynamic_symbols.drop t.symndx) = R at hsyms
  have hRlen : R.length = dynamic_symbols.length - t.symndx := by
    rw [← hR, stable_sort_length, List.length_drop]
  have hdrop : syms'.drop t.symndx = R := by
    rw [hsyms, List.drop_append_of_le_length (by omega), List.drop_of_length_le (by omega),
      List.nil_append]
  have hslen : syms'.length = t.symndx + R.length := by
    rw [hsyms, List.length_append, htake]
  have hlen : syms'.length - t.symndx = R.length := by omega
  rw [hdrop, hlen] at hloop
  have hinv := bucket_loop_inv dl_new_hash t.symndx t.nb_buckets R.length hnb hnb32 R []
    _ st (bucket_inv_init dl_new_hash t.symndx t.nb_buckets R.length) (by simp)
    (by simpa using hloop)
  have hinv2 := bucket_loop_inv2 dl_new_hash t.symndx t.nb_buckets R.length hnb hnb32 R []
    _ st (bucket_inv_init dl_new_hash t.symndx t.nb_buckets R.length)
    (bucket_inv2_init dl_new_hash t.nb_buckets R.length) (by simp)
    (by simpa using hloop)
  rw [List.nil_append] at hinv hinv2
  have hget : ∀ (i : Nat), t.symndx ≤ i → syms'[i]? = R[i - t.symndx]? := by
    intro i hi
    rw [hsyms, List.getElem?_append_right (by omega), htake]
  have hidx := hinv.idx
  have hhl := hinv.hlen
  refine ⟨?_, ?_, ?_, ?_, ?_⟩
  · rw [hbk]; exact hinv.blen
  · rw [hhv, ← hRlen]
    split
    · rw [List.length_set]; exact hhl
    · exact hhl
  · intro b hb
    rw [hbk]
    apply hinv2.empty b
    intro p s hp
    exact hb (t.symndx + p) s (by omega) (by
      rw [hget _ (by omega), Nat.add_sub_cancel_left]; exact hp)
  · intro b i s hi hs hkey
    rw [hget i hi] at hs
    have hpR : i - t.symndx < R.length := (List.getElem?_eq_some_iff.mp hs).1
    obtain ⟨p0, hp0, hb, hbetween⟩ := hinv.bucket (i - t.symndx) s hs
    have hbv : t.buckets.getD b 0 = t.symndx + p0 := by
      rw [hbk, ← hkey, hb, u32_of_lt (by omega)]
    rw [hbv]
    refine ⟨by omega, by omega, R[p0], ?_, ?_⟩
    · rw [hget _ (by omega), Nat.add_sub_cancel_left]
      exact List.getElem?_eq_getElem (by omega)
    · rw [← hkey]
      exact hbetween p0 R[p0] (le_refl _) hp0 (List.getElem?_eq_getElem (by omega))
  · intro k s hs
    rw [hget _ (by omega), Nat.add_sub_cancel_left] at hs
    have hk : k < R.length := (List.getElem?_eq_some_iff.mp hs).1
    have hdiv := hinv.hv_div k s hs
    have hpos : st.hash_value_idx > 0 := by omega
    rw [hhv, if_pos hpos, hidx]
    by_cases hlastk : k + 1 = R.length
    · have hke : R.length - 1 = k := by omega
      rw [hke, getD_set_eq _ (by omega), or_one_div_two]
      refine ⟨hdiv, ?_⟩
      constructor
      · intro _
        exact Or.inl (by omega)
      · intro _
        exact or_one_mod_two _
    · have hk1 : k + 1 < R.length := by omega
      rw [getD_set_ne _ (by omega)]
      refine ⟨hdiv, ?_⟩
      have hs' : R[k + 1]? = some R[k + 1] := List.getElem?_eq_getElem hk1
      have hgs' : syms'[t.symndx + k + 1]? = some R[k + 1] := by
        rw [hget _ (by omega), ← hs']
        congr 1
        omega
      by_cases hkey : sym_hash dl_new_hash s % t.nb_buckets =
          sym_hash dl_new_hash R[k + 1] % t.nb_buckets
      · have h0 := hinv.hv_low k s _ hs hs' hkey
        constructor
        · intro h1
          omega
        · intro h
          rcases h with h | ⟨s', hs1, hne⟩
          · omega
          · rw [hgs'] at hs1
            rw [← Option.some.inj hs1] at hne
            exact absurd hkey.symm hne
      · have h1 := hinv2.hv_high k s _ hs hs' hkey
        constructor
        · intro _
          exact Or.inr ⟨_, hgs', fun h => hkey h.symm⟩
        · intro _
          exact h1

theorem gnu_hash_buckets_and_terminators_witness :
    ex_gnu_table.buckets.length = ex_gnu_table.nb_buckets ∧
    ex_gnu_table.hash_values.length = ex_gnu_symbols.length - ex_gnu_table.symndx ∧
    (∀ b : Nat, (∀ (i : Nat) (s : Symbol), ex_gnu_table.symndx ≤ i → ex_gnu_sorted[i]? = some s →
        sym_hash dl_new_hash_ref s % ex_gnu_table.nb_buckets ≠ b) →
        ex_gnu_table.buckets.getD b 0 = 0) ∧
    (∀ (b i : Nat) (s : Symbol), ex_gnu_table.symndx ≤ i → ex_gnu_sorted[i]? = some s →
        sym_hash dl_new_hash_ref s % ex_gnu_table.nb_buckets = b →
        ex_gnu_table.symndx ≤ ex_gnu_table.buckets.getD b 0 ∧
        ex_gnu_table.buckets.getD b 0 ≤ i ∧
        ∃ s0, ex_gnu_sorted[ex_gnu_table.buckets.getD b 0]? = some s0 ∧
          sym_hash dl_new_hash_ref s0 % ex_gnu_table.nb_buckets = b) ∧
    (∀ (k : Nat) (s : Symbol), ex_gnu_sorted[ex_gnu_table.symndx + k]? = some s →
        ex_gnu_table.hash_values.getD k 0 / 2 = sym_hash dl_new_hash_ref s / 2 ∧
        (ex_gnu_table.hash_values.getD k 0 % 2 = 1 ↔
          (ex_gnu_table.symndx + k + 1 = ex_gnu_sorted.length ∨
            ∃ s', ex_gnu_sorted[ex_gnu_table.symndx + k + 1]? = some s' ∧
              sym_hash dl_new_hash_ref s' % ex_gnu_table.nb_buckets ≠
                sym_hash dl_new_hash_ref s % ex_gnu_table.nb_buckets))) :=
  gnu_hash_buckets_and_terminators dl_new_hash_ref ELF_CLASS.ELFCLASS64
    { nb_buckets := 3, maskwords := 2, shift2 := 6 } 1 ex_gnu_symbols ex_gnu_sorted ex_gnu_table
    rfl (by decide) (by decide) (by decide)

/-! ## The sort of the dynamic symbols by bucket -/

theorem insert_sorted_filter {α : Type} (lt : α → α → Bool) (p : α → Bool) (x : α)
    (hp : ∀ y, lt y x = true → p y = true → p x = false) (l : List α) :
    (insert_sorted lt x l).filter p = (x :: l).filter p := by
  induction l with
  | nil => rfl
  | cons y ys ih =>
    simp only [insert_sorted]
    by_cases hlt : lt y x = true
    · rw [if_pos hlt]
      cases hy : p y with
      | true =>
        have hx := hp y hlt hy
        simp only [List.filter_cons, hy, hx, if_true, Bool.false_eq_true, if_false] at ih ⊢
        rw [ih]
      | false =>
        simp only [List.filter_cons, hy, Bool.false_eq_true, if_false] at ih ⊢
        exact ih
    · rw [if_neg hlt]

theorem stable_sort_filter {α : Type} (lt : α → α → Bool) (p : α → Bool)
    (hp : ∀ x y, lt y x = true → p y = true → p x = false) (l : List α) :
    (stable_sort lt l).filter p = l.filter p := by
  induction l with
  | nil => rfl
  | cons x xs ih =>
    simp only [stable_sort]
    rw [insert_sorted_filter lt p x (hp x)]
    simp only [List.filter_cons, ih]

theorem insert_sorted_pairwise (H : List Nat → Nat) (nb : Nat) (x : Symbol) (l : List Symbol)
    (hl : l.Pairwise (fun a b => sym_hash H a % nb ≤ sym_hash H b % nb)) :
    (insert_sorted (bucket_lt H nb) x l).Pairwise
      (fun a b => sym_hash H a % nb ≤ sym_hash H b % nb) := by
  induction l with
  | nil => exact List.pairwise_singleton _ _
  | cons y ys ih =>
    simp only [insert_sorted]
    rw [List.pairwise_cons] at hl
    by_cases hlt : bucket_lt H nb y x = true
    · rw [if_pos hlt, List.pairwise_cons]
      refine ⟨?_, ih hl.2⟩
      intro z hz
      rcases List.mem_cons.mp ((insert_sorted_perm _ x ys).subset hz) with h | h
      · subst h
        exact Nat.le_of_lt (of_decide_eq_true hlt)
      · exact hl.1 z h
    · rw [if_neg hlt]
      have hxy : sym_hash H x % nb ≤ sym_hash H y % nb := by
        have : ¬ (sym_hash H y % nb < sym_hash H x % nb) := fun h => hlt (decide_eq_true h)
        omega
      rw [List.pairwise_cons]
      refine ⟨?_, List.pairwise_cons.mpr hl⟩
      intro z hz
      rcases List.mem_cons.mp hz with h | h
      · subst h; exact hxy
      · exact Nat.le_trans hxy (hl.1 z h)

theorem stable_sort_pairwise (H : List Nat → Nat) (nb : Nat) (l : List Symbol) :
    (stable_sort (bucket_lt H nb) l).Pairwise
      (fun a b => sym_hash H a % nb ≤ sym_hash H b % nb) := by
  induction l with
  | nil => exact List.Pairwise.nil
  | cons x xs ih => exact insert_sorted_pairwise H nb x _ ih

/-- On a range sorted by bucket, with fewer than `2^31` buckets in use, the
bucket loop raises no exception. -/
theorem bucket_loop_sorted_ok (H : List Nat → Nat) (nb : Nat) (hnb1 : 1 ≤ nb)
    (hnb : nb ≤ 2 ^ 31) (l : List Symbol) :
    ∀ (i : Nat) (st : BucketState),
      l.Pairwise (fun a b => sym_hash H a % nb ≤ sym_hash H b % nb) →
      (∀ s ∈ l, st.previous_bucket ≤ ((sym_hash H s % nb : Nat) : Int)) →
      ∃ st', bucket_loop H nb i l st = Except.ok st' := by
  induction l with
  | nil => intro i st _ _; exact ⟨st, rfl⟩
  | cons s rest ih =>
    intro i st hsorted hprev
    rw [List.pairwise_cons] at hsorted
    have hx : sym_hash H s % nb < 2 ^ 31 := lt_of_lt_of_le (Nat.mod_lt _ (by omega)) hnb
    have hti : toInt32 (sym_hash H s % nb) = ((sym_hash H s % nb : Nat) : Int) := toInt32_of_lt hx
    have h0 := hprev s (List.mem_cons_self _ _)
    have hstep : ∃ st1, bucket_step H nb i s st = Except.ok st1 ∧
        st1.previous_bucket = ((sym_hash H s % nb : Nat) : Int) := by
      simp only [bucket_step, hti]
      rw [if_neg (by omega)]
      refine ⟨_, rfl, ?_⟩
      by_cases hne : ((sym_hash H s % nb : Nat) : Int) ≠ st.previous_bucket
      · rw [if_pos hne]
      · rw [if_neg hne]
        exact (not_not.mp hne).symm
    obtain ⟨st1, h1, hp1⟩ := hstep
    simp only [bucket_loop, h1]
    apply ih (i + 1) st1 hsorted.2
    intro s' hs'
    rw [hp1]
    exact Int.ofNat_le.mpr (hsorted.1 s' hs')

/-- C12. On its first call, with at least one bucket and `symndx` not beyond
the `n` dynamic symbols, `ExeLayout::symbol_gnu_hash_size` returns (no exception
when the bucket count is at most `2^31`), and when it returns the symbols below
`symndx` are unchanged, the symbols at `[symndx, n)` are a permutation of the
previous ones in non-decreasing order of `hash(name) mod nb_buckets`, and for
every bucket the symbols of that bucket keep their previous relative order. -/
theorem symbol_gnu_hash_sorts_by_bucket (dl_new_hash : List Nat → Nat) (cls : ELF_CLASS)
    (gnu_hash : GnuHash) (new_symndx : Int) (dynamic_symbols : List Symbol)
    (hnb : 1 ≤ u32 gnu_hash.nb_buckets)
    (hsym : (if new_symndx ≥ 0 then u32 new_symndx.toNat else 0) ≤ dynamic_symbols.length) :
    (u32 gnu_hash.nb_buckets ≤ 2 ^ 31 →
      ∃ r, symbol_gnu_hash_build dl_new_hash cls gnu_hash new_symndx dynamic_symbols =
        Except.ok r) ∧
    ∀ syms' t,
      symbol_gnu_hash_build dl_new_hash cls gnu_hash new_symndx dynamic_symbols =
        Except.ok (syms', t) →
      syms'.take t.symndx = dynamic_symbols.take t.symndx ∧
      (syms'.drop t.symndx).Perm (dynamic_symbols.drop t.symndx) ∧
      (syms'.drop t.symndx).Pairwise (fun a b =>
        sym_hash dl_new_hash a % t.nb_buckets ≤ sym_hash dl_new_hash b % t.nb_buckets) ∧
      ∀ k, (syms'.drop t.symndx).filter (fun s => sym_hash dl_new_hash s % t.nb_buckets == k) =
        (dynamic_symbols.drop t.symndx).filter
          (fun s => sym_hash dl_new_hash s % t.nb_buckets == k) := by
  constructor
  · intro h31
    simp only [symbol_gnu_hash_build]
    obtain ⟨st', hst'⟩ := bucket_loop_sorted_ok dl_new_hash (u32 gnu_hash.nb_buckets) hnb h31
      ((dynamic_symbols.take (if new_symndx ≥ 0 then u32 new_symndx.toNat else 0) ++
        stable_sort (bucket_lt dl_new_hash (u32 gnu_hash.nb_buckets))
          (dynamic_symbols.drop (if new_symndx ≥ 0 then u32 new_symndx.toNat else 0))).drop
        (if new_symndx ≥ 0 then u32 new_symndx.toNat else 0))
      (if new_symndx ≥ 0 then u32 new_symndx.toNat else 0)
      { previous_bucket := -1, hash_value_idx := 0,
        buckets := List.replicate (u32 gnu_hash.nb_buckets) 0,
        hash_values := List.replicate
          ((dynamic_symbols.take (if new_symndx ≥ 0 then u32 new_symndx.toNat else 0) ++
            stable_sort (bucket_lt dl_new_hash (u32 gnu_hash.nb_buckets))
              (dynamic_symbols.drop
                (if new_symndx ≥ 0 then u32 new_symndx.toNat else 0))).length -
            (if new_symndx ≥ 0 then u32 new_symndx.toNat else 0)) 0 }
      (by
        rw [List.drop_append_of_le_length (by rw [List.length_take]; omega),
          List.drop_of_length_le (by rw [List.length_take]; omega), List.nil_append]
        exact stable_sort_pairwise _ _ _)
      (by
        intro s _
        show (-1 : Int) ≤ _
        omega)
    rw [hst']
    exact ⟨_, rfl⟩
  · intro syms' t hbuild
    obtain ⟨_, _, _, hsx, hsyms, _⟩ :=
      symbol_gnu_hash_build_ok dl_new_hash cls gnu_hash new_symndx dynamic_symbols syms' t hbuild
    rw [← hsx] at hsym
    have htake : (dynamic_symbols.take t.symndx).length = t.symndx := by
      rw [List.length_take]; omega
    have hdrop : syms'.drop t.symndx =
        stable_sort (bucket_lt dl_new_hash t.nb_buckets) (dynamic_symbols.drop t.symndx) := by
      rw [hsyms, List.drop_append_of_le_length (by omega), List.drop_of_length_le (by omega),
        List.nil_append]
    refine ⟨?_, ?_, ?_, ?_⟩
    · rw [hsyms, List.take_append_of_le_length (by omega), List.take_of_length_le (by omega)]
    · rw [hdrop]
      exact stable_sort_perm _ _
    · rw [hdrop]
      exact stable_sort_pairwise _ _ _
    · intro k
      rw [hdrop]
      apply stable_sort_filter
      intro x y hlt hy
      have h1 : sym_hash dl_new_hash y % t.nb_buckets < sym_hash dl_new_hash x % t.nb_buckets :=
        of_decide_eq_true hlt
      have h2 : sym_hash dl_new_hash y % t.nb_buckets = k := by simpa using hy
      have h3 : sym_hash dl_new_hash x % t.nb_buckets ≠ k := by omega
      simpa using h3

theorem symbol_gnu_hash_sorts_by_bucket_witness :
    (u32 3 ≤ 2 ^ 31 →
      ∃ r, symbol_gnu_hash_build dl_new_hash_ref ELF_CLASS.ELFCLASS64
        { nb_buckets := 3, maskwords := 2, shift2 := 6 } 1 ex_gnu_symbols = Except.ok r) ∧
    ∀ syms' t,
      symbol_gnu_hash_build dl_new_hash_ref ELF_CLASS.ELFCLASS64
        { nb_buckets := 3, maskwords := 2, shift2 := 6 } 1 ex_gnu_symbols =
        Except.ok (syms', t) →
      syms'.take t.symndx = ex_gnu_symbols.take t.symndx ∧
      (syms'.drop t.symndx).Perm (ex_gnu_symbols.drop t.symndx) ∧
      (syms'.drop t.symndx).Pairwise (fun a b =>
        sym_hash dl_new_hash_ref a % t.nb_buckets ≤ sym_hash dl_new_hash_ref b % t.nb_buckets) ∧
      ∀ k, (syms'.drop t.symndx).filter
          (fun s => sym_hash dl_new_hash_ref s % t.nb_buckets == k) =
        (ex_gnu_symbols.drop t.symndx).filter
          (fun s => sym_hash dl_new_hash_ref s % t.nb_buckets == k) :=
  symbol_gnu_hash_sorts_by_bucket dl_new_hash_ref ELF_CLASS.ELFCLASS64
    { nb_buckets := 3, maskwords := 2, shift2 := 6 } 1 ex_gnu_symbols (by decide) (by decide)

/-! ## The output sink -/

theorem le_bytes_length (w v : Nat) : (le_bytes w v).length = w := by
  induction w generalizing v with
  | zero => rfl
  | succ w ih => simp [le_bytes, ih]

theorem object_bytes_length (host : Host) (w v : Nat) : (object_bytes host w v).length = w := by
  unfold object_bytes
  split <;> simp [le_bytes_length]

theorem copy_at_end (raw bytes : List Nat) : copy_at raw raw.length bytes = raw ++ bytes := by
  unfold copy_at
  by_cases h : bytes.length = 0
  · have hb : bytes = [] := List.length_eq_zero.mp h
    subst hb
    simp
  · have hlt : raw.length < raw.length + bytes.length := by omega
    simp only [if_pos hlt]
    rw [List.take_left, Nat.add_sub_cancel_left]
    have : raw.length + bytes.length = (raw ++ List.replicate bytes.length 0).length := by simp
    rw [this, List.drop_length, List.append_nil]

/-- A write at the end of the buffer appends the bytes and stays at the end. -/
theorem write_at_end (s : vector_iostream) (bytes : List Nat)
    (h : s.current_pos_ = s.raw_.length) :
    (s.write bytes).raw_ = s.raw_ ++ bytes ∧
    (s.write bytes).current_pos_ = (s.write bytes).raw_.length ∧
    (s.write bytes).endian_swap_ = s.endian_swap_ := by
  have hr : (s.write bytes).raw_ = s.raw_ ++ bytes := by
    show copy_at s.raw_ s.current_pos_ bytes = _
    rw [h, copy_at_end]
  refine ⟨hr, ?_, rfl⟩
  rw [hr]
  show s.current_pos_ + bytes.length = _
  rw [h, List.length_append]

theorem write_conv_at_end (host : Host) (w t : Nat) (s : vector_iostream)
    (h : s.current_pos_ = s.raw_.length) (hs : s.endian_swap_ = false) :
    (s.write_conv host w t).raw_ = s.raw_ ++ object_bytes host w t ∧
    (s.write_conv host w t).current_pos_ = (s.write_conv host w t).raw_.length ∧
    (s.write_conv host w t).endian_swap_ = false := by
  have := write_at_end s (object_bytes host w t) h
  simp only [vector_iostream.write_conv, hs, Bool.false_eq_true, if_false]
  exact ⟨this.1, this.2.1, this.2.2.trans hs⟩

theorem write_conv_array_at_end (host : Host) (w : Nat) (v : List Nat) :
    ∀ (s : vector_iostream), s.current_pos_ = s.raw_.length → s.endian_swap_ = false →
    (s.write_conv_array host w v).raw_ = s.raw_ ++ (v.map (object_bytes host w)).flatten ∧
    (s.write_conv_array host w v).current_pos_ = (s.write_conv_array host w v).raw_.length ∧
    (s.write_conv_array host w v).endian_swap_ = false := by
  induction v with
  | nil =>
    intro s h hs
    simp [vector_iostream.write_conv_array, h, hs]
  | cons x xs ih =>
    intro s h hs
    obtain ⟨h1, h2, h3⟩ := write_conv_at_end host w x s h hs
    have := ih (s.write_conv host w x) h2 h3
    simp only [vector_iostream.write_conv_array, List.foldl_cons] at this ⊢
    rw [h1] at this
    simpa [List.append_assoc] using this

theorem flatten_object_bytes_length (host : Host) (w : Nat) (v : List Nat) :
    ((v.map (object_bytes host w)).flatten).length = w * v.length := by
  induction v with
  | nil => simp
  | cons x xs ih =>
    simp only [List.map_cons, List.flatten_cons, List.length_append, object_bytes_length,
      List.length_cons, ih]
    rw [Nat.mul_succ]
    omega

/-! ## The bytes of the GNU hash table -/

theorem bucket_step_lengths (H : List Nat → Nat) (nb i : Nat) (s : Symbol)
    (st st' : BucketState) (h : bucket_step H nb i s st = Except.ok st') :
    st'.buckets.length = st.buckets.length ∧
    st'.hash_values.length = st.hash_values.length := by
  simp only [bucket_step] at h
  split at h
  · cases h
  · have h' := Except.ok.inj h
    subst h'
    split
    · constructor
      · simp
      · simp only [List.length_set]
        split <;> simp
    · simp

theorem bucket_loop_lengths (H : List Nat → Nat) (nb : Nat) (l : List Symbol) :
    ∀ (i : Nat) (st st' : BucketState), bucket_loop H nb i l st = Except.ok st' →
    st'.buckets.length = st.buckets.length ∧
    st'.hash_values.length = st.hash_values.length := by
  induction l with
  | nil =>
    intro i st st' h
    simp only [bucket_loop] at h
    rw [← Except.ok.inj h]
    exact ⟨rfl, rfl⟩
  | cons s rest ih =>
    intro i st st' h
    simp only [bucket_loop] at h
    cases hstep : bucket_step H nb i s st with
    | error e => rw [hstep] at h; cases h
    | ok st1 =>
      rw [hstep] at h
      have h1 := bucket_step_lengths H nb i s st st1 hstep
      have h2 := ih (i + 1) st1 st' h
      exact ⟨h2.1.trans h1.1, h2.2.trans h1.2⟩

theorem bloom_fold_length (H : List Nat → Nat) (C mw s2 : Nat) (l : List Symbol) :
    ∀ bl : List Nat, (l.foldl (bloom_step H C mw s2) bl).length = bl.length := by
  induction l with
  | nil => intro bl; rfl
  | cons s rest ih =>
    intro bl
    rw [List.foldl_cons, ih, bloom_step_length]

/-- C13. On its first call, when the table is built (`symndx` not beyond the
`n` dynamic symbols), `ExeLayout::symbol_gnu_hash_size` leaves in
`raw_gnu_hash_` the four 32-bit words `nb_buckets`, `symndx`, `maskwords`,
`shift2` (`nb_buckets`, `maskwords`, `shift2` read from the existing table,
`symndx` the recorded index, 0 when it is unset), then the `maskwords` bloom
words of `W` bytes (4 for ELF32, 8 for ELF64), the `nb_buckets` 32-bit buckets
and the `n - symndx` 32-bit hash values, and returns
`16 + W * maskwords + 4 * nb_buckets + 4 * (n - symndx)`. -/
theorem symbol_gnu_hash_size_blob (dl_new_hash : List Nat → Nat) (host : Host)
    (cls : ELF_CLASS) (gnu_hash : GnuHash) (new_symndx : Int) (b : Binary) (lay : ExeLayout)
    (syms' : List Symbol) (t : GnuHashTable)
    (hfirst : lay.raw_gnu_hash = [])
    (hbuild : symbol_gnu_hash_build dl_new_hash cls gnu_hash new_symndx b.dynamic_symbols =
      Except.ok (syms', t))
    (hsym : t.symndx ≤ b.dynamic_symbols.length) :
    (t.nb_buckets = u32 gnu_hash.nb_buckets ∧ t.maskwords = u32 gnu_hash.maskwords ∧
      t.shift2 = u32 gnu_hash.shift2 ∧
      t.symndx = (if new_symndx ≥ 0 then u32 new_symndx.toNat else 0)) ∧
    (t.bloom_filters.length = t.maskwords ∧ t.buckets.length = t.nb_buckets ∧
      t.hash_values.length = b.dynamic_symbols.length - t.symndx) ∧
    (ELF_CLASS.ELFCLASS32.word_size = 4 ∧ ELF_CLASS.ELFCLASS64.word_size = 8) ∧
    ∃ lay', symbol_gnu_hash_size dl_new_hash host cls gnu_hash new_symndx b lay =
        Except.ok (16 + cls.word_size * t.maskwords + 4 * t.nb_buckets +
          4 * (b.dynamic_symbols.length - t.symndx),
          { b with dynamic_symbols := syms' }, lay') ∧
      lay'.raw_gnu_hash =
        object_bytes host 4 t.nb_buckets ++ object_bytes host 4 t.symndx ++
        object_bytes host 4 t.maskwords ++ object_bytes host 4 t.shift2 ++
        (t.bloom_filters.map (object_bytes host cls.word_size)).flatten ++
        (t.buckets.map (object_bytes host 4)).flatten ++
        (t.hash_values.map (object_bytes host 4)).flatten := by
  obtain ⟨hnbeq, hmw, hs2, hsx, hsyms, hbloom, st, hloop, hbk, hhv⟩ :=
    symbol_gnu_hash_build_ok dl_new_hash cls gnu_hash new_symndx b.dynamic_symbols syms' t hbuild
  have hl := bucket_loop_lengths dl_new_hash t.nb_buckets _ _ _ st hloop
  simp only [List.length_replicate] at hl
  have hslen : syms'.length = b.dynamic_symbols.length := by
    rw [hsyms, List.length_append, List.length_take, stable_sort_length, List.length_drop]
    omega
  have hbl : t.bloom_filters.length = t.maskwords := by
    rw [hbloom, bloom_fold_length, List.length_replicate]
  have hbkl : t.buckets.length = t.nb_buckets := by rw [hbk]; exact hl.1
  have hhvl : t.hash_values.length = b.dynamic_symbols.length - t.symndx := by
    rw [hhv, ← hslen]
    split
    · rw [List.length_set]; exact hl.2
    · exact hl.2
  refine ⟨⟨hnbeq, hmw, hs2, hsx⟩, ⟨hbl, hbkl, hhvl⟩, ⟨rfl, rfl⟩, ?_⟩
  have h0 : (({} : vector_iostream)).current_pos_ = (({} : vector_iostream)).raw_.length := rfl
  obtain ⟨a1, a2, a3⟩ := write_conv_at_end host 4 t.nb_buckets {} h0 rfl
  obtain ⟨b1, b2, b3⟩ := write_conv_at_end host 4 t.symndx _ a2 a3
  obtain ⟨c1, c2, c3⟩ := write_conv_at_end host 4 t.maskwords _ b2 b3
  obtain ⟨d1, d2, d3⟩ := write_conv_at_end host 4 t.shift2 _ c2 c3
  obtain ⟨e1, e2, e3⟩ := write_conv_array_at_end host cls.word_size t.bloom_filters _ d2 d3
  obtain ⟨f1, f2, f3⟩ := write_conv_array_at_end host 4 t.buckets _ e2 e3
  obtain ⟨g1, _, _⟩ := write_conv_array_at_end host 4 t.hash_values _ f2 f3
  rw [f1, e1, d1, c1, b1, a1] at g1
  have hraw : ∀ x : List Nat, ([] : List Nat) ++ x = x := List.nil_append
  simp only [show (({} : vector_iostream)).raw_ = [] from rfl, hraw] at g1
  simp only [symbol_gnu_hash_size, vector_iostream.move, hfirst, List.length_nil, gt_iff_lt,
    Nat.lt_irrefl, if_false, hbuild]
  refine ⟨{ lay with raw_gnu_hash := _ }, ?_, g1⟩
  congr 2
  rw [g1]
  simp only [List.length_append, object_bytes_length, flatten_object_bytes_length, hbl, hbkl,
    hhvl]

theorem symbol_gnu_hash_size_blob_witness :
    (ex_gnu_table.nb_buckets = u32 3 ∧ ex_gnu_table.maskwords = u32 2 ∧
      ex_gnu_table.shift2 = u32 6 ∧
      ex_gnu_table.symndx = (if (1 : Int) ≥ 0 then u32 (1 : Int).toNat else 0)) ∧
    (ex_gnu_table.bloom_filters.length = ex_gnu_table.maskwords ∧
      ex_gnu_table.buckets.length = ex_gnu_table.nb_buckets ∧
      ex_gnu_table.hash_values.length = ex_gnu_symbols.length - ex_gnu_table.symndx) ∧
    (ELF_CLASS.ELFCLASS32.word_size = 4 ∧ ELF_CLASS.ELFCLASS64.word_size = 8) ∧
    ∃ lay', symbol_gnu_hash_size dl_new_hash_ref ex_host ELF_CLASS.ELFCLASS64
        { nb_buckets := 3, maskwords := 2, shift2 := 6 } 1
        { dynamic_symbols := ex_gnu_symbols } {} =
        Except.ok (16 + ELF_CLASS.ELFCLASS64.word_size * ex_gnu_table.maskwords +
          4 * ex_gnu_table.nb_buckets + 4 * (ex_gnu_symbols.length - ex_gnu_table.symndx),
          { dynamic_symbols := ex_gnu_sorted }, lay') ∧
      lay'.raw_gnu_hash =
        object_bytes ex_host 4 ex_gnu_table.nb_buckets ++
        object_bytes ex_host 4 ex_gnu_table.symndx ++
        object_bytes ex_host 4 ex_gnu_table.maskwords ++
        object_bytes ex_host 4 ex_gnu_table.shift2 ++
        (ex_gnu_table.bloom_filters.map
          (object_bytes ex_host ELF_CLASS.ELFCLASS64.word_size)).flatten ++
        (ex_gnu_table.buckets.map (object_bytes ex_host 4)).flatten ++
        (ex_gnu_table.hash_values.map (object_bytes ex_host 4)).flatten :=
  symbol_gnu_hash_size_blob dl_new_hash_ref ex_host ELF_CLASS.ELFCLASS64
    { nb_buckets := 3, maskwords := 2, shift2 := 6 } 1 { dynamic_symbols := ex_gnu_symbols } {}
    ex_gnu_sorted ex_gnu_table rfl rfl (by decide)

/-! ## The legacy hash table -/

/-- C14. `ExeLayout::symbol_sysv_hash_size` (a total function: it raises no
exception) sets `nchain_` to the larger of the existing `nchain` and the number
`n < 2^32` of dynamic symbols: the result is at least `n`, and it is the existing
`nchain` when that was at least `n`. -/
theorem symbol_sysv_hash_size_nchain (sysv_hash : SysvHash) (b : Binary) (lay : ExeLayout)
    (hn : b.dynamic_symbols.length < 2 ^ 32) :
    (symbol_sysv_hash_size sysv_hash b lay).2.nchain =
      max (u32 sysv_hash.nchain) b.dynamic_symbols.length ∧
    b.dynamic_symbols.length ≤ (symbol_sysv_hash_size sysv_hash b lay).2.nchain ∧
    (b.dynamic_symbols.length ≤ u32 sysv_hash.nchain →
      (symbol_sysv_hash_size sysv_hash b lay).2.nchain = u32 sysv_hash.nchain) := by
  have h : (symbol_sysv_hash_size sysv_hash b lay).2.nchain =
      (if u32 sysv_hash.nchain < b.dynamic_symbols.length then u32 b.dynamic_symbols.length
        else u32 sysv_hash.nchain) := rfl
  rw [h, u32_of_lt hn]
  refine ⟨?_, ?_, ?_⟩
  · split <;> omega
  · split <;> omega
  · intro hle
    rw [if_neg (by omega)]

theorem symbol_sysv_hash_size_nchain_witness :
    (symbol_sysv_hash_size { nbucket := 3, nchain := 2 } { dynamic_symbols := ex_gnu_symbols }
        {}).2.nchain = max (u32 2) ex_gnu_symbols.length ∧
    ex_gnu_symbols.length ≤
      (symbol_sysv_hash_size { nbucket := 3, nchain := 2 } { dynamic_symbols := ex_gnu_symbols }
        {}).2.nchain ∧
    (ex_gnu_symbols.length ≤ u32 2 →
      (symbol_sysv_hash_size { nbucket := 3, nchain := 2 } { dynamic_symbols := ex_gnu_symbols }
        {}).2.nchain = u32 2) :=
  symbol_sysv_hash_size_nchain { nbucket := 3, nchain := 2 } { dynamic_symbols := ex_gnu_symbols }
    {} (by decide)

theorem le_bytes_le_value (bs : List Nat) (h : ∀ x ∈ bs, x < 256) :
    le_bytes bs.length (le_value bs) = bs := by
  induction bs with
  | nil => rfl
  | cons x xs ih =>
    have hx : x < 256 := h x (List.mem_cons_self _ _)
    have hxs := ih (fun y hy => h y (List.mem_cons_of_mem _ hy))
    simp only [List.length_cons, le_bytes, le_value]
    have h1 : (x + 256 * le_value xs) % 256 = x := by omega
    have h2 : (x + 256 * le_value xs) / 256 = le_value xs := by omega
    rw [h1, h2, hxs]

/-- Reading an integer object from bytes and taking its bytes back gives the
same bytes. -/
theorem object_bytes_object_value (host : Host) (w : Nat) (bs : List Nat)
    (hw : bs.length = w) (h : ∀ x ∈ bs, x < 256) :
    object_bytes host w (object_value host bs) = bs := by
  unfold object_bytes object_value
  subst hw
  split
  · have := le_bytes_le_value bs.reverse (fun x hx => h x (List.mem_reverse.mp hx))
    rw [List.length_reverse] at this
    rw [this, List.reverse_reverse]
  · exact le_bytes_le_value bs h

theorem chunks_flatten (d : List Nat) (k : Nat) :
    ((List.range k).map (fun i => (d.drop (4 * i)).take 4)).flatten = d.take (4 * k) := by
  induction k with
  | zero => simp
  | succ k ih =>
    rw [List.range_succ, List.map_append, List.flatten_append, ih]
    simp only [List.map_cons, List.map_nil, List.flatten_cons, List.flatten_nil,
      List.append_nil]
    rw [Nat.mul_succ, List.take_add]

theorem pad4_eq (n : Nat) : pad4 n = 4 * (n / 4) + (if n % 4 ≠ 0 then 4 else 0) := by
  unfold pad4
  split <;> omega

theorem pad4_mod (n : Nat) : pad4 n % 4 = 0 := by
  unfold pad4
  omega

theorem pad4_ge (n : Nat) : n ≤ pad4 n := by
  unfold pad4
  omega

theorem write_string_at_end (s : vector_iostream) (str : List Nat)
    (h : s.current_pos_ = s.raw_.length) :
    (s.write_string str).raw_ = s.raw_ ++ (str ++ [0]) ∧
    (s.write_string str).current_pos_ = (s.write_string str).raw_.length ∧
    (s.write_string str).endian_swap_ = s.endian_swap_ :=
  write_at_end s (str ++ [0]) h

theorem align_at_end (s : vector_iostream) :
    (s.align 4 0).raw_ = s.raw_ ++ List.replicate ((4 - s.raw_.length % 4) % 4) 0 ∧
    (s.align 4 0).current_pos_ = (s.align 4 0).raw_.length ∧
    (s.align 4 0).endian_swap_ = s.endian_swap_ :=
  ⟨rfl, rfl, rfl⟩

/-- What the description loop appends to a stream that is at its end. -/
theorem write_description_at_end (host : Host) (d : List Nat) (s : vector_iostream)
    (h : s.current_pos_ = s.raw_.length) (hs : s.endian_swap_ = false) :
    ∃ X : List Nat, (write_description host d s).raw_ = s.raw_ ++ X ∧
      X.length = pad4 d.length ∧
      ((∀ x ∈ d, x < 256) → X = d ++ List.replicate (pad4 d.length - d.length) 0) ∧
      (write_description host d s).current_pos_ = (write_description host d s).raw_.length ∧
      (write_description host d s).endian_swap_ = false := by
  have hfold : (List.range (d.length / 4)).foldl
      (fun s i => s.write_conv host 4 (object_value host ((d.drop (4 * i)).take 4))) s =
      s.write_conv_array host 4
        ((List.range (d.length / 4)).map
          (fun i => object_value host ((d.drop (4 * i)).take 4))) := by
    unfold vector_iostream.write_conv_array
    rw [List.foldl_map]
  obtain ⟨a1, a2, a3⟩ := write_conv_array_at_end host 4
    ((List.range (d.length / 4)).map (fun i => object_value host ((d.drop (4 * i)).take 4)))
    s h hs
  have hchunks : (∀ x ∈ d, x < 256) →
      (((List.range (d.length / 4)).map
        (fun i => object_value host ((d.drop (4 * i)).take 4))).map
        (object_bytes host 4)).flatten = d.take (4 * (d.length / 4)) := by
    intro hb
    rw [← chunks_flatten d (d.length / 4), List.map_map]
    congr 1
    apply List.map_congr_left
    intro i hi
    have hi' : i < d.length / 4 := List.mem_range.mp hi
    show object_bytes host 4 (object_value host ((d.drop (4 * i)).take 4)) = _
    apply object_bytes_object_value
    · rw [List.length_take, List.length_drop]
      omega
    · intro x hx
      exact hb x (List.mem_of_mem_drop (List.mem_of_mem_take hx))
  have hAlen : ((((List.range (d.length / 4)).map
        (fun i => object_value host ((d.drop (4 * i)).take 4))).map
        (object_bytes host 4)).flatten).length = 4 * (d.length / 4) := by
    rw [flatten_object_bytes_length, List.length_map, List.length_range]
  obtain ⟨A, hA⟩ : ∃ A : List Nat, A = (((List.range (d.length / 4)).map
        (fun i => object_value host ((d.drop (4 * i)).take 4))).map
        (object_bytes host 4)).flatten := ⟨_, rfl⟩
  rw [← hA] at a1 hchunks hAlen
  unfold write_description
  simp only [hfold]
  by_cases hrem : d.length % 4 ≠ 0
  · rw [if_pos hrem]
    obtain ⟨b1, b2, b3⟩ := write_conv_at_end host 4
      (object_value host (d.drop (4 * (d.length / 4)) ++
        List.replicate (4 - (d.drop (4 * (d.length / 4))).length) 0)) _ a2 a3
    refine ⟨A ++ object_bytes host 4 (object_value host (d.drop (4 * (d.length / 4)) ++
        List.replicate (4 - (d.drop (4 * (d.length / 4))).length) 0)), ?_, ?_, ?_, b2, b3⟩
    · rw [b1, a1, List.append_assoc]
    · rw [List.length_append, hAlen, object_bytes_length, pad4_eq, if_pos hrem]
    · intro hb
      rw [hchunks hb, object_bytes_object_value host 4 _ (by
          rw [List.length_append, List.length_replicate, List.length_drop]; omega) (by
          intro x hx
          rcases List.mem_append.mp hx with hx | hx
          · exact hb x (List.mem_of_mem_drop hx)
          · rw [(List.mem_replicate.mp hx).2]; decide)]
      rw [← List.append_assoc, List.take_append_drop, List.length_drop, pad4_eq, if_pos hrem]
      congr 2
      omega
  · rw [if_neg hrem]
    refine ⟨A, a1, ?_, ?_, a2, a3⟩
    · rw [hAlen, pad4_eq, if_neg hrem, Nat.add_zero]
    · intro hb
      have hlen : 4 * (d.length / 4) = d.length := by omega
      rw [hchunks hb, hlen, List.take_length, pad4_eq, if_neg hrem, hlen]
      simp

/-- What one iteration of the loop of `ExeLayout::note_size` appends to a
stream that is at its end, at a multiple of 4. -/
theorem note_size_step_at_end (host : Host) (acc : vector_iostream × List (Nat × Nat))
    (k : Nat) (note : Note)
    (h : acc.1.current_pos_ = acc.1.raw_.length) (hs : acc.1.endian_swap_ = false)
    (h4 : acc.1.raw_.length % 4 = 0) :
    ∃ X : List Nat, (note_size_step host acc (k, note)).1.raw_ = acc.1.raw_ ++ X ∧
      X.length = note_record_size note ∧
      ((∀ x ∈ note.description, x < 256) → X = note_record host note) ∧
      (note_size_step host acc (k, note)).1.current_pos_ =
        (note_size_step host acc (k, note)).1.raw_.length ∧
      (note_size_step host acc (k, note)).1.endian_swap_ = false ∧
      (note_size_step host acc (k, note)).2 = map_emplace k acc.1.raw_.length acc.2 := by
  obtain ⟨a1, a2, a3⟩ := write_conv_at_end host 4 (u32 (note.name.length + 1)) acc.1 h hs
  obtain ⟨b1, b2, b3⟩ := write_conv_at_end host 4 (u32 note.description.length) _ a2 a3
  obtain ⟨c1, c2, c3⟩ := write_conv_at_end host 4 (u32 note.type) _ b2 b3
  obtain ⟨d1, d2, d3⟩ := write_string_at_end _ note.name c2
  obtain ⟨e1, e2, e3⟩ := align_at_end
    (((((acc.1.write_conv host 4 (u32 (note.name.length + 1))).write_conv host 4
      (u32 note.description.length)).write_conv host 4 (u32 note.type)).write_string note.name))
  obtain ⟨X, f1, f2, f3, f4, f5⟩ := write_description_at_end host note.description _ e2
    (e3.trans (d3.trans c3))
  have hlen : (((((acc.1.write_conv host 4 (u32 (note.name.length + 1))).write_conv host 4
      (u32 note.description.length)).write_conv host 4 (u32 note.type)).write_string
      note.name)).raw_.length = acc.1.raw_.length + 12 + (note.name.length + 1) := by
    rw [d1, c1, b1, a1]
    simp only [List.length_append, object_bytes_length, List.length_singleton]
  have hpad : (4 - (acc.1.raw_.length + 12 + (note.name.length + 1)) % 4) % 4 =
      pad4 (note.name.length + 1) - (note.name.length + 1) := by
    unfold pad4
    omega
  rw [hlen, hpad, d1, c1, b1, a1] at e1
  rw [e1] at f1
  refine ⟨object_bytes host 4 (u32 (note.name.length + 1)) ++
      object_bytes host 4 (u32 note.description.length) ++
      object_bytes host 4 (u32 note.type) ++
      (note.name ++ [0] ++
        List.replicate (pad4 (note.name.length + 1) - (note.name.length + 1)) 0) ++ X,
    ?_, ?_, ?_, f4, f5, ?_⟩
  · show (write_description host note.description _).raw_ = _
    rw [f1]
    simp only [List.append_assoc]
  · simp only [List.length_append, object_bytes_length, List.length_singleton,
      List.length_replicate, f2, note_record_size]
    have := pad4_ge (note.name.length + 1)
    omega
  · intro hb
    rw [f3 hb]
    rfl
  · show map_emplace k acc.1.tellp acc.2 = _
    rw [vector_iostream.tellp, h]

/-- The bytes the loop of `ExeLayout::note_size` appends for a list of notes. -/
theorem note_size_fold_raw (host : Host) (notes : List Note) :
    ∀ (k0 : Nat) (acc : vector_iostream × List (Nat × Nat)),
      acc.1.current_pos_ = acc.1.raw_.length → acc.1.endian_swap_ = false →
      acc.1.raw_.length % 4 = 0 →
      ((notes.enumFrom k0).foldl (note_size_step host) acc).1.raw_.length =
        acc.1.raw_.length + (notes.map note_record_size).sum ∧
      ((∀ n ∈ notes, ∀ x ∈ n.description, x < 256) →
        ((notes.enumFrom k0).foldl (note_size_step host) acc).1.raw_ =
          acc.1.raw_ ++ (notes.map (note_record host)).flatten) := by
  induction notes with
  | nil =>
    intro k0 acc _ _ _
    simp
  | cons n rest ih =>
    intro k0 acc h hs h4
    obtain ⟨X, x1, x2, x3, x4, x5, _⟩ := note_size_step_at_end host acc k0 n h hs h4
    have hsz : note_record_size n % 4 = 0 := by
      have h1 := pad4_mod (n.name.length + 1)
      have h2 := pad4_mod n.description.length
      unfold note_record_size
      omega
    have h4' : (note_size_step host acc (k0, n)).1.raw_.length % 4 = 0 := by
      rw [x1, List.length_append, x2]
      omega
    obtain ⟨i1, i2⟩ := ih (k0 + 1) (note_size_step host acc (k0, n)) x4 x5 h4'
    simp only [List.enumFrom_cons, List.foldl_cons, List.map_cons, List.sum_cons,
      List.flatten_cons]
    constructor
    · rw [i1, x1, List.length_append, x2]
      omega
    · intro hb
      rw [i2 (fun m hm => hb m (List.mem_cons_of_mem _ hm)), x1,
        x3 (hb n (List.mem_cons_self _ _)), List.append_assoc]

theorem map_find_append {κ : Type} [DecidableEq κ] (k : κ) (m m' : List (κ × Nat)) :
    map_find k (m ++ m') = (match map_find k m with
      | some v => some v
      | none => map_find k m') := by
  induction m with
  | nil => rfl
  | cons p m ih =>
    obtain ⟨k1, v1⟩ := p
    simp only [List.cons_append, map_find]
    split
    · rfl
    · exact ih

theorem map_find_emplace {κ : Type} [DecidableEq κ] (k k' : κ) (v : Nat) (m : List (κ × Nat)) :
    map_find k (map_emplace k' v m) = (match map_find k m with
      | some w => some w
      | none => if k' = k then some v else none) := by
  unfold map_emplace
  cases h' : map_find k' m with
  | some w' =>
    simp only
    cases hk : map_find k m with
    | some w => rfl
    | none =>
      simp only
      split
      · rename_i heq
        rw [heq, hk] at h'
        cases h'
      · rfl
  | none =>
    simp only
    rw [map_find_append]
    cases hk : map_find k m with
    | some w => rfl
    | none => simp only [map_find]

/-- The offsets the loop of `ExeLayout::note_size` records for a list of notes. -/
theorem note_size_fold_map (host : Host) (notes : List Note) :
    ∀ (k0 : Nat) (acc : vector_iostream × List (Nat × Nat)),
      acc.1.current_pos_ = acc.1.raw_.length → acc.1.endian_swap_ = false →
      acc.1.raw_.length % 4 = 0 →
      (∀ k, k0 ≤ k → map_find k acc.2 = none) →
      (∀ k v, map_find k acc.2 = some v →
        map_find k ((notes.enumFrom k0).foldl (note_size_step host) acc).2 = some v) ∧
      ∀ i, i < notes.length →
        map_find (k0 + i) ((notes.enumFrom k0).foldl (note_size_step host) acc).2 =
          some (acc.1.raw_.length + ((notes.take i).map note_record_size).sum) := by
  induction notes with
  | nil =>
    intro k0 acc _ _ _ _
    exact ⟨fun k v h => h, fun i hi => absurd hi (Nat.not_lt_zero _)⟩
  | cons n rest ih =>
    intro k0 acc h hs h4 hnone
    obtain ⟨X, x1, x2, _, x4, x5, x6⟩ := note_size_step_at_end host acc k0 n h hs h4
    have hsz : note_record_size n % 4 = 0 := by
      have h1 := pad4_mod (n.name.length + 1)
      have h2 := pad4_mod n.description.length
      unfold note_record_size
      omega
    have hl : (note_size_step host acc (k0, n)).1.raw_.length =
        acc.1.raw_.length + note_record_size n := by
      rw [x1, List.length_append, x2]
    have hfind : ∀ k, map_find k (note_size_step host acc (k0, n)).2 =
        (match map_find k acc.2 with
          | some w => some w
          | none => if k0 = k then some acc.1.raw_.length else none) := by
      intro k
      rw [x6, map_find_emplace]
    obtain ⟨i1, i2⟩ := ih (k0 + 1) (note_size_step host acc (k0, n)) x4 x5 (by omega)
      (by
        intro k hk
        rw [hfind k, hnone k (by omega)]
        simp only
        rw [if_neg (by omega)])
    simp only [List.enumFrom_cons, List.foldl_cons]
    constructor
    · intro k v hkv
      apply i1
      rw [hfind k, hkv]
    · intro i hi
      cases i with
      | zero =>
        simp only [List.take_zero, List.map_nil, List.sum_nil, Nat.add_zero]
        apply i1
        rw [hfind k0, hnone k0 (le_refl _)]
        simp
      | succ j =>
        have := i2 j (by simpa using hi)
        rw [hl] at this
        rw [show k0 + (j + 1) = k0 + 1 + j by omega, this]
        simp only [List.take_succ_cons, List.map_cons, List.sum_cons]
        congr 1
        omega

theorem note_sizes_sum_mod (notes : List Note) : (notes.map note_record_size).sum % 4 = 0 := by
  induction notes with
  | nil => rfl
  | cons n rest ih =>
    have h1 := pad4_mod (n.name.length + 1)
    have h2 := pad4_mod n.description.length
    simp only [List.map_cons, List.sum_cons, note_record_size]
    omega

/-- C16. On its first call, for notes whose description bytes are bytes
(below 256), the blob `ExeLayout::note_size` leaves in `raw_notes_` is the
concatenation, in the order of the notes, of the records: the 32-bit value
`len(name) + 1`, the 32-bit value `len(description)`, the 32-bit type, the name
followed by a NUL and zeros up to a 4-byte boundary, the description followed by
zeros up to a 4-byte boundary. -/
theorem note_size_records (host : Host) (b : Binary) (lay : ExeLayout)
    (hfirst : lay.raw_notes = [])
    (hbytes : ∀ n ∈ b.notes, ∀ x ∈ n.description, x < 256) :
    (note_size host b lay).2.raw_notes = (b.notes.map (note_record host)).flatten := by
  have h := (note_size_fold_raw host b.notes 0 (({} : vector_iostream), lay.notes_off_map)
    rfl rfl rfl).2 hbytes
  simp only [note_size, vector_iostream.move, hfirst, List.length_nil, gt_iff_lt,
    Nat.lt_irrefl, if_false]
  rw [List.enum, h]
  rfl

theorem note_size_records_witness :
    (note_size ex_host ex_note_binary {}).2.raw_notes =
      (ex_note_binary.notes.map (note_record ex_host)).flatten :=
  note_size_records ex_host ex_note_binary {} rfl (by decide)

/-- C17. On its first call (`notes_off_map_` still empty) `ExeLayout::note_size`
returns the sum over the notes of `12 + pad4(len(name) + 1) + pad4(len(description))`,
and the offset it records for each note is the sum of these sizes over the
notes before it, a multiple of 4. -/
theorem note_size_offsets (host : Host) (b : Binary) (lay : ExeLayout)
    (hfirst : lay.raw_notes = []) (hmap : lay.notes_off_map = []) :
    (note_size host b lay).1 = (b.notes.map note_record_size).sum ∧
    ∀ i, i < b.notes.length →
      map_find i (note_size host b lay).2.notes_off_map =
        some ((b.notes.take i).map note_record_size).sum ∧
      ((b.notes.take i).map note_record_size).sum % 4 = 0 := by
  have h1 := (note_size_fold_raw host b.notes 0 (({} : vector_iostream), lay.notes_off_map)
    rfl rfl rfl).1
  have h2 := (note_size_fold_map host b.notes 0 (({} : vector_iostream), lay.notes_off_map)
    rfl rfl rfl (by intro k _; rw [hmap]; rfl)).2
  simp only [note_size, vector_iostream.move, hfirst, List.length_nil, gt_iff_lt,
    Nat.lt_irrefl, if_false]
  rw [List.enum]
  constructor
  · rw [h1]
    show 0 + _ = _
    rw [Nat.zero_add]
  · intro i hi
    have := h2 i hi
    rw [Nat.zero_add] at this
    refine ⟨?_, note_sizes_sum_mod _⟩
    rw [this]
    show some (0 + _) = _
    rw [Nat.zero_add]

theorem note_size_offsets_witness :
    (note_size ex_host ex_note_binary {}).1 = (ex_note_binary.notes.map note_record_size).sum ∧
    ∀ i, i < ex_note_binary.notes.length →
      map_find i (note_size ex_host ex_note_binary {}).2.notes_off_map =
        some ((ex_note_binary.notes.take i).map note_record_size).sum ∧
      ((ex_note_binary.notes.take i).map note_record_size).sum % 4 = 0 :=
  note_size_offsets ex_host ex_note_binary {} rfl rfl

/-! ## Byte order of the size pass -/

/-- C18, at the failing input. For a big-endian binary on a little-endian
host `Builder::should_swap` is true and a stream constructed with it writes the
32-bit value 4 as `00 00 00 04`; the streams of `ExeLayout::note_size` and
`ExeLayout::symbol_gnu_hash_size` are default-constructed and write the name
length 4 of the first note as `04 00 00 00` and the bucket count 3 as
`03 00 00 00`, in the byte order of the host. -/
theorem size_pass_writes_host_order :
    should_swap ex_host ex_big_endian_binary = true ∧
    (({ endian_swap_ := should_swap ex_host ex_big_endian_binary } : vector_iostream).write_conv
      ex_host 4 4).raw_ = [0, 0, 0, 4] ∧
    (note_size ex_host ex_big_endian_binary {}).2.raw_notes.take 4 = [4, 0, 0, 0] ∧
    (note_size ex_host ex_big_endian_binary {}).2.raw_notes =
      (note_size ex_host ex_note_binary {}).2.raw_notes ∧
    ∃ r, symbol_gnu_hash_size dl_new_hash_ref ex_host ELF_CLASS.ELFCLASS64
        { nb_buckets := 3, maskwords := 2, shift2 := 6 } 1 ex_big_endian_binary {} =
        Except.ok r ∧
      r.2.2.raw_gnu_hash.take 4 = [3, 0, 0, 0] :=
  ⟨by decide, by decide, by decide, by decide, _, rfl, by decide⟩

/-! ## The dynamic string table -/

theorem spells_bound {blob : List Nat} {o : Nat} {s : List Nat} (h : spells blob o s) :
    o + s.length < blob.length := by
  have := congrArg List.length h
  simp only [List.length_take, List.length_drop, List.length_append, List.length_singleton]
    at this
  omega

theorem spells_append {blob : List Nat} {o : Nat} {s : List Nat} (h : spells blob o s)
    (X : List Nat) : spells (blob ++ X) o s := by
  have hb := spells_bound h
  unfold spells at h ⊢
  rw [List.drop_append_of_le_length (by omega),
    List.take_append_of_le_length (by rw [List.length_drop]; omega)]
  exact h

theorem spells_new (blob s X : List Nat) : spells (blob ++ (s ++ [0]) ++ X) blob.length s := by
  unfold spells
  rw [List.append_assoc, List.drop_left,
    List.take_append_of_le_length (by simp)]
  exact List.take_of_length_le (by simp)

theorem spells_suffix {blob : List Nat} {o : Nat} {e s : List Nat} (h : spells blob o e)
    (hs : s <:+ e) : spells blob (o + (e.length - s.length)) s := by
  obtain ⟨p, hp⟩ := hs
  subst hp
  unfold spells at h ⊢
  have hlen : (p ++ s).length - s.length = p.length := by simp
  rw [hlen]
  have h1 : ((blob.drop o).take ((p ++ s).length + 1)).drop p.length = s ++ [0] := by
    rw [h, List.append_assoc, List.drop_left]
  rw [List.drop_take] at h1
  rw [← List.drop_drop] at *
  rw [← h1]
  congr 1
  simp only [List.length_append]
  omega

theorem map_find_set {κ : Type} [DecidableEq κ] (k k' : κ) (v : Nat) (m : List (κ × Nat)) :
    map_find k (map_set k' v m) = if k' = k then some v else map_find k m := by
  induction m with
  | nil => rfl
  | cons p m ih =>
    obtain ⟨k1, v1⟩ := p
    simp only [map_set]
    by_cases h1 : k1 = k'
    · rw [if_pos h1]
      simp only [map_find]
      subst h1
      split <;> rfl
    · rw [if_neg h1]
      simp only [map_find]
      by_cases h2 : k1 = k
      · rw [if_pos h2, if_pos h2, if_neg (by rw [← h2]; exact fun h => h1 h.symm)]
      · rw [if_neg h2, if_neg h2, ih]

theorem add_name_inv (m0 : List (List Nat × Nat))
    (acc : vector_iostream × List (List Nat × Nat)) (name : List Nat)
    (h : StringTableInv m0 acc) :
    StringTableInv m0 (add_name acc name) ∧
    ∃ Y, (add_name acc name).1.raw_ = acc.1.raw_ ++ Y := by
  obtain ⟨w1, w2, _⟩ := write_string_at_end acc.1 name h.at_end
  refine ⟨⟨w2, ?_⟩, _, w1⟩
  intro s o hso
  show spells (acc.1.write_string name).raw_ o s ∨ _
  rw [w1]
  have hso' : map_find s (map_set name acc.1.tellp acc.2) = some o := hso
  rw [map_find_set] at hso'
  by_cases hn : name = s
  · rw [if_pos hn] at hso'
    have ho : o = acc.1.raw_.length := by
      rw [← Option.some.inj hso', vector_iostream.tellp, h.at_end]
    rw [ho, ← hn]
    exact Or.inl (by simpa using spells_new acc.1.raw_ name [])
  · rw [if_neg hn] at hso'
    exact (h.sound s o hso').imp (fun hsp => spells_append hsp _) id

theorem add_new_name_inv (m0 : List (List Nat × Nat))
    (acc : vector_iostream × List (List Nat × Nat)) (name : List Nat)
    (h : StringTableInv m0 acc) :
    StringTableInv m0 (add_new_name acc name) ∧
    ∃ Y, (add_new_name acc name).1.raw_ = acc.1.raw_ ++ Y := by
  unfold add_new_name
  split
  · exact ⟨h, [], (List.append_nil _).symm⟩
  · exact add_name_inv m0 acc name h

/-- A loop whose body keeps the invariant and only appends keeps the invariant
and only appends. -/
theorem fold_string_table_inv {α : Type} (m0 : List (List Nat × Nat))
    (f : vector_iostream × List (List Nat × Nat) → α → vector_iostream × List (List Nat × Nat))
    (hf : ∀ acc a, StringTableInv m0 acc →
      StringTableInv m0 (f acc a) ∧ ∃ Y, (f acc a).1.raw_ = acc.1.raw_ ++ Y)
    (l : List α) :
    ∀ acc, StringTableInv m0 acc →
      StringTableInv m0 (l.foldl f acc) ∧ ∃ Y, (l.foldl f acc).1.raw_ = acc.1.raw_ ++ Y := by
  induction l with
  | nil => intro acc h; exact ⟨h, [], (List.append_nil _).symm⟩
  | cons a rest ih =>
    intro acc h
    obtain ⟨h1, Y1, hY1⟩ := hf acc a h
    obtain ⟨h2, Y2, hY2⟩ := ih (f acc a) h1
    refine ⟨h2, Y1 ++ Y2, ?_⟩
    rw [List.foldl_cons, hY2, hY1, List.append_assoc]

theorem emitted_blob_snoc (base : List Nat) (emitted : List (List Nat × Nat))
    (e : List Nat × Nat) :
    emitted_blob base (emitted ++ [e]) = emitted_blob base emitted ++ (e.1 ++ [0]) := by
  simp [emitted_blob, List.append_assoc]

theorem optimize_step_inv (m0 : List (List Nat × Nat)) (base : List Nat)
    (st : OptimizeState) (name : List Nat)
    (h : OptimizeInv m0 base st) : OptimizeInv m0 base (optimize_step st name) := by
  unfold optimize_step
  split
  · exact h
  · split
    · rename_i e he
      have hmem := List.mem_of_find?_eq_some he
      have hp : name.isSuffixOf e.1 = true :=
        @List.find?_some _ (fun e : List Nat × Nat => name.isSuffixOf e.1) e st.emitted he
      have hsuf : name <:+ e.1 := List.isSuffixOf_iff_suffix.mp hp
      refine ⟨h.counter, h.emitted_ok, ?_⟩
      intro s o hso
      have hso' : map_find s (map_set name (e.2 + (e.1.length - name.length)) st.of_map) =
          some o := hso
      rw [map_find_set] at hso'
      by_cases hn : name = s
      · rw [if_pos hn] at hso'
        rw [← Option.some.inj hso', ← hn]
        exact Or.inl (spells_suffix (h.emitted_ok e hmem) hsuf)
      · rw [if_neg hn] at hso'
        exact h.sound s o hso'
    · refine ⟨?_, ?_, ?_⟩
      · show st.offset_counter + (name.length + 1) = _
        rw [emitted_blob_snoc, List.length_append, ← h.counter]
        simp
      · intro e he
        show spells (emitted_blob base (st.emitted ++ [(name, st.offset_counter)])) e.2 e.1
        rw [emitted_blob_snoc]
        rcases List.mem_append.mp he with he | he
        · exact spells_append (h.emitted_ok e he) _
        · rw [List.mem_singleton.mp he, h.counter]
          simpa using spells_new (emitted_blob base st.emitted) name []
      · intro s o hso
        show spells (emitted_blob base (st.emitted ++ [(name, st.offset_counter)])) o s ∨ _
        rw [emitted_blob_snoc]
        have hso' : map_find s (map_set name st.offset_counter st.of_map) = some o := hso
        rw [map_find_set] at hso'
        by_cases hn : name = s
        · rw [if_pos hn] at hso'
          rw [← Option.some.inj hso', ← hn, h.counter]
          exact Or.inl (by simpa using spells_new (emitted_blob base st.emitted) name [])
        · rw [if_neg hn] at hso'
          exact (h.sound s o hso').imp (fun hsp => spells_append hsp _) id

theorem optimize_fold_inv (m0 : List (List Nat × Nat)) (base : List Nat)
    (names : List (List Nat)) :
    ∀ st, OptimizeInv m0 base st → OptimizeInv m0 base (names.foldl optimize_step st) := by
  induction names with
  | nil => intro st h; exact h
  | cons n rest ih => intro st h; exact ih _ (optimize_step_inv m0 base st n h)

theorem write_strings_at_end (names : List (List Nat)) :
    ∀ s : vector_iostream, s.current_pos_ = s.raw_.length →
      (names.foldl (fun s name => s.write_string name) s).raw_ =
        s.raw_ ++ (names.map (fun n => n ++ [0])).flatten ∧
      (names.foldl (fun s name => s.write_string name) s).current_pos_ =
        (names.foldl (fun s name => s.write_string name) s).raw_.length := by
  induction names with
  | nil => intro s h; simp [h]
  | cons n rest ih =>
    intro s h
    obtain ⟨w1, w2, _⟩ := write_string_at_end s n h
    obtain ⟨i1, i2⟩ := ih (s.write_string n) w2
    simp only [List.foldl_cons, List.map_cons, List.flatten_cons]
    refine ⟨?_, i2⟩
    rw [i1, w1, List.append_assoc]

/-- The call of the optimizer on the names of the dynamic symbols and the loop
that writes what it returns keep the invariant and only append. -/
theorem optimize_write_inv (m0 : List (List Nat × Nat))
    (acc : vector_iostream × List (List Nat × Nat))
    (names : List (List Nat)) (h : StringTableInv m0 acc) :
    StringTableInv m0
      ((optimize names acc.1.tellp acc.2).1.foldl (fun s name => s.write_string name) acc.1,
        (optimize names acc.1.tellp acc.2).2.2) ∧
    ∃ Y, ((optimize names acc.1.tellp acc.2).1.foldl
      (fun s name => s.write_string name) acc.1).raw_ = acc.1.raw_ ++ Y := by
  have h0 : OptimizeInv m0 acc.1.raw_
      { emitted := [], offset_counter := acc.1.tellp, of_map := acc.2 } := by
    refine ⟨?_, ?_, ?_⟩
    · show acc.1.current_pos_ = _
      rw [h.at_end]
      simp [emitted_blob]
    · intro e he
      cases he
    · intro s o hso
      simpa [emitted_blob] using h.sound s o hso
  have hinv := optimize_fold_inv m0 acc.1.raw_ names _ h0
  obtain ⟨w1, w2⟩ := write_strings_at_end (optimize names acc.1.tellp acc.2).1 acc.1 h.at_end
  have hblob : ((optimize names acc.1.tellp acc.2).1.foldl
      (fun s name => s.write_string name) acc.1).raw_ =
      emitted_blob acc.1.raw_ (names.foldl optimize_step
        { emitted := [], offset_counter := acc.1.tellp, of_map := acc.2 }).emitted := by
    rw [w1]
    simp only [optimize, emitted_blob, List.map_map]
    rfl
  refine ⟨⟨w2, ?_⟩, _, w1⟩
  intro s o hso
  show spells ((optimize names acc.1.tellp acc.2).1.foldl
    (fun s name => s.write_string name) acc.1).raw_ o s ∨ _
  rw [hblob]
  exact hinv.sound s o hso

theorem object_bytes_one (host : Host) (v : Nat) : object_bytes host 1 v = [v % 256] := by
  unfold object_bytes
  split <;> rfl

/-- The first call of `ExeLayout::dynstr_size`: the stream and the map it
leaves satisfy the invariant and the stream starts with the NUL byte. -/
theorem dynstr_size_first (host : Host) (b : Binary) (lay : ExeLayout)
    (hfirst : lay.raw_dynstr = []) :
    ∃ acc : vector_iostream × List (List Nat × Nat),
      StringTableInv lay.offset_name_map acc ∧ (∃ Y, acc.1.raw_ = [0] ++ Y) ∧
      dynstr_size host b lay =
        (acc.1.raw_.length, { lay with raw_dynstr := acc.1.raw_, offset_name_map := acc.2 }) := by
  have hs0 : (({} : vector_iostream).write_integer host 1 0).raw_ = [0] := by
    show copy_at [] 0 (object_bytes host 1 0) = [0]
    rw [object_bytes_one]
    rfl
  have h0 : StringTableInv lay.offset_name_map
      ((({} : vector_iostream).write_integer host 1 0), lay.offset_name_map) := by
    refine ⟨?_, ?_⟩
    · show 0 + 1 = _
      rw [hs0]
      rfl
    · intro s o hso
      exact Or.inr hso
  have hf1 : ∀ (acc : vector_iostream × List (List Nat × Nat)) (entry : DynamicEntry),
      StringTableInv lay.offset_name_map acc →
      StringTableInv lay.offset_name_map (if is_name_tag entry.tag then add_name acc entry.name else acc) ∧
      ∃ Y, (if is_name_tag entry.tag then add_name acc entry.name else acc).1.raw_ =
        acc.1.raw_ ++ Y := by
    intro acc entry h
    split
    · exact add_name_inv _ acc entry.name h
    · exact ⟨h, [], (List.append_nil _).symm⟩
  have hf3 : ∀ (acc : vector_iostream × List (List Nat × Nat)) (svd : SymbolVersionDefinition),
      StringTableInv lay.offset_name_map acc →
      StringTableInv lay.offset_name_map (svd.symbols_aux.foldl add_new_name acc) ∧
      ∃ Y, (svd.symbols_aux.foldl add_new_name acc).1.raw_ = acc.1.raw_ ++ Y :=
    fun acc svd h => fold_string_table_inv lay.offset_name_map add_new_name
      (add_new_name_inv lay.offset_name_map) svd.symbols_aux acc h
  have hf4 : ∀ (acc : vector_iostream × List (List Nat × Nat)) (svr : SymbolVersionRequirement),
      StringTableInv lay.offset_name_map acc →
      StringTableInv lay.offset_name_map (svr.auxiliary_symbols.foldl add_new_name (add_new_name acc svr.name)) ∧
      ∃ Y, (svr.auxiliary_symbols.foldl add_new_name (add_new_name acc svr.name)).1.raw_ =
        acc.1.raw_ ++ Y := by
    intro acc svr h
    obtain ⟨a1, Y1, hY1⟩ := add_new_name_inv _ acc svr.name h
    obtain ⟨a2, Y2, hY2⟩ := fold_string_table_inv lay.offset_name_map add_new_name
      (add_new_name_inv lay.offset_name_map)
      svr.auxiliary_symbols _ a1
    exact ⟨a2, Y1 ++ Y2, by rw [hY2, hY1, List.append_assoc]⟩
  obtain ⟨i1, Y1, hY1⟩ := fold_string_table_inv lay.offset_name_map
    (fun acc (entry : DynamicEntry) =>
      if is_name_tag entry.tag then add_name acc entry.name else acc)
    hf1 b.dynamic_entries _ h0
  obtain ⟨i2, Y2, hY2⟩ := optimize_write_inv _ _ (b.dynamic_symbols.map (fun sym => sym.name)) i1
  obtain ⟨i3, Y3, hY3⟩ := fold_string_table_inv lay.offset_name_map
    (fun acc (svd : SymbolVersionDefinition) => svd.symbols_aux.foldl add_new_name acc)
    hf3 b.symbols_version_definition _ i2
  obtain ⟨i4, Y4, hY4⟩ := fold_string_table_inv lay.offset_name_map
    (fun acc (svr : SymbolVersionRequirement) =>
      svr.auxiliary_symbols.foldl add_new_name (add_new_name acc svr.name))
    hf4 b.symbols_version_requirement _ i3
  obtain ⟨i5, Y5, hY5⟩ := fold_string_table_inv lay.offset_name_map
    (fun acc (svd : SymbolVersionDefinition) => svd.symbols_aux.foldl add_new_name acc)
    hf3 b.symbols_version_definition _ i4
  refine ⟨_, i5, ⟨Y1 ++ Y2 ++ Y3 ++ Y4 ++ Y5, ?_⟩, ?_⟩
  · rw [hY5, hY4, hY3, hY2, hY1, hs0]
    simp only [List.append_assoc]
  · unfold dynstr_size
    rw [if_neg (by rw [hfirst]; simp)]
    rfl

/-- C19. After the first call of `ExeLayout::dynstr_size` the dynamic string
table blob is not empty and its byte at offset 0 is NUL; the returned size is
the length of the blob, and a second call returns the same size and leaves the
layout, the blob included, as it is. -/
theorem dynstr_size_starts_with_nul (host : Host) (b : Binary) (lay : ExeLayout)
    (hfirst : lay.raw_dynstr = []) :
    (dynstr_size host b lay).2.raw_dynstr ≠ [] ∧
    (dynstr_size host b lay).2.raw_dynstr[0]? = some 0 ∧
    (dynstr_size host b lay).1 = (dynstr_size host b lay).2.raw_dynstr.length ∧
    dynstr_size host b (dynstr_size host b lay).2 = dynstr_size host b lay := by
  obtain ⟨acc, _, ⟨Y, hY⟩, hres⟩ := dynstr_size_first host b lay hfirst
  rw [hres]
  refine ⟨?_, ?_, rfl, ?_⟩
  · show acc.1.raw_ ≠ []
    rw [hY]
    simp
  · show acc.1.raw_[0]? = some 0
    rw [hY]
    simp
  · have hne : ({ lay with raw_dynstr := acc.1.raw_, offset_name_map := acc.2 } :
        ExeLayout).raw_dynstr.length ≠ 0 := by
      show acc.1.raw_.length ≠ 0
      rw [hY]
      simp
    unfold dynstr_size
    rw [if_pos hne]

theorem dynstr_size_starts_with_nul_witness :
    (dynstr_size ex_host ex_str_binary {}).2.raw_dynstr ≠ [] ∧
    (dynstr_size ex_host ex_str_binary {}).2.raw_dynstr[0]? = some 0 ∧
    (dynstr_size ex_host ex_str_binary {}).1 =
      (dynstr_size ex_host ex_str_binary {}).2.raw_dynstr.length ∧
    dynstr_size ex_host ex_str_binary (dynstr_size ex_host ex_str_binary {}).2 =
      dynstr_size ex_host ex_str_binary {} :=
  dynstr_size_starts_with_nul ex_host ex_str_binary {} rfl

/-- C20 (against the string table optimizer as the specification describes
it). After the first call of `ExeLayout::dynstr_size`, every name `s` recorded
in `offset_name_map_` with the offset `o` satisfies `o + len(s) < blob length`,
and the bytes of the blob from `o` on spell `s` followed by a NUL; this holds
also for a name that shares the tail of a longer emitted name. -/
theorem dynstr_size_offsets_sound (host : Host) (b : Binary) (lay : ExeLayout)
    (hfirst : lay.raw_dynstr = []) (hmap : lay.offset_name_map = [])
    (s : List Nat) (o : Nat)
    (hs : map_find s (dynstr_size host b lay).2.offset_name_map = some o) :
    o + s.length < (dynstr_size host b lay).2.raw_dynstr.length ∧
    ((dynstr_size host b lay).2.raw_dynstr.drop o).take s.length = s ∧
    (dynstr_size host b lay).2.raw_dynstr[o + s.length]? = some 0 := by
  obtain ⟨acc, hinv, _, hres⟩ := dynstr_size_first host b lay hfirst
  rw [hres] at hs ⊢
  simp only at hs ⊢
  have hsp : spells acc.1.raw_ o s := by
    rcases hinv.sound s o hs with h | h
    · exact h
    · rw [hmap] at h
      cases h
  have hb := spells_bound hsp
  refine ⟨hb, ?_, ?_⟩
  · have := congrArg (List.take s.length) hsp
    rw [List.take_take, Nat.min_eq_left (Nat.le_succ _), List.take_left] at this
    exact this
  · have := congrArg (fun l => l[s.length]?) hsp
    simp only [List.getElem?_take, List.getElem?_drop] at this
    simpa using this

theorem dynstr_size_offsets_sound_witness :
    7 + [98].length < (dynstr_size ex_host ex_str_binary {}).2.raw_dynstr.length ∧
    ((dynstr_size ex_host ex_str_binary {}).2.raw_dynstr.drop 7).take [98].length = [98] ∧
    (dynstr_size ex_host ex_str_binary {}).2.raw_dynstr[7 + [98].length]? = some 0 :=
  dynstr_size_offsets_sound ex_host ex_str_binary {} rfl rfl [98] 7 (by decide)

/-! ## The indices recorded by the symbol partitioner -/

theorem sort_dynamic_symbols_index (b : Binary) :
    (sort_dynamic_symbols b).2 =
      u32 ((b.dynamic_symbols.filter is_local).length +
        ((b.dynamic_symbols.filter (fun s => !is_local s)).filter is_undef).length) := by
  simp [sort_dynamic_symbols, stable_partition]

theorem sort_dynamic_symbols_sections (b : Binary) :
    (sort_dynamic_symbols b).1.sections =
      set_information dynsym_section_name (u32 (b.dynamic_symbols.filter is_local).length)
        b.sections := by
  simp [sort_dynamic_symbols, stable_partition]

theorem filter_length_le_len {α : Type} (p : α → Bool) (l : List α) :
    (l.filter p).length ≤ l.length := List.length_filter_le p l

theorem partition_lengths (l : List Symbol) :
    (l.filter is_local).length + ((l.filter (fun s => !is_local s)).filter is_undef).length +
      ((l.filter (fun s => !is_local s)).filter (fun s => !is_undef s)).length = l.length := by
  have h1 := (List.filter_append_perm is_local l).length_eq
  have h2 := (List.filter_append_perm is_undef (l.filter (fun s => !is_local s))).length_eq
  simp only [List.length_append] at h1 h2
  omega

/-- C25, counterexample. On the list [local, defined global, undefined] the
reordered list is [local, undefined, defined global]; its first undefined
non-local symbol is at index 1, and the returned index is 2. -/
theorem sort_dynamic_symbols_returned_index_counterexample :
    (sort_dynamic_symbols ex_sym_binary).1.dynamic_symbols = [ex_local, ex_undef, ex_defined] ∧
    (ex_undef.binding ≠ STB_LOCAL ∧ ex_undef.shndx = SHN_UNDEF) ∧
    ex_local.binding = STB_LOCAL ∧
    (sort_dynamic_symbols ex_sym_binary).2 = 2 ∧
    (sort_dynamic_symbols ex_sym_binary).2 ≠ 1 := by
  decide

/-- C25, amended. The index returned by `Builder::sort_dynamic_symbols` (for
fewer than `2^32` symbols) is the number of local symbols plus the number of
non-local undefined symbols: every symbol of the reordered sequence below it is
local or undefined, every symbol from it on is non-local and defined, so that it
is the index of the first defined non-local symbol when there is one. -/
theorem sort_dynamic_symbols_returned_index (b : Binary)
    (hn : b.dynamic_symbols.length < 2 ^ 32) :
    (sort_dynamic_symbols b).2 =
      (b.dynamic_symbols.filter is_local).length +
        (b.dynamic_symbols.filter (fun s => !is_local s && is_undef s)).length ∧
    (sort_dynamic_symbols b).2 ≤ (sort_dynamic_symbols b).1.dynamic_symbols.length ∧
    (∀ (i : Nat) (s : Symbol), (sort_dynamic_symbols b).1.dynamic_symbols[i]? = some s →
      i < (sort_dynamic_symbols b).2 → s.binding = STB_LOCAL ∨ s.shndx = SHN_UNDEF) ∧
    (∀ (i : Nat) (s : Symbol), (sort_dynamic_symbols b).1.dynamic_symbols[i]? = some s →
      (sort_dynamic_symbols b).2 ≤ i → s.binding ≠ STB_LOCAL ∧ s.shndx ≠ SHN_UNDEF) := by
  have hlen := partition_lengths b.dynamic_symbols
  have hidx : (sort_dynamic_symbols b).2 =
      (b.dynamic_symbols.filter is_local).length +
        ((b.dynamic_symbols.filter (fun s => !is_local s)).filter is_undef).length := by
    rw [sort_dynamic_symbols_index, u32_of_lt (by omega)]
  rw [hidx, sort_dynamic_symbols_eq]
  refine ⟨?_, ?_, ?_, ?_⟩
  · rw [List.filter_filter]
    congr 2
    apply List.filter_congr
    intro s _
    exact Bool.and_comm _ _
  · simp only [List.length_append]
    omega
  · intro i s hs hi
    rw [← List.append_assoc, List.getElem?_append_left (by
      rw [List.length_append]; exact hi)] at hs
    rcases List.mem_append.mp (List.getElem?_mem hs) with h | h
    · left
      simpa [is_local] using (List.mem_filter.mp h).2
    · right
      simpa [is_undef] using (List.mem_filter.mp h).2
  · intro i s hs hi
    rw [← List.append_assoc, List.getElem?_append_right (by
      rw [List.length_append]; exact hi)] at hs
    have hm := List.getElem?_mem hs
    have h1 := (List.mem_filter.mp (List.mem_filter.mp hm).1).2
    have h2 := (List.mem_filter.mp hm).2
    constructor
    · simpa [is_local] using h1
    · simpa [is_undef] using h2

theorem sort_dynamic_symbols_returned_index_witness :
    (sort_dynamic_symbols ex_sym_binary).2 =
      (ex_sym_binary.dynamic_symbols.filter is_local).length +
        (ex_sym_binary.dynamic_symbols.filter (fun s => !is_local s && is_undef s)).length ∧
    (sort_dynamic_symbols ex_sym_binary).2 ≤
      (sort_dynamic_symbols ex_sym_binary).1.dynamic_symbols.length ∧
    (∀ (i : Nat) (s : Symbol),
      (sort_dynamic_symbols ex_sym_binary).1.dynamic_symbols[i]? = some s →
      i < (sort_dynamic_symbols ex_sym_binary).2 → s.binding = STB_LOCAL ∨ s.shndx = SHN_UNDEF) ∧
    (∀ (i : Nat) (s : Symbol),
      (sort_dynamic_symbols ex_sym_binary).1.dynamic_symbols[i]? = some s →
      (sort_dynamic_symbols ex_sym_binary).2 ≤ i →
      s.binding ≠ STB_LOCAL ∧ s.shndx ≠ SHN_UNDEF) :=
  sort_dynamic_symbols_returned_index ex_sym_binary (by decide)

theorem first_index_some {α : Type} (p : α → Bool) (l : List α) (i : Nat)
    (h : first_index p l = some i) :
    ∃ x, l[i]? = some x ∧ p x = true ∧ ∀ (j : Nat) (y : α), j < i → l[j]? = some y → p y = false := by
  induction l generalizing i with
  | nil => cases h
  | cons a rest ih =>
    simp only [first_index] at h
    by_cases hp : p a = true
    · rw [if_pos hp] at h
      have hi : i = 0 := (Option.some.inj h).symm
      subst hi
      exact ⟨a, List.getElem?_cons_zero, hp, fun j y hj _ => absurd hj (Nat.not_lt_zero _)⟩
    · rw [if_neg hp] at h
      cases hr : first_index p rest with
      | none => rw [hr] at h; cases h
      | some k =>
        rw [hr] at h
        have hi : i = k + 1 := (Option.some.inj h).symm
        subst hi
        obtain ⟨x, hx, hpx, hmin⟩ := ih k hr
        refine ⟨x, by simpa using hx, hpx, ?_⟩
        intro j y hj hy
        cases j with
        | zero =>
          simp at hy
          rw [← hy]
          simpa using hp
        | succ j' =>
          exact hmin j' y (by omega) (by simpa using hy)

/-- C26. When the binary has a section named `.dynsym` (fewer than `2^32`
dynamic symbols), after `Builder::sort_dynamic_symbols` the information field
of the first such section, the one `get_section` returns, is the number of
local-binding dynamic symbols, and this is the index of the first non-local
symbol of the reordered sequence: the symbols below it are local, the symbols
from it on are not. -/
theorem sort_dynamic_symbols_dynsym_information (b : Binary) (i : Nat)
    (hn : b.dynamic_symbols.length < 2 ^ 32)
    (hsec : first_index (fun s => s.name == dynsym_section_name) b.sections = some i) :
    (∃ s s', b.sections[i]? = some s ∧ s.name = dynsym_section_name ∧
      (sort_dynamic_symbols b).1.sections[i]? = some s' ∧
      s' = { s with information := (b.dynamic_symbols.filter is_local).length }) ∧
    (b.dynamic_symbols.filter is_local).length =
      (b.dynamic_symbols.filter (fun s => s.binding == STB_LOCAL)).length ∧
    (∀ (j : Nat) (s : Symbol), (sort_dynamic_symbols b).1.dynamic_symbols[j]? = some s →
      (j < (b.dynamic_symbols.filter is_local).length ↔ s.binding = STB_LOCAL)) := by
  obtain ⟨s, hs, hname, _⟩ := first_index_some _ _ i hsec
  have hle := filter_length_le_len is_local b.dynamic_symbols
  refine ⟨⟨s, _, hs, by simpa using hname, ?_, rfl⟩, rfl, ?_⟩
  · rw [sort_dynamic_symbols_sections, set_information, hsec, u32_of_lt (by omega)]
    simp only
    rw [modify_at_getElem?_eq, hs]
    rfl
  · intro j sj hj
    rw [sort_dynamic_symbols_eq] at hj
    constructor
    · intro hlt
      rw [List.getElem?_append_left hlt] at hj
      simpa [is_local] using (List.mem_filter.mp (List.getElem?_mem hj)).2
    · intro hloc
      by_contra hge
      rw [List.getElem?_append_right (by omega)] at hj
      have hm := List.getElem?_mem hj
      rcases List.mem_append.mp hm with h | h
      · have := (List.mem_filter.mp (List.mem_filter.mp h).1).2
        simp [is_local, hloc] at this
      · have := (List.mem_filter.mp (List.mem_filter.mp h).1).2
        simp [is_local, hloc] at this

theorem sort_dynamic_symbols_dynsym_information_witness :
    (∃ s s', ex_sym_binary.sections[0]? = some s ∧ s.name = dynsym_section_name ∧
      (sort_dynamic_symbols ex_sym_binary).1.sections[0]? = some s' ∧
      s' = { s with information := (ex_sym_binary.dynamic_symbols.filter is_local).length }) ∧
    (ex_sym_binary.dynamic_symbols.filter is_local).length =
      (ex_sym_binary.dynamic_symbols.filter (fun s => s.binding == STB_LOCAL)).length ∧
    (∀ (j : Nat) (s : Symbol),
      (sort_dynamic_symbols ex_sym_binary).1.dynamic_symbols[j]? = some s →
      (j < (ex_sym_binary.dynamic_symbols.filter is_local).length ↔ s.binding = STB_LOCAL)) :=
  sort_dynamic_symbols_dynsym_information ex_sym_binary 0 (by decide) (by decide)

/-! ## `ObjectFileLayout::relocate` -/

theorem needed_total_zero (lay : ObjectFileLayout) (i : Nat) : needed_total lay i 0 = 0 := rfl

theorem needed_total_succ (lay : ObjectFileLayout) (i n : Nat) :
    needed_total lay i (n + 1) =
      (if lay.should_relocate i then lay.needed_size i else 0) + needed_total lay (i + 1) n := by
  unfold needed_total relocated_indices
  rw [List.range'_succ, List.filter_cons]
  split <;> simp

/-- The header offset and the cursor after the second loop. -/
theorem relocate_sections_totals (lay : ObjectFileLayout) (l : List Section) :
    ∀ (i last sho : Nat),
      ((relocated_indices lay i l.length = [] →
        (relocate_sections lay i l last sho).2.2 = sho) ∧
       (sho + needed_total lay i l.length < 2 ^ 64 →
        (relocate_sections lay i l last sho).2.2 = sho + needed_total lay i l.length) ∧
       (last + needed_total lay i l.length < 2 ^ 64 →
        (relocate_sections lay i l last sho).2.1 = last + needed_total lay i l.length)) := by
  induction l with
  | nil =>
    intro i last sho
    simp [relocate_sections, needed_total_zero]
  | cons sec rest ih =>
    intro i last sho
    simp only [List.length_cons, needed_total_succ, relocate_sections]
    by_cases hr : lay.should_relocate i = true
    · simp only [hr, if_true]
      obtain ⟨_, h2, h3⟩ := ih (i + 1) (u64 (last + lay.needed_size i))
        (u64 (sho + lay.needed_size i))
      refine ⟨?_, ?_, ?_⟩
      · intro hnil
        unfold relocated_indices at hnil
        rw [List.range'_succ, List.filter_cons, if_pos hr] at hnil
        cases hnil
      · intro hfit
        rw [h2 (by rw [u64_of_lt (by omega)]; omega), u64_of_lt (by omega)]
        omega
      · intro hfit
        rw [h3 (by rw [u64_of_lt (by omega)]; omega), u64_of_lt (by omega)]
        omega
    · have hr' : lay.should_relocate i = false := by simpa using hr
      simp only [hr', Bool.false_eq_true, if_false, Nat.zero_add]
      obtain ⟨h1, h2, h3⟩ := ih (i + 1) last sho
      refine ⟨?_, h2, h3⟩
      intro hnil
      apply h1
      unfold relocated_indices at hnil ⊢
      rw [List.range'_succ, List.filter_cons, if_neg hr] at hnil
      exact hnil

theorem mem_relocated_indices (lay : ObjectFileLayout) (n k : Nat) :
    k ∈ relocated_indices lay 0 n ↔
      k < n ∧ ∃ size, map_find k lay.sec_reloc_info = some size ∧ 0 < size ∧
        lay.needed_size k = size := by
  unfold relocated_indices ObjectFileLayout.should_relocate ObjectFileLayout.needed_size
  rw [List.mem_filter, List.mem_range']
  constructor
  · rintro ⟨⟨i, hi, rfl⟩, h⟩
    refine ⟨by omega, ?_⟩
    cases hm : map_find (0 + 1 * i) lay.sec_reloc_info with
    | none => rw [hm] at h; cases h
    | some size =>
      rw [hm] at h
      exact ⟨size, rfl, by simpa using h, rfl⟩
  · rintro ⟨hk, size, hm, hpos, _⟩
    refine ⟨⟨k, hk, by omega⟩, ?_⟩
    rw [hm]
    simpa using hpos

/-- C21. `ObjectFileLayout::relocate` adds to the section-header-table offset
of the header the sum of the needed sizes of the sections it relocates, the
sections registered in `sec_reloc_info_` with a size > 0 (the sum staying below
`2^64`), and leaves the offset as it is when no section is relocated. -/
theorem object_relocate_header_offset (content : List Nat → Section → Section)
    (lay : ObjectFileLayout) (b : Binary)
    (hfit : b.section_headers_offset + needed_total lay 0 b.sections.length < 2 ^ 64) :
    (lay.relocate content b).section_headers_offset =
      b.section_headers_offset +
        ((relocated_indices lay 0 b.sections.length).map lay.needed_size).sum ∧
    (∀ k, k ∈ relocated_indices lay 0 b.sections.length ↔
      k < b.sections.length ∧ ∃ size, map_find k lay.sec_reloc_info = some size ∧ 0 < size ∧
        lay.needed_size k = size) ∧
    (relocated_indices lay 0 b.sections.length = [] →
      (lay.relocate content b).section_headers_offset = b.section_headers_offset) := by
  obtain ⟨h1, h2, _⟩ := relocate_sections_totals lay b.sections 0
    (last_offset_sections b.sections) b.section_headers_offset
  exact ⟨h2 hfit, mem_relocated_indices lay _, h1⟩

theorem object_relocate_header_offset_witness :
    (ex_obj_layout2.relocate ex_content ex_obj_binary).section_headers_offset =
      ex_obj_binary.section_headers_offset +
        ((relocated_indices ex_obj_layout2 0 ex_obj_binary.sections.length).map
          ex_obj_layout2.needed_size).sum ∧
    (∀ k, k ∈ relocated_indices ex_obj_layout2 0 ex_obj_binary.sections.length ↔
      k < ex_obj_binary.sections.length ∧
        ∃ size, map_find k ex_obj_layout2.sec_reloc_info = some size ∧ 0 < size ∧
          ex_obj_layout2.needed_size k = size) ∧
    (relocated_indices ex_obj_layout2 0 ex_obj_binary.sections.length = [] →
      (ex_obj_layout2.relocate ex_content ex_obj_binary).section_headers_offset =
        ex_obj_binary.section_headers_offset) :=
  object_relocate_header_offset ex_content ex_obj_layout2 ex_obj_binary (by decide)

/-- C22, counterexample. A single section of 0x100 bytes is relocated with
0x80 bytes needed: its size becomes 0x80 and the section-header-table offset
goes from 0x1000 to 0x1080, a shift of 0x80 and not of 0x80 - 0x100. -/
theorem object_relocate_shrink_counterexample :
    relocated_indices ex_obj_layout 0 ex_obj_binary.sections.length = [0] ∧
    ex_obj_binary.sections[0]?.map (fun s => s.size) = some 0x100 ∧
    (ex_obj_layout.relocate ex_content ex_obj_binary).sections[0]?.map (fun s => s.size) =
      some 0x80 ∧
    ex_obj_binary.section_headers_offset = 0x1000 ∧
    (ex_obj_layout.relocate ex_content ex_obj_binary).section_headers_offset = 0x1080 ∧
    ((ex_obj_layout.relocate ex_content ex_obj_binary).section_headers_offset : Int) -
      (ex_obj_binary.section_headers_offset : Int) ≠ (0x80 : Int) - (0x100 : Int) := by
  decide

/-- C22, amended. When `ObjectFileLayout::relocate` relocates a single section,
the section-header-table offset shifts by exactly the needed size registered
for it (the new size of the section), whatever the size of the section was. -/
theorem object_relocate_single_section (content : List Nat → Section → Section)
    (lay : ObjectFileLayout) (b : Binary) (k : Nat)
    (hone : relocated_indices lay 0 b.sections.length = [k])
    (hfit : b.section_headers_offset + lay.needed_size k < 2 ^ 64) :
    (lay.relocate content b).section_headers_offset =
      b.section_headers_offset + lay.needed_size k := by
  have htot : needed_total lay 0 b.sections.length = lay.needed_size k := by
    unfold needed_total
    rw [hone]
    simp
  obtain ⟨_, h2, _⟩ := relocate_sections_totals lay b.sections 0
    (last_offset_sections b.sections) b.section_headers_offset
  rw [htot] at h2
  exact h2 hfit

theorem object_relocate_single_section_witness :
    (ex_obj_layout.relocate ex_content ex_obj_binary).section_headers_offset =
      ex_obj_binary.section_headers_offset + ex_obj_layout.needed_size 0 :=
  object_relocate_single_section ex_content ex_obj_layout ex_obj_binary 0 (by decide)
    (by decide)

/-- C24. `Builder::Builder`: a binary of file type ET_EXEC, ET_DYN or ET_CORE
gets the `ExeLayout`, a binary of type ET_REL gets the `ObjectFileLayout`, and
for every other file type the constructor takes the `std::abort()` path and no
builder is produced. -/
theorem builder_layout_selection (host : Host) (b : Binary) :
    ((b.file_type = E_TYPE.ET_EXEC ∨ b.file_type = E_TYPE.ET_DYN ∨
        b.file_type = E_TYPE.ET_CORE) →
      ∃ bld, Builder.new host b = some bld ∧ bld.layout_ = LayoutClass.exe_layout ∧
        bld.binary_ = b) ∧
    (b.file_type = E_TYPE.ET_REL →
      ∃ bld, Builder.new host b = some bld ∧ bld.layout_ = LayoutClass.object_file_layout ∧
        bld.binary_ = b) ∧
    ((b.file_type ≠ E_TYPE.ET_EXEC ∧ b.file_type ≠ E_TYPE.ET_DYN ∧
        b.file_type ≠ E_TYPE.ET_CORE ∧ b.file_type ≠ E_TYPE.ET_REL) →
      Builder.new host b = none) := by
  refine ⟨?_, ?_, ?_⟩
  · intro h
    refine ⟨{ binary_ := b, layout_ := LayoutClass.exe_layout,
              ios_ := { endian_swap_ := should_swap host b } }, ?_, rfl, rfl⟩
    rcases h with h | h | h <;> simp only [Builder.new, h]
  · intro h
    refine ⟨{ binary_ := b, layout_ := LayoutClass.object_file_layout,
              ios_ := { endian_swap_ := should_swap host b } }, ?_, rfl, rfl⟩
    simp only [Builder.new, h]
  · rintro ⟨h1, h2, h3, h4⟩
    unfold Builder.new
    cases hft : b.file_type with
    | ET_NONE => rfl
    | ET_REL => exact absurd hft h4
    | ET_EXEC => exact absurd hft h1
    | ET_DYN => exact absurd hft h2
    | ET_CORE => exact absurd hft h3
    | ET_OTHER v => rfl

theorem builder_layout_selection_witness :
    (∃ bld, Builder.new ex_host ex_binary = some bld ∧ bld.layout_ = LayoutClass.exe_layout ∧
      bld.binary_ = ex_binary) ∧
    (∃ bld, Builder.new ex_host ex_obj_binary = some bld ∧
      bld.layout_ = LayoutClass.object_file_layout ∧ bld.binary_ = ex_obj_binary) ∧
    Builder.new ex_host { file_type := E_TYPE.ET_OTHER 0xff00 } = none :=
  ⟨(builder_layout_selection ex_host ex_binary).1 (Or.inr (Or.inl rfl)),
    (builder_layout_selection ex_host ex_obj_binary).2.1 rfl,
    (builder_layout_selection ex_host { file_type := E_TYPE.ET_OTHER 0xff00 }).2.2
      ⟨by decide, by decide, by decide, by decide⟩⟩

/-- C28. `Builder::write` on a destination that cannot be opened returns (the
function raises nothing), writes nothing and leaves the builder as it is:
`get_build()` gives the same bytes after the call as before it. -/
theorem builder_write_failed_open (after_move : vector_iostream → vector_iostream)
    (bld : Builder) :
    (Builder.write false after_move bld).1 = bld ∧
    (Builder.write false after_move bld).1.get_build = bld.get_build ∧
    (Builder.write false after_move bld).2 = none :=
  ⟨rfl, rfl, rfl⟩

theorem first_index_none {α : Type} (p : α → Bool) (l : List α) :
    first_index p l = none ↔ ∀ x ∈ l, p x = false := by
  induction l with
  | nil => simp [first_index]
  | cons a rest ih =>
    simp only [first_index]
    by_cases hp : p a = true
    · rw [if_pos hp]
      constructor
      · intro h; cases h
      · intro h
        have := h a (List.mem_cons_self _ _)
        rw [hp] at this
        cases this
    · rw [if_neg hp]
      have hp' : p a = false := by simpa using hp
      constructor
      · intro h x hx
        have hr : first_index p rest = none := by
          cases hr : first_index p rest with
          | none => rfl
          | some k => rw [hr] at h; cases h
        rcases List.mem_cons.mp hx with h1 | h1
        · rw [h1]; exact hp'
        · exact ih.mp hr x h1
      · intro h
        rw [ih.mpr (fun x hx => h x (List.mem_cons_of_mem _ hx))]
        rfl

/-- C29. `Builder::build_empty_symbol_gnuhash` raises an exception exactly
when no section of the binary has the type SHT_GNU_HASH, the exception is
`corrupted` and it is raised before any section is touched; otherwise the
content handed to the first such section is the four 32-bit words 1, 1, 1, 0
(`nb_buckets`, `symndx`, `maskwords`, `shift2`; swapped when `should_swap()`
holds) followed by zero bytes only, the other sections being left as they are. -/
theorem build_empty_symbol_gnuhash_content (content : List Nat → Section → Section)
    (host : Host) (bld : Builder) :
    ((∃ e, Builder.build_empty_symbol_gnuhash content host bld = Except.error e) ↔
      ∀ s ∈ bld.binary_.sections, s.type ≠ ELF_SECTION_TYPES.SHT_GNU_HASH) ∧
    (∀ e, Builder.build_empty_symbol_gnuhash content host bld = Except.error e →
      e = Error.corrupted) ∧
    (∀ (i : Nat) (s : Section),
      first_index (fun s => s.type == ELF_SECTION_TYPES.SHT_GNU_HASH) bld.binary_.sections =
        some i →
      bld.binary_.sections[i]? = some s →
      Builder.build_empty_symbol_gnuhash content host bld =
        Except.ok { bld with binary_ := { bld.binary_ with
          sections := modify_at
            (content
              (object_bytes host 4
                  (if should_swap host bld.binary_ then host.swap_endian 4 1 else 1) ++
                object_bytes host 4
                  (if should_swap host bld.binary_ then host.swap_endian 4 1 else 1) ++
                object_bytes host 4
                  (if should_swap host bld.binary_ then host.swap_endian 4 1 else 1) ++
                object_bytes host 4
                  (if should_swap host bld.binary_ then host.swap_endian 4 0 else 0) ++
                List.replicate ((s.size - 16 % s.size) % s.size) 0))
            i bld.binary_.sections } }) := by
  refine ⟨?_, ?_, ?_⟩
  · have hnone := first_index_none (fun s : Section => s.type == ELF_SECTION_TYPES.SHT_GNU_HASH)
      bld.binary_.sections
    unfold Builder.build_empty_symbol_gnuhash
    cases hf : first_index (fun s => s.type == ELF_SECTION_TYPES.SHT_GNU_HASH)
      bld.binary_.sections with
    | none =>
      constructor
      · intro _ s hs
        have := hnone.mp hf s hs
        simpa using this
      · intro _
        exact ⟨_, rfl⟩
    | some i =>
      constructor
      · rintro ⟨e, he⟩
        cases he
      · intro h
        have := hnone.mpr (fun x hx => by simpa using h x hx)
        rw [hf] at this
        cases this
  · intro e he
    unfold Builder.build_empty_symbol_gnuhash at he
    cases hf : first_index (fun s => s.type == ELF_SECTION_TYPES.SHT_GNU_HASH)
      bld.binary_.sections with
    | none =>
      rw [hf] at he
      exact (Except.error.inj he).symm
    | some i =>
      rw [hf] at he
      cases he
  · intro i s hi hs
    have h0 : (({ endian_swap_ := should_swap host bld.binary_ } : vector_iostream)).current_pos_ =
        (({ endian_swap_ := should_swap host bld.binary_ } : vector_iostream)).raw_.length := rfl
    have hw : ∀ (c : vector_iostream) (v : Nat), c.current_pos_ = c.raw_.length →
        c.endian_swap_ = should_swap host bld.binary_ →
        (c.write_conv host 4 v).raw_ = c.raw_ ++ object_bytes host 4
          (if should_swap host bld.binary_ then host.swap_endian 4 v else v) ∧
        (c.write_conv host 4 v).current_pos_ = (c.write_conv host 4 v).raw_.length ∧
        (c.write_conv host 4 v).endian_swap_ = should_swap host bld.binary_ := by
      intro c v hc hsw
      have hconv : c.write_conv host 4 v = c.write (object_bytes host 4
          (if should_swap host bld.binary_ then host.swap_endian 4 v else v)) := by
        simp only [vector_iostream.write_conv, hsw]
      rw [hconv]
      have := write_at_end c (object_bytes host 4
        (if should_swap host bld.binary_ then host.swap_endian 4 v else v)) hc
      exact ⟨this.1, this.2.1, this.2.2.trans hsw⟩
    obtain ⟨a1, a2, a3⟩ := hw _ 1 h0 rfl
    obtain ⟨b1, b2, b3⟩ := hw _ 1 a2 a3
    obtain ⟨c1, c2, c3⟩ := hw _ 1 b2 b3
    obtain ⟨d1, _, _⟩ := hw _ 0 c2 c3
    rw [c1, b1, a1] at d1
    simp only [show (({ endian_swap_ := should_swap host bld.binary_ } :
      vector_iostream)).raw_ = [] from rfl, List.nil_append] at d1
    have hraw : (vector_iostream.align s.size 0
        ((((({ endian_swap_ := should_swap host bld.binary_ } : vector_iostream).write_conv
          host 4 1).write_conv host 4 1).write_conv host 4 1).write_conv host 4 0)).raw_ =
        object_bytes host 4
            (if should_swap host bld.binary_ then host.swap_endian 4 1 else 1) ++
          object_bytes host 4
            (if should_swap host bld.binary_ then host.swap_endian 4 1 else 1) ++
          object_bytes host 4
            (if should_swap host bld.binary_ then host.swap_endian 4 1 else 1) ++
          object_bytes host 4
            (if should_swap host bld.binary_ then host.swap_endian 4 0 else 0) ++
          List.replicate ((s.size - 16 % s.size) % s.size) 0 := by
      unfold vector_iostream.align
      simp only
      rw [d1]
      simp only [List.length_append, object_bytes_length]
    unfold Builder.build_empty_symbol_gnuhash
    simp only [hi, hs, hraw]

theorem build_empty_symbol_gnuhash_content_witness :
    ∃ bld', Builder.build_empty_symbol_gnuhash (fun d s => { s with size := d.length })
        ex_host ex_hash_builder = Except.ok bld' ∧
      bld'.binary_.sections =
        modify_at
          ((fun d s => { s with size := d.length })
            ([0, 0, 0, 1] ++ [0, 0, 0, 1] ++ [0, 0, 0, 1] ++ [0, 0, 0, 0] ++
              List.replicate 16 0))
          1 ex_hash_builder.binary_.sections :=
  ⟨_, (build_empty_symbol_gnuhash_content (fun d s => { s with size := d.length }) ex_host
      ex_hash_builder).2.2 1
      { name := ".gnu.hash", type := ELF_SECTION_TYPES.SHT_GNU_HASH, size := 32 }
      (by decide) (by decide), by decide⟩

/-! ## The name of the section of a note -/

theorem find_first_some {α : Type} (p : α → Bool) (pre : List α) (x : α) (suf : List α)
    (hpre : ∀ q ∈ pre, p q = false) (hx : p x = true) :
    (pre ++ x :: suf).find? p = some x := by
  induction pre with
  | nil => simp [List.find?, hx]
  | cons a rest ih =>
    have ha := hpre a (List.mem_cons_self _ _)
    simp only [List.cons_append, List.find?, ha]
    exact ih (fun q hq => hpre q (List.mem_cons_of_mem _ hq))

theorem find_none_of_all {α : Type} (p : α → Bool) (l : List α)
    (h : ∀ q ∈ l, p q = false) : l.find? p = none := by
  induction l with
  | nil => rfl
  | cons a rest ih =>
    have ha := h a (List.mem_cons_self _ _)
    simp only [List.find?, ha]
    exact ih (fun q hq => h q (List.mem_cons_of_mem _ hq))

/-- C30. `Builder::build(note, sections)` and the note pass of
`ExeLayout::relocate` compute the same section name: for a note type without
entry in `note_to_section_map`, ".note." followed by the type (as `uint32_t`)
in lowercase hexadecimal; for a type with entries, the first mapped name that
is the name of a section of the binary, and the first mapped name when there is
none. -/
theorem note_section_name_rule (note_to_section_map : List (Nat × String)) (b : Binary)
    (note : Note) :
    Builder.note_section_name note_to_section_map b note =
      ExeLayout.note_section_name note_to_section_map b note ∧
    (equal_range note_to_section_map note.type = [] →
      Builder.note_section_name note_to_section_map b note =
        ".note." ++ hex_lower (u32 note.type)) ∧
    (∀ (pre : List (Nat × String)) (p : Nat × String) (suf : List (Nat × String)),
      equal_range note_to_section_map note.type = pre ++ p :: suf →
      (∀ q ∈ pre, has_section b q.2 = false) → has_section b p.2 = true →
      Builder.note_section_name note_to_section_map b note = p.2) ∧
    (∀ (p : Nat × String) (rest : List (Nat × String)),
      equal_range note_to_section_map note.type = p :: rest →
      (∀ q ∈ p :: rest, has_section b q.2 = false) →
      Builder.note_section_name note_to_section_map b note = p.2) ∧
    hex_lower 0x1AB = "1ab" := by
  refine ⟨rfl, ?_, ?_, ?_, by decide⟩
  · intro h
    simp [Builder.note_section_name, h]
  · intro pre p suf h hpre hp
    have hf := find_first_some (fun q : Nat × String => has_section b q.2) pre p suf hpre hp
    simp [Builder.note_section_name, h, hf]
  · intro p rest h hall
    have hf := find_none_of_all (fun q : Nat × String => has_section b q.2) (p :: rest) hall
    simp only [Builder.note_section_name, h, hf]
    simp

theorem note_section_name_rule_witness :
    Builder.note_section_name ex_note_map ex_note_sections { type := 0x1AB } = ".note.1ab" ∧
    Builder.note_section_name ex_note_map ex_note_sections { type := 1 } =
      ".note.android.ident" ∧
    Builder.note_section_name ex_note_map ex_note_sections { type := 3 } =
      ".note.gnu.build-id" :=
  ⟨(note_section_name_rule ex_note_map ex_note_sections { type := 0x1AB }).2.1 (by decide),
    (note_section_name_rule ex_note_map ex_note_sections { type := 1 }).2.2.1
      [(1, ".note.ABI-tag")] (1, ".note.android.ident") [] (by decide) (by decide) (by decide),
    (note_section_name_rule ex_note_map ex_note_sections { type := 3 }).2.2.2.1
      (3, ".note.gnu.build-id") [] (by decide) (by decide)⟩

/-! ## `ExeLayout::relocate`: the new segments -/

theorem filter_filter_self {α : Type} (p : α → Bool) (l : List α) :
    (l.filter p).filter p = l.filter p := by
  rw [List.filter_filter]
  apply List.filter_congr
  intro x _
  simp

theorem filter_filter_not {α : Type} (p : α → Bool) (l : List α) :
    (l.filter (fun a => !p a)).filter p = [] := by
  rw [List.filter_filter]
  rw [List.filter_eq_nil_iff]
  intro x _
  simp

theorem filter_not_filter {α : Type} (p : α → Bool) (l : List α) :
    (l.filter p).filter (fun a => !p a) = [] := by
  rw [List.filter_filter]
  rw [List.filter_eq_nil_iff]
  intro x _
  simp

theorem filter_comm_pq {α : Type} (p q : α → Bool) (l : List α) :
    (l.filter p).filter q = (l.filter q).filter p := by
  rw [List.filter_filter, List.filter_filter]
  apply List.filter_congr
  intro x _
  exact Bool.and_comm _ _

theorem sorted_symbols_fixed (l : List Symbol) :
    let L := l.filter is_local
    let U := (l.filter (fun s => !is_local s)).filter is_undef
    let D := (l.filter (fun s => !is_local s)).filter (fun s => !is_undef s)
    (L ++ (U ++ D)).filter is_local = L ∧
    ((L ++ (U ++ D)).filter (fun s => !is_local s)).filter is_undef = U ∧
    ((L ++ (U ++ D)).filter (fun s => !is_local s)).filter (fun s => !is_undef s) = D := by
  intro L U D
  have hLL : L.filter is_local = L := filter_filter_self is_local l
  have hUL : U.filter is_local = [] := by
    show ((l.filter (fun s => !is_local s)).filter is_undef).filter is_local = []
    rw [filter_comm_pq, filter_filter_not]
    rfl
  have hDL : D.filter is_local = [] := by
    show ((l.filter (fun s => !is_local s)).filter (fun s => !is_undef s)).filter is_local = []
    rw [filter_comm_pq, filter_filter_not]
    rfl
  have hLN : L.filter (fun s => !is_local s) = [] := filter_not_filter is_local l
  have hUN : U.filter (fun s => !is_local s) = U := by
    show ((l.filter (fun s => !is_local s)).filter is_undef).filter (fun s => !is_local s) = _
    rw [filter_comm_pq, filter_filter_self]
  have hDN : D.filter (fun s => !is_local s) = D := by
    show ((l.filter (fun s => !is_local s)).filter (fun s => !is_undef s)).filter
      (fun s => !is_local s) = _
    rw [filter_comm_pq, filter_filter_self]
  have hUU : U.filter is_undef = U := filter_filter_self is_undef _
  have hDU : D.filter is_undef = [] := filter_filter_not is_undef _
  have hUD : U.filter (fun s => !is_undef s) = [] := filter_not_filter is_undef _
  have hDD : D.filter (fun s => !is_undef s) = D := filter_filter_self (fun s => !is_undef s) _
  refine ⟨?_, ?_, ?_⟩
  · rw [List.filter_append, List.filter_append, hLL, hUL, hDL]
    simp
  · simp only [List.filter_append, hLN, hUN, hDN, hUU, hDU, List.nil_append, List.append_nil,
      List.filter_nil]
  · simp only [List.filter_append, hLN, hUN, hDN, hUD, hDD, List.nil_append, List.append_nil,
      List.filter_nil]

/-- C40. `Builder::sort_dynamic_symbols` is idempotent: applied to the binary
it has produced, it leaves the dynamic symbols in the same order and returns
the same index as the first application. -/
theorem sort_dynamic_symbols_idempotent (b : Binary) :
    (sort_dynamic_symbols (sort_dynamic_symbols b).1).1.dynamic_symbols =
      (sort_dynamic_symbols b).1.dynamic_symbols ∧
    (sort_dynamic_symbols (sort_dynamic_symbols b).1).2 = (sort_dynamic_symbols b).2 := by
  obtain ⟨h1, h2, h3⟩ := sorted_symbols_fixed b.dynamic_symbols
  constructor
  · rw [sort_dynamic_symbols_eq (sort_dynamic_symbols b).1, sort_dynamic_symbols_eq b, h1, h2, h3]
  · rw [sort_dynamic_symbols_index (sort_dynamic_symbols b).1, sort_dynamic_symbols_index b,
      sort_dynamic_symbols_eq b, h1, h2]

/-! ## The bucket pass raises no exception -/

theorem symbol_gnu_hash_build_returns (dl_new_hash : List Nat → Nat) (cls : ELF_CLASS)
    (gnu_hash : GnuHash) (new_symndx : Int) (dynamic_symbols : List Symbol)
    (hnb : 1 ≤ u32 gnu_hash.nb_buckets) (h31 : u32 gnu_hash.nb_buckets ≤ 2 ^ 31)
    (hsym : (if new_symndx ≥ 0 then u32 new_symndx.toNat else 0) ≤ dynamic_symbols.length) :
    ∃ r, symbol_gnu_hash_build dl_new_hash cls gnu_hash new_symndx dynamic_symbols =
      Except.ok r := by
  simp only [symbol_gnu_hash_build]
  obtain ⟨st', hst'⟩ := bucket_loop_sorted_ok dl_new_hash (u32 gnu_hash.nb_buckets) hnb h31
    ((dynamic_symbols.take (if new_symndx ≥ 0 then u32 new_symndx.toNat else 0) ++
      stable_sort (bucket_lt dl_new_hash (u32 gnu_hash.nb_buckets))
        (dynamic_symbols.drop (if new_symndx ≥ 0 then u32 new_symndx.toNat else 0))).drop
      (if new_symndx ≥ 0 then u32 new_symndx.toNat else 0))
    (if new_symndx ≥ 0 then u32 new_symndx.toNat else 0)
    { previous_bucket := -1, hash_value_idx := 0,
      buckets := List.replicate (u32 gnu_hash.nb_buckets) 0,
      hash_values := List.replicate
        ((dynamic_symbols.take (if new_symndx ≥ 0 then u32 new_symndx.toNat else 0) ++
          stable_sort (bucket_lt dl_new_hash (u32 gnu_hash.nb_buckets))
            (dynamic_symbols.drop
              (if new_symndx ≥ 0 then u32 new_symndx.toNat else 0))).length -
          (if new_symndx ≥ 0 then u32 new_symndx.toNat else 0)) 0 }
    (by
      rw [List.drop_append_of_le_length (by rw [List.length_take]; omega),
        List.drop_of_length_le (by rw [List.length_take]; omega), List.nil_append]
      exact stable_sort_pairwise _ _ _)
    (by
      intro s _
      show (-1 : Int) ≤ _
      omega)
  rw [hst']
  exact ⟨_, rfl⟩

/-- C32. With `1 ≤ nb_buckets < 2^31` and `symndx` not beyond the `n` dynamic
symbols, `ExeLayout::symbol_gnu_hash_size` returns: the `corrupted` exception
of the bucket loop, like any other, is never raised, the range the loop walks
having just been sorted by bucket. -/
theorem symbol_gnu_hash_size_never_corrupted (dl_new_hash : List Nat → Nat) (host : Host)
    (cls : ELF_CLASS) (gnu_hash : GnuHash) (new_symndx : Int) (b : Binary) (lay : ExeLayout)
    (hnb1 : 1 ≤ u32 gnu_hash.nb_buckets) (hnb : u32 gnu_hash.nb_buckets < 2 ^ 31)
    (hsym : (if new_symndx ≥ 0 then u32 new_symndx.toNat else 0) ≤ b.dynamic_symbols.length) :
    (∃ r, symbol_gnu_hash_size dl_new_hash host cls gnu_hash new_symndx b lay = Except.ok r) ∧
    symbol_gnu_hash_size dl_new_hash host cls gnu_hash new_symndx b lay ≠
      Except.error Error.corrupted ∧
    ∀ e, symbol_gnu_hash_size dl_new_hash host cls gnu_hash new_symndx b lay ≠
      Except.error e := by
  have hret : ∃ r, symbol_gnu_hash_size dl_new_hash host cls gnu_hash new_symndx b lay =
      Except.ok r := by
    unfold symbol_gnu_hash_size
    by_cases hraw : lay.raw_gnu_hash.length > 0
    · rw [if_pos hraw]
      exact ⟨_, rfl⟩
    · rw [if_neg hraw]
      obtain ⟨r, hr⟩ := symbol_gnu_hash_build_returns dl_new_hash cls gnu_hash new_symndx
        b.dynamic_symbols hnb1 (Nat.le_of_lt hnb) hsym
      rw [hr]
      exact ⟨_, rfl⟩
  obtain ⟨r, hr⟩ := hret
  refine ⟨⟨r, hr⟩, ?_, ?_⟩
  · rw [hr]
    intro h
    cases h
  · intro e
    rw [hr]
    intro h
    cases h

theorem symbol_gnu_hash_size_never_corrupted_witness :
    (∃ r, symbol_gnu_hash_size dl_new_hash_ref ex_host ELF_CLASS.ELFCLASS64
      { nb_buckets := 3, maskwords := 2, shift2 := 6 } 1
      { dynamic_symbols := ex_gnu_symbols } {} = Except.ok r) ∧
    symbol_gnu_hash_size dl_new_hash_ref ex_host ELF_CLASS.ELFCLASS64
      { nb_buckets := 3, maskwords := 2, shift2 := 6 } 1
      { dynamic_symbols := ex_gnu_symbols } {} ≠ Except.error Error.corrupted ∧
    ∀ e, symbol_gnu_hash_size dl_new_hash_ref ex_host ELF_CLASS.ELFCLASS64
      { nb_buckets := 3, maskwords := 2, shift2 := 6 } 1
      { dynamic_symbols := ex_gnu_symbols } {} ≠ Except.error e :=
  symbol_gnu_hash_size_never_corrupted dl_new_hash_ref ex_host ELF_CLASS.ELFCLASS64
    { nb_buckets := 3, maskwords := 2, shift2 := 6 } 1 { dynamic_symbols := ex_gnu_symbols } {}
    (by decide) (by decide) (by decide)

/-! ## The bloom filter has no false negative -/

theorem testBit_or_all (l : List Nat) (x k : Nat) (hx : x ∈ l) (hk : x.testBit k = true) :
    (or_all l).testBit k = true := by
  induction l with
  | nil => cases hx
  | cons y ys ih =>
    show (y ||| or_all ys).testBit k = true
    rw [Nat.testBit_or]
    rcases List.mem_cons.mp hx with h | h
    · rw [← h, hk]
      rfl
    · rw [ih h]
      exact Bool.or_true _

theorem testBit_one_shiftLeft_self (a : Nat) : (1 <<< a).testBit a = true := by
  rw [Nat.one_shiftLeft]
  exact Nat.testBit_two_pow_self

theorem bloom_bits_testBit (C shift2 hash : Nat) :
    (bloom_bits C shift2 hash).testBit (hash % C) = true ∧
    (bloom_bits C shift2 hash).testBit ((hash >>> shift2) % C) = true := by
  unfold bloom_bits
  constructor
  · rw [Nat.testBit_or, testBit_one_shiftLeft_self]
    rfl
  · rw [Nat.testBit_or, testBit_one_shiftLeft_self]
    exact Bool.or_true _

/-- C34. With at least one bloom word, for every symbol at an index of
`[symndx, n)` of the reordered symbols, with hash `h`, the word of index
`(h / C) & (maskwords - 1)` of the bloom filter built by
`ExeLayout::symbol_gnu_hash_size` exists and has the bits `h mod C` and
`(h >> shift2) mod C` set. -/
theorem gnu_hash_bloom_no_false_negative (dl_new_hash : List Nat → Nat) (cls : ELF_CLASS)
    (gnu_hash : GnuHash) (new_symndx : Int) (dynamic_symbols syms' : List Symbol)
    (t : GnuHashTable)
    (hbuild : symbol_gnu_hash_build dl_new_hash cls gnu_hash new_symndx dynamic_symbols =
      Except.ok (syms', t))
    (hmw : 1 ≤ t.maskwords) (i : Nat) (s : Symbol) (hi : t.symndx ≤ i)
    (hs : syms'[i]? = some s) :
    (sym_hash dl_new_hash s / cls.bits) &&& (t.maskwords - 1) < t.bloom_filters.length ∧
    (t.bloom_filters.getD ((sym_hash dl_new_hash s / cls.bits) &&& (t.maskwords - 1)) 0).testBit
      (sym_hash dl_new_hash s % cls.bits) = true ∧
    (t.bloom_filters.getD ((sym_hash dl_new_hash s / cls.bits) &&& (t.maskwords - 1)) 0).testBit
      ((sym_hash dl_new_hash s >>> t.shift2) % cls.bits) = true := by
  obtain ⟨_, hmwe, _, _, _, hbloom, _⟩ :=
    symbol_gnu_hash_build_ok dl_new_hash cls gnu_hash new_symndx dynamic_symbols syms' t hbuild
  have hmw32 : t.maskwords < 2 ^ 32 := by rw [hmwe]; exact u32_lt _
  have hmask : u32 (t.maskwords + (2 ^ 32 - 1)) = t.maskwords - 1 := by
    unfold u32
    omega
  have hpos : (sym_hash dl_new_hash s / cls.bits) &&& (t.maskwords - 1) < t.maskwords :=
    lt_of_le_of_lt Nat.and_le_right (by omega)
  have hlen : t.bloom_filters.length = t.maskwords := by
    rw [hbloom, bloom_fold_length, List.length_replicate]
  have hmem : s ∈ syms'.drop t.symndx := by
    have h1 : (syms'.drop t.symndx)[i - t.symndx]? = some s := by
      rw [List.getElem?_drop, Nat.add_sub_cancel' hi]
      exact hs
    exact List.getElem?_mem h1
  have hword : t.bloom_filters.getD ((sym_hash dl_new_hash s / cls.bits) &&& (t.maskwords - 1)) 0 =
      or_all (((syms'.drop t.symndx).filter
        (fun x => bloom_pos cls.bits t.maskwords (sym_hash dl_new_hash x) ==
          (sym_hash dl_new_hash s / cls.bits) &&& (t.maskwords - 1))).map
        (fun x => bloom_bits cls.bits t.shift2 (sym_hash dl_new_hash x))) := by
    rw [hbloom, bloom_fold_getD dl_new_hash cls.bits t.maskwords t.shift2 _ _ _
      (by simpa using hpos), replicate_getD_zero, Nat.zero_or]
  have hin : bloom_bits cls.bits t.shift2 (sym_hash dl_new_hash s) ∈
      ((syms'.drop t.symndx).filter
        (fun x => bloom_pos cls.bits t.maskwords (sym_hash dl_new_hash x) ==
          (sym_hash dl_new_hash s / cls.bits) &&& (t.maskwords - 1))).map
        (fun x => bloom_bits cls.bits t.shift2 (sym_hash dl_new_hash x)) := by
    apply List.mem_map.mpr
    refine ⟨s, ?_, rfl⟩
    rw [List.mem_filter]
    refine ⟨hmem, ?_⟩
    simp only [bloom_pos, hmask, beq_self_eq_true]
  obtain ⟨hb1, hb2⟩ := bloom_bits_testBit cls.bits t.shift2 (sym_hash dl_new_hash s)
  refine ⟨by rw [hlen]; exact hpos, ?_, ?_⟩
  · rw [hword]
    exact testBit_or_all _ _ _ hin hb1
  · rw [hword]
    exact testBit_or_all _ _ _ hin hb2

theorem gnu_hash_bloom_no_false_negative_witness :
    (sym_hash dl_new_hash_ref { name := [100], binding := STB_GLOBAL, shndx := 1 } /
        ELF_CLASS.ELFCLASS64.bits) &&& (ex_gnu_table.maskwords - 1) <
      ex_gnu_table.bloom_filters.length ∧
    (ex_gnu_table.bloom_filters.getD
      ((sym_hash dl_new_hash_ref { name := [100], binding := STB_GLOBAL, shndx := 1 } /
        ELF_CLASS.ELFCLASS64.bits) &&& (ex_gnu_table.maskwords - 1)) 0).testBit
      (sym_hash dl_new_hash_ref { name := [100], binding := STB_GLOBAL, shndx := 1 } %
        ELF_CLASS.ELFCLASS64.bits) = true ∧
    (ex_gnu_table.bloom_filters.getD
      ((sym_hash dl_new_hash_ref { name := [100], binding := STB_GLOBAL, shndx := 1 } /
        ELF_CLASS.ELFCLASS64.bits) &&& (ex_gnu_table.maskwords - 1)) 0).testBit
      ((sym_hash dl_new_hash_ref { name := [100], binding := STB_GLOBAL, shndx := 1 } >>>
        ex_gnu_table.shift2) % ELF_CLASS.ELFCLASS64.bits) = true :=
  gnu_hash_bloom_no_false_negative dl_new_hash_ref ELF_CLASS.ELFCLASS64
    { nb_buckets := 3, maskwords := 2, shift2 := 6 } 1 ex_gnu_symbols ex_gnu_sorted ex_gnu_table
    rfl (by decide) 3 { name := [100], binding := STB_GLOBAL, shndx := 1 } (by decide)
    (by decide)

/-! ## Divisions and accesses of the hash builder -/

theorem checked_div_ok (a b : Nat) (h : b ≠ 0) : checked_div a b = Except.ok (a / b) := by
  simp [checked_div, h]

theorem checked_mod_ok (a b : Nat) (h : b ≠ 0) : checked_mod a b = Except.ok (a % b) := by
  simp [checked_mod, h]

theorem checked_get_ok (v : List Nat) (i : Nat) (h : i < v.length) :
    checked_get v i = Except.ok (v.getD i 0) := by
  simp [checked_get, h]

theorem checked_set_ok (v : List Nat) (i x : Nat) (h : i < v.length) :
    checked_set v i x = Except.ok (v.set i x) := by
  simp [checked_set, h]

theorem bits_ne_zero (cls : ELF_CLASS) : cls.bits ≠ 0 := by
  cases cls <;> decide

theorem bloom_step_checked_ok (H : List Nat → Nat) (C mw s2 : Nat) (bl : List Nat) (s : Symbol)
    (hC : C ≠ 0) (hmw : 1 ≤ mw) (hmw32 : mw < 2 ^ 32) (hlen : bl.length = mw) :
    bloom_step_checked H C mw s2 bl s = Except.ok (bloom_step H C mw s2 bl s) := by
  have hmask : u32 (mw + (2 ^ 32 - 1)) = mw - 1 := by
    unfold u32
    omega
  have hpos : (sym_hash H s / C) &&& (mw - 1) < bl.length := by
    rw [hlen]
    exact lt_of_le_of_lt Nat.and_le_right (by omega)
  simp only [bloom_step_checked, bloom_step, bloom_pos, bloom_bits, checked_div_ok _ _ hC,
    checked_mod_ok _ _ hC, hmask, checked_get_ok _ _ hpos, checked_set_ok _ _ _ hpos,
    bind, Except.bind]

theorem bloom_loop_checked_ok (H : List Nat → Nat) (C mw s2 : Nat) (hC : C ≠ 0) (hmw : 1 ≤ mw)
    (hmw32 : mw < 2 ^ 32) (l : List Symbol) :
    ∀ bl : List Nat, bl.length = mw →
      bloom_loop_checked H C mw s2 l bl = Except.ok (l.foldl (bloom_step H C mw s2) bl) := by
  induction l with
  | nil => intro bl _; rfl
  | cons s rest ih =>
    intro bl hlen
    simp only [bloom_loop_checked, bloom_step_checked_ok H C mw s2 bl s hC hmw hmw32 hlen,
      bind, Except.bind, List.foldl_cons]
    exact ih _ (by rw [bloom_step_length]; exact hlen)

theorem index_of_int_natCast (n : Nat) (h : n < 2 ^ 64) : index_of_int (n : Int) = n := by
  unfold index_of_int
  omega

theorem bucket_step_checked_ok (H : List Nat → Nat) (nb i : Nat) (s : Symbol) (st : BucketState)
    (hnb : nb ≠ 0) (hnb32 : nb < 2 ^ 32) (hprev : -1 ≤ st.previous_bucket)
    (hblen : st.buckets.length = nb) (hidx : st.hash_value_idx < st.hash_values.length) :
    bucket_step_checked H nb i s st = Except.ok (bucket_step H nb i s st) ∧
    ∀ st1, bucket_step H nb i s st = Except.ok st1 →
      -1 ≤ st1.previous_bucket ∧ st1.hash_value_idx = st.hash_value_idx + 1 := by
  have hr : sym_hash H s % nb < nb := Nat.mod_lt _ (Nat.pos_of_ne_zero hnb)
  by_cases hlt : toInt32 (sym_hash H s % nb) < st.previous_bucket
  · constructor
    · simp only [bucket_step_checked, bucket_step, checked_mod_ok _ _ hnb, bind, Except.bind,
        if_pos hlt, pure, Except.pure]
    · intro st1 h
      simp only [bucket_step, if_pos hlt] at h
      cases h
  · have hge : -1 ≤ toInt32 (sym_hash H s % nb) := by omega
    have hsmall : sym_hash H s % nb < 2 ^ 31 := by
      by_contra hbig
      have := toInt32_of_ge (x := sym_hash H s % nb) (by omega) (by omega)
      omega
    have hti : toInt32 (sym_hash H s % nb) = ((sym_hash H s % nb : Nat) : Int) :=
      toInt32_of_lt hsmall
    have hix : index_of_int (toInt32 (sym_hash H s % nb)) = sym_hash H s % nb := by
      rw [hti]
      exact index_of_int_natCast _ (by omega)
    have htn : (toInt32 (sym_hash H s % nb)).toNat = sym_hash H s % nb := by
      rw [hti]
      rfl
    have hb : sym_hash H s % nb < st.buckets.length := by rw [hblen]; exact hr
    by_cases hne : toInt32 (sym_hash H s % nb) ≠ st.previous_bucket
    · by_cases h0 : st.hash_value_idx > 0
      · have hprevidx : st.hash_value_idx - 1 < st.hash_values.length := by omega
        have hidx' : st.hash_value_idx <
            (st.hash_values.set (st.hash_value_idx - 1)
              (st.hash_values.getD (st.hash_value_idx - 1) 0 ||| 1)).length := by
          rw [List.length_set]; exact hidx
        constructor
        · simp only [bucket_step_checked, bucket_step, checked_mod_ok _ _ hnb, bind, Except.bind,
            if_neg hlt, if_pos hne, if_pos h0, hix, htn, checked_set_ok _ _ _ hb,
            checked_get_ok _ _ hprevidx, checked_set_ok _ _ _ hprevidx,
            checked_set_ok _ _ _ hidx', pure, Except.pure]
        · intro st1 h
          simp only [bucket_step, if_neg hlt, if_pos hne, if_pos h0] at h
          rw [← Except.ok.inj h]
          exact ⟨hge, rfl⟩
      · constructor
        · simp only [bucket_step_checked, bucket_step, checked_mod_ok _ _ hnb, bind, Except.bind,
            if_neg hlt, if_pos hne, if_neg h0, hix, htn, checked_set_ok _ _ _ hb,
            checked_set_ok _ _ _ hidx, pure, Except.pure]
        · intro st1 h
          simp only [bucket_step, if_neg hlt, if_pos hne, if_neg h0] at h
          rw [← Except.ok.inj h]
          exact ⟨hge, rfl⟩
    · constructor
      · simp only [bucket_step_checked, bucket_step, checked_mod_ok _ _ hnb, bind, Except.bind,
          if_neg hlt, if_neg hne, checked_set_ok _ _ _ hidx, pure, Except.pure]
      · intro st1 h
        simp only [bucket_step, if_neg hlt, if_neg hne] at h
        rw [← Except.ok.inj h]
        exact ⟨hprev, rfl⟩

theorem bucket_loop_checked_ok (H : List Nat → Nat) (nb : Nat) (hnb : nb ≠ 0)
    (hnb32 : nb < 2 ^ 32) (l : List Symbol) :
    ∀ (i : Nat) (st : BucketState), -1 ≤ st.previous_bucket → st.buckets.length = nb →
      st.hash_value_idx + l.length ≤ st.hash_values.length →
      bucket_loop_checked H nb i l st = Except.ok (bucket_loop H nb i l st) ∧
      ∀ st', bucket_loop H nb i l st = Except.ok st' →
        st'.hash_value_idx = st.hash_value_idx + l.length ∧
        st'.hash_values.length = st.hash_values.length := by
  induction l with
  | nil =>
    intro i st _ _ _
    refine ⟨rfl, ?_⟩
    intro st' h
    simp only [bucket_loop] at h
    rw [← Except.ok.inj h]
    exact ⟨rfl, rfl⟩
  | cons s rest ih =>
    intro i st hprev hblen hidx
    simp only [List.length_cons] at hidx
    obtain ⟨hstep, hnext⟩ := bucket_step_checked_ok H nb i s st hnb hnb32 hprev hblen (by omega)
    cases hs : bucket_step H nb i s st with
    | error e =>
      constructor
      · simp only [bucket_loop_checked, bucket_loop, hstep, hs, bind, Except.bind, pure,
          Except.pure]
      · intro st' h
        simp only [bucket_loop, hs] at h
        cases h
    | ok st1 =>
      obtain ⟨hp1, hi1⟩ := hnext st1 hs
      obtain ⟨hl1, hl2⟩ := bucket_step_lengths H nb i s st st1 hs
      obtain ⟨hrec, hrest⟩ := ih (i + 1) st1 hp1 (hl1.trans hblen) (by rw [hi1, hl2]; omega)
      constructor
      · simp only [bucket_loop_checked, bucket_loop, hstep, hs, bind, Except.bind]
        exact hrec
      · intro st' h
        simp only [bucket_loop, hs] at h
        obtain ⟨h1, h2⟩ := hrest st' h
        refine ⟨?_, h2.trans hl2⟩
        rw [h1, hi1, List.length_cons]
        omega

/-- C33. With `nb_buckets ≥ 1`, `maskwords ≥ 1` and `symndx` not beyond the `n`
dynamic symbols, `ExeLayout::symbol_gnu_hash_size` takes no division or
remainder by zero, and each of its accesses to `bloom_filters`, `buckets` and
`hash_values` is within the bounds of the vector: the run with every such
operation checked meets no fault and gives the result of the function. -/
theorem symbol_gnu_hash_build_no_fault (dl_new_hash : List Nat → Nat) (cls : ELF_CLASS)
    (gnu_hash : GnuHash) (new_symndx : Int) (dynamic_symbols : List Symbol)
    (hnb : 1 ≤ u32 gnu_hash.nb_buckets) (hmw : 1 ≤ u32 gnu_hash.maskwords)
    (hsym : (if new_symndx ≥ 0 then u32 new_symndx.toNat else 0) ≤ dynamic_symbols.length) :
    symbol_gnu_hash_build_checked dl_new_hash cls gnu_hash new_symndx dynamic_symbols =
      Except.ok (symbol_gnu_hash_build dl_new_hash cls gnu_hash new_symndx dynamic_symbols) := by
  have hnb0 : u32 gnu_hash.nb_buckets ≠ 0 := by omega
  have hg1 : ¬ (if new_symndx ≥ 0 then u32 new_symndx.toNat else 0) > dynamic_symbols.length := by
    omega
  have hg2 : ¬ (u32 gnu_hash.nb_buckets = 0 ∧
      2 ≤ (dynamic_symbols.drop (if new_symndx ≥ 0 then u32 new_symndx.toNat else 0)).length) :=
    fun h => hnb0 h.1
  have hbloom := bloom_loop_checked_ok dl_new_hash cls.bits (u32 gnu_hash.maskwords)
    (u32 gnu_hash.shift2) (bits_ne_zero cls) hmw (u32_lt _)
    ((dynamic_symbols.take (if new_symndx ≥ 0 then u32 new_symndx.toNat else 0) ++
      stable_sort (bucket_lt dl_new_hash (u32 gnu_hash.nb_buckets))
        (dynamic_symbols.drop (if new_symndx ≥ 0 then u32 new_symndx.toNat else 0))).drop
      (if new_symndx ≥ 0 then u32 new_symndx.toNat else 0))
    (List.replicate (u32 gnu_hash.maskwords) 0) (List.length_replicate _ _)
  obtain ⟨hbucket, hafter⟩ := bucket_loop_checked_ok dl_new_hash (u32 gnu_hash.nb_buckets) hnb0
    (u32_lt _)
    ((dynamic_symbols.take (if new_symndx ≥ 0 then u32 new_symndx.toNat else 0) ++
      stable_sort (bucket_lt dl_new_hash (u32 gnu_hash.nb_buckets))
        (dynamic_symbols.drop (if new_symndx ≥ 0 then u32 new_symndx.toNat else 0))).drop
      (if new_symndx ≥ 0 then u32 new_symndx.toNat else 0))
    (if new_symndx ≥ 0 then u32 new_symndx.toNat else 0)
    { previous_bucket := -1, hash_value_idx := 0,
      buckets := List.replicate (u32 gnu_hash.nb_buckets) 0,
      hash_values := List.replicate
        ((dynamic_symbols.take (if new_symndx ≥ 0 then u32 new_symndx.toNat else 0) ++
          stable_sort (bucket_lt dl_new_hash (u32 gnu_hash.nb_buckets))
            (dynamic_symbols.drop
              (if new_symndx ≥ 0 then u32 new_symndx.toNat else 0))).length -
          (if new_symndx ≥ 0 then u32 new_symndx.toNat else 0)) 0 }
    (le_refl _) (List.length_replicate _ _)
    (by simp only [List.length_replicate, List.length_drop, Nat.zero_add, le_refl])
  simp only [symbol_gnu_hash_build_checked, symbol_gnu_hash_build, if_neg hg1, if_neg hg2,
    hbloom, hbucket, bind, Except.bind]
  split
  · rfl
  · rename_i st hst
    obtain ⟨h1, h2⟩ := hafter st hst
    by_cases h0 : st.hash_value_idx > 0
    · have hlt : st.hash_value_idx - 1 < st.hash_values.length := by
        rw [h2, h1]
        simp only [List.length_replicate, List.length_drop, Nat.zero_add] at h0 ⊢
        rw [h1] at h0
        simp only [List.length_drop, Nat.zero_add] at h0
        omega
      simp only [if_pos h0, checked_get_ok _ _ hlt, checked_set_ok _ _ _ hlt, bind, Except.bind,
        pure, Except.pure]
    · simp only [if_neg h0, bind, Except.bind, pure, Except.pure]

theorem symbol_gnu_hash_build_no_fault_witness :
    symbol_gnu_hash_build_checked dl_new_hash_ref ELF_CLASS.ELFCLASS64
        { nb_buckets := 3, maskwords := 2, shift2 := 6 } 1 ex_gnu_symbols =
      Except.ok (Except.ok (ex_gnu_sorted, ex_gnu_table)) :=
  (symbol_gnu_hash_build_no_fault dl_new_hash_ref ELF_CLASS.ELFCLASS64
    { nb_buckets := 3, maskwords := 2, shift2 := 6 } 1 ex_gnu_symbols
    (by decide) (by decide) (by decide)).trans rfl

/-! ## `Builder::array_section` -/

/-- C35, at the failing input. The binary has one section, an `.init_array` at
0x1000 of 16 bytes. The address 0x1008 lies in its range and
`Builder::array_section` raises `not_found`; the address 0xff8 lies below the
range and the function returns the section; the start 0x1000 of the range is
the only address of the range it finds. -/
theorem array_section_contained_address :
    (∃ sec, ex_array_binary.sections[0]? = some sec ∧
      sec.type = ELF_SECTION_TYPES.SHT_INIT_ARRAY ∧
      sec.virtual_address ≤ 0x1008 ∧ 0x1008 < sec.virtual_address + sec.size ∧
      ¬ (sec.virtual_address ≤ 0xff8)) ∧
    Builder.array_section ex_array_binary 0x1008 = Except.error Error.not_found ∧
    Builder.array_section ex_array_binary 0xff8 = Except.ok 0 ∧
    Builder.array_section ex_array_binary 0x1000 = Except.ok 0 ∧
    (∀ addr, 0x1000 < addr → addr < 0x1010 →
      Builder.array_section ex_array_binary addr = Except.error Error.not_found) := by
  refine ⟨⟨_, rfl, rfl, by decide, by decide, by decide⟩, rfl, rfl, rfl, ?_⟩
  intro addr h1 h2
  have hge : ¬ (0x1000 ≥ addr) := by omega
  simp [Builder.array_section, ex_array_binary, first_index, hge]

/-! ## The content of a segment -/

/-- C36, at the failing input. The binary content has 8 bytes and the node of
the segment is `[4, 8)`, which ends exactly at the end of the content:
`Segment::content()` returns the empty vector, not the 4 bytes of the node.
With one more byte behind the node it returns them. -/
theorem segment_content_at_end_of_binary :
    (∃ node, (ex_handler [1, 2, 3, 4, 5, 6, 7, 8]).get 4 4 = Except.ok node ∧
      node.offset + node.size ≤ [1, 2, 3, 4, 5, 6, 7, 8].length ∧
      (([1, 2, 3, 4, 5, 6, 7, 8] : List Nat).drop node.offset).take node.size = [5, 6, 7, 8]) ∧
    Segment.content (some (ex_handler [1, 2, 3, 4, 5, 6, 7, 8]))
      { file_offset := 4, size := 4 } = Except.ok [] ∧
    Segment.content (some (ex_handler [1, 2, 3, 4, 5, 6, 7, 8, 9]))
      { file_offset := 4, size := 4 } = Except.ok [5, 6, 7, 8] :=
  ⟨⟨_, rfl, by decide, by decide⟩, rfl, rfl⟩

/-- C37, at the failing input. On a segment without data handler, the
const-reference overload of `Segment::content` given 16 bytes leaves them as
content with a physical size of 16; the rvalue overload, the one
`ExeLayout::relocate` calls for its new segments, leaves them as content with a
physical size of 0. -/
theorem segment_content_rvalue_physical_size :
    Segment.content none (Segment.content_const_ref (List.replicate 16 0) {}) =
      Except.ok (List.replicate 16 0) ∧
    (Segment.content_const_ref (List.replicate 16 0) {}).physical_size = 16 ∧
    Segment.content none (Segment.content_rvalue (List.replicate 16 0) {}) =
      Except.ok (List.replicate 16 0) ∧
    (Segment.content_rvalue (List.replicate 16 0) {}).physical_size = 0 ∧
    (∀ g ∈ (relocate_regions ex_add { init_size := 16 } {}).added,
      g.content_c.length = 16 ∧ g.physical_size = 0) := by
  refine ⟨rfl, by decide, rfl, by decide, ?_⟩
  decide

/-! ## Two notes of one section -/

theorem first_index_modify_at {α : Type} (p : α → Bool) (f : α → α)
    (hp : ∀ x, p (f x) = p x) (l : List α) :
    ∀ i, first_index p (modify_at f i l) = first_index p l := by
  induction l with
  | nil => intro i; cases i <;> rfl
  | cons x xs ih =>
    intro i
    cases i with
    | zero => simp only [modify_at, first_index, hp]
    | succ j => simp only [modify_at, first_index, ih j]

theorem any_modify_at {α : Type} (p : α → Bool) (f : α → α)
    (hp : ∀ x, p (f x) = p x) (l : List α) :
    ∀ i, (modify_at f i l).any p = l.any p := by
  induction l with
  | nil => intro i; cases i <;> rfl
  | cons x xs ih =>
    intro i
    cases i with
    | zero => simp only [modify_at, List.any_cons, hp]
    | succ j => simp only [modify_at, List.any_cons, ih j]

theorem first_index_of_any {α : Type} (p : α → Bool) (l : List α) (h : l.any p = true) :
    ∃ i, first_index p l = some i := by
  cases hfi : first_index p l with
  | some i => exact ⟨i, rfl⟩
  | none =>
    have hall := (first_index_none p l).mp hfi
    obtain ⟨x, hx, hpx⟩ := List.any_eq_true.mp h
    rw [hall x hx] at hpx
    cases hpx

theorem note_section_name_congr (m : List (Nat × String)) (b1 b : Binary) (note : Note)
    (h : ∀ n, has_section b1 n = has_section b n) :
    Builder.note_section_name m b1 note = Builder.note_section_name m b note := by
  have hf : (fun p : Nat × String => has_section b1 p.2) = (fun p => has_section b p.2) :=
    funext (fun p => h p.2)
  simp only [Builder.note_section_name, hf]

theorem note_section_name_found (m : List (Nat × String)) (b : Binary) (note : Note)
    (p : Nat × String)
    (h : (equal_range m note.type).find? (fun p => has_section b p.2) = some p) :
    Builder.note_section_name m b note = p.2 := by
  simp [Builder.note_section_name, h]

/-- The first call of `Builder::build(note, sections)` on a section that is
not in the set yet. -/
theorem build_note_first (m : List (Nat × String)) (size : Note → Nat) (lay : ExeLayout)
    (b : Binary) (k : Nat) (note : Note) (set : List Nat) (gi : Nat) (seg : Segment)
    (si off : Nat) (p : Nat × String)
    (hseg : get_segment b SEGMENT_TYPES.PT_NOTE = Except.ok gi)
    (hsegv : b.segments[gi]? = some seg)
    (hp : (equal_range m note.type).find? (fun p => has_section b p.2) = some p)
    (hsi : first_index (fun s => s.name == p.2) b.sections = some si)
    (hn : has_note b note.type = true)
    (ho : map_find k lay.notes_off_map = some off)
    (hfresh : ¬ si ∈ set) :
    ∃ b1, Builder.build_note m size lay b k note (some set) = Except.ok (b1, some (set ++ [si])) ∧
      b1.sections = modify_at (fun s =>
        { s with offset := u64 (seg.file_offset + off), size := u64 (size note),
                 virtual_address := u64 (seg.virtual_address + off) }) si b.sections ∧
      b1.notes = b.notes ∧
      (∀ t, first_index (fun g => g.type == t) b1.segments =
        first_index (fun g => g.type == t) b.segments) ∧
      b1.segments.length = b.segments.length := by
  have hname := note_section_name_found m b note p hp
  have hget : get_section_by_name b p.2 = Except.ok si := by
    simp only [get_section_by_name, hsi]
  have hlt := first_index_lt _ _ _ hsi
  by_cases hg : (note.type == NT_GNU_PROPERTY_TYPE_0 &&
      has_segment { b with sections := modify_at (fun s =>
        { s with offset := u64 (seg.file_offset + off), size := u64 (size note),
                 virtual_address := u64 (seg.virtual_address + off) }) si b.sections }
        SEGMENT_TYPES.PT_GNU_PROPERTY) = true
  · have hany : b.segments.any (fun g => g.type == SEGMENT_TYPES.PT_GNU_PROPERTY) = true := by
      have := (Bool.and_eq_true _ _).mp hg
      exact this.2
    obtain ⟨pi, hpi⟩ := first_index_of_any _ _ hany
    have hgp : get_segment { b with sections := modify_at (fun s =>
        { s with offset := u64 (seg.file_offset + off), size := u64 (size note),
                 virtual_address := u64 (seg.virtual_address + off) }) si b.sections }
        SEGMENT_TYPES.PT_GNU_PROPERTY = Except.ok pi := by
      simp only [get_segment, hpi]
    obtain ⟨s0, hs0⟩ : ∃ s0, (modify_at (fun s : Section =>
        { s with offset := u64 (seg.file_offset + off), size := u64 (size note),
                 virtual_address := u64 (seg.virtual_address + off) }) si b.sections)[si]? =
        some s0 := by
      have : si < (modify_at (fun s : Section =>
        { s with offset := u64 (seg.file_offset + off), size := u64 (size note),
                 virtual_address := u64 (seg.virtual_address + off) }) si b.sections).length := by
        rw [modify_at_length]; exact hlt
      exact ⟨_, List.getElem?_eq_getElem this⟩
    refine ⟨{ b with
        sections := modify_at (fun s =>
          { s with offset := u64 (seg.file_offset + off), size := u64 (size note),
                   virtual_address := u64 (seg.virtual_address + off) }) si b.sections
        segments := modify_at (fun g =>
          { g with file_offset := s0.offset, size := s0.size,
                   virtual_address := s0.virtual_address,
                   physical_address := s0.virtual_address, virtual_size := s0.size })
          pi b.segments }, ?_, rfl, rfl, ?_, ?_⟩
    · simp only [Builder.build_note, hseg, hsegv, hp, hn, ho, hname, hget, hfresh,
        Option.isSome_some, Bool.and_self, if_true, not_false_eq_true, hg, hgp, hs0]
    · intro t
      show first_index (fun g : Segment => g.type == t) (modify_at _ pi b.segments) = _
      apply first_index_modify_at
      intro x
      rfl
    · exact modify_at_length _ _ _
  · refine ⟨{ b with
        sections := modify_at (fun s =>
          { s with offset := u64 (seg.file_offset + off), size := u64 (size note),
                   virtual_address := u64 (seg.virtual_address + off) }) si b.sections },
      ?_, rfl, rfl, fun _ => rfl, rfl⟩
    simp only [Builder.build_note, hseg, hsegv, hp, hn, ho, hname, hget, hfresh,
      Option.isSome_some, Bool.and_self, if_true, not_false_eq_true, hg]
    rfl

/-- A call of `Builder::build(note, sections)` on a section that is in the
set already. -/
theorem build_note_again (m : List (Nat × String)) (size : Note → Nat) (lay : ExeLayout)
    (b : Binary) (k : Nat) (note : Note) (set : List Nat) (gi : Nat) (seg : Segment)
    (si off : Nat) (p : Nat × String)
    (hseg : get_segment b SEGMENT_TYPES.PT_NOTE = Except.ok gi)
    (hsegv : b.segments[gi]? = some seg)
    (hp : (equal_range m note.type).find? (fun p => has_section b p.2) = some p)
    (hsi : first_index (fun s => s.name == p.2) b.sections = some si)
    (hn : has_note b note.type = true)
    (ho : map_find k lay.notes_off_map = some off)
    (hin : si ∈ set) :
    Builder.build_note m size lay b k note (some set) =
      Except.ok ({ b with sections := modify_at (fun s =>
        { s with virtual_address := 0, size := u64 (s.size + size note) }) si b.sections },
        some set) := by
  have hname := note_section_name_found m b note p hp
  have hget : get_section_by_name b p.2 = Except.ok si := by
    simp only [get_section_by_name, hsi]
  simp only [Builder.build_note, hseg, hsegv, hp, hn, ho, hname, hget, hin,
    Option.isSome_some, Bool.and_self, if_true, not_true_eq_false, if_false]

/-- C38, amended. When two notes of the binary map to the same existing
section, which is not in the section set yet, and `Builder::build(note,
sections)` is applied to the first and then to the second with the same set,
the section ends with a size equal to the sum of the sizes of the two notes
(modulo `2^64`), a file offset equal to the file offset of the note segment
plus the offset recorded for the first note, and the virtual address 0. -/
theorem build_note_twice (m : List (Nat × String)) (size : Note → Nat) (lay : ExeLayout)
    (b : Binary) (k1 k2 : Nat) (note1 note2 : Note) (set : List Nat) (gi : Nat) (seg : Segment)
    (si off1 off2 : Nat) (p1 p2 : Nat × String) (s : Section)
    (hseg : get_segment b SEGMENT_TYPES.PT_NOTE = Except.ok gi)
    (hsegv : b.segments[gi]? = some seg)
    (hp1 : (equal_range m note1.type).find? (fun p => has_section b p.2) = some p1)
    (hp2 : (equal_range m note2.type).find? (fun p => has_section b p.2) = some p2)
    (hsame : p2.2 = p1.2)
    (hsi : first_index (fun s => s.name == p1.2) b.sections = some si)
    (hs : b.sections[si]? = some s)
    (hn1 : has_note b note1.type = true) (hn2 : has_note b note2.type = true)
    (ho1 : map_find k1 lay.notes_off_map = some off1)
    (ho2 : map_find k2 lay.notes_off_map = some off2)
    (hfresh : ¬ si ∈ set) :
    ∃ b1 b2 set1,
      Builder.build_note m size lay b k1 note1 (some set) = Except.ok (b1, some set1) ∧
      Builder.build_note m size lay b1 k2 note2 (some set1) = Except.ok (b2, some set1) ∧
      b2.sections[si]? = some
        { s with
          size := u64 (u64 (size note1) + size note2)
          offset := u64 (seg.file_offset + off1)
          virtual_address := 0 } := by
  obtain ⟨b1, hcall1, hsec1, hnotes1, hsegs1, hlen1⟩ :=
    build_note_first m size lay b k1 note1 set gi seg si off1 p1 hseg hsegv hp1 hsi hn1 ho1 hfresh
  have hhas : ∀ n, has_section b1 n = has_section b n := by
    intro n
    simp only [has_section, hsec1]
    apply any_modify_at
    intro x
    rfl
  have hseg1 : get_segment b1 SEGMENT_TYPES.PT_NOTE = Except.ok gi := by
    simp only [get_segment, hsegs1]
    exact hseg
  have hgi : gi < b1.segments.length := by
    rw [hlen1]
    exact (List.getElem?_eq_some_iff.mp hsegv).1
  have hp2' : (equal_range m note2.type).find? (fun p => has_section b1 p.2) = some p2 := by
    have hf : (fun p : Nat × String => has_section b1 p.2) = (fun p => has_section b p.2) :=
      funext (fun p => hhas p.2)
    rw [hf]
    exact hp2
  have hsi1 : first_index (fun s => s.name == p2.2) b1.sections = some si := by
    rw [hsame, hsec1, ← hsi]
    apply first_index_modify_at
    intro x
    rfl
  have hn2' : has_note b1 note2.type = true := by
    simp only [has_note, hnotes1]
    exact hn2
  have hcall2 := build_note_again m size lay b1 k2 note2 (set ++ [si]) gi
    (b1.segments[gi]) si off2 p2 hseg1 (List.getElem?_eq_getElem hgi) hp2' hsi1 hn2' ho2
    (List.mem_append_right _ (List.mem_singleton_self _))
  refine ⟨b1, _, set ++ [si], hcall1, hcall2, ?_⟩
  show (modify_at _ si b1.sections)[si]? = _
  rw [modify_at_getElem?_eq, hsec1, modify_at_getElem?_eq, hs]
  rfl

theorem build_note_twice_witness :
    ∃ b1 b2 set1,
      Builder.build_note ex_note_map note_record_size ex_two_notes_layout ex_two_notes_binary 0
        { name := [71, 78, 85], type := 3, description := [1, 2, 3, 4, 5] } (some []) =
        Except.ok (b1, some set1) ∧
      Builder.build_note ex_note_map note_record_size ex_two_notes_layout b1 1
        { name := [97], type := 3, description := [] } (some set1) = Except.ok (b2, some set1) ∧
      b2.sections[0]? = some
        { name := ".note.gnu.build-id", type := ELF_SECTION_TYPES.SHT_NOTE,
          size := 40, offset := 0x210, virtual_address := 0 } :=
  build_note_twice ex_note_map note_record_size ex_two_notes_layout ex_two_notes_binary 0 1
    { name := [71, 78, 85], type := 3, description := [1, 2, 3, 4, 5] }
    { name := [97], type := 3, description := [] } [] 0
    { type := SEGMENT_TYPES.PT_NOTE, file_offset := 0x200, virtual_address := 0x400200 }
    0 0x10 0x28 (3, ".note.gnu.build-id") (3, ".note.gnu.build-id")
    { name := ".note.gnu.build-id", type := ELF_SECTION_TYPES.SHT_NOTE }
    rfl rfl (by decide) (by decide) rfl (by decide) rfl (by decide) (by decide)
    (by decide) (by decide) (by decide)

/-- C38, counterexample. The binary has a PT_NOTE segment at file offset 0x200
and address 0x400200 and two notes of type 3, of sizes 24 and 16 and recorded
offsets 0x10 and 0x28, for the one section `.note.gnu.build-id`. After the two
calls the section has the size 40 and the file offset 0x210, and its virtual
address is 0, not 0x400200 + 0x10. -/
theorem build_note_twice_address_counterexample :
    ∃ b1 b2 s,
      Builder.build_note ex_note_map note_record_size ex_two_notes_layout ex_two_notes_binary 0
        { name := [71, 78, 85], type := 3, description := [1, 2, 3, 4, 5] } (some []) =
        Except.ok (b1, some [0]) ∧
      Builder.build_note ex_note_map note_record_size ex_two_notes_layout b1 1
        { name := [97], type := 3, description := [] } (some [0]) = Except.ok (b2, some [0]) ∧
      b2.sections[0]? = some s ∧
      s.size = 24 + 16 ∧ s.offset = 0x200 + 0x10 ∧
      s.virtual_address = 0 ∧ s.virtual_address ≠ 0x400200 + 0x10 :=
  ⟨_, _, _, rfl, rfl, rfl, by decide, by decide, by decide, by decide⟩

/-! ## Re-linking the static symbol table -/

/-- C31, at the failing input. The binary has the sections "", `.symtab`
(linked to 2), `.strtab`, `.shstrtab`. When only `.strtab` is relocated, the
final list is "", `.symtab`, `.shstrtab`, `.strtab`: the string table is the
section 3 and the link of `.symtab` is 2, the index of `.shstrtab`. When only
`.symtab` is relocated, the string table is the section 1 and the link is 2.
When both are relocated and the binary had no `.strtab`, the string table is
the section 2 and the link is 3, the index of `.symtab` itself. When both are
relocated and both existed, or when only `.strtab` is relocated and none
existed, the link is the index of `.strtab`. -/
theorem relocate_debug_tables_link :
    names_and_links (relocate_debug_tables ex_content ex_debug_base { relocate_strtab := true }
        ex_debug_binary) =
      [("", 0), (".symtab", 2), (".shstrtab", 0), (".strtab", 0)] ∧
    names_and_links (relocate_debug_tables ex_content ex_debug_base { symtab_size := 48 }
        ex_debug_binary) =
      [("", 0), (".strtab", 0), (".shstrtab", 0), (".symtab", 2)] ∧
    names_and_links (relocate_debug_tables ex_content {}
        { relocate_strtab := true, symtab_size := 48 }
        { sections := [{ name := "", type := ELF_SECTION_TYPES.SHT_NULL },
                       { name := ".symtab", type := ELF_SECTION_TYPES.SHT_SYMTAB },
                       { name := ".shstrtab", type := ELF_SECTION_TYPES.SHT_STRTAB }] }) =
      [("", 0), (".shstrtab", 0), (".strtab", 0), (".symtab", 3)] ∧
    names_and_links (relocate_debug_tables ex_content ex_debug_base
        { relocate_strtab := true, symtab_size := 48 } ex_debug_binary) =
      [("", 0), (".shstrtab", 0), (".strtab", 0), (".symtab", 2)] ∧
    names_and_links (relocate_debug_tables ex_content {} { relocate_strtab := true }
        { sections := [{ name := "", type := ELF_SECTION_TYPES.SHT_NULL },
                       { name := ".symtab", type := ELF_SECTION_TYPES.SHT_SYMTAB },
                       { name := ".shstrtab", type := ELF_SECTION_TYPES.SHT_STRTAB }] }) =
      [("", 0), (".symtab", 3), (".shstrtab", 0), (".strtab", 0)] := by
  refine ⟨?_, ?_, ?_, ?_, ?_⟩ <;> decide

/-! ## The section created for a note -/

/-- C39, at the failing input. The binary has a PT_NOTE segment at file offset
0x200 and address 0x400200 and a note of type 3, of size 24 and recorded offset
0x10, without section. The note pass of `ExeLayout::relocate` adds the section
`.note.gnu.build-id` with the file offset 0x210, the size 24 and the alignment
4; the virtual address of the section stored in the binary is 0, not
0x400200 + 0x10. -/
theorem relocate_note_sections_address :
    ∃ b s, relocate_note_sections ex_note_map note_record_size { notes_off_map := [(0, 0x10)] }
        ex_new_note_binary = Except.ok b ∧
      b.sections.length = 2 ∧ b.sections[1]? = some s ∧
      s.name = ".note.gnu.build-id" ∧ s.type = ELF_SECTION_TYPES.SHT_NOTE ∧
      s.flags = SHF_ALLOC ∧
      s.offset = 0x200 + 0x10 ∧ s.size = 24 ∧ s.alignment = 4 ∧
      s.virtual_address = 0 ∧ s.virtual_address ≠ 0x400200 + 0x10 :=
  ⟨_, _, rfl, rfl, rfl, by decide, by decide, by decide, by decide, by decide, by decide,
    by decide, by decide⟩

end LIEF.ELF
